import Mathlib

/-! # Font engine manager and FreeType font engine: a verification development

Shallow embedding of

* `frameworks/base/libs/utils/FontEngineManager.cpp` (the registry of the loaded font engines
  and the dispatcher that walks it),
* `external/skia/src/ports/FontEngineFT.cpp` (the FreeType engine: fixed-point kernel,
  Font / FontInstance / Scaler cache, transform resolution, glyph metrics, advances and images,
  advanced typeface metrics, glyph to Unicode tables), and
* `external/skia/src/ports/SkFontHost_FEM.cpp` (`SkFontHost::GetAdvancedTypefaceMetrics`).

Conventions of the embedding.

* `int32_t` values are `Int`s; where the C arithmetic can leave the 32-bit range the result is
  wrapped with `wrapS32` (two's complement), `uint16_t` / `int16_t` / `uint8_t` fields are
  reduced with an explicit `%`.
* A call that hits a failed `assert`, a shift by a negative count, or a null `strcmp` argument
  has no result: the embedding returns `none`.
* Pointers are natural numbers (`0` is `NULL`); heap objects carry their address in `addr`.
* FreeType itself is outside the repository; its calls are answered by the record `FreeType`.
-/

namespace FEM

/-! ## Value types of `FontEngineManager.h` -/

/-- The enum `fem::AliasMode`. -/
inductive AliasMode where
  | ALIAS_MONOCHROME
  | ALIAS_GRAYSCALE
  | ALIAS_LCD_H
  | ALIAS_LCD_V
  | ALIAS_LCD16
deriving DecidableEq, Repr

/-- The enum `fem::Hinting`. -/
inductive Hinting where
  | HINTING_NONE
  | HINTING_LIGHT
  | HINTING_NORMAL
  | HINTING_FULL
deriving DecidableEq, Repr

/-- The mask `fem::DevKernText_Flag`. -/
def DevKernText_Flag : Nat := 0x01

/-- The mask `fem::Hinting_Flag`. -/
def Hinting_Flag : Nat := 0x06

/-- The mask `fem::EmbeddedBitmapText_Flag`. -/
def EmbeddedBitmapText_Flag : Nat := 0x08

/-- The mask `fem::Embolden_Flag`. -/
def Embolden_Flag : Nat := 0x10

/-- The constant `FEMOne16Dot16`, that is `1 << 16`. -/
def FEMOne16Dot16 : Int := 65536

/-- The struct `FontScalerInfo`: `pBuffer`, `pStream` are pointers (`0` is `NULL`), `pPath` is a
nullable C string, `flags` is a `uint8_t`, the four transform entries are `int32_t` in 16.16. -/
structure FontScalerInfo where
  fontID : Nat
  subpixelPositioning : Bool
  maskFormat : AliasMode
  flags : Nat
  fScaleX : Int
  fScaleY : Int
  fSkewX : Int
  fSkewY : Int
  pStream : Nat
  pPath : Option String
  pBuffer : Nat
  pathSz : Nat
  size : Nat
deriving DecidableEq, Repr

/-- The font argument of the manager and engine queries: the `const char path[]` overload or the
`(const void* buffer, uint32_t bufferLength)` overload of the same method. -/
inductive FontSource where
  | path (p : String)
  | buffer (ptr : Nat) (bufferLength : Nat)
deriving DecidableEq, Repr

/-! ## `FontEngineFT.cpp`: the fixed-point kernel -/

/-- The macro `MaxS32`. -/
def MaxS32 : Int := 0x7FFFFFFF

/-- Two's-complement reduction of an integer to the `int32_t` range. -/
def wrapS32 (x : Int) : Int := (x + 2147483648) % 4294967296 - 2147483648

/-- The macro `FEM16Dot16ExtractSign(n)`, `(int32_t)(n) >> 31`: `-1` if `n < 0`, else `0`. -/
def FEM16Dot16ExtractSign (n : Int) : Int := if n < 0 then -1 else 0

/-- `FEM16Dot16Abs`: `mask = value >> 31; return (value ^ mask) - mask;`. -/
def FEM16Dot16Abs (value : Int) : Int :=
  let mask := FEM16Dot16ExtractSign value
  wrapS32 (Int.xor value mask - mask)

/-- `FEM16Dot16ApplySign`: `return (n ^ sign) - sign;`. Its assertion `sign == 0 || sign == -1`
holds at both call sites, where `sign` comes from `FEM16Dot16ExtractSign`. -/
def FEM16Dot16ApplySign (n sign : Int) : Int := wrapS32 (Int.xor n sign - sign)

/-- The macro `FEM16Dot16Avg(a, b)`, `((a) + (b)) >> 1` on `int32_t`. -/
def FEM16Dot16Avg (a b : Int) : Int := wrapS32 (a + b) / 2

/-- The macro `FEM16Dot16ToFEM26Dot6(x)`, `(x) >> 10`. -/
def FEM16Dot16ToFEM26Dot6 (x : Int) : Int := x / 1024

/-- Leading zero bits of `x` among its lowest `k` bits. -/
def clzFrom : Nat → Nat → Nat
  | 0, _ => 0
  | k + 1, x => if 2 ^ k ≤ x then 0 else clzFrom k x + 1

/-- The compiler builtin `__builtin_clz` applied to an `int`, which it reads as a 32-bit
unsigned value. -/
def builtin_clz (x : Int) : Nat := clzFrom 32 (x % 4294967296).toNat

/-- The macro `DIVBITS_ITER(n)` for `n = k, k - 1, .., 1`, as the `switch (bits)` of `DivBits`
falls through its cases: `if ((numer = (numer << 1) - denom) >= 0) result |= 1 << (n - 1); else
numer += denom`. `result` is kept as its 32-bit pattern. -/
def divBitsIter : Nat → Int → Int → Nat → Nat
  | 0, _, _, result => result
  | k + 1, numer, denom, result =>
    if wrapS32 (wrapS32 (numer * 2) - denom) ≥ 0 then
      divBitsIter k (wrapS32 (wrapS32 (numer * 2) - denom)) denom (result ||| 1 <<< k)
    else
      divBitsIter k (wrapS32 (wrapS32 (wrapS32 (numer * 2) - denom) + denom)) denom result

/-- `DivBits(numer, denom, shift_bias)`. `none` when `assert(denom != 0)` fails or when
`denom <<= dbits` / `numer <<= nbits` would shift by a negative count (an operand equal to
`-2^31`, whose absolute value does not exist in `int32_t`). `result` is kept as its 32-bit
pattern, so that the final test `result < 0` reads bit 31. -/
def DivBits (numer denom shift_bias : Int) : Option Int :=
  if denom = 0 then none
  else if numer = 0 then some 0
  else
    let sign := FEM16Dot16ExtractSign (Int.xor numer denom)
    let numer := FEM16Dot16Abs numer
    let denom := FEM16Dot16Abs denom
    let nbits : Int := (builtin_clz numer : Int) - 1
    let dbits : Int := (builtin_clz denom : Int) - 1
    let bits : Int := wrapS32 (wrapS32 (shift_bias - nbits) + dbits)
    if bits < 0 then some 0
    else if bits > 31 then some (FEM16Dot16ApplySign MaxS32 sign)
    else if dbits < 0 ∨ nbits < 0 then none
    else
      let denom := wrapS32 (denom * 2 ^ dbits.toNat)
      let numer := wrapS32 (numer * 2 ^ nbits.toNat)
      let first : Nat := if wrapS32 (numer - denom) ≥ 0 then 1 else 0
      let numer := if wrapS32 (numer - denom) ≥ 0 then wrapS32 (numer - denom)
        else wrapS32 (wrapS32 (numer - denom) + denom)
      let result : Nat :=
        if bits > 0 then divBitsIter bits.toNat numer denom ((first <<< bits.toNat) % 4294967296)
        else first
      let result : Int := if result ≥ 2147483648 then MaxS32 else result
      some (FEM16Dot16ApplySign result sign)

/-- The macro `FEM16Dot16Invert(n)`, `DivBits(FEMOne16Dot16, n, 16)`. -/
def FEM16Dot16Invert (n : Int) : Option Int := DivBits FEMOne16Dot16 n 16

/-- The rounded quotient of the specification: `round(numerator * 2^shift / denominator)`,
clamped to `[-(2^31 - 1), 2^31 - 1]`. -/
def roundedQuotient (numerator denominator shift : Int) : Int :=
  max (-MaxS32) (min MaxS32 (round ((numerator : ℚ) * (2 : ℚ) ^ shift / (denominator : ℚ))))

/-- The integer part of `n * 2^shift / d` for natural `n`, `d` and an integer `shift`. -/
def scaledQuotient (n d : Nat) (shift : Int) : Nat :=
  if 0 ≤ shift then n * 2 ^ shift.toNat / d else n / (d * 2 ^ (-shift).toNat)

/-- The exact quotient `numerator * 2^shift / denominator` truncated toward zero and clamped to
`[-(2^31 - 1), 2^31 - 1]`, with the sign of the exact quotient. -/
def truncatedQuotient (numerator denominator shift : Int) : Int :=
  Int.sign numerator * Int.sign denominator *
    min (scaledQuotient numerator.natAbs denominator.natAbs shift : Int) MaxS32

/-! ## FreeType as seen from `FontEngineFT.cpp` -/

/-- What the engine does to FreeType and to its own heap objects, in program order. Handles are
the addresses of the owning `FontFT` (faces) and `FontInstFT` (sizes); `ok` records whether a
fallible call returned error code `0`. `deleteFontFT` and `deleteFontInstFT` record that the
destructor of an initialised object ran. -/
inductive Event where
  | FT_Init_FreeType (ok : Bool)
  | FT_Library_SetLcdFilter (ok : Bool)
  | FT_Done_FreeType
  | FT_Open_Face (font : Nat) (ok : Bool)
  | FT_Done_Face (font : Nat)
  | FT_New_Size (inst : Nat) (ok : Bool)
  | FT_Activate_Size (inst : Nat) (ok : Bool)
  | FT_Set_Char_Size (inst : Nat) (ok : Bool)
  | FT_Done_Size (inst : Nat)
  | deleteFontFT (font : Nat)
  | deleteFontInstFT (inst : Nat)
deriving DecidableEq, Repr

/-- The FreeType library and the build configuration, which are outside the repository. Each
fallible library call is answered from the history of events so far (`true` is error code `0`),
so a call may succeed at one time and fail at another. `FT_MulFix` is the library's 16.16
multiplication. `SUPPORT_LCDTEXT`, `FREETYPE_LCD_LERP` and `NDEBUG` are the preprocessor symbols
of those names (`NDEBUG` defined means that `assert` is compiled out). -/
structure FreeType where
  FT_MulFix : Int → Int → Int
  FT_Init_FreeType : List Event → Bool
  FT_Library_SetLcdFilter : List Event → Bool
  FT_Open_Face : List Event → FontScalerInfo → Bool
  FT_New_Size : List Event → Bool
  FT_Activate_Size : List Event → Bool
  FT_Set_Char_Size : List Event → Int → Int → Bool
  SUPPORT_LCDTEXT : Bool
  FREETYPE_LCD_LERP : Nat
  NDEBUG : Bool

/-- FreeType's documented `FT_MulFix`: `a * b / 0x10000` rounded to the nearest integer, halves
away from zero. -/
def FT_MulFix (a b : Int) : Int :=
  Int.sign a * Int.sign b * (((a.natAbs * b.natAbs + 0x8000) / 0x10000 : Nat) : Int)

/-- A FreeType on which every call succeeds, built without LCD text and without `NDEBUG`. -/
def FreeType.reference : FreeType where
  FT_MulFix := FEM.FT_MulFix
  FT_Init_FreeType := fun _ => true
  FT_Library_SetLcdFilter := fun _ => true
  FT_Open_Face := fun _ _ => true
  FT_New_Size := fun _ => true
  FT_Activate_Size := fun _ => true
  FT_Set_Char_Size := fun _ _ _ => true
  SUPPORT_LCDTEXT := false
  FREETYPE_LCD_LERP := 96
  NDEBUG := false

/-- FreeType's `FT_LOAD_DEFAULT`. -/
def FT_LOAD_DEFAULT : Nat := 0x0

/-- FreeType's `FT_LOAD_NO_HINTING`. -/
def FT_LOAD_NO_HINTING : Nat := 0x2

/-- FreeType's `FT_LOAD_NO_BITMAP`. -/
def FT_LOAD_NO_BITMAP : Nat := 0x8

/-- FreeType's `FT_LOAD_TARGET_NORMAL`. -/
def FT_LOAD_TARGET_NORMAL : Nat := 0x0

/-- FreeType's `FT_LOAD_TARGET_LIGHT`. -/
def FT_LOAD_TARGET_LIGHT : Nat := 0x10000

/-- FreeType's `FT_LOAD_TARGET_LCD`. -/
def FT_LOAD_TARGET_LCD : Nat := 0x30000

/-- FreeType's `FT_LOAD_TARGET_LCD_V`. -/
def FT_LOAD_TARGET_LCD_V : Nat := 0x40000

/-- FreeType's `FT_Matrix`. -/
structure FT_Matrix where
  xx : Int
  xy : Int
  yx : Int
  yy : Int
deriving DecidableEq, Repr

/-! ## `FontFT::getTransMatrix` -/

/-- The four output parameters of `FontFT::getTransMatrix`. -/
structure TransMatrix where
  ftMatrix22 : FT_Matrix
  fScaleX : Int
  fScaleY : Int
  loadGlyphFlags : Nat
deriving DecidableEq, Repr

/-- The cast `static_cast<fem::Hinting>((desc.flags & fem::Hinting_Flag) >> 1)`. -/
def hintingOf (flags : Nat) : Hinting :=
  match (flags &&& Hinting_Flag) >>> 1 with
  | 0 => Hinting.HINTING_NONE
  | 1 => Hinting.HINTING_LIGHT
  | 2 => Hinting.HINTING_NORMAL
  | _ => Hinting.HINTING_FULL

/-- The second block of `FontFT::getTransMatrix`: the flags sent to `FT_Load_Glyph`. -/
def computeLoadFlags (gLCDSupport : Bool) (desc : FontScalerInfo) : Nat :=
  let lcdTarget (loadFlags : Nat) : Nat :=
    if gLCDSupport then
      if desc.maskFormat = AliasMode.ALIAS_LCD_H then FT_LOAD_TARGET_LCD
      else if desc.maskFormat = AliasMode.ALIAS_LCD_V then FT_LOAD_TARGET_LCD_V
      else loadFlags
    else loadFlags
  let loadFlags : Nat :=
    if desc.subpixelPositioning then
      match hintingOf desc.flags with
      | Hinting.HINTING_NONE => FT_LOAD_NO_HINTING
      | Hinting.HINTING_FULL => lcdTarget FT_LOAD_TARGET_NORMAL
      | _ => FT_LOAD_TARGET_LIGHT
    else
      match hintingOf desc.flags with
      | Hinting.HINTING_NONE => FT_LOAD_NO_HINTING
      | Hinting.HINTING_NORMAL => lcdTarget FT_LOAD_TARGET_NORMAL
      | Hinting.HINTING_FULL => lcdTarget FT_LOAD_TARGET_NORMAL
      | _ => FT_LOAD_TARGET_LIGHT
  if desc.flags &&& EmbeddedBitmapText_Flag = 0 then loadFlags ||| FT_LOAD_NO_BITMAP
  else loadFlags

/-- The test `desc.fSkewX || desc.fSkewY || sx < 0 || sy < 0` of `FontFT::getTransMatrix`. -/
def givesUpOnHinting (desc : FontScalerInfo) : Bool :=
  desc.fSkewX != 0 || desc.fSkewY != 0 || decide (desc.fScaleX < 0) || decide (desc.fScaleY < 0)

/-- The value of `sx` (and `sy`) after `sx = sy = FEM16Dot16Avg(sx, sy)` in the first branch of
`FontFT::getTransMatrix`. -/
def averagedScale (desc : FontScalerInfo) : Int :=
  let sx := if FEM16Dot16Abs desc.fScaleX > FEM16Dot16Abs desc.fSkewX
    then FEM16Dot16Abs desc.fScaleX else FEM16Dot16Abs desc.fSkewX
  let sy := if FEM16Dot16Abs desc.fSkewY > FEM16Dot16Abs desc.fScaleY
    then FEM16Dot16Abs desc.fSkewY else FEM16Dot16Abs desc.fScaleY
  FEM16Dot16Avg sx sy

/-- `FontFT::getTransMatrix`. `none` when `FEM16Dot16Invert` has no result. `FT_Fixed` is a
32-bit `long`, so the negated products are wrapped. -/
def FontFT.getTransMatrix (ft : FreeType) (gLCDSupport : Bool) (desc : FontScalerInfo) :
    Option TransMatrix :=
  if givesUpOnHinting desc then
    let s := averagedScale desc
    match FEM16Dot16Invert s with
    | none => none
    | some inv =>
      some {
        ftMatrix22 := {
          xx := ft.FT_MulFix desc.fScaleX inv
          xy := wrapS32 (-(ft.FT_MulFix desc.fSkewX inv))
          yx := wrapS32 (-(ft.FT_MulFix desc.fSkewY inv))
          yy := ft.FT_MulFix desc.fScaleY inv }
        fScaleX := s
        fScaleY := s
        loadGlyphFlags := computeLoadFlags gLCDSupport desc }
  else
    some {
      ftMatrix22 := { xx := FEMOne16Dot16, xy := 0, yx := 0, yy := FEMOne16Dot16 }
      fScaleX := desc.fScaleX
      fScaleY := desc.fScaleY
      loadGlyphFlags := computeLoadFlags gLCDSupport desc }

/-- The isotropic scale of the specification, in exact integer arithmetic:
`(max(|scaleX|, |skewX|) + max(|skewY|, |scaleY|)) >> 1`. -/
def isotropicScale (desc : FontScalerInfo) : Int :=
  (max |desc.fScaleX| |desc.fSkewX| + max |desc.fSkewY| |desc.fScaleY|) / 2

/-! ## The Font / FontInstance / Scaler cache of `FontEngineFT` -/

/-- The class `FontInstFT`, for an initialised object: `addr` is the address of the object,
`refCnt` is a `uint16_t`. The back pointer `pFont` is not stored: it is the `FontFT` whose
instance list holds the object. -/
structure FontInstFT where
  addr : Nat
  fontInstFlags : Nat
  subpixelPositioning : Bool
  fScaleX : Int
  fScaleY : Int
  ftMatrix22 : FT_Matrix
  loadGlyphFlags : Nat
  maskFormat : AliasMode
  refCnt : Nat
deriving DecidableEq, Repr

/-- The class `FontFT`, for an initialised object: `addr` is the address of the object,
`refCnt` is a `uint16_t`, `pFontInstList` is the linked list of `FontInstNode`s from its
head. -/
structure FontFT where
  addr : Nat
  fontID : Nat
  pPath : Option String
  pBuffer : Nat
  refCnt : Nat
  pFontInstList : List FontInstFT
deriving DecidableEq, Repr

/-- The class `FontScalerFT`: the scaler handle returned to the caller, which holds the
address of the `FontInstFT` it is bound to. -/
structure FontScalerFT where
  addr : Nat
  pFontInst : Nat
deriving DecidableEq, Repr

/-- The engine object `FontEngineFT` (its `pFontList`, from the head) together with the file's
globals `gCountFontFT`, `gLCDSupport`, `gLCDSupportValid`. `nextAddr` is the next address the
allocator hands out (addresses are not reused), `events` is the history of FreeType calls and
destructor runs, and `aborted` tells that the process has aborted on an assertion or has run
into undefined behaviour: nothing is executed after that. -/
structure EngineState where
  pFontList : List FontFT
  gCountFontFT : Int
  gLCDSupport : Bool
  gLCDSupportValid : Bool
  nextAddr : Nat
  events : List Event
  aborted : Bool
deriving DecidableEq, Repr

/-- The engine right after `getFontEngineInstance()`: no font, zero-initialised globals. -/
def EngineState.init : EngineState :=
  { pFontList := [], gCountFontFT := 0, gLCDSupport := false, gLCDSupportValid := false,
    nextAddr := 1, events := [], aborted := false }

/-- Appends one event to the history. -/
def EngineState.log (st : EngineState) (e : Event) : EngineState :=
  { st with events := st.events ++ [e] }

/-- `InitFreetype`. -/
def InitFreetype (ft : FreeType) (st : EngineState) : Bool × EngineState :=
  let ok := ft.FT_Init_FreeType st.events
  let st1 := st.log (Event.FT_Init_FreeType ok)
  if !ok then (false, st1)
  else
    let st2 :=
      if ft.SUPPORT_LCDTEXT then
        { st1.log (Event.FT_Library_SetLcdFilter (ft.FT_Library_SetLcdFilter st1.events)) with
          gLCDSupport := ft.FT_Library_SetLcdFilter st1.events }
      else st1
    (true, { st2 with gLCDSupportValid := true })

/-- The statements `FT_Done_FreeType(gLibraryFT); assert(gLibraryFT = NULL);`, which occur in
`FontEngineFT::getFontScaler` and in `FontFT::~FontFT`. The asserted expression is an assignment
of `NULL`, so the assertion aborts unless `NDEBUG` is defined. -/
def doneFreeType (ft : FreeType) (st : EngineState) : EngineState :=
  { st.log Event.FT_Done_FreeType with aborted := !ft.NDEBUG }

/-- `FontFT::~FontFT` for an initialised font, after the node of the font has been unlinked
from the engine's font list (the unlinking is done where the list is at hand). -/
def FontFT.destroy (ft : FreeType) (st : EngineState) (font : FontFT) : EngineState :=
  let st1 := { (st.log (Event.deleteFontFT font.addr)).log (Event.FT_Done_Face font.addr) with
    gCountFontFT := st.gCountFontFT - 1 }
  if st1.gCountFontFT = 0 then doneFreeType ft st1 else st1

/-- The constructor `FontFT::FontFT(desc)`: the new object if `bInitialized`, else `none`. -/
def FontFT.new (ft : FreeType) (st : EngineState) (desc : FontScalerInfo) :
    Option FontFT × EngineState :=
  let addr := st.nextAddr
  let st1 := { st with nextAddr := st.nextAddr + 1 }
  let init := if st1.gCountFontFT = 0 then InitFreetype ft st1 else (true, st1)
  if !init.1 && !ft.NDEBUG then (none, { init.2 with aborted := true })
  else
    let ok := ft.FT_Open_Face init.2.events desc
    let st2 := init.2.log (Event.FT_Open_Face addr ok)
    if !ok then (none, st2)
    else
      (some { addr := addr, fontID := desc.fontID, pPath := desc.pPath, pBuffer := desc.pBuffer,
              refCnt := 0, pFontInstList := [] },
        { st2 with gCountFontFT := st2.gCountFontFT + 1 })

/-- The comparison of `FontFT::searchFontInst`: the instance has the resolved matrix, scales
and load flags `tm` and the instance flags `flags`. -/
def instMatches (tm : TransMatrix) (flags : Nat) (inst : FontInstFT) : Bool :=
  inst.ftMatrix22.xx == tm.ftMatrix22.xx && inst.ftMatrix22.xy == tm.ftMatrix22.xy &&
  inst.ftMatrix22.yx == tm.ftMatrix22.yx && inst.ftMatrix22.yy == tm.ftMatrix22.yy &&
  inst.fScaleX == tm.fScaleX && inst.fScaleY == tm.fScaleY &&
  inst.loadGlyphFlags == tm.loadGlyphFlags && inst.fontInstFlags == flags

/-- The list walk shared by `FontFT::searchFontInst`, `FontInstFT::~FontInstFT` and
`FontFT::~FontFT`: the first node that satisfies `p`, with the nodes before and after it, or
`none`. -/
def findFirst {α : Type} (p : α → Bool) : List α → Option (List α × α × List α)
  | [] => none
  | x :: rest =>
    if p x then some ([], x, rest)
    else (findFirst p rest).map (fun z => (x :: z.1, z.2.1, z.2.2))

/-- The loop of `FontFT::searchFontInst`: the first node whose instance matches, with the nodes
before and after it, or `none`. -/
def findMatch (tm : TransMatrix) (flags : Nat) (l : List FontInstFT) :
    Option (List FontInstFT × FontInstFT × List FontInstFT) :=
  findFirst (instMatches tm flags) l

/-- `FontFT::searchFontInst`. The outer `none` is the case in which `getTransMatrix` has no
result. -/
def FontFT.searchFontInst (ft : FreeType) (gLCDSupport : Bool) (font : FontFT)
    (desc : FontScalerInfo) : Option (Option (List FontInstFT × FontInstFT × List FontInstFT)) :=
  match FontFT.getTransMatrix ft gLCDSupport desc with
  | none => none
  | some tm => some (findMatch tm desc.flags font.pFontInstList)

/-- The fields that the constructor `FontInstFT::FontInstFT(desc, font)` gives to the object at
`addr`, from the request and the result `tm` of `getTransMatrix`; `refCnt` is the reference
count. -/
def FontInstFT.ofRequest (addr : Nat) (tm : TransMatrix) (desc : FontScalerInfo)
    (refCnt : Nat) : FontInstFT :=
  { addr := addr, fontInstFlags := desc.flags,
    subpixelPositioning := desc.subpixelPositioning, fScaleX := tm.fScaleX,
    fScaleY := tm.fScaleY, ftMatrix22 := tm.ftMatrix22,
    loadGlyphFlags := tm.loadGlyphFlags, maskFormat := desc.maskFormat, refCnt := refCnt }

/-- The constructor `FontInstFT::FontInstFT(desc, font)`, without its last statement
`pFont->refCnt++` (done by the caller, which holds the font): the new object if `bInitialized`,
else `none`. -/
def FontInstFT.new (ft : FreeType) (st : EngineState) (desc : FontScalerInfo) :
    Option FontInstFT × EngineState :=
  let addr := st.nextAddr
  let st1 := { st with nextAddr := st.nextAddr + 1 }
  match FontFT.getTransMatrix ft st.gLCDSupport desc with
  | none => (none, { st1 with aborted := true })
  | some tm =>
    let okNew := ft.FT_New_Size st1.events
    let st2 := st1.log (Event.FT_New_Size addr okNew)
    if !okNew then (none, st2)
    else
      let okAct := ft.FT_Activate_Size st2.events
      let st3 := st2.log (Event.FT_Activate_Size addr okAct)
      if !okAct then (none, st3.log (Event.FT_Done_Size addr))
      else
        let okSet := ft.FT_Set_Char_Size st3.events (FEM16Dot16ToFEM26Dot6 tm.fScaleX)
          (FEM16Dot16ToFEM26Dot6 tm.fScaleY)
        let st4 := st3.log (Event.FT_Set_Char_Size addr okSet)
        if !okSet then (none, st4.log (Event.FT_Done_Size addr))
        else
          (some (FontInstFT.ofRequest addr tm desc 0), st4)

/-- The constructor `FontScalerFT::FontScalerFT(fontInst)`: the new handle and the instance
with `refCnt++` on its `uint16_t` counter. -/
def FontScalerFT.new (st : EngineState) (inst : FontInstFT) :
    FontScalerFT × FontInstFT × EngineState :=
  ({ addr := st.nextAddr, pFontInst := inst.addr },
    { inst with refCnt := (inst.refCnt + 1) % 65536 },
    { st with nextAddr := st.nextAddr + 1 })

/-- `FontFT::getFontScaler` on the font `font`. Returns the scaler (or `NULL`), the font after
the call, or `none` if the font was deleted (by the destructor of a `FontInstFT` that failed to
initialise, when the font's `refCnt` is `0`), and the new state. -/
def FontFT.getFontScaler (ft : FreeType) (st : EngineState) (font : FontFT)
    (desc : FontScalerInfo) : Option FontScalerFT × Option FontFT × EngineState :=
  match FontFT.searchFontInst ft st.gLCDSupport font desc with
  | none => (none, some font, { st with aborted := true })
  | some (some (ipre, inst, ipost)) =>
    let r := FontScalerFT.new st inst
    (some r.1, some { font with pFontInstList := ipre ++ r.2.1 :: ipost }, r.2.2)
  | some none =>
    match FontInstFT.new ft st desc with
    | (none, st1) =>
      if st1.aborted then (none, some font, st1)
      else if font.refCnt = 0 then (none, none, FontFT.destroy ft st1 font)
      else (none, some font, st1)
    | (some inst, st1) =>
      let r := FontScalerFT.new st1 inst
      (some r.1,
        some { font with refCnt := (font.refCnt + 1) % 65536,
                         pFontInstList := r.2.1 :: font.pFontInstList },
        r.2.2)

/-- The comparison in the loop of `FontEngineFT::getFont`: the buffer pointers when both are
non-null, else `strcmp` on the two paths; `none` when `strcmp` is handed a null pointer. -/
def sameFont (desc : FontScalerInfo) (font : FontFT) : Option Bool :=
  if desc.pBuffer ≠ 0 ∧ font.pBuffer ≠ 0 then some (decide (desc.pBuffer = font.pBuffer))
  else
    match desc.pPath, font.pPath with
    | some p, some q => some (decide (p = q))
    | _, _ => none

/-- `FontEngineFT::getFont`: the first node whose font has the identity of `desc`, with the
nodes before and after it, or `some none` when there is none. The outer `none` is the case in
which `strcmp` is handed a null pointer. -/
def FontEngineFT.getFont (desc : FontScalerInfo) :
    List FontFT → Option (Option (List FontFT × FontFT × List FontFT))
  | [] => some none
  | font :: rest =>
    match sameFont desc font with
    | none => none
    | some true => some (some ([], font, rest))
    | some false => (FontEngineFT.getFont desc rest).map
        (fun r => r.map (fun z => (font :: z.1, z.2.1, z.2.2)))

/-- `FontEngineFT::getFontScaler`. `malloc` is taken to succeed. -/
def FontEngineFT.getFontScaler (ft : FreeType) (st : EngineState) (desc : FontScalerInfo) :
    Option FontScalerFT × EngineState :=
  match FontEngineFT.getFont desc st.pFontList with
  | none => (none, { st with aborted := true })
  | some (some (pre, font, post)) =>
    match FontFT.getFontScaler ft st font desc with
    | (r, some font1, st1) => (r, { st1 with pFontList := pre ++ font1 :: post })
    | (r, none, st1) => (r, { st1 with pFontList := pre ++ post })
  | some none =>
    match FontFT.new ft st desc with
    | (none, st1) =>
      if st1.aborted then (none, st1)
      else if st1.gCountFontFT = 0 then (none, doneFreeType ft st1)
      else (none, st1)
    | (some font, st1) =>
      match FontFT.getFontScaler ft st1 font desc with
      | (some scaler, some font1, st2) =>
        (some scaler, { st2 with pFontList := font1 :: st2.pFontList })
      | (_, _, st2) => (none, st2)

/-- `FontEngineFT::createFontScalerContext` (under the mutex `gMutexFT`). -/
def FontEngineFT.createFontScalerContext (ft : FreeType) (st : EngineState)
    (desc : FontScalerInfo) : Option FontScalerFT × EngineState :=
  if st.aborted then (none, st) else FontEngineFT.getFontScaler ft st desc

/-- Where an instance lives: the fonts before its font, its font, the instances before it in
the font's list, the instance, the instances after it, the fonts after its font. -/
structure InstLocation where
  pre : List FontFT
  font : FontFT
  ipre : List FontInstFT
  inst : FontInstFT
  ipost : List FontInstFT
  post : List FontFT
deriving DecidableEq, Repr

/-- The first node of an instance list whose instance has address `a`. -/
def findAddr (a : Nat) (l : List FontInstFT) :
    Option (List FontInstFT × FontInstFT × List FontInstFT) :=
  findFirst (fun inst => inst.addr == a) l

/-- Dereferences the pointer `a` to a `FontInstFT`: the object with that address among the
instances of the engine's fonts, or `none` if the pointer is dangling. -/
def locateInst (a : Nat) : List FontFT → Option InstLocation
  | [] => none
  | font :: rest =>
    match findAddr a font.pFontInstList with
    | some (ipre, inst, ipost) =>
      some { pre := [], font := font, ipre := ipre, inst := inst, ipost := ipost, post := rest }
    | none => (locateInst a rest).map (fun loc => { loc with pre := font :: loc.pre })

/-- The font list in which the location `loc` lies. -/
def InstLocation.toList (loc : InstLocation) : List FontFT :=
  loc.pre ++ loc.font :: loc.post

/-- The location `loc` after the reference count of its instance has been set to `r`. -/
def InstLocation.setRefCnt (loc : InstLocation) (r : Nat) : InstLocation :=
  { loc with
    inst := { loc.inst with refCnt := r }
    font := { loc.font with
      pFontInstList := loc.ipre ++ { loc.inst with refCnt := r } :: loc.ipost } }

/-- `FontInstFT::~FontInstFT` for the initialised instance at `loc`: the node is unlinked from
the font's instance list, `FT_Done_Size`, and `if (--pFont->refCnt == 0) delete pFont`. -/
def FontInstFT.destroy (ft : FreeType) (st : EngineState) (loc : InstLocation) : EngineState :=
  let st1 := (st.log (Event.deleteFontInstFT loc.inst.addr)).log
    (Event.FT_Done_Size loc.inst.addr)
  let refCnt := (loc.font.refCnt + 65535) % 65536
  if refCnt = 0 then
    FontFT.destroy ft { st1 with pFontList := loc.pre ++ loc.post }
      { loc.font with refCnt := refCnt, pFontInstList := loc.ipre ++ loc.ipost }
  else
    { st1 with pFontList := loc.pre ++
        { loc.font with refCnt := refCnt, pFontInstList := loc.ipre ++ loc.ipost } :: loc.post }

/-- `FontScalerFT::~FontScalerFT` (under the mutex `gMutexFT`):
`if (--pFontInst->refCnt == 0) delete pFontInst`. A dangling `pFontInst` is undefined
behaviour. -/
def FontScalerFT.destroy (ft : FreeType) (st : EngineState) (scaler : FontScalerFT) :
    EngineState :=
  if st.aborted then st
  else
    match locateInst scaler.pFontInst st.pFontList with
    | none => { st with aborted := true }
    | some loc =>
      let refCnt := (loc.inst.refCnt + 65535) % 65536
      if refCnt = 0 then FontInstFT.destroy ft st { loc with inst := { loc.inst with refCnt := 0 } }
      else
        { st with pFontList := loc.pre ++
            { loc.font with pFontInstList :=
                loc.ipre ++ { loc.inst with refCnt := refCnt } :: loc.ipost } :: loc.post }

/-- `n` successive calls of `createFontScalerContext` with the same request: the scalers that
were returned, first call first, and the final state. -/
def createMany (ft : FreeType) (desc : FontScalerInfo) :
    Nat → EngineState → List FontScalerFT × EngineState
  | 0, st => ([], st)
  | n + 1, st =>
    match FontEngineFT.createFontScalerContext ft st desc with
    | (some scaler, st1) =>
      (scaler :: (createMany ft desc n st1).1, (createMany ft desc n st1).2)
    | (none, st1) => createMany ft desc n st1

/-- Deletes the scalers of a list one after the other, first element first. -/
def destroyAll (ft : FreeType) : List FontScalerFT → EngineState → EngineState
  | [], st => st
  | scaler :: rest, st => destroyAll ft rest (FontScalerFT.destroy ft st scaler)

/-- The reference count of the instance at address `a`, if the instance is in a list. -/
def instRefCnt (st : EngineState) (a : Nat) : Option Nat :=
  (locateInst a st.pFontList).map (fun loc => loc.inst.refCnt)

/-- A request for the font file `path` at scale `scale` (16.16) on both axes, unskewed,
grayscale, with the flags byte `flags` (used to instantiate the cache theorems). -/
def plainRequest (path : String) (scale : Int) (flags : Nat) : FontScalerInfo :=
  { fontID := 1, subpixelPositioning := false, maskFormat := AliasMode.ALIAS_GRAYSCALE,
    flags := flags, fScaleX := scale, fScaleY := scale, fSkewX := 0, fSkewY := 0, pStream := 0,
    pPath := some path, pBuffer := 0, pathSz := path.length, size := 0 }

/-! ## Glyph metrics and glyph images of `FontScalerFT` -/

/-- FreeType's `FT_BBox`, in 26.6 units. -/
structure FT_BBox where
  xMin : Int
  yMin : Int
  xMax : Int
  yMax : Int
deriving DecidableEq, Repr

/-- FreeType's `FT_Glyph_Format`, as far as the engine distinguishes it. -/
inductive FT_Glyph_Format where
  | FT_GLYPH_FORMAT_OUTLINE
  | FT_GLYPH_FORMAT_BITMAP
  | FT_GLYPH_FORMAT_OTHER
deriving DecidableEq, Repr

/-- FreeType's `FT_Pixel_Mode`, as far as the engine distinguishes it. -/
inductive FT_Pixel_Mode where
  | FT_PIXEL_MODE_MONO
  | FT_PIXEL_MODE_GRAY
  | FT_PIXEL_MODE_OTHER
deriving DecidableEq, Repr

/-- FreeType's `FT_Bitmap`: `buffer` maps a byte offset from the buffer pointer to the byte
stored there; `pitch` may be negative. -/
structure FT_Bitmap where
  rows : Nat
  width : Nat
  pitch : Int
  buffer : Int → Nat
  pixel_mode : FT_Pixel_Mode

/-- What FreeType leaves in `ftFace->glyph` after a successful `FT_Load_Glyph`, and what its
outline and bitmap services return for that glyph. The `Bool` argument of `cbox`, `bitmap`,
`FT_Outline_Get_Bitmap` and `FT_Render_Glyph` tells whether the engine has emboldened the glyph
first (`emboldenOutline`, `FT_Bitmap_Embolden`); the two `Int`s are the translation the engine
applied with `FT_Outline_Translate`. -/
structure FT_GlyphSlot where
  format : FT_Glyph_Format
  cbox : Bool → FT_BBox
  bitmap : Bool → FT_Bitmap
  bitmap_left : Int
  bitmap_top : Int
  advance_x : Int
  advance_y : Int
  linearHoriAdvance : Int
  lsb_delta : Int
  rsb_delta : Int
  FT_Outline_Get_Bitmap : Bool → Int → Int → FT_Pixel_Mode → Nat → Nat → Nat →
    (Nat → Nat) → (Nat → Nat)
  FT_Render_Glyph : Bool → Int → Int → FT_Bitmap

/-- The class `GlyphMetrics`; `width`, `height` are `uint16_t`, `left`, `top` are `int16_t`,
the deltas are `int8_t`. -/
structure GlyphMetrics where
  lsbDelta : Int
  rsbDelta : Int
  width : Nat
  height : Nat
  fAdvanceX : Int
  fAdvanceY : Int
  left : Int
  top : Int
deriving DecidableEq, Repr

/-- The default constructor `GlyphMetrics()`, which is also the state after `clear()`. -/
def GlyphMetrics.clear : GlyphMetrics :=
  { lsbDelta := 0, rsbDelta := 0, width := 0, height := 0, fAdvanceX := 0, fAdvanceY := 0,
    left := 0, top := 0 }

/-- The conversion to `uint16_t`. -/
def toU16 (x : Int) : Nat := (x % 65536).toNat

/-- The conversion to `int16_t`. -/
def toS16 (x : Int) : Int := (x + 32768) % 65536 - 32768

/-- The conversion to `int8_t`. -/
def toS8 (x : Int) : Int := (x + 128) % 256 - 128

/-- The expression `v & ~63` on a two's complement integer: the six low bits cleared, that is
`v` rounded down to a multiple of 64. -/
def floor64 (v : Int) : Int := v - v % 64

/-- The expression `(v + 63) & ~63`. -/
def ceil64 (v : Int) : Int := floor64 (v + 63)

/-- The macro `FEM26Dot6ToFEM16Dot16(x)`, `(x) << 10`. -/
def FEM26Dot6ToFEM16Dot16 (x : Int) : Int := wrapS32 (x * 1024)

/-- The fields of a `FontInstFT` that the glyph queries of a scaler read. -/
structure InstView where
  fontInstFlags : Nat
  subpixelPositioning : Bool
  ftMatrix22 : FT_Matrix
  maskFormat : AliasMode

/-- `FontScalerFT::getGlyphMetrics`. `setupSizeOk` tells whether `pFontInst->setupSize()`
returned `0`, `load` is the glyph slot after `FT_Load_Glyph`, or `none` if that call failed.
The result is `none` when `assert(!"unknown glyph format")` aborts. `FT_Pos` arithmetic on the
box is exact as long as the coordinates stay inside the range of `long`. -/
def FontScalerFT.getGlyphMetrics (ft : FreeType) (inst : InstView) (setupSizeOk : Bool)
    (load : Option FT_GlyphSlot) (fracX fracY : Int) : Option GlyphMetrics :=
  if !setupSizeOk then some GlyphMetrics.clear
  else
    match load with
    | none => some GlyphMetrics.clear
    | some glyph =>
      let embolden : Bool := inst.fontInstFlags &&& Embolden_Flag != 0
      let box : Option (Nat × Nat × Int × Int) :=
        match glyph.format with
        | FT_Glyph_Format.FT_GLYPH_FORMAT_OUTLINE =>
          let bbox := glyph.cbox embolden
          let dx : Int := if inst.subpixelPositioning then fracX / 1024 else 0
          let dy : Int := if inst.subpixelPositioning then fracY / 1024 else 0
          let xMin := floor64 (bbox.xMin + dx)
          let yMin := floor64 (bbox.yMin - dy)
          let xMax := ceil64 (bbox.xMax + dx)
          let yMax := ceil64 (bbox.yMax - dy)
          some (toU16 ((xMax - xMin) / 64), toU16 ((yMax - yMin) / 64),
            toS16 (-(toS16 (yMax / 64))), toS16 (xMin / 64))
        | FT_Glyph_Format.FT_GLYPH_FORMAT_BITMAP =>
          some (toU16 (glyph.bitmap embolden).width, toU16 (glyph.bitmap embolden).rows,
            toS16 (-(toS16 glyph.bitmap_top)), toS16 glyph.bitmap_left)
        | FT_Glyph_Format.FT_GLYPH_FORMAT_OTHER => none
      match box with
      | none => if ft.NDEBUG then some GlyphMetrics.clear else none
      | some (width, height, top, left) =>
        if !inst.subpixelPositioning then
          some {
            width := width, height := height, top := top, left := left
            fAdvanceX := FEM26Dot6ToFEM16Dot16 glyph.advance_x
            fAdvanceY := wrapS32 (-(FEM26Dot6ToFEM16Dot16 glyph.advance_y))
            rsbDelta := if inst.fontInstFlags &&& DevKernText_Flag != 0
              then toS8 glyph.rsb_delta else 0
            lsbDelta := if inst.fontInstFlags &&& DevKernText_Flag != 0
              then toS8 glyph.lsb_delta else 0 }
        else
          some {
            width := width, height := height, top := top, left := left
            fAdvanceX := ft.FT_MulFix inst.ftMatrix22.xx glyph.linearHoriAdvance
            fAdvanceY := wrapS32 (-(ft.FT_MulFix inst.ftMatrix22.yx glyph.linearHoriAdvance))
            rsbDelta := 0, lsbDelta := 0 }

/-- The inner loop `for (x = 0; x < bitmap.width; ++x)` of the mono to gray expansion in
`FontScalerFT::getGlyphImage`, with `n` columns left: `byte`, `bits`, `src_row` and `dst_row`
are the loop's variables, `dst` is the target memory. -/
def expandMonoRow (src : Int → Nat) : Nat → Nat → Nat → Int → Nat → (Nat → Nat) → (Nat → Nat)
  | 0, _, _, _, _, dst => dst
  | n + 1, byte, bits, src_row, dst_row, dst =>
    let byte1 := if bits = 0 then src src_row else byte
    let src_row1 := if bits = 0 then src_row + 1 else src_row
    let bits1 := if bits = 0 then 8 else bits
    expandMonoRow src n ((byte1 <<< 1) % 256) (bits1 - 1) src_row1 (dst_row + 1)
      (Function.update dst dst_row (if byte1 &&& 0x80 != 0 then 0xff else 0))

/-- The outer loop `for (y = 0; y < bitmap.rows; ++y)` of the mono to gray expansion, with `n`
rows left; `src` and `dst` are the offsets of the current rows. -/
def expandMono (bitmap : FT_Bitmap) (rowBytes : Nat) :
    Nat → Int → Nat → (Nat → Nat) → (Nat → Nat)
  | 0, _, _, mem => mem
  | n + 1, src, dst, mem =>
    expandMono bitmap rowBytes n (src + bitmap.pitch) (dst + rowBytes)
      (expandMonoRow bitmap.buffer bitmap.width 0 0 src dst mem)

/-- The loop `for (y = rows - 1; y >= 0; --y) { memcpy(dst, src, minRowBytes); memset(dst +
minRowBytes, 0, extraRowBytes); src += srcRowBytes; dst += dstRowBytes; }` of the gray to gray
and mono to mono copy, with `n` rows left. -/
def copyRows (bitmap : FT_Bitmap) (minRowBytes dstRowBytes : Nat) :
    Nat → Int → Nat → (Nat → Nat) → (Nat → Nat)
  | 0, _, _, mem => mem
  | n + 1, src, dst, mem =>
    copyRows bitmap minRowBytes dstRowBytes n (src + bitmap.pitch) (dst + dstRowBytes)
      (fun a =>
        if dst ≤ a ∧ a < dst + minRowBytes then bitmap.buffer (src + ((a - dst : Nat) : Int))
        else if dst + minRowBytes ≤ a ∧ a < dst + dstRowBytes then 0
        else mem a)

/-- The bitmap-format case of `FontScalerFT::getGlyphImage`: the embedded bitmap `bitmap` is
copied or expanded into the target memory `buffer`. `none` when
`assert(!"unknown glyph bitmap transform needed")` aborts. -/
def copyEmbeddedBitmap (ft : FreeType) (maskFormat : AliasMode) (bitmap : FT_Bitmap)
    (rowBytes : Nat) (buffer : Nat → Nat) : Option (Nat → Nat) :=
  if bitmap.pixel_mode = FT_Pixel_Mode.FT_PIXEL_MODE_GRAY ∨
      (bitmap.pixel_mode = FT_Pixel_Mode.FT_PIXEL_MODE_MONO ∧
        maskFormat = AliasMode.ALIAS_MONOCHROME) then
    let srcRowBytes : Nat := (bitmap.pitch % 4294967296).toNat
    let minRowBytes : Nat := if srcRowBytes < rowBytes then srcRowBytes else rowBytes
    some (copyRows bitmap minRowBytes rowBytes bitmap.rows 0 0 buffer)
  else if bitmap.pixel_mode = FT_Pixel_Mode.FT_PIXEL_MODE_MONO ∧
      (maskFormat = AliasMode.ALIAS_GRAYSCALE ∨ maskFormat = AliasMode.ALIAS_LCD_H ∨
        maskFormat = AliasMode.ALIAS_LCD_V) then
    some (expandMono bitmap rowBytes bitmap.rows 0 0 buffer)
  else if ft.NDEBUG then some buffer
  else none

/-- `packRGB16`. `none` when one of its three assertions fails. -/
def packRGB16 (ft : FreeType) (r g b : Nat) : Option Nat :=
  if !ft.NDEBUG && (decide (r > 31) || decide (g > 63) || decide (b > 31)) then none
  else some (((r <<< 11) ||| (g <<< 5) ||| (b <<< 0)) % 65536)

/-- `lerp(start, end)` for the blend strength `FREETYPE_LCD_LERP`:
`start + ((end - start) * (FREETYPE_LCD_LERP) >> 8)` on `int`. -/
def lerp (strength : Nat) (start stop : Int) : Int :=
  wrapS32 (start + wrapS32 (wrapS32 (stop - start) * strength) / 256)

/-- `packTriple(r, g, b)` for the blend strength `FREETYPE_LCD_LERP`; `r`, `g`, `b` are
`unsigned`. -/
def packTriple (ft : FreeType) (r g b : Nat) : Option Nat :=
  if ft.FREETYPE_LCD_LERP != 0 then
    let ave : Nat := ((5 * (r + g + b) + b) % 4294967296) >>> 4
    let r1 : Nat := (lerp ft.FREETYPE_LCD_LERP r ave % 4294967296).toNat
    let g1 : Nat := (lerp ft.FREETYPE_LCD_LERP g ave % 4294967296).toNat
    let b1 : Nat := (lerp ft.FREETYPE_LCD_LERP b ave % 4294967296).toNat
    packRGB16 ft (r1 >>> 3) (g1 >>> 2) (b1 >>> 3)
  else packRGB16 ft (r >>> 3) (g >>> 2) (b >>> 3)

/-- The inner loop of `copyFT2LCD16` with `n` pixels left: `dst[x] = packTriple(triple[0],
triple[1], triple[2]); triple += 3`. The 16-bit store is little-endian. -/
def copyFT2LCD16Row (ft : FreeType) (src : Int → Nat) :
    Nat → Int → Nat → (Nat → Nat) → Option (Nat → Nat)
  | 0, _, _, mem => some mem
  | n + 1, triple, dst, mem =>
    match packTriple ft (src triple % 256) (src (triple + 1) % 256) (src (triple + 2) % 256) with
    | none => none
    | some v =>
      copyFT2LCD16Row ft src n (triple + 3) (dst + 2)
        (Function.update (Function.update mem dst (v % 256)) (dst + 1) (v / 256))

/-- The outer loop of `copyFT2LCD16` with `n` rows left. -/
def copyFT2LCD16Rows (ft : FreeType) (bitmap : FT_Bitmap) (rowBytes width : Nat) :
    Nat → Int → Nat → (Nat → Nat) → Option (Nat → Nat)
  | 0, _, _, mem => some mem
  | n + 1, src, dst, mem =>
    match copyFT2LCD16Row ft bitmap.buffer width src dst mem with
    | none => none
    | some mem1 => copyFT2LCD16Rows ft bitmap rowBytes width n (src + bitmap.pitch)
        (dst + rowBytes) mem1

/-- `copyFT2LCD16`. `none` when one of its assertions, or one of `packRGB16`, fails. -/
def copyFT2LCD16 (ft : FreeType) (rowBytes width height : Nat) (buffer : Nat → Nat)
    (bitmap : FT_Bitmap) : Option (Nat → Nat) :=
  if !ft.NDEBUG && (decide ((width * 3 : Int) ≠ (bitmap.width : Int) - 6) ||
      decide (height ≠ bitmap.rows)) then none
  else copyFT2LCD16Rows ft bitmap rowBytes width height 3 0 buffer

/-- `compute_pixel_mode`. `none` when `assert(!"An LCD format should never be passed here")`
aborts. -/
def compute_pixel_mode (ft : FreeType) (format : AliasMode) : Option FT_Pixel_Mode :=
  match format with
  | AliasMode.ALIAS_LCD_H => if ft.NDEBUG then some FT_Pixel_Mode.FT_PIXEL_MODE_GRAY else none
  | AliasMode.ALIAS_LCD_V => if ft.NDEBUG then some FT_Pixel_Mode.FT_PIXEL_MODE_GRAY else none
  | AliasMode.ALIAS_MONOCHROME => some FT_Pixel_Mode.FT_PIXEL_MODE_MONO
  | _ => some FT_Pixel_Mode.FT_PIXEL_MODE_GRAY

/-- `FontScalerFT::getGlyphImage`. `setupSizeOk` tells whether `pFontInst->setupSize()` returned
`0`, `load` is the glyph slot after `FT_Load_Glyph`, or `none` if that call failed; `buffer` is
the target memory, as a map from byte offsets to bytes, and the result is the target memory
after the call, or `none` when an assertion aborts. -/
def FontScalerFT.getGlyphImage (ft : FreeType) (inst : InstView) (setupSizeOk : Bool)
    (load : Option FT_GlyphSlot) (fracX fracY : Int) (rowBytes width height : Nat)
    (buffer : Nat → Nat) : Option (Nat → Nat) :=
  let zeroed : Nat → Nat := fun a => if a < (rowBytes * height) % 4294967296 then 0 else buffer a
  if !setupSizeOk then some zeroed
  else
    match load with
    | none => some zeroed
    | some glyph =>
      let embolden : Bool := inst.fontInstFlags &&& Embolden_Flag != 0
      let lcdRenderMode : Bool := inst.maskFormat = AliasMode.ALIAS_LCD_H ∨
        inst.maskFormat = AliasMode.ALIAS_LCD_V
      match glyph.format with
      | FT_Glyph_Format.FT_GLYPH_FORMAT_OUTLINE =>
        let dx : Int := if inst.subpixelPositioning then fracX / 1024 else 0
        let dy : Int := if inst.subpixelPositioning then wrapS32 (-(fracY / 1024)) else 0
        let bbox := glyph.cbox embolden
        let tx : Int := dx - floor64 (bbox.xMin + dx)
        let ty : Int := dy - floor64 (bbox.yMin + dy)
        if ft.SUPPORT_LCDTEXT && lcdRenderMode then some buffer
        else if inst.maskFormat = AliasMode.ALIAS_LCD16 then
          copyFT2LCD16 ft rowBytes width height buffer (glyph.FT_Render_Glyph embolden tx ty)
        else
          match compute_pixel_mode ft inst.maskFormat with
          | none => none
          | some pixel_mode =>
            some (glyph.FT_Outline_Get_Bitmap embolden tx ty pixel_mode width height rowBytes
              zeroed)
      | FT_Glyph_Format.FT_GLYPH_FORMAT_BITMAP =>
        copyEmbeddedBitmap ft inst.maskFormat (glyph.bitmap embolden) rowBytes buffer
      | FT_Glyph_Format.FT_GLYPH_FORMAT_OTHER => if ft.NDEBUG then some zeroed else none

/-- A glyph slot holding an outline glyph with control box `bbox`, whose rasterisers leave
the target untouched (used to instantiate the metrics theorems). -/
def outlineSlot (bbox : FT_BBox) : FT_GlyphSlot where
  format := FT_Glyph_Format.FT_GLYPH_FORMAT_OUTLINE
  cbox := fun _ => bbox
  bitmap := fun _ => { rows := 0, width := 0, pitch := 0, buffer := fun _ => 0,
                       pixel_mode := FT_Pixel_Mode.FT_PIXEL_MODE_GRAY }
  bitmap_left := 0
  bitmap_top := 0
  advance_x := 0
  advance_y := 0
  linearHoriAdvance := 0
  lsb_delta := 0
  rsb_delta := 0
  FT_Outline_Get_Bitmap := fun _ _ _ _ _ _ _ mem => mem
  FT_Render_Glyph := fun _ _ _ => { rows := 0, width := 0, pitch := 0, buffer := fun _ => 0,
                                    pixel_mode := FT_Pixel_Mode.FT_PIXEL_MODE_GRAY }

/-- A glyph slot holding an embedded bitmap glyph (used to instantiate the image theorems). -/
def bitmapSlot (bitmap : FT_Bitmap) : FT_GlyphSlot where
  format := FT_Glyph_Format.FT_GLYPH_FORMAT_BITMAP
  cbox := fun _ => { xMin := 0, yMin := 0, xMax := 0, yMax := 0 }
  bitmap := fun _ => bitmap
  bitmap_left := 0
  bitmap_top := 0
  advance_x := 0
  advance_y := 0
  linearHoriAdvance := 0
  lsb_delta := 0
  rsb_delta := 0
  FT_Outline_Get_Bitmap := fun _ _ _ _ _ _ _ mem => mem
  FT_Render_Glyph := fun _ _ _ => bitmap

/-- A font instance view with the identity matrix (used to instantiate the glyph theorems). -/
def plainInst (subpixelPositioning : Bool) (maskFormat : AliasMode) : InstView where
  fontInstFlags := 0
  subpixelPositioning := subpixelPositioning
  ftMatrix22 := { xx := 0x10000, xy := 0, yx := 0, yy := 0x10000 }
  maskFormat := maskFormat

/-- The 1-bit bitmap of the specification's scenario: one row, five pixels wide, whose single
source byte is `0b10110000`. -/
def monoRow10110 : FT_Bitmap where
  rows := 1
  width := 5
  pitch := 1
  buffer := fun i => if i = 0 then 0xB0 else 0
  pixel_mode := FT_Pixel_Mode.FT_PIXEL_MODE_MONO

/-- A 1-bit bitmap of two rows, three pixels wide, stored bottom-up (`pitch = -1`): the
source byte of row 0 is `0b11000000`, the one of row 1 is `0b00100000`. -/
def monoRowsBottomUp : FT_Bitmap where
  rows := 2
  width := 3
  pitch := -1
  buffer := fun i => if i = -1 then 0x20 else 0xC0
  pixel_mode := FT_Pixel_Mode.FT_PIXEL_MODE_MONO

/-! ## `FontEngineManager.cpp`: the dispatcher -/

/-- The abstract class `FontEngine`: one plugin. Every virtual method is a function of the world
`σ` (the plugin's own state and the caller's output arrays) that returns the method's return
value and the new world. Pointers returned by a plugin are `Option Nat` (`none` is `NULL`). -/
structure FontEngine (σ : Type) where
  getName : String
  createFontScalerContext : FontScalerInfo → σ → Option Nat × σ
  getFontNameAndAttribute : FontSource → Nat → σ → Nat × σ
  isFontSupported : FontSource → Bool → σ → Bool × σ
  getFontUnitsPerEm : FontSource → σ → Nat × σ
  canEmbed : FontSource → σ → Bool × σ
  getGlyphsAdvance : FontSource → Nat → Nat → σ → Nat × σ
  getGlyphsName : FontSource → Nat → Nat → σ → Nat × σ
  getGlyphsUnicode : FontSource → Nat → Nat → σ → Nat × σ
  getAdvancedTypefaceMetrics : FontSource → σ → Option Nat × σ

/-- What a manager call leaves behind: its return value, the world after the call, and the names
of the engines whose method was invoked, in invocation order. -/
structure Dispatch (ρ σ : Type) where
  result : ρ
  world : σ
  invoked : List String

/-- The loop shape `while (node) { r = node->inst->m(..); if (ok r) return r; node = node->next; }
return sentinel;` used by `createFontScalerContext`, `getFontNameAndAttribute`,
`isFontSupported`, `canEmbed` and `getAdvancedTypefaceMetrics`. -/
def walkReturn {σ ρ : Type} (call : FontEngine σ → σ → ρ × σ) (ok : ρ → Bool) (sentinel : ρ) :
    List (FontEngine σ) → σ → List String → Dispatch ρ σ
  | [], w, log => ⟨sentinel, w, log⟩
  | e :: rest, w, log =>
    if ok (call e w).1 then ⟨(call e w).1, (call e w).2, log ++ [e.getName]⟩
    else walkReturn call ok sentinel rest (call e w).2 (log ++ [e.getName])

/-- The loop shape `r = r0; while (node) { r = node->inst->m(..); if (ok r) break;
node = node->next; } return r;` used by `getFontUnitsPerEm`, `getGlyphsAdvance`, `getGlyphsName`
and `getGlyphsUnicode`: when the list is exhausted the last value assigned to `r` is returned. -/
def walkBreak {σ ρ : Type} (call : FontEngine σ → σ → ρ × σ) (ok : ρ → Bool) :
    List (FontEngine σ) → ρ → σ → List String → Dispatch ρ σ
  | [], r, w, log => ⟨r, w, log⟩
  | e :: rest, _, w, log =>
    if ok (call e w).1 then ⟨(call e w).1, (call e w).2, log ++ [e.getName]⟩
    else walkBreak call ok rest (call e w).1 (call e w).2 (log ++ [e.getName])

/-- `FontEngineManager::createFontScalerContext`. -/
def FontEngineManager.createFontScalerContext {σ : Type} (pFontEngineList : List (FontEngine σ))
    (desc : FontScalerInfo) (w : σ) : Dispatch (Option Nat) σ :=
  walkReturn (fun e => e.createFontScalerContext desc) Option.isSome none pFontEngineList w []

/-- `FontEngineManager::getFontNameAndAttribute` (both overloads). -/
def FontEngineManager.getFontNameAndAttribute {σ : Type} (pFontEngineList : List (FontEngine σ))
    (src : FontSource) (length : Nat) (w : σ) : Dispatch Nat σ :=
  walkReturn (fun e => e.getFontNameAndAttribute src length) (fun count => count != 0) 0
    pFontEngineList w []

/-- `FontEngineManager::isFontSupported` (both overloads). -/
def FontEngineManager.isFontSupported {σ : Type} (pFontEngineList : List (FontEngine σ))
    (src : FontSource) (isLoad : Bool) (w : σ) : Dispatch Bool σ :=
  walkReturn (fun e => e.isFontSupported src isLoad) (fun b => b) false pFontEngineList w []

/-- `FontEngineManager::getFontUnitsPerEm` (both overloads). -/
def FontEngineManager.getFontUnitsPerEm {σ : Type} (pFontEngineList : List (FontEngine σ))
    (src : FontSource) (w : σ) : Dispatch Nat σ :=
  walkBreak (fun e => e.getFontUnitsPerEm src) (fun unitsPerEm => unitsPerEm != 0)
    pFontEngineList 0 w []

/-- `FontEngineManager::canEmbed` (both overloads). -/
def FontEngineManager.canEmbed {σ : Type} (pFontEngineList : List (FontEngine σ))
    (src : FontSource) (w : σ) : Dispatch Bool σ :=
  walkReturn (fun e => e.canEmbed src) (fun b => b) false pFontEngineList w []

/-- `FontEngineManager::getGlyphsAdvance` (both overloads). -/
def FontEngineManager.getGlyphsAdvance {σ : Type} (pFontEngineList : List (FontEngine σ))
    (src : FontSource) (start count : Nat) (w : σ) : Dispatch Nat σ :=
  walkBreak (fun e => e.getGlyphsAdvance src start count) (fun errCode => errCode == 0)
    pFontEngineList 0 w []

/-- `FontEngineManager::getGlyphsName` (both overloads). -/
def FontEngineManager.getGlyphsName {σ : Type} (pFontEngineList : List (FontEngine σ))
    (src : FontSource) (start count : Nat) (w : σ) : Dispatch Nat σ :=
  walkBreak (fun e => e.getGlyphsName src start count) (fun errCode => errCode == 0)
    pFontEngineList 0 w []

/-- `FontEngineManager::getGlyphsUnicode` (both overloads). -/
def FontEngineManager.getGlyphsUnicode {σ : Type} (pFontEngineList : List (FontEngine σ))
    (src : FontSource) (start count : Nat) (w : σ) : Dispatch Nat σ :=
  walkBreak (fun e => e.getGlyphsUnicode src start count) (fun errCode => errCode == 0)
    pFontEngineList 0 w []

/-- `FontEngineManager::getAdvancedTypefaceMetrics` (both overloads). -/
def FontEngineManager.getAdvancedTypefaceMetrics {σ : Type}
    (pFontEngineList : List (FontEngine σ)) (src : FontSource) (w : σ) :
    Dispatch (Option Nat) σ :=
  walkReturn (fun e => e.getAdvancedTypefaceMetrics src) Option.isSome none pFontEngineList w []

/-- The world after the method `call` has been invoked on every engine of a list in turn. -/
def worldAfter {σ ρ : Type} (call : FontEngine σ → σ → ρ × σ) : List (FontEngine σ) → σ → σ
  | [], w => w
  | e :: rest, w => worldAfter call rest (call e w).2

/-- Every engine of the list fails (`ok` is false on its return value) when the engines are
invoked in turn starting from world `w`. -/
def allFail {σ ρ : Type} (call : FontEngine σ → σ → ρ × σ) (ok : ρ → Bool) :
    List (FontEngine σ) → σ → Bool
  | [], _ => true
  | e :: rest, w => !ok (call e w).1 && allFail call ok rest (call e w).2

/-- The delegated operations named by the specification, each with the engine method it calls,
the success test the manager applies to the return value (non-null, non-zero length, true,
non-zero units, zero error code) and the manager method itself. -/
inductive ManagerOp (σ : Type) : (ρ : Type) → (FontEngine σ → σ → ρ × σ) → (ρ → Bool) →
    (List (FontEngine σ) → σ → Dispatch ρ σ) → Prop
  | createFontScalerContext (desc : FontScalerInfo) :
    ManagerOp σ (Option Nat) (fun e => e.createFontScalerContext desc) Option.isSome
      (fun l w => FontEngineManager.createFontScalerContext l desc w)
  | getFontNameAndAttribute (src : FontSource) (length : Nat) :
    ManagerOp σ Nat (fun e => e.getFontNameAndAttribute src length) (fun count => count != 0)
      (fun l w => FontEngineManager.getFontNameAndAttribute l src length w)
  | isFontSupported (src : FontSource) (isLoad : Bool) :
    ManagerOp σ Bool (fun e => e.isFontSupported src isLoad) (fun b => b)
      (fun l w => FontEngineManager.isFontSupported l src isLoad w)
  | getFontUnitsPerEm (src : FontSource) :
    ManagerOp σ Nat (fun e => e.getFontUnitsPerEm src) (fun unitsPerEm => unitsPerEm != 0)
      (fun l w => FontEngineManager.getFontUnitsPerEm l src w)
  | getGlyphsAdvance (src : FontSource) (start count : Nat) :
    ManagerOp σ Nat (fun e => e.getGlyphsAdvance src start count) (fun errCode => errCode == 0)
      (fun l w => FontEngineManager.getGlyphsAdvance l src start count w)
  | getGlyphsName (src : FontSource) (start count : Nat) :
    ManagerOp σ Nat (fun e => e.getGlyphsName src start count) (fun errCode => errCode == 0)
      (fun l w => FontEngineManager.getGlyphsName l src start count w)
  | getGlyphsUnicode (src : FontSource) (start count : Nat) :
    ManagerOp σ Nat (fun e => e.getGlyphsUnicode src start count) (fun errCode => errCode == 0)
      (fun l w => FontEngineManager.getGlyphsUnicode l src start count w)
  | getAdvancedTypefaceMetrics (src : FontSource) :
    ManagerOp σ (Option Nat) (fun e => e.getAdvancedTypefaceMetrics src) Option.isSome
      (fun l w => FontEngineManager.getAdvancedTypefaceMetrics l src w)

/-- An engine on which every query fails; the world counts the invocations. -/
def failingEngine (name : String) : FontEngine Nat where
  getName := name
  createFontScalerContext := fun _ w => (none, w + 1)
  getFontNameAndAttribute := fun _ _ w => (0, w + 1)
  isFontSupported := fun _ _ w => (false, w + 1)
  getFontUnitsPerEm := fun _ w => (0, w + 1)
  canEmbed := fun _ w => (false, w + 1)
  getGlyphsAdvance := fun _ _ _ w => (1, w + 1)
  getGlyphsName := fun _ _ _ w => (1, w + 1)
  getGlyphsUnicode := fun _ _ _ w => (1, w + 1)
  getAdvancedTypefaceMetrics := fun _ w => (none, w + 1)

/-- An engine on which every query succeeds, answering with `tag`; the world counts the
invocations. -/
def succeedingEngine (name : String) (tag : Nat) : FontEngine Nat where
  getName := name
  createFontScalerContext := fun _ w => (some tag, w + 1)
  getFontNameAndAttribute := fun _ _ w => (tag + 1, w + 1)
  isFontSupported := fun _ _ w => (true, w + 1)
  getFontUnitsPerEm := fun _ w => (tag + 1, w + 1)
  canEmbed := fun _ w => (true, w + 1)
  getGlyphsAdvance := fun _ _ _ w => (0, w + 1)
  getGlyphsName := fun _ _ _ w => (0, w + 1)
  getGlyphsUnicode := fun _ _ _ w => (0, w + 1)
  getAdvancedTypefaceMetrics := fun _ w => (some tag, w + 1)

/-- One entry of the plugin directory, as `scandir` lists it: the file name `d_name` (at most
255 bytes, so the path assertions of the constructor hold) and what the library's entry point
`getFontEngineInstance()` returns once the file is loaded with `dlopen` and `dlsym`, which are
taken to succeed (`none` is `NULL`). -/
structure PluginFile (σ : Type) where
  d_name : String
  inst : Option (FontEngine σ)

/-- The macro `ANDROID_FONT_ENGINE_PATH`. -/
def ANDROID_FONT_ENGINE_PATH : String := "/system/lib/fontengines/"

/-- One iteration of the loop `for (index = 0; index < numEntries; index ++)` of the constructor
`FontEngineManager::FontEngineManager()`: when the last three characters of `filePath` are
`.so` and the plugin hands out an engine, the new node becomes the head of `pFontEngineList`
(`node->next = this->pFontEngineList; this->pFontEngineList = node`). -/
def FontEngineManager.load {σ : Type} (pFontEngineList : List (FontEngine σ))
    (ep : PluginFile σ) : List (FontEngine σ) :=
  let filePath := ANDROID_FONT_ENGINE_PATH ++ ep.d_name
  if filePath.toList.drop (filePath.length - 3) = ['.', 's', 'o'] then
    match ep.inst with
    | some inst => inst :: pFontEngineList
    | none => pFontEngineList
  else pFontEngineList

/-- The constructor `FontEngineManager::FontEngineManager()`: the value of `pFontEngineList`,
head first, after the directory entries `eps` (in the order of `scandir` with `alphasort`) have
been processed. A failing `scandir` is the empty list of entries. -/
def FontEngineManager.new {σ : Type} (eps : List (PluginFile σ)) : List (FontEngine σ) :=
  eps.foldl FontEngineManager.load []

/-! ## Hinting targets -/

/-- FreeType's macro `FT_LOAD_TARGET_MODE(x)`, `((x) >> 16) & 15`: the hinting target that the
load flags `x` select, as the number of its render mode (`FT_LOAD_TARGET_NORMAL` 0,
`FT_LOAD_TARGET_LIGHT` 1, `FT_LOAD_TARGET_LCD` 3, `FT_LOAD_TARGET_LCD_V` 4). -/
def FT_LOAD_TARGET_MODE (x : Nat) : Nat := (x >>> 16) &&& 15

/-! ## Glyph advances of `FontScalerFT` -/

/-- `FontScalerFT::getGlyphAdvance`. `FT_ADVANCES_H` tells whether FreeType's header of that
name was there when the engine was compiled; `fast` is the value that `FT_Get_Advance` with
`FT_ADVANCE_FLAG_FAST_ONLY` stores in `advance`, or `none` if it returns an error. The other
arguments are those of `getGlyphMetrics`; `gm` starts as the default `GlyphMetrics()`. -/
def FontScalerFT.getGlyphAdvance (ft : FreeType) (FT_ADVANCES_H : Bool) (inst : InstView)
    (setupSizeOk : Bool) (fast : Option Int) (load : Option FT_GlyphSlot) (fracX fracY : Int) :
    Option GlyphMetrics :=
  if FT_ADVANCES_H then
    if !setupSizeOk then some GlyphMetrics.clear
    else
      match fast with
      | some advance =>
        some { GlyphMetrics.clear with
          rsbDelta := 0, lsbDelta := 0, fAdvanceX := wrapS32 advance, fAdvanceY := 0 }
      | none => some GlyphMetrics.clear
  else FontScalerFT.getGlyphMetrics ft inst setupSizeOk load fracX fracY

/-! ## Advanced typeface metrics -/

/-- The enum `fem::FontType`. -/
inductive FontType where
  | TYPE1_FONT
  | TYPE1CID_FONT
  | CFF_FONT
  | TRUETYPE_FONT
  | OTHER_FONT
  | NOTEMBEDDABLE_FONT
deriving DecidableEq, Repr

/-- The mask `fem::FIXEDPITCH_STYLE`. -/
def FIXEDPITCH_STYLE : Nat := 0x00001

/-- The mask `fem::SERIF_STYLE`. -/
def SERIF_STYLE : Nat := 0x00002

/-- The mask `fem::SYMBOLIC_STYLE`. -/
def SYMBOLIC_STYLE : Nat := 0x00004

/-- The mask `fem::SCRIPT_STYLE`. -/
def SCRIPT_STYLE : Nat := 0x00008

/-- The mask `fem::NONSYMBOLIC_STYLE`. -/
def NONSYMBOLIC_STYLE : Nat := 0x00020

/-- The mask `fem::ITALIC_STYLE`. -/
def ITALIC_STYLE : Nat := 0x00040

/-- The mask `fem::ALLCAPS_STYLE`. -/
def ALLCAPS_STYLE : Nat := 0x10000

/-- The mask `fem::SMALLCAPS_STYLE`. -/
def SMALLCAPS_STYLE : Nat := 0x20000

/-- The mask `fem::FORCEBOLD_STYLE`. -/
def FORCEBOLD_STYLE : Nat := 0x40000

/-- FreeType's `FT_STYLE_FLAG_ITALIC`. -/
def FT_STYLE_FLAG_ITALIC : Nat := 0x1

/-- The class `AdvancedTypefaceMetrics`; `fStyle` and `fEmSize` are `uint16_t`, the fields
from `fItalicAngle` to `fMaxAdvWidth` are `int16_t`. -/
structure AdvancedTypefaceMetrics where
  pFontName : String
  fType : FontType
  fXMin : Int
  fYMin : Int
  fXMax : Int
  fYMax : Int
  fNumGlyphs : Int
  fNumCharmaps : Int
  fStyle : Nat
  fEmSize : Nat
  fItalicAngle : Int
  fAscent : Int
  fDescent : Int
  fStemV : Int
  fCapHeight : Int
  fMaxAdvWidth : Int
  isMultiMaster : Bool
  isScalable : Bool
  hasVerticalMetrics : Bool
deriving DecidableEq, Repr

/-- What FreeType tells about an opened face, as far as `getAdvancedTypefaceMetrics` asks:
each field is the answer of the call or macro of that name (`none` is `NULL`, or an error
return for `FT_Get_PS_Font_Info`, whose answer is `italic_angle`); `head_Units_Per_EM`,
`post_italicAngle`, `pclt` (`CapHeight` and `SerifStyle`) and `os2_sCapHeight` are read from the
tables that `FT_Get_Sfnt_Table` returns; `cbox` is what `FT_Outline_Get_CBox` stores after
`FT_Load_Glyph(face, glyph_id, FT_LOAD_NO_SCALE)`. -/
structure FT_FaceRec where
  FT_Get_Postscript_Name : Option String
  FT_HAS_MULTIPLE_MASTERS : Bool
  num_glyphs : Int
  num_charmaps : Int
  FT_Get_X11_Font_Format : Option String
  head_Units_Per_EM : Option Int
  FT_IS_FIXED_WIDTH : Bool
  style_flags : Nat
  FT_Get_PS_Font_Info : Option Int
  post_italicAngle : Option Int
  ascender : Int
  descender : Int
  FT_Get_Char_Index : Char → Nat
  cbox : Nat → FT_BBox
  pclt : Option (Int × Nat)
  os2_sCapHeight : Option Int
  max_advance_width : Int
  bbox : FT_BBox
  FT_IS_SCALABLE : Bool
  FT_HAS_VERTICAL : Bool

/-- `GetLetterCBox`: `none` is the return value `false`. -/
def GetLetterCBox (face : FT_FaceRec) (letter : Char) : Option FT_BBox :=
  let glyph_id := face.FT_Get_Char_Index letter
  if glyph_id = 0 then none else some (face.cbox glyph_id)

/-- The loop over `stem_chars` in `getAdvancedTypefaceMetrics`, with the characters that are
left, `min_width` and the current value of `fStemV`; the result is the final `fStemV`.
`width` is an `int16_t`. -/
def stemLoop (face : FT_FaceRec) : List Char → Int → Int → Int
  | [], _, fStemV => fStemV
  | c :: rest, min_width, fStemV =>
    match GetLetterCBox face c with
    | some bbox =>
      let width := toS16 (bbox.xMax - bbox.xMin)
      if 0 < width ∧ width < min_width then stemLoop face rest width width
      else stemLoop face rest min_width fStemV
    | none => stemLoop face rest min_width fStemV

/-- The guess of the cap height from the boxes of `M` and `X`, when the face has neither a PCLT
nor an OS/2 table; `fresh` is the value the field had before. -/
def capHeightGuess (face : FT_FaceRec) (fresh : Int) : Int :=
  match GetLetterCBox face 'M', GetLetterCBox face 'X' with
  | some m, some x => toS16 (Int.tdiv (wrapS32 (m.yMax - m.yMin + x.yMax - x.yMin)) 2)
  | some m, none => toS16 (m.yMax - m.yMin)
  | none, some x => toS16 (x.yMax - x.yMin)
  | none, none => fresh

/-- `FontEngineFT::getAdvancedTypefaceMetrics` (both overloads). `ANDROID` stands for
`defined(SK_BUILD_FOR_MAC) || defined(ANDROID)`; `srcOk` tells whether the path (or the buffer
and its length) is non-null, `initOk` whether `FT_Init_FreeType` succeeded, `face` is the face
that `FT_New_Face` (or `FT_Open_Face`) opened, `fresh` is the content of the object that
`new AdvancedTypefaceMetrics` returns, whose fields `fType` and `fCapHeight` are not written on
every path. The inner `none` is `NULL`; the outer `none` is an abort of `assert`, or a null
pointer handed to `strdup` or `strcmp`. -/
def FontEngineFT.getAdvancedTypefaceMetrics (ft : FreeType) (ANDROID srcOk initOk : Bool)
    (face : Option FT_FaceRec) (fresh : AdvancedTypefaceMetrics) :
    Option (Option AdvancedTypefaceMetrics) :=
  if ANDROID then some none
  else if !srcOk then (if ft.NDEBUG then some none else none)
  else if !initOk then some none
  else
    match face with
    | none => some none
    | some face =>
      match face.FT_Get_Postscript_Name, face.FT_Get_X11_Font_Format with
      | some name, some fontType =>
        let fType : FontType :=
          if fontType = "Type 1" then FontType.TYPE1_FONT
          else if fontType = "CID Type 1" then FontType.TYPE1CID_FONT
          else if fontType = "CFF" then FontType.CFF_FONT
          else if fontType = "TrueType" then FontType.TRUETYPE_FONT
          else fresh.fType
        let fEmSize : Nat :=
          if fontType = "TrueType" then
            match face.head_Units_Per_EM with
            | some u => toU16 u
            | none => 1000
          else 1000
        let style0 : Nat :=
          (if face.FT_IS_FIXED_WIDTH then FIXEDPITCH_STYLE else 0) |||
          (if face.style_flags &&& FT_STYLE_FLAG_ITALIC ≠ 0 then ITALIC_STYLE else 0) |||
          SYMBOLIC_STYLE
        let fItalicAngle : Int :=
          match face.FT_Get_PS_Font_Info, face.post_italicAngle with
          | some angle, _ => toS16 angle
          | none, some angle => toS16 (angle / 65536)
          | none, none => 0
        let style1 : Nat :=
          match face.pclt with
          | some (_, serifStyle) =>
            let serif_style := serifStyle &&& 0x3F
            if 2 ≤ serif_style ∧ serif_style ≤ 6 then style0 ||| SERIF_STYLE
            else if 9 ≤ serif_style ∧ serif_style ≤ 12 then style0 ||| SCRIPT_STYLE
            else style0
          | none => style0
        let fCapHeight : Int :=
          match face.pclt, face.os2_sCapHeight with
          | some (capHeight, _), _ => toS16 capHeight
          | none, some sCapHeight => toS16 sCapHeight
          | none, none => capHeightGuess face fresh.fCapHeight
        some (some {
          pFontName := name
          isMultiMaster := face.FT_HAS_MULTIPLE_MASTERS
          fNumGlyphs := wrapS32 face.num_glyphs
          fNumCharmaps := wrapS32 face.num_charmaps
          fEmSize := fEmSize
          fType := fType
          fStyle := style1
          fItalicAngle := fItalicAngle
          fAscent := toS16 face.ascender
          fDescent := toS16 face.descender
          fStemV := stemLoop face ['i', 'I', '!', '1'] 32767 0
          fCapHeight := fCapHeight
          fMaxAdvWidth := toS16 face.max_advance_width
          fXMin := wrapS32 face.bbox.xMin
          fYMin := wrapS32 face.bbox.yMin
          fXMax := wrapS32 face.bbox.xMax
          fYMax := wrapS32 face.bbox.yMax
          isScalable := face.FT_IS_SCALABLE
          hasVerticalMetrics := face.FT_HAS_VERTICAL })
      | _, _ => none

/-- FreeType's `FT_FSTYPE_RESTRICTED_LICENSE_EMBEDDING`. -/
def FT_FSTYPE_RESTRICTED_LICENSE_EMBEDDING : Nat := 0x0002

/-- FreeType's `FT_FSTYPE_BITMAP_EMBEDDING_ONLY`. -/
def FT_FSTYPE_BITMAP_EMBEDDING_ONLY : Nat := 0x0200

/-- `FontEngineFT::canEmbed(path)`, for a FreeType that defines
`FT_FSTYPE_RESTRICTED_LICENSE_EMBEDDING`. `ANDROID` stands for
`defined(SK_BUILD_FOR_MAC) || defined(ANDROID)`; `srcOk` tells whether the path is non-null,
`initOk` whether `FT_Init_FreeType` returned `0`, `fsType` is the answer of
`FT_Get_FSType_Flags` for the face that `FT_New_Face` opened, or `none` when the face cannot be
opened. The outer `none` is the abort of `assert(path)`. -/
def FontEngineFT.canEmbed (ft : FreeType) (ANDROID srcOk initOk : Bool) (fsType : Option Nat) :
    Option Bool :=
  if ANDROID then some false
  else if !srcOk then (if ft.NDEBUG then some false else none)
  else if !initOk then some false
  else
    match fsType with
    | none => some false
    | some flags =>
      some (decide (flags &&&
        (FT_FSTYPE_RESTRICTED_LICENSE_EMBEDDING ||| FT_FSTYPE_BITMAP_EMBEDDING_ONLY) = 0))

/-- A face that declares the format `fontType`: four glyphs, whose boxes are `10` font units
wide times the glyph index, one for each of `i`, `I`, `!` in that order, none for any other
character (used to instantiate the metrics theorems). -/
def plainFace (fontType : String) : FT_FaceRec where
  FT_Get_Postscript_Name := some "Plain"
  FT_HAS_MULTIPLE_MASTERS := false
  num_glyphs := 4
  num_charmaps := 1
  FT_Get_X11_Font_Format := some fontType
  head_Units_Per_EM := some 2048
  FT_IS_FIXED_WIDTH := false
  style_flags := 0
  FT_Get_PS_Font_Info := none
  post_italicAngle := none
  ascender := 1900
  descender := -500
  FT_Get_Char_Index := fun c => if c = 'i' then 1 else if c = 'I' then 2 else if c = '!' then 3
    else 0
  cbox := fun g => { xMin := 0, yMin := 0, xMax := 10 * g, yMax := 100 }
  pclt := none
  os2_sCapHeight := some 1400
  max_advance_width := 2000
  bbox := { xMin := -100, yMin := -500, xMax := 2000, yMax := 1900 }
  FT_IS_SCALABLE := true
  FT_HAS_VERTICAL := false

/-- The content of a freshly allocated `AdvancedTypefaceMetrics` object, here all zero with the
type `OTHER_FONT` (used to instantiate the metrics theorems). -/
def freshMetrics : AdvancedTypefaceMetrics where
  pFontName := ""
  fType := FontType.OTHER_FONT
  fXMin := 0
  fYMin := 0
  fXMax := 0
  fYMax := 0
  fNumGlyphs := 0
  fNumCharmaps := 0
  fStyle := 0
  fEmSize := 0
  fItalicAngle := 0
  fAscent := 0
  fDescent := 0
  fStemV := 0
  fCapHeight := 0
  fMaxAdvWidth := 0
  isMultiMaster := false
  isScalable := false
  hasVerticalMetrics := false

/-! ## Glyph to Unicode tables of `FontEngineFT` -/

/-- One charmap of a face: its platform and encoding identifiers, and the pairs
(`charCode`, `glyphIndex`) that the loop `for (charCode = FT_Get_First_Char(face, &glyphIndex);
glyphIndex != 0; charCode = FT_Get_Next_Char(face, charCode, &glyphIndex))` sees in its
successive iterations once the charmap is selected; `charCode` is an `int32_t`. The enumeration
is taken to end. -/
structure FT_CharMapRec where
  platform_id : Nat
  encoding_id : Nat
  chars : List (Int × Nat)
deriving DecidableEq, Repr

/-- The inner loop of `FontEngineFT::getGlyphsUnicode` over the entries of the selected
charmap; `out` is the caller's array `pGlyphsUnicode`, by index. `start + count - 1` is computed
on `uint32_t`. -/
def unicodeCmapLoop (start count : Nat) (preferredMap : Bool) :
    List (Int × Nat) → (Nat → Int) → (Nat → Int)
  | [], out => out
  | (charCode, glyphIndex) :: rest, out =>
    if glyphIndex = 0 then out
    else if start ≤ glyphIndex ∧ glyphIndex ≤ (start + count + 4294967295) % 4294967296 then
      if charCode ≠ 0 ∧ (out (glyphIndex - start) = 0 ∨ preferredMap = true) then
        unicodeCmapLoop start count preferredMap rest
          (Function.update out (glyphIndex - start) charCode)
      else unicodeCmapLoop start count preferredMap rest out
    else unicodeCmapLoop start count preferredMap rest out

/-- The loop `for (int i = 0; i < face->num_charmaps; ++i)` of
`FontEngineFT::getGlyphsUnicode` over the charmaps that are left. -/
def unicodeCharmapsLoop (start count : Nat) : List FT_CharMapRec → (Nat → Int) → (Nat → Int)
  | [], out => out
  | cm :: rest, out =>
    if cm.platform_id ≠ 0 ∧ cm.platform_id ≠ 3 then unicodeCharmapsLoop start count rest out
    else if cm.platform_id = 3 ∧ cm.encoding_id ≠ 1 ∧ cm.encoding_id ≠ 10 then
      unicodeCharmapsLoop start count rest out
    else
      let preferredMap : Bool :=
        (cm.platform_id = 3 ∧ cm.encoding_id = 10) ∨ (cm.platform_id = 0 ∧ cm.encoding_id = 3)
      unicodeCharmapsLoop start count rest
        (unicodeCmapLoop start count preferredMap cm.chars out)

/-- `FontEngineFT::getGlyphsUnicode` (both overloads): the return value and the caller's array
after the call. `argsOk` tells whether the path (or the buffer and its length) and
`pGlyphsUnicode` are non-null, `initErr` and `faceErr` are the return values of
`FT_Init_FreeType` and of `FT_New_Face` (or `FT_Open_Face`), `charmaps` are the charmaps of the
face. `none` when `assert(path && pGlyphsUnicode)` aborts. -/
def FontEngineFT.getGlyphsUnicode (ft : FreeType) (argsOk : Bool) (initErr faceErr : Nat)
    (charmaps : List FT_CharMapRec) (start count : Nat) (pGlyphsUnicode : Nat → Int) :
    Option (Nat × (Nat → Int)) :=
  if !argsOk then (if ft.NDEBUG then some (0, pGlyphsUnicode) else none)
  else if initErr ≠ 0 then some (initErr, pGlyphsUnicode)
  else if faceErr ≠ 0 then some (faceErr, pGlyphsUnicode)
  else some (0, unicodeCharmapsLoop start count charmaps pGlyphsUnicode)

/-! ## The outline translation of `FontScalerFT::getGlyphImage` -/

/-- The two arguments of the call `FT_Outline_Translate(outline, dx - ((bbox.xMin + dx) & ~63),
dy - ((bbox.yMin + dy) & ~63))` in `FontScalerFT::getGlyphImage`, for the control box `bbox`
of the loaded outline; `dx`, `dy` are `int`. -/
def FontScalerFT.outlineTranslation (inst : InstView) (bbox : FT_BBox) (fracX fracY : Int) :
    Int × Int :=
  let dx : Int := if inst.subpixelPositioning then fracX / 1024 else 0
  let dy : Int := if inst.subpixelPositioning then wrapS32 (-(fracY / 1024)) else 0
  (dx - floor64 (bbox.xMin + dx), dy - floor64 (bbox.yMin + dy))

/-! ## `FontEngineFT::isFontSupported` -/

/-- The array `FontEngineFT::formats`, `{ "ttf", NULL }`: the null pointer that ends it is its
second element. -/
def FontEngineFT.formats : List (Option String) := [some "ttf", none]

/-- The loop `for (i = 0; i < formatCount; i++) if (!strcmp(formats[i], fileExtension))
{ retVal = true; break; }` of `FontEngineFT::isFontSupported` over the elements of `formats`
that are left, where `formatCount` is `sizeof(formats) / sizeof(formats[0])`, the number of
elements of the array. `none` when `strcmp` is handed a null pointer. -/
def formatsLoop (fileExtension : String) : List (Option String) → Option Bool
  | [] => some false
  | none :: _ => none
  | some format :: rest =>
    if format = fileExtension then some true else formatsLoop fileExtension rest

/-- `FontEngineFT::isFontSupported(path, isLoad)`. A C string is the `String` of its `char`s, so
`strlen` is its length; `initOk` tells whether `FT_Init_FreeType` returned `0`, `faceErr` is the
return value of `FT_New_Face`. `len` and `idx = len - 3` are `unsigned int`. `none` when
`assert(path)` aborts, when `fileExtension = &path[idx]` points outside the string, or when
`strcmp` is handed a null pointer. -/
def FontEngineFT.isFontSupported (ft : FreeType) (initOk : Bool) (faceErr : Nat)
    (path : Option String) (isLoad : Bool) : Option Bool :=
  match path with
  | none => if ft.NDEBUG then some false else none
  | some p =>
    if !initOk then some false
    else if isLoad then some (decide (faceErr = 0))
    else
      let len : Nat := p.length % 4294967296
      let idx : Nat := (len + 4294967293) % 4294967296
      if idx > 0 then
        if idx > len then none
        else formatsLoop (String.mk (p.data.drop idx)) FontEngineFT.formats
      else some false

/-! ## Runs of the cache of `FontEngineFT` -/

/-- One action of a client on the engine: a call of `createFontScalerContext` with a request, or
the deletion of a scaler. -/
inductive CacheOp where
  | create (desc : FontScalerInfo)
  | delete (scaler : FontScalerFT)
deriving DecidableEq, Repr

/-- The engine and the live scalers (returned by a `create` and not yet deleted, latest first)
after the action `op`. Nothing is executed once the process has aborted, and only a live scaler
can be deleted. -/
def cacheStep (ft : FreeType) (c : EngineState × List FontScalerFT) (op : CacheOp) :
    EngineState × List FontScalerFT :=
  if c.1.aborted then c
  else
    match op with
    | CacheOp.create desc =>
      match FontEngineFT.createFontScalerContext ft c.1 desc with
      | (some scaler, st1) => (st1, scaler :: c.2)
      | (none, st1) => (st1, c.2)
    | CacheOp.delete scaler =>
      if scaler ∈ c.2 then (FontScalerFT.destroy ft c.1 scaler, c.2.erase scaler) else c

/-- The engine and the live scalers after the actions `ops`, first action first. -/
def runOps (ft : FreeType) :
    List CacheOp → EngineState × List FontScalerFT → EngineState × List FontScalerFT
  | [], c => c
  | op :: rest, c => runOps ft rest (cacheStep ft c op)

/-- The largest number of scalers that are live at the same time in the course of the actions
`ops`. -/
def peakLive (ft : FreeType) : List CacheOp → EngineState × List FontScalerFT → Nat
  | [], c => c.2.length
  | op :: rest, c => max c.2.length (peakLive ft rest (cacheStep ft c op))

/-- The instances of all the fonts of a font list. -/
def allInsts : List FontFT → List FontInstFT
  | [] => []
  | f :: rest => f.pFontInstList ++ allInsts rest

/-- The number of live scalers bound to the instance at address `a`. -/
def boundScalers (live : List FontScalerFT) (a : Nat) : Nat :=
  live.countP (fun s => s.pFontInst == a)

/-- The reference counts of the instances `insts` agree with the live scalers `live`: each
count is the number of live scalers bound to the instance and is at least `1`; the instances
have pairwise distinct addresses below `n`. -/
def InstsOk (live : List FontScalerFT) (n : Nat) (insts : List FontInstFT) : Prop :=
  (∀ i ∈ insts, i.refCnt = boundScalers live i.addr ∧ 1 ≤ i.refCnt ∧ i.addr < n) ∧
  (insts.map (fun i => i.addr)).Nodup

/-- The reference counts of the font list `l`, the global `gCountFontFT = g` and the live
scalers `live` agree, and the allocator has handed out the addresses below `n`. -/
def CacheInvOf (l : List FontFT) (g : Int) (n : Nat) (live : List FontScalerFT) : Prop :=
  (∀ f ∈ l, f.refCnt = f.pFontInstList.length ∧ 1 ≤ f.refCnt) ∧
  InstsOk live n (allInsts l) ∧
  g = (l.length : Int) ∧
  (∀ s ∈ live, s.pFontInst < n)

/-- The invariant of the cache: `CacheInvOf` on the engine state and the live scalers. -/
def CacheInv (c : EngineState × List FontScalerFT) : Prop :=
  CacheInvOf c.1.pFontList c.1.gCountFontFT c.1.nextAddr c.2

/-! ## Runs that fill the instance list of one font -/

/-- `n` successive calls of `createFontScalerContext` for the font file `path`, unskewed and
without flags, at the 16.16 scales `65536 + 1, 65536 + 2, …, 65536 + n` (first call first):
the final state. -/
def createScales (ft : FreeType) (path : String) : Nat → EngineState → EngineState
  | 0, st => st
  | n + 1, st =>
    (FontEngineFT.createFontScalerContext ft (createScales ft path n st)
      (plainRequest path ((n : Int) + 65537) 0)).2

/-- The instances that `n` calls at the scales `65536 + 1, …, 65536 + n` put into the list of
their font on a fresh engine, from the head: the instance of the `k`-th call lies at address
`2 * k`, with reference count `1`. -/
def scaleInsts (path : String) : Nat → List FontInstFT
  | 0 => []
  | n + 1 =>
    FontInstFT.ofRequest (2 * n + 2)
      ⟨⟨65536, 0, 0, 65536⟩, (n : Int) + 65537, (n : Int) + 65537, 10⟩
      (plainRequest path ((n : Int) + 65537) 0) 1 :: scaleInsts path n

/-! ## Theorems -/

theorem walkReturn_first {σ ρ : Type} (call : FontEngine σ → σ → ρ × σ) (ok : ρ → Bool)
    (sentinel : ρ) (pre : List (FontEngine σ)) (e : FontEngine σ) (post : List (FontEngine σ)) :
    ∀ (w : σ) (log : List String), allFail call ok pre w = true →
      ok (call e (worldAfter call pre w)).1 = true →
      walkReturn call ok sentinel (pre ++ e :: post) w log =
        ⟨(call e (worldAfter call pre w)).1, (call e (worldAfter call pre w)).2,
          log ++ (pre.map (fun x => x.getName) ++ [e.getName])⟩ := by
  induction pre with
  | nil =>
    intro w log _ hok
    simp [walkReturn, worldAfter] at hok ⊢
    simp [hok]
  | cons a rest ih =>
    intro w log hfail hok
    simp only [allFail, Bool.and_eq_true, Bool.not_eq_true_eq_eq_false, Bool.not_eq_eq_eq_not,
      Bool.not_true] at hfail
    simp only [worldAfter] at hok
    have h := ih (call a w).2 (log ++ [a.getName]) hfail.2 hok
    simp [walkReturn, hfail.1, worldAfter, h]

theorem walkBreak_first {σ ρ : Type} (call : FontEngine σ → σ → ρ × σ) (ok : ρ → Bool)
    (pre : List (FontEngine σ)) (e : FontEngine σ) (post : List (FontEngine σ)) :
    ∀ (r0 : ρ) (w : σ) (log : List String), allFail call ok pre w = true →
      ok (call e (worldAfter call pre w)).1 = true →
      walkBreak call ok (pre ++ e :: post) r0 w log =
        ⟨(call e (worldAfter call pre w)).1, (call e (worldAfter call pre w)).2,
          log ++ (pre.map (fun x => x.getName) ++ [e.getName])⟩ := by
  induction pre with
  | nil =>
    intro r0 w log _ hok
    simp [walkBreak, worldAfter] at hok ⊢
    simp [hok]
  | cons a rest ih =>
    intro r0 w log hfail hok
    simp only [allFail, Bool.and_eq_true, Bool.not_eq_true_eq_eq_false, Bool.not_eq_eq_eq_not,
      Bool.not_true] at hfail
    simp only [worldAfter] at hok
    have h := ih (call a w).1 (call a w).2 (log ++ [a.getName]) hfail.2 hok
    simp [walkBreak, hfail.1, worldAfter, h]

/-- C1. For every delegated manager operation: if the engines before `e` in the list all fail
when invoked in turn and `e` succeeds, the manager returns the return value of `e`, leaves the
world as `e` left it, and has invoked exactly the engines up to and including `e` (none of
`post`). In particular with an always-failing engine `A` ahead of an always-succeeding engine
`B` the result is the one of `B`. -/
theorem manager_returns_first_success {σ ρ : Type} (call : FontEngine σ → σ → ρ × σ)
    (ok : ρ → Bool) (run : List (FontEngine σ) → σ → Dispatch ρ σ)
    (hop : ManagerOp σ ρ call ok run) :
    (∀ (pre : List (FontEngine σ)) (e : FontEngine σ) (post : List (FontEngine σ)) (w : σ),
      allFail call ok pre w = true → ok (call e (worldAfter call pre w)).1 = true →
      run (pre ++ e :: post) w =
        ⟨(call e (worldAfter call pre w)).1, (call e (worldAfter call pre w)).2,
          pre.map (fun x => x.getName) ++ [e.getName]⟩) ∧
    (∀ (A B : FontEngine σ) (w : σ), (∀ v, ok (call A v).1 = false) →
      (∀ v, ok (call B v).1 = true) →
      run [A, B] w = ⟨(call B (call A w).2).1, (call B (call A w).2).2, [A.getName, B.getName]⟩) := by
  have key : ∀ (pre : List (FontEngine σ)) (e : FontEngine σ) (post : List (FontEngine σ))
      (w : σ), allFail call ok pre w = true → ok (call e (worldAfter call pre w)).1 = true →
      run (pre ++ e :: post) w =
        ⟨(call e (worldAfter call pre w)).1, (call e (worldAfter call pre w)).2,
          pre.map (fun x => x.getName) ++ [e.getName]⟩ := by
    intro pre e post w hfail hok
    cases hop with
    | createFontScalerContext desc =>
      simpa [FontEngineManager.createFontScalerContext] using
        walkReturn_first _ _ none pre e post w [] hfail hok
    | getFontNameAndAttribute src length =>
      simpa [FontEngineManager.getFontNameAndAttribute] using
        walkReturn_first _ _ 0 pre e post w [] hfail hok
    | isFontSupported src isLoad =>
      simpa [FontEngineManager.isFontSupported] using
        walkReturn_first _ _ false pre e post w [] hfail hok
    | getFontUnitsPerEm src =>
      simpa [FontEngineManager.getFontUnitsPerEm] using
        walkBreak_first _ _ pre e post 0 w [] hfail hok
    | getGlyphsAdvance src start count =>
      simpa [FontEngineManager.getGlyphsAdvance] using
        walkBreak_first _ _ pre e post 0 w [] hfail hok
    | getGlyphsName src start count =>
      simpa [FontEngineManager.getGlyphsName] using
        walkBreak_first _ _ pre e post 0 w [] hfail hok
    | getGlyphsUnicode src start count =>
      simpa [FontEngineManager.getGlyphsUnicode] using
        walkBreak_first _ _ pre e post 0 w [] hfail hok
    | getAdvancedTypefaceMetrics src =>
      simpa [FontEngineManager.getAdvancedTypefaceMetrics] using
        walkReturn_first _ _ none pre e post w [] hfail hok
  refine ⟨key, ?_⟩
  intro A B w hA hB
  have h := key [A] B [] w (by simp [allFail, hA]) (by simp [worldAfter, hB])
  simpa [worldAfter] using h

/-- C1 at the engines `[A (always fails), B (always succeeds), C]` for `getGlyphsAdvance`: the
manager returns the error code `0` of `B` after two invocations, `C` is not invoked. -/
theorem manager_returns_first_success_witness :
    allFail (fun e => e.getGlyphsAdvance (FontSource.path "a.ttf") 0 4) (fun errCode => errCode == 0)
        [failingEngine "A"] 0 = true ∧
      FontEngineManager.getGlyphsAdvance
        [failingEngine "A", succeedingEngine "B" 7, succeedingEngine "C" 9]
        (FontSource.path "a.ttf") 0 4 0 = ⟨0, 2, ["A", "B"]⟩ :=
  ⟨rfl, (manager_returns_first_success _ _ _
      (ManagerOp.getGlyphsAdvance (FontSource.path "a.ttf") 0 4)).1
    [failingEngine "A"] (succeedingEngine "B" 7) [succeedingEngine "C" 9] 0 rfl rfl⟩

/-! ### The fixed-point divide -/

theorem wrapS32_of_range {x : Int} (h1 : -2147483648 ≤ x) (h2 : x < 2147483648) :
    wrapS32 x = x := by
  unfold wrapS32; omega

theorem wrapS32_sub_wrapS32 (a b : Int) : wrapS32 (wrapS32 a - b) = wrapS32 (a - b) := by
  unfold wrapS32; omega

theorem wrapS32_add_wrapS32 (a b : Int) : wrapS32 (wrapS32 a + b) = wrapS32 (a + b) := by
  unfold wrapS32; omega

theorem int_xor_zero (n : Int) : Int.xor n 0 = n := by
  cases n <;> simp [Int.xor]

theorem int_xor_neg_one (n : Int) : Int.xor n (-1) = -n - 1 := by
  cases n with
  | ofNat k =>
    show Int.xor (Int.ofNat k) (Int.negSucc 0) = _
    simp [Int.xor, Int.negSucc_eq]
    omega
  | negSucc k =>
    show Int.xor (Int.negSucc k) (Int.negSucc 0) = _
    simp [Int.xor, Int.negSucc_eq]

theorem int_xor_neg_iff (a b : Int) : Int.xor a b < 0 ↔ ((a < 0) ↔ ¬ (b < 0)) := by
  cases a <;> cases b <;> simp [Int.xor, Int.negSucc_lt_zero]
  omega

theorem FEM16Dot16Abs_eq {v : Int} (h1 : -2147483648 < v) (h2 : v < 2147483648) :
    FEM16Dot16Abs v = (v.natAbs : Int) := by
  unfold FEM16Dot16Abs FEM16Dot16ExtractSign
  by_cases hv : v < 0
  · simp only [hv, if_true, int_xor_neg_one]
    rw [wrapS32_of_range (by omega) (by omega)]; omega
  · simp only [hv, if_false, int_xor_zero]
    rw [wrapS32_of_range (by omega) (by omega)]; omega

theorem FEM16Dot16ApplySign_eq {m : Int} (numer denom : Int) (hn : numer ≠ 0) (hd : denom ≠ 0)
    (h1 : 0 ≤ m) (h2 : m ≤ MaxS32) :
    FEM16Dot16ApplySign m (FEM16Dot16ExtractSign (Int.xor numer denom)) =
      Int.sign numer * Int.sign denom * m := by
  unfold FEM16Dot16ApplySign FEM16Dot16ExtractSign
  unfold MaxS32 at h2
  have hx := int_xor_neg_iff numer denom
  rcases lt_trichotomy numer 0 with hn0 | hn0 | hn0
  · rcases lt_trichotomy denom 0 with hd0 | hd0 | hd0
    · have : ¬ Int.xor numer denom < 0 := by rw [hx]; simp [hn0, hd0]
      simp only [this, if_false, int_xor_zero, Int.sign_eq_neg_one_of_neg hn0,
        Int.sign_eq_neg_one_of_neg hd0]
      rw [wrapS32_of_range (by omega) (by omega)]; ring
    · exact absurd hd0 hd
    · have : Int.xor numer denom < 0 := by rw [hx]; simp [hn0]; omega
      simp only [this, if_true, int_xor_neg_one, Int.sign_eq_neg_one_of_neg hn0,
        Int.sign_eq_one_of_pos hd0]
      rw [wrapS32_of_range (by omega) (by omega)]; ring
  · exact absurd hn0 hn
  · rcases lt_trichotomy denom 0 with hd0 | hd0 | hd0
    · have : Int.xor numer denom < 0 := by rw [hx]; simp [hd0]; omega
      simp only [this, if_true, int_xor_neg_one, Int.sign_eq_one_of_pos hn0,
        Int.sign_eq_neg_one_of_neg hd0]
      rw [wrapS32_of_range (by omega) (by omega)]; ring
    · exact absurd hd0 hd
    · have : ¬ Int.xor numer denom < 0 := by rw [hx]; simp; omega
      simp only [this, if_false, int_xor_zero, Int.sign_eq_one_of_pos hn0,
        Int.sign_eq_one_of_pos hd0]
      rw [wrapS32_of_range (by omega) (by omega)]; ring

theorem clzFrom_spec : ∀ (k x : Nat), 0 < x → x < 2 ^ k →
    clzFrom k x < k ∧ 2 ^ k ≤ 2 * (x * 2 ^ clzFrom k x) ∧ x * 2 ^ clzFrom k x < 2 ^ k := by
  intro k
  induction k with
  | zero => intro x h1 h2; simp at h2; omega
  | succ k ih =>
    intro x h1 h2
    unfold clzFrom
    by_cases h : 2 ^ k ≤ x
    · simp only [h, if_true, pow_zero, mul_one]
      refine ⟨by omega, ?_, h2⟩
      rw [pow_succ]; omega
    · simp only [h, if_false]
      obtain ⟨a, b, c⟩ := ih x h1 (by omega)
      refine ⟨by omega, ?_, ?_⟩
      · rw [pow_succ, pow_succ]; nlinarith
      · rw [pow_succ, pow_succ]; nlinarith
theorem divBitsIter_eq : ∀ (k r D res : Nat), r < D → D < 2147483648 → 2 ^ k ∣ res →
    divBitsIter k (r : Int) (D : Int) res = res + r * 2 ^ k / D := by
  intro k
  induction k with
  | zero =>
    intro r D res hr _ _
    simp [divBitsIter, Nat.div_eq_of_lt hr]
  | succ k ih =>
    intro r D res hr hD hres
    have hx : wrapS32 (wrapS32 ((r : Int) * 2) - (D : Int)) = (r : Int) * 2 - D := by
      rw [wrapS32_sub_wrapS32, wrapS32_of_range] <;> omega
    unfold divBitsIter
    rw [hx]
    by_cases hge : (r : Int) * 2 - D ≥ 0
    · simp only [hge, if_true]
      obtain ⟨a, ha⟩ := hres
      have hor : res ||| 1 <<< k = res + 2 ^ k := by
        rw [ha, Nat.shiftLeft_eq, one_mul]
        exact (Nat.mul_add_lt_is_or (Nat.pow_lt_pow_right (by norm_num) (Nat.lt_succ_self k)) a).symm
      have hcast : (r : Int) * 2 - D = ((r * 2 - D : Nat) : Int) := by omega
      rw [hor, hcast, ih (r * 2 - D) D (res + 2 ^ k) (by omega) hD
        (by rw [ha]; exact ⟨2 * a + 1, by rw [pow_succ]; ring⟩)]
      have hsplit : r * 2 ^ (k + 1) = (r * 2 - D) * 2 ^ k + 2 ^ k * D := by
        have : r * 2 = (r * 2 - D) + D := by omega
        calc r * 2 ^ (k + 1) = (r * 2) * 2 ^ k := by rw [pow_succ]; ring
          _ = ((r * 2 - D) + D) * 2 ^ k := by rw [← this]
          _ = (r * 2 - D) * 2 ^ k + 2 ^ k * D := by ring
      rw [hsplit, Nat.add_mul_div_right _ _ (by omega : 0 < D)]
      omega
    · simp only [hge, if_false]
      have hback : wrapS32 ((r : Int) * 2 - D + D) = ((r * 2 : Nat) : Int) := by
        have e : (r : Int) * 2 - D + D = ((r * 2 : Nat) : Int) := by push_cast; ring
        rw [e, wrapS32_of_range (by omega) (by omega)]
      have hpow : r * 2 * 2 ^ k = r * 2 ^ (k + 1) := by rw [pow_succ]; ring
      rw [hback, ih (r * 2) D res (by omega) hD
        (Dvd.dvd.trans (Dvd.intro _ (pow_succ 2 k).symm) hres), hpow]

theorem scaledQuotient_double_left (n d : Nat) (s : Int) :
    scaledQuotient (n * 2) d (s - 1) = scaledQuotient n d s := by
  unfold scaledQuotient
  rcases lt_trichotomy s 0 with h | h | h
  · obtain ⟨k, hk⟩ := Int.exists_eq_neg_ofNat (le_of_lt h)
    subst hk
    have h1 : ¬ (0 : Int) ≤ -(k : Int) - 1 := by omega
    have h2 : ¬ (0 : Int) ≤ -(k : Int) := by omega
    have h3 : (-(-(k : Int) - 1)).toNat = k + 1 := by omega
    simp only [h1, h2, if_false, h3, neg_neg, Int.toNat_ofNat]
    rw [pow_succ, ← mul_assoc]
    exact Nat.mul_div_mul_right _ _ (by norm_num)
  · subst h
    simp
    rw [Nat.mul_div_mul_right _ _ (by norm_num)]
  · obtain ⟨k, hk⟩ := Int.eq_ofNat_of_zero_le (by omega : 0 ≤ s - 1)
    have hs : s = ((k + 1 : Nat) : Int) := by push_cast; omega
    subst hs
    have h1 : (0 : Int) ≤ ((k + 1 : Nat) : Int) - 1 := by omega
    have h3 : (((k + 1 : Nat) : Int) - 1).toNat = k := by omega
    simp only [h1, if_true, h3, Int.toNat_ofNat, Int.ofNat_nonneg]
    rw [pow_succ]; congr 1; ring

theorem scaledQuotient_double_right (n d : Nat) (s : Int) :
    scaledQuotient n (d * 2) (s + 1) = scaledQuotient n d s := by
  unfold scaledQuotient
  rcases lt_or_ge s 0 with h | h
  · obtain ⟨k, hk⟩ := Int.exists_eq_neg_ofNat (by omega : s + 1 ≤ 0)
    have hs : s = -((k + 1 : Nat) : Int) := by push_cast; omega
    subst hs
    have h2 : ¬ (0 : Int) ≤ -((k + 1 : Nat) : Int) := by omega
    have h3 : (-(-((k + 1 : Nat) : Int))).toNat = k + 1 := by omega
    by_cases hk0 : k = 0
    · subst hk0
      simp
    · have h1 : ¬ (0 : Int) ≤ -((k + 1 : Nat) : Int) + 1 := by omega
      have h4 : (-(-((k + 1 : Nat) : Int) + 1)).toNat = k := by omega
      simp only [h1, h2, if_false, h3, h4]
      rw [pow_succ]; congr 1; ring
  · obtain ⟨k, hk⟩ := Int.eq_ofNat_of_zero_le h
    subst hk
    have h1 : (0 : Int) ≤ (k : Int) + 1 := by omega
    have h3 : ((k : Int) + 1).toNat = k + 1 := by omega
    simp only [h1, if_true, h3, Int.toNat_ofNat, Int.ofNat_nonneg]
    rw [pow_succ, ← mul_assoc]
    exact Nat.mul_div_mul_right _ _ (by norm_num)

theorem scaledQuotient_scale_left (n d : Nat) (a : Nat) (s : Int) :
    scaledQuotient (n * 2 ^ a) d (s - a) = scaledQuotient n d s := by
  induction a generalizing s with
  | zero => simp
  | succ a ih =>
    have h := scaledQuotient_double_left (n * 2 ^ a) d (s - a)
    rw [ih] at h
    rw [← h, pow_succ, mul_assoc]
    congr 1
    push_cast; ring

theorem scaledQuotient_scale_right (n d : Nat) (b : Nat) (s : Int) :
    scaledQuotient n (d * 2 ^ b) (s + b) = scaledQuotient n d s := by
  induction b generalizing s with
  | zero => simp
  | succ b ih =>
    have h := scaledQuotient_double_right n (d * 2 ^ b) (s + b)
    rw [ih] at h
    rw [← h, pow_succ, mul_assoc]
    congr 1
    push_cast; ring
theorem builtin_clz_natCast (a : Nat) (h : a < 4294967296) :
    builtin_clz (a : Int) = clzFrom 32 a := by
  unfold builtin_clz
  rw [Int.emod_eq_of_lt (by omega) (by omega)]; simp

theorem clz_normalises (a : Nat) (h0 : 0 < a) (h1 : a < 2147483648) :
    ∃ nb : Nat, clzFrom 32 a = nb + 1 ∧ nb ≤ 30 ∧ 1073741824 ≤ a * 2 ^ nb ∧
      a * 2 ^ nb < 2147483648 := by
  obtain ⟨hc, hlo, hhi⟩ := clzFrom_spec 32 a h0 (by norm_num; omega)
  have hne : clzFrom 32 a ≠ 0 := by
    intro h; rw [h] at hlo; norm_num at hlo; omega
  obtain ⟨nb, hnb⟩ := Nat.exists_eq_succ_of_ne_zero hne
  rw [hnb] at hc hlo hhi
  rw [Nat.succ_eq_add_one, pow_succ 2 nb] at hlo hhi
  have e : a * (2 ^ nb * 2) = 2 * (a * 2 ^ nb) := by ring
  rw [e] at hlo hhi
  norm_num at hlo hhi
  exact ⟨nb, hnb, by omega, by omega, by omega⟩

theorem scaledQuotient_small (N D : Nat) (s : Int) (hs : s < 0) (hN : N < 2147483648)
    (hD : 1073741824 ≤ D) : scaledQuotient N D s = 0 := by
  unfold scaledQuotient
  rw [if_neg (by omega)]
  apply Nat.div_eq_of_lt
  obtain ⟨k, hk⟩ := Int.exists_eq_neg_ofNat (le_of_lt hs)
  subst hk
  have hk1 : 1 ≤ k := by omega
  have : 2 ^ 1 ≤ 2 ^ k := Nat.pow_le_pow_right (by norm_num) hk1
  simp only [neg_neg, Int.toNat_ofNat]
  nlinarith

theorem scaledQuotient_large (N D : Nat) (s : Int) (hs : 31 < s) (hN : 1073741824 ≤ N)
    (hD : D < 2147483648) (hD0 : 0 < D) : 2147483648 ≤ scaledQuotient N D s := by
  unfold scaledQuotient
  rw [if_pos (by omega)]
  obtain ⟨k, hk⟩ := Int.eq_ofNat_of_zero_le (by omega : 0 ≤ s)
  subst hk
  have hk1 : 32 ≤ k := by omega
  have h2 : 2 ^ 32 ≤ 2 ^ k := Nat.pow_le_pow_right (by norm_num) hk1
  simp only [Int.toNat_ofNat]
  rw [Nat.le_div_iff_mul_le hD0]
  nlinarith

theorem divBits_core (N D bits : Nat) (hN : N < 2147483648) (hD1 : 1073741824 ≤ D)
    (hD : D < 2147483648) (hb : bits ≤ 31) :
    (if (bits : Int) > 0 then
        divBitsIter bits
          (if wrapS32 ((N : Int) - D) ≥ 0 then wrapS32 ((N : Int) - D)
            else wrapS32 (wrapS32 ((N : Int) - D) + D)) (D : Int)
          (((if wrapS32 ((N : Int) - D) ≥ 0 then 1 else 0) <<< bits) % 4294967296)
      else (if wrapS32 ((N : Int) - D) ≥ 0 then 1 else 0)) = N * 2 ^ bits / D := by
  have hsub : wrapS32 ((N : Int) - D) = (N : Int) - D := by
    rw [wrapS32_of_range] <;> omega
  have hpow : 2 ^ bits < 4294967296 := by
    calc 2 ^ bits ≤ 2 ^ 31 := Nat.pow_le_pow_right (by norm_num) hb
      _ < 4294967296 := by norm_num
  rw [hsub]
  by_cases hge : (N : Int) - D ≥ 0
  · simp only [hge, if_true]
    have hcast : (N : Int) - D = ((N - D : Nat) : Int) := by omega
    have hsplit : N * 2 ^ bits = (N - D) * 2 ^ bits + 2 ^ bits * D := by
      have : N = (N - D) + D := by omega
      calc N * 2 ^ bits = ((N - D) + D) * 2 ^ bits := by rw [← this]
        _ = (N - D) * 2 ^ bits + 2 ^ bits * D := by ring
    by_cases hb0 : (bits : Int) > 0
    · simp only [hb0, if_true]
      rw [Nat.shiftLeft_eq, one_mul, Nat.mod_eq_of_lt hpow, hcast,
        divBitsIter_eq bits (N - D) D (2 ^ bits) (by omega) hD (dvd_refl _), hsplit,
        Nat.add_mul_div_right _ _ (by omega : 0 < D)]
      omega
    · have hz : bits = 0 := by omega
      subst hz
      simp only [hb0, if_false, pow_zero, mul_one]
      rw [Nat.div_eq_of_lt_le (k := 1) (by omega) (by omega)]
  · simp only [hge, if_false]
    have hback : wrapS32 ((N : Int) - D + D) = (N : Int) := by
      have e : (N : Int) - D + D = N := by ring
      rw [e, wrapS32_of_range (by omega) (by omega)]
    by_cases hb0 : (bits : Int) > 0
    · simp only [hb0, if_true]
      rw [hback, Nat.zero_shiftLeft, Nat.zero_mod,
        divBitsIter_eq bits N D 0 (by omega) hD (dvd_zero _)]
      omega
    · have hz : bits = 0 := by omega
      subst hz
      simp only [hb0, if_false, pow_zero, mul_one]
      rw [Nat.div_eq_of_lt (by omega)]
theorem DivBits_eq_truncatedQuotient (numer denom shift : Int)
    (hn1 : -2147483648 < numer) (hn2 : numer < 2147483648)
    (hd1 : -2147483648 < denom) (hd2 : denom < 2147483648) (hd0 : denom ≠ 0)
    (hs1 : -2147483618 ≤ shift) (hs2 : shift ≤ 2147483617) :
    DivBits numer denom shift = some (truncatedQuotient numer denom shift) := by
  by_cases hn0 : numer = 0
  · subst hn0; simp [DivBits, hd0, truncatedQuotient]
  · obtain ⟨nb, hnb, hnb30, hNlo, hNhi⟩ :=
      clz_normalises numer.natAbs (by omega) (by omega)
    obtain ⟨db, hdb, hdb30, hDlo, hDhi⟩ :=
      clz_normalises denom.natAbs (by omega) (by omega)
    have hbits : wrapS32 (wrapS32 (shift - ((nb + 1 : Nat) - 1 : Int)) + ((db + 1 : Nat) - 1 : Int))
        = shift - nb + db := by
      rw [wrapS32_add_wrapS32, wrapS32_of_range] <;> push_cast <;> omega
    have hq : scaledQuotient numer.natAbs denom.natAbs shift =
        scaledQuotient (numer.natAbs * 2 ^ nb) (denom.natAbs * 2 ^ db) (shift - nb + db) := by
      rw [scaledQuotient_scale_right, scaledQuotient_scale_left]
    have hnbt : (((nb + 1 : Nat) : Int) - 1).toNat = nb := by omega
    have hdbt : (((db + 1 : Nat) : Int) - 1).toNat = db := by omega
    have hneg : ¬ ((((db + 1 : Nat) : Int) - 1 < 0) ∨ (((nb + 1 : Nat) : Int) - 1 < 0)) := by
      omega
    have hNw : wrapS32 ((numer.natAbs : Int) * 2 ^ nb) = ((numer.natAbs * 2 ^ nb : Nat) : Int) := by
      have e : (numer.natAbs : Int) * 2 ^ nb = ((numer.natAbs * 2 ^ nb : Nat) : Int) := by
        push_cast; ring
      rw [e, wrapS32_of_range (by omega) (by omega)]
    have hDw : wrapS32 ((denom.natAbs : Int) * 2 ^ db) = ((denom.natAbs * 2 ^ db : Nat) : Int) := by
      have e : (denom.natAbs : Int) * 2 ^ db = ((denom.natAbs * 2 ^ db : Nat) : Int) := by
        push_cast; ring
      rw [e, wrapS32_of_range (by omega) (by omega)]
    unfold DivBits truncatedQuotient
    simp only [hd0, hn0, if_false, FEM16Dot16Abs_eq hn1 hn2, FEM16Dot16Abs_eq hd1 hd2,
      builtin_clz_natCast _ (by omega : numer.natAbs < 4294967296),
      builtin_clz_natCast _ (by omega : denom.natAbs < 4294967296), hnb, hdb, hbits,
      hnbt, hdbt, hneg, hNw, hDw, hq]
    generalize hN : numer.natAbs * 2 ^ nb = N at *
    generalize hD : denom.natAbs * 2 ^ db = D at *
    generalize hb : shift - (nb : Int) + db = bits at *
    by_cases h1 : bits < 0
    · rw [if_pos h1, scaledQuotient_small N D bits h1 hNhi hDlo]
      simp [MaxS32]
    · rw [if_neg h1]
      by_cases h2 : bits > 31
      · rw [if_pos h2]
        have hbig := scaledQuotient_large N D bits h2 hNlo hDhi (by omega)
        have hmin : min (scaledQuotient N D bits : Int) MaxS32 = MaxS32 := by
          unfold MaxS32; omega
        rw [hmin, FEM16Dot16ApplySign_eq numer denom hn0 hd0 (by unfold MaxS32; omega) le_rfl]
      · rw [if_neg h2]
        obtain ⟨k, hk⟩ := Int.eq_ofNat_of_zero_le (by omega : 0 ≤ bits)
        subst hk
        have hcore := divBits_core N D k hNhi hDlo hDhi (by omega)
        simp only [Int.toNat_ofNat] at hcore ⊢
        rw [hcore]
        have hsq : scaledQuotient N D (k : Int) = N * 2 ^ k / D := by
          simp [scaledQuotient]
        rw [hsq]
        have hfin : (if N * 2 ^ k / D ≥ 2147483648 then MaxS32 else ((N * 2 ^ k / D : Nat) : Int))
            = min ((N * 2 ^ k / D : Nat) : Int) MaxS32 := by
          unfold MaxS32
          split_ifs with h <;> omega
        rw [hfin, FEM16Dot16ApplySign_eq numer denom hn0 hd0 (by unfold MaxS32; omega)
          (min_le_right _ _)]

theorem FEM16Dot16ApplySign_range (m x : Int) (h1 : 0 ≤ m) (h2 : m ≤ MaxS32) :
    -MaxS32 ≤ FEM16Dot16ApplySign m (FEM16Dot16ExtractSign x) ∧
      FEM16Dot16ApplySign m (FEM16Dot16ExtractSign x) ≤ MaxS32 := by
  unfold FEM16Dot16ApplySign FEM16Dot16ExtractSign
  unfold MaxS32 at *
  by_cases hx : x < 0
  · simp only [hx, if_true, int_xor_neg_one]
    rw [wrapS32_of_range (by omega) (by omega)]; omega
  · simp only [hx, if_false, int_xor_zero]
    rw [wrapS32_of_range (by omega) (by omega)]; omega

theorem clamp31_range (n : Nat) :
    0 ≤ (if n ≥ 2147483648 then MaxS32 else (n : Int)) ∧
      (if n ≥ 2147483648 then MaxS32 else (n : Int)) ≤ MaxS32 := by
  unfold MaxS32
  split_ifs <;> omega

theorem DivBits_range (numer denom shift r : Int) (h : DivBits numer denom shift = some r) :
    -MaxS32 ≤ r ∧ r ≤ MaxS32 := by
  unfold DivBits at h
  simp only at h
  split at h
  · simp at h
  split at h
  · simp at h; subst h; unfold MaxS32; omega
  split at h
  · simp at h; subst h; unfold MaxS32; omega
  split at h
  · simp only [Option.some.injEq] at h; subst h
    exact FEM16Dot16ApplySign_range _ _ (by unfold MaxS32; omega) le_rfl
  split at h
  · simp at h
  · simp only [Option.some.injEq] at h; subst h
    exact FEM16Dot16ApplySign_range _ _ (clamp31_range _).1 (clamp31_range _).2

/-- C5, counterexample. The exact quotient `2 / 3` rounds to `1` but `DivBits(2, 3, 0)` is `0`;
moreover `DivBits(-2^31, 1, 0)` has no result (the negative shift count `nbits = -1`), and for
`shift = 2^31 - 1` the sum `shift - nbits + dbits` wraps, so `DivBits(2^30, 1, 2^31 - 1)` is `0`
where the clamped quotient is `2^31 - 1`. -/
theorem DivBits_does_not_round :
    DivBits 2 3 0 = some 0 ∧ roundedQuotient 2 3 0 = 1 ∧
      DivBits (-2147483648) 1 0 = none ∧
      DivBits 1073741824 1 2147483647 = some 0 := by
  refine ⟨by decide, ?_, by decide, by decide⟩
  unfold roundedQuotient MaxS32
  have h : round ((2 : ℚ) / 3) = 1 := by
    rw [round_eq, Int.floor_eq_iff]
    norm_num
  norm_num [h]

/-- C5, amended. For every numerator and denominator in `[-(2^31 - 1), 2^31 - 1]` with
`denominator != 0` and every shift in `[-2^31 + 30, 2^31 - 31]`, `DivBits` returns the exact
quotient `numerator * 2^shift / denominator` truncated toward zero (not rounded), clamped to
`[-(2^31 - 1), 2^31 - 1]`, with the sign of the exact quotient. -/
theorem DivBits_truncates (numer denom shift : Int)
    (hn1 : -2147483648 < numer) (hn2 : numer < 2147483648)
    (hd1 : -2147483648 < denom) (hd2 : denom < 2147483648) (hd0 : denom ≠ 0)
    (hs1 : -2147483618 ≤ shift) (hs2 : shift ≤ 2147483617) :
    DivBits numer denom shift = some (truncatedQuotient numer denom shift) :=
  DivBits_eq_truncatedQuotient numer denom shift hn1 hn2 hd1 hd2 hd0 hs1 hs2

/-- C5 at `DivBits(1000000, -3, 10)`: the quotient `-341333333.33..` is truncated. -/
theorem DivBits_truncates_witness :
    truncatedQuotient 1000000 (-3) 10 = -341333333 ∧
      DivBits 1000000 (-3) 10 = some (truncatedQuotient 1000000 (-3) 10) :=
  ⟨by decide, DivBits_truncates 1000000 (-3) 10 (by decide) (by decide) (by decide) (by decide)
    (by decide) (by decide) (by decide)⟩

/-- C6, counterexample. `|-2^31| * 2^0 / 1 >= 2^31` with operands of different sign, but
`DivBits(-2^31, 1, 0)` does not return `-0x7FFFFFFF`: it has no result. And
`2^30 * 2^(2^31 - 1) / 1 >= 2^31` with operands of the same sign, but the bit count wraps and
`DivBits(2^30, 1, 2^31 - 1)` is `0`, not `0x7FFFFFFF`. -/
theorem DivBits_saturation_fails_at_int_min :
    2147483648 ≤ scaledQuotient (-2147483648 : Int).natAbs (1 : Int).natAbs 0 ∧
      DivBits (-2147483648) 1 0 = none ∧
      DivBits 1073741824 1 2147483647 = some 0 := by
  refine ⟨by decide, by decide, by decide⟩

/-- C6, amended. For every numerator and denominator in `[-(2^31 - 1), 2^31 - 1]`, both
non-zero, and every shift in `[-2^31 + 30, 2^31 - 31]` with
`|numerator| * 2^shift / |denominator| >= 2^31`, `DivBits` returns `0x7FFFFFFF` when the operands
have the same sign and `-0x7FFFFFFF` when they differ. For all such operands and shifts, whatever
the quotient, `DivBits` returns a result, and every result `DivBits` returns on any input lies in
`[-(2^31 - 1), 2^31 - 1]`. -/
theorem DivBits_saturates :
    (∀ numer denom shift : Int, -2147483648 < numer → numer < 2147483648 →
      -2147483648 < denom → denom < 2147483648 → numer ≠ 0 → denom ≠ 0 →
      -2147483618 ≤ shift → shift ≤ 2147483617 →
      2147483648 ≤ scaledQuotient numer.natAbs denom.natAbs shift →
      DivBits numer denom shift =
        some (if (numer < 0 ↔ denom < 0) then 0x7FFFFFFF else -0x7FFFFFFF)) ∧
    (∀ numer denom shift : Int, -2147483648 < numer → numer < 2147483648 →
      -2147483648 < denom → denom < 2147483648 → denom ≠ 0 →
      -2147483618 ≤ shift → shift ≤ 2147483617 →
      ∃ r, DivBits numer denom shift = some r) ∧
    (∀ numer denom shift r : Int, DivBits numer denom shift = some r →
      -(2147483647 : Int) ≤ r ∧ r ≤ 2147483647) := by
  refine ⟨?_, ?_, ?_⟩
  · intro numer denom shift hn1 hn2 hd1 hd2 hn0 hd0 hs1 hs2 hbig
    rw [DivBits_eq_truncatedQuotient numer denom shift hn1 hn2 hd1 hd2 hd0 hs1 hs2]
    unfold truncatedQuotient
    have hmin : min (scaledQuotient numer.natAbs denom.natAbs shift : Int) MaxS32 = 2147483647 := by
      unfold MaxS32; omega
    rw [hmin]
    rcases lt_or_gt_of_ne hn0 with hn | hn <;> rcases lt_or_gt_of_ne hd0 with hd | hd
    · simp [Int.sign_eq_neg_one_of_neg hn, Int.sign_eq_neg_one_of_neg hd, hn, hd]
    · have : ¬ denom < 0 := by omega
      simp [Int.sign_eq_neg_one_of_neg hn, Int.sign_eq_one_of_pos hd, hn, this]
    · have : ¬ numer < 0 := by omega
      simp [Int.sign_eq_one_of_pos hn, Int.sign_eq_neg_one_of_neg hd, hd, this]
    · have h1 : ¬ numer < 0 := by omega
      have h2 : ¬ denom < 0 := by omega
      simp [Int.sign_eq_one_of_pos hn, Int.sign_eq_one_of_pos hd, h1, h2]
  · intro numer denom shift hn1 hn2 hd1 hd2 hd0 hs1 hs2
    exact ⟨_, DivBits_eq_truncatedQuotient numer denom shift hn1 hn2 hd1 hd2 hd0 hs1 hs2⟩
  · intro numer denom shift r h
    have := DivBits_range numer denom shift r h
    unfold MaxS32 at this
    exact this

/-- C6 at `DivBits(0x10000, -1, 16)`: the quotient `-2^32` saturates to `-0x7FFFFFFF`. -/
theorem DivBits_saturates_witness :
    2147483648 ≤ scaledQuotient (65536 : Int).natAbs (-1 : Int).natAbs 16 ∧
      DivBits 65536 (-1) 16 = some (-0x7FFFFFFF) := by
  refine ⟨by decide, ?_⟩
  have h := DivBits_saturates.1 65536 (-1) 16 (by decide) (by decide) (by decide) (by decide)
    (by decide) (by decide) (by decide) (by decide) (by decide)
  simpa using h

/-! ### Transform resolution -/

theorem averagedScale_eq_isotropicScale (desc : FontScalerInfo)
    (h1 : -2147483648 < desc.fScaleX) (h2 : desc.fScaleX < 2147483648)
    (h3 : -2147483648 < desc.fScaleY) (h4 : desc.fScaleY < 2147483648)
    (h5 : -2147483648 < desc.fSkewX) (h6 : desc.fSkewX < 2147483648)
    (h7 : -2147483648 < desc.fSkewY) (h8 : desc.fSkewY < 2147483648)
    (hsum : max |desc.fScaleX| |desc.fSkewX| + max |desc.fSkewY| |desc.fScaleY| < 2147483648) :
    averagedScale desc = isotropicScale desc := by
  unfold averagedScale isotropicScale FEM16Dot16Avg
  simp only [FEM16Dot16Abs_eq h1 h2, FEM16Dot16Abs_eq h3 h4, FEM16Dot16Abs_eq h5 h6,
    FEM16Dot16Abs_eq h7 h8, Int.natCast_natAbs]
  have ex : (if |desc.fScaleX| > |desc.fSkewX| then |desc.fScaleX| else |desc.fSkewX|) =
      max |desc.fScaleX| |desc.fSkewX| := by
    split_ifs with h
    · exact (max_eq_left (le_of_lt h)).symm
    · exact (max_eq_right (not_lt.mp h)).symm
  have ey : (if |desc.fSkewY| > |desc.fScaleY| then |desc.fSkewY| else |desc.fScaleY|) =
      max |desc.fSkewY| |desc.fScaleY| := by
    split_ifs with h
    · exact (max_eq_left (le_of_lt h)).symm
    · exact (max_eq_right (not_lt.mp h)).symm
  rw [ex, ey, wrapS32_of_range _ hsum]
  have := abs_nonneg desc.fScaleX
  have := abs_nonneg desc.fSkewY
  have := le_max_left |desc.fScaleX| |desc.fSkewX|
  have := le_max_left |desc.fSkewY| |desc.fScaleY|
  omega

/-- The request with `skewX = 1` and the three other entries `0` takes the first branch, where
`s = (1 + 0) >> 1 = 0` and `FEM16Dot16Invert(0)` violates `assert(denom != 0)`: no scale is
resolved. -/
theorem getTransMatrix_has_no_result_for_tiny_skew :
    ((1 : Int) ≠ 0) ∧
      FontFT.getTransMatrix FreeType.reference false
        { fontID := 1, subpixelPositioning := false, maskFormat := AliasMode.ALIAS_GRAYSCALE,
          flags := 0, fScaleX := 0, fScaleY := 0, fSkewX := 1, fSkewY := 0, pStream := 0,
          pPath := some "a.ttf", pBuffer := 0, pathSz := 5, size := 0 } = none := by
  refine ⟨by decide, by decide⟩

/-- C7, counterexample. The scales are `int32_t`. For `scaleX = -2^30`, `scaleY = 2^30` and
no skew the first branch is taken and the sum of the two maxima, `2^30 + 2^30`, wraps to
`-2^31`: `getTransMatrix` returns `fScaleX = fScaleY = -2^30`, where
`s = (max(|scaleX|, |skewX|) + max(|skewY|, |scaleY|)) >> 1` is `2^30`. For `scaleX = -2^31`,
`scaleY = 4` and no skew, `FEM16Dot16Abs(-2^31)` is `-2^31`, so the first maximum is `0`:
`getTransMatrix` returns `fScaleX = fScaleY = 2`, where `s` is `2^30 + 2`. -/
theorem getTransMatrix_scale_wraps :
    isotropicScale { plainRequest "a.ttf" 0 0 with
      fScaleX := -1073741824, fScaleY := 1073741824 } = 1073741824 ∧
    (FontFT.getTransMatrix FreeType.reference false { plainRequest "a.ttf" 0 0 with
      fScaleX := -1073741824, fScaleY := 1073741824 }).map (fun r => (r.fScaleX, r.fScaleY)) =
      some (-1073741824, -1073741824) ∧
    isotropicScale { plainRequest "a.ttf" 0 0 with
      fScaleX := -2147483648, fScaleY := 4 } = 1073741826 ∧
    (FontFT.getTransMatrix FreeType.reference false { plainRequest "a.ttf" 0 0 with
      fScaleX := -2147483648, fScaleY := 4 }).map (fun r => (r.fScaleX, r.fScaleY)) =
      some (2, 2) := by
  refine ⟨by decide, by decide, by decide, by decide⟩

/-- C7, amended. For every request in which `skewX` or `skewY` is non-zero or `scaleX` or
`scaleY` is negative, whose four entries lie in `[-(2^31 - 1), 2^31 - 1]`, whose sum
`max(|scaleX|, |skewX|) + max(|skewY|, |scaleY|)` is below `2^31` and whose averaged scale
`s = (max(|scaleX|, |skewX|) + max(|skewY|, |scaleY|)) >> 1` is not `0`, `getTransMatrix`
returns and the resolved scale is isotropic, `fScaleX = fScaleY = s`. For every other request
(both skews zero, both scales `>= 0`) it returns the identity matrix and `fScaleX = scaleX`,
`fScaleY = scaleY` unchanged. -/
theorem getTransMatrix_by_cases (ft : FreeType) (gLCDSupport : Bool) (desc : FontScalerInfo) :
    ((desc.fSkewX ≠ 0 ∨ desc.fSkewY ≠ 0 ∨ desc.fScaleX < 0 ∨ desc.fScaleY < 0) →
      -2147483648 < desc.fScaleX → desc.fScaleX < 2147483648 →
      -2147483648 < desc.fScaleY → desc.fScaleY < 2147483648 →
      -2147483648 < desc.fSkewX → desc.fSkewX < 2147483648 →
      -2147483648 < desc.fSkewY → desc.fSkewY < 2147483648 →
      max |desc.fScaleX| |desc.fSkewX| + max |desc.fSkewY| |desc.fScaleY| < 2147483648 →
      isotropicScale desc ≠ 0 →
      ∃ r, FontFT.getTransMatrix ft gLCDSupport desc = some r ∧
        r.fScaleX = isotropicScale desc ∧ r.fScaleY = isotropicScale desc) ∧
    (¬ (desc.fSkewX ≠ 0 ∨ desc.fSkewY ≠ 0 ∨ desc.fScaleX < 0 ∨ desc.fScaleY < 0) →
      ∃ r, FontFT.getTransMatrix ft gLCDSupport desc = some r ∧
        r.ftMatrix22 = { xx := 0x10000, xy := 0, yx := 0, yy := 0x10000 } ∧
        r.fScaleX = desc.fScaleX ∧ r.fScaleY = desc.fScaleY) := by
  constructor
  · intro hcase h1 h2 h3 h4 h5 h6 h7 h8 hsum hs
    have hg : givesUpOnHinting desc = true := by
      unfold givesUpOnHinting
      simp only [Bool.or_eq_true, bne_iff_ne, ne_eq, decide_eq_true_eq]
      tauto
    have havg := averagedScale_eq_isotropicScale desc h1 h2 h3 h4 h5 h6 h7 h8 hsum
    have hpos : 0 ≤ isotropicScale desc := by
      unfold isotropicScale
      have := abs_nonneg desc.fScaleX
      have := abs_nonneg desc.fSkewY
      have := le_max_left |desc.fScaleX| |desc.fSkewX|
      have := le_max_left |desc.fSkewY| |desc.fScaleY|
      omega
    have hlt : isotropicScale desc < 2147483648 := by
      unfold isotropicScale
      omega
    have hinv := DivBits_eq_truncatedQuotient FEMOne16Dot16 (isotropicScale desc) 16
      (by decide) (by decide) (by omega) hlt hs (by decide) (by decide)
    unfold FontFT.getTransMatrix
    rw [if_pos hg]
    simp only [havg, FEM16Dot16Invert, hinv]
    exact ⟨_, rfl, rfl, rfl⟩
  · intro hcase
    have hg : givesUpOnHinting desc = false := by
      unfold givesUpOnHinting
      rw [← Bool.not_eq_true]
      simp only [Bool.or_eq_true, bne_iff_ne, ne_eq, decide_eq_true_eq]
      tauto
    unfold FontFT.getTransMatrix
    rw [hg]
    exact ⟨_, rfl, rfl, rfl, rfl⟩

/-- C7 at the request `scaleX = 3.0, skewX = 0.5, skewY = 0, scaleY = 2.0` (16.16): the first
branch is taken and `fScaleX = fScaleY = (3.0 + 2.0) / 2 = 2.5`. -/
theorem getTransMatrix_by_cases_witness :
    ∃ r, FontFT.getTransMatrix FreeType.reference false
        { fontID := 1, subpixelPositioning := false, maskFormat := AliasMode.ALIAS_GRAYSCALE,
          flags := 0, fScaleX := 196608, fScaleY := 131072, fSkewX := 32768, fSkewY := 0,
          pStream := 0, pPath := some "a.ttf", pBuffer := 0, pathSz := 5, size := 0 } = some r ∧
      r.fScaleX = 163840 ∧ r.fScaleY = 163840 := by
  have h := (getTransMatrix_by_cases FreeType.reference false
    { fontID := 1, subpixelPositioning := false, maskFormat := AliasMode.ALIAS_GRAYSCALE,
      flags := 0, fScaleX := 196608, fScaleY := 131072, fSkewX := 32768, fSkewY := 0,
      pStream := 0, pPath := some "a.ttf", pBuffer := 0, pathSz := 5, size := 0 }).1
    (by decide) (by decide) (by decide) (by decide) (by decide) (by decide) (by decide)
    (by decide) (by decide) (by decide) (by decide)
  have e : isotropicScale
      { fontID := 1, subpixelPositioning := false, maskFormat := AliasMode.ALIAS_GRAYSCALE,
        flags := 0, fScaleX := 196608, fScaleY := 131072, fSkewX := 32768, fSkewY := 0,
        pStream := 0, pPath := some "a.ttf", pBuffer := 0, pathSz := 5, size := 0 } = 163840 := by
    decide
  rw [e] at h
  exact h

/-- C8. The request `scaleX = -65536, skewX = 0, skewY = 0, scaleY = 65536` takes the first
(isotropic) branch of `getTransMatrix`; `FEM16Dot16Invert(65536) = DivBits(65536, 65536, 16)
= 65536`; the result has `fScaleX = fScaleY = 65536`, `xx = -65536`, `yy = 65536` and
`xy = yx = 0`, on every FreeType whose `FT_MulFix` multiplies `-65536`, `0` and `65536` by
`65536` (that is by `1.0`) exactly. -/
theorem getTransMatrix_mirrored_request (ft : FreeType) (gLCDSupport : Bool)
    (desc : FontScalerInfo) (hsx : desc.fScaleX = -65536) (hkx : desc.fSkewX = 0)
    (hky : desc.fSkewY = 0) (hsy : desc.fScaleY = 65536)
    (hm1 : ft.FT_MulFix (-65536) 65536 = -65536) (hm2 : ft.FT_MulFix 0 65536 = 0)
    (hm3 : ft.FT_MulFix 65536 65536 = 65536) :
    givesUpOnHinting desc = true ∧ FEM16Dot16Invert 65536 = some 65536 ∧
      DivBits 65536 65536 16 = some 65536 ∧
      ∃ r, FontFT.getTransMatrix ft gLCDSupport desc = some r ∧
        r.fScaleX = 65536 ∧ r.fScaleY = 65536 ∧
        r.ftMatrix22 = { xx := -65536, xy := 0, yx := 0, yy := 65536 } := by
  have hg : givesUpOnHinting desc = true := by
    unfold givesUpOnHinting; simp [hsx]
  have hs : averagedScale desc = 65536 := by
    unfold averagedScale; rw [hsx, hkx, hky, hsy]; decide
  have hinv : FEM16Dot16Invert 65536 = some 65536 := by decide
  refine ⟨hg, hinv, by decide, ?_⟩
  unfold FontFT.getTransMatrix
  rw [if_pos hg]
  simp only [hs, hinv]
  refine ⟨_, rfl, rfl, rfl, ?_⟩
  simp only [hsx, hkx, hky, hsy, hm1, hm2, hm3]
  decide

/-- C8 on the documented `FT_MulFix`. -/
theorem getTransMatrix_mirrored_request_witness :
    ∃ r, FontFT.getTransMatrix FreeType.reference false
        { fontID := 1, subpixelPositioning := false, maskFormat := AliasMode.ALIAS_GRAYSCALE,
          flags := 0, fScaleX := -65536, fScaleY := 65536, fSkewX := 0, fSkewY := 0,
          pStream := 0, pPath := some "a.ttf", pBuffer := 0, pathSz := 5, size := 0 } = some r ∧
      r.fScaleX = 65536 ∧ r.fScaleY = 65536 ∧
      r.ftMatrix22 = { xx := -65536, xy := 0, yx := 0, yy := 65536 } :=
  (getTransMatrix_mirrored_request FreeType.reference false
    { fontID := 1, subpixelPositioning := false, maskFormat := AliasMode.ALIAS_GRAYSCALE,
      flags := 0, fScaleX := -65536, fScaleY := 65536, fSkewX := 0, fSkewY := 0,
      pStream := 0, pPath := some "a.ttf", pBuffer := 0, pathSz := 5, size := 0 }
    rfl rfl rfl rfl (by decide) (by decide) (by decide)).2.2.2

/-! ### Glyph metrics -/

/-- C9, counterexample. For the raw box `xMin = 0, xMax = 65536 * 64` the claimed width
`(ceil64(xMax) - floor64(xMin)) >> 6` is `65536`, but `gm.width` is a `uint16_t`: the value
reported is `0`. -/
theorem getGlyphMetrics_width_is_truncated :
    (ceil64 4194304 - floor64 0) / 64 = 65536 ∧
      (FontScalerFT.getGlyphMetrics FreeType.reference
          (plainInst false AliasMode.ALIAS_GRAYSCALE) true
          (some (outlineSlot { xMin := 0, yMin := 0, xMax := 4194304, yMax := 64 })) 0 0).map
        (fun gm => gm.width) = some 0 := by
  refine ⟨by decide, by decide⟩

/-- C9, amended. For every raw outline bounding box with `xMin <= xMax` and `yMin <= yMax`
whose corners, after the shift by `(fracX >> 10, -(fracY >> 10))` applied when sub-pixel
positioning is enabled, lie in `(-2^21, 2^21 - 64]` (pixel coordinates that fit the 16-bit
fields of `GlyphMetrics`), `getGlyphMetrics` reports
`width = (ceil64(xMax) - floor64(xMin)) >> 6` and `height = (ceil64(yMax) - floor64(yMin)) >> 6`,
both `>= 0`, `left = floor64(xMin) >> 6` and `top = -(ceil64(yMax) >> 6)`. -/
theorem getGlyphMetrics_outline_box (ft : FreeType) (inst : InstView) (glyph : FT_GlyphSlot)
    (fracX fracY : Int) (bbox : FT_BBox) (dx dy : Int)
    (hfmt : glyph.format = FT_Glyph_Format.FT_GLYPH_FORMAT_OUTLINE)
    (hbox : glyph.cbox (inst.fontInstFlags &&& Embolden_Flag != 0) = bbox)
    (hdx : dx = if inst.subpixelPositioning then fracX / 1024 else 0)
    (hdy : dy = if inst.subpixelPositioning then fracY / 1024 else 0)
    (hx0 : -2097152 < bbox.xMin + dx) (hx : bbox.xMin ≤ bbox.xMax)
    (hx1 : bbox.xMax + dx ≤ 2097088)
    (hy0 : -2097152 < bbox.yMin - dy) (hy : bbox.yMin ≤ bbox.yMax)
    (hy1 : bbox.yMax - dy ≤ 2097088) :
    ∃ gm, FontScalerFT.getGlyphMetrics ft inst true (some glyph) fracX fracY = some gm ∧
      (gm.width : Int) = (ceil64 (bbox.xMax + dx) - floor64 (bbox.xMin + dx)) / 64 ∧
      (gm.height : Int) = (ceil64 (bbox.yMax - dy) - floor64 (bbox.yMin - dy)) / 64 ∧
      0 ≤ (ceil64 (bbox.xMax + dx) - floor64 (bbox.xMin + dx)) / 64 ∧
      0 ≤ (ceil64 (bbox.yMax - dy) - floor64 (bbox.yMin - dy)) / 64 ∧
      gm.left = floor64 (bbox.xMin + dx) / 64 ∧
      gm.top = -(ceil64 (bbox.yMax - dy) / 64) := by
  have hw : (toU16 ((ceil64 (bbox.xMax + dx) - floor64 (bbox.xMin + dx)) / 64) : Int) =
      (ceil64 (bbox.xMax + dx) - floor64 (bbox.xMin + dx)) / 64 := by
    unfold toU16 ceil64 floor64; omega
  have hh : (toU16 ((ceil64 (bbox.yMax - dy) - floor64 (bbox.yMin - dy)) / 64) : Int) =
      (ceil64 (bbox.yMax - dy) - floor64 (bbox.yMin - dy)) / 64 := by
    unfold toU16 ceil64 floor64; omega
  have hl : toS16 (floor64 (bbox.xMin + dx) / 64) = floor64 (bbox.xMin + dx) / 64 := by
    unfold toS16 floor64; omega
  have ht : toS16 (-(toS16 (ceil64 (bbox.yMax - dy) / 64))) =
      -(ceil64 (bbox.yMax - dy) / 64) := by
    unfold toS16 ceil64 floor64; omega
  have hwpos : 0 ≤ (ceil64 (bbox.xMax + dx) - floor64 (bbox.xMin + dx)) / 64 := by
    unfold ceil64 floor64; omega
  have hhpos : 0 ≤ (ceil64 (bbox.yMax - dy) - floor64 (bbox.yMin - dy)) / 64 := by
    unfold ceil64 floor64; omega
  unfold FontScalerFT.getGlyphMetrics
  simp only [Bool.not_true, Bool.false_eq_true, if_false, hfmt, hbox, ← hdx, ← hdy]
  by_cases hsub : inst.subpixelPositioning = true
  · simp only [hsub, Bool.not_true, Bool.false_eq_true, if_false]
    exact ⟨_, rfl, hw, hh, hwpos, hhpos, hl, ht⟩
  · simp only [Bool.not_eq_true] at hsub
    simp only [hsub, Bool.not_false, if_true]
    exact ⟨_, rfl, hw, hh, hwpos, hhpos, hl, ht⟩

/-- C9 at the box `(-70, -10, 130, 700)` shifted by `fracX = fracY = 0.5` (16.16), i.e. by
`(32, -32)`: the glyph is `4` pixels wide and `12` high, `left = -1`, `top = -11`. -/
theorem getGlyphMetrics_outline_box_witness :
    ∃ gm, FontScalerFT.getGlyphMetrics FreeType.reference
        (plainInst true AliasMode.ALIAS_GRAYSCALE) true
        (some (outlineSlot { xMin := -70, yMin := -10, xMax := 130, yMax := 700 }))
        32768 32768 = some gm ∧
      (gm.width : Int) = 4 ∧ (gm.height : Int) = 12 ∧ gm.left = -1 ∧ gm.top = -11 := by
  obtain ⟨gm, h, hw, hh, _, _, hl, ht⟩ := getGlyphMetrics_outline_box FreeType.reference
    (plainInst true AliasMode.ALIAS_GRAYSCALE)
    (outlineSlot { xMin := -70, yMin := -10, xMax := 130, yMax := 700 }) 32768 32768
    { xMin := -70, yMin := -10, xMax := 130, yMax := 700 } 32 32 rfl rfl (by decide) (by decide)
    (by decide) (by decide) (by decide) (by decide) (by decide) (by decide)
  refine ⟨gm, h, ?_, ?_, ?_, ?_⟩
  · rw [hw]; decide
  · rw [hh]; decide
  · rw [hl]; decide
  · rw [ht]; decide

/-! ### Glyph images: mono to gray expansion -/

theorem testBit_128 (i : Nat) : Nat.testBit 128 i = decide (7 = i) := by
  have h := @Nat.testBit_two_pow 7 i
  simpa using h

theorem and_0x80_ne_zero (b : Nat) : (b &&& 0x80 != 0) = b.testBit 7 := by
  have h : b &&& 0x80 = if b.testBit 7 then 0x80 else 0 := by
    apply Nat.eq_of_testBit_eq
    intro i
    rw [Nat.testBit_and, testBit_128]
    by_cases hi : 7 = i
    · subst hi
      by_cases hb : b.testBit 7 <;> simp [hb, testBit_128]
    · by_cases hb : b.testBit 7 <;> simp [hb, hi, testBit_128]
  rw [h]
  by_cases hb : b.testBit 7 <;> simp [hb]

theorem testBit_shifted_byte (s j : Nat) (hj : j ≤ 7) :
    ((s <<< j) % 256).testBit 7 = s.testBit (7 - j) := by
  have h256 : (256 : Nat) = 2 ^ 8 := by norm_num
  rw [h256, Nat.testBit_mod_two_pow, Nat.testBit_shiftLeft]
  simp [hj]

theorem shifted_byte_step (s j : Nat) :
    (((s <<< j) % 256) <<< 1) % 256 = (s <<< (j + 1)) % 256 := by
  have e : s * 2 ^ (j + 1) = (s * 2 ^ j) * 2 := by rw [pow_succ]; ring
  rw [Nat.shiftLeft_eq, Nat.shiftLeft_eq, Nat.shiftLeft_eq, e, pow_one]
  generalize s * 2 ^ j = t
  omega

/-- The byte written for column `x` of a row whose source bytes start at offset `s0`. -/
theorem expandMonoRow_eq (src : Int → Nat) (s0 : Int) (d0 : Nat) :
    ∀ (n c byte bits : Nat) (mem : Nat → Nat),
      bits = (8 - c % 8) % 8 →
      (bits ≠ 0 → byte = (src (s0 + ((c / 8 : Nat) : Int)) <<< (c % 8)) % 256) →
      expandMonoRow src n byte bits (s0 + (((c + 7) / 8 : Nat) : Int)) (d0 + c) mem =
        fun a => if d0 + c ≤ a ∧ a < d0 + c + n then
            (if (src (s0 + (((a - d0) / 8 : Nat) : Int))).testBit (7 - (a - d0) % 8)
              then 0xff else 0)
          else mem a := by
  intro n
  induction n with
  | zero =>
    intro c byte bits mem _ _
    funext a
    have h : ¬ (d0 + c ≤ a ∧ a < d0 + c + 0) := by omega
    simp only [expandMonoRow]
    rw [if_neg h]
  | succ n ih =>
    intro c byte bits mem hbits hbyte
    unfold expandMonoRow
    by_cases hc : c % 8 = 0
    · have hb0 : bits = 0 := by omega
      have e1 : (s0 + (((c + 7) / 8 : Nat) : Int)) + 1 = s0 + (((c + 1 + 7) / 8 : Nat) : Int) := by
        omega
      have e2 : ((c + 7) / 8 : Nat) = c / 8 := by omega
      have e3 : ((c + 1) / 8 : Nat) = c / 8 := by omega
      have e4 : (c + 1) % 8 = 1 := by omega
      have e6 : d0 + c + 1 = d0 + (c + 1) := by omega
      have h7 : (7 : Nat) = (8 - (c + 1) % 8) % 8 := by omega
      have hrec := ih (c + 1) ((src (s0 + (((c + 7) / 8 : Nat) : Int)) <<< 1) % 256) 7
        (Function.update mem (d0 + c)
          (if src (s0 + (((c + 7) / 8 : Nat) : Int)) &&& 0x80 != 0 then 0xff else 0)) h7
        (by intro _; rw [e3, e4, e2])
      simp only [hb0, if_true]
      rw [e1, e6]
      rw [show (8 : Nat) - 1 = 7 from rfl, hrec]
      funext a
      by_cases ha : a = d0 + c
      · subst ha
        have h1 : ¬ (d0 + (c + 1) ≤ d0 + c ∧ d0 + c < d0 + (c + 1) + n) := by omega
        have h2 : d0 + c ≤ d0 + c ∧ d0 + c < d0 + c + (n + 1) := by omega
        have e5 : (d0 + c - d0) = c := by omega
        simp only [if_neg h1, if_pos h2, Function.update_same, and_0x80_ne_zero, e5, hc, e2]
      · have hu := Function.update_noteq ha
          (if src (s0 + (((c + 7) / 8 : Nat) : Int)) &&& 0x80 != 0 then 0xff else 0) mem
        by_cases hin : d0 + c ≤ a ∧ a < d0 + c + (n + 1)
        · have h1 : d0 + (c + 1) ≤ a ∧ a < d0 + (c + 1) + n := by omega
          simp only [if_pos h1, if_pos hin]
        · have h1 : ¬ (d0 + (c + 1) ≤ a ∧ a < d0 + (c + 1) + n) := by omega
          simp only [if_neg h1, if_neg hin, hu]
    · have hb0 : bits ≠ 0 := by omega
      have hby := hbyte hb0
      have e1 : (s0 + (((c + 7) / 8 : Nat) : Int)) = s0 + (((c + 1 + 7) / 8 : Nat) : Int) := by
        omega
      have e6 : d0 + c + 1 = d0 + (c + 1) := by omega
      have h7 : bits - 1 = (8 - (c + 1) % 8) % 8 := by omega
      have hrec := ih (c + 1) ((byte <<< 1) % 256) (bits - 1)
        (Function.update mem (d0 + c) (if byte &&& 0x80 != 0 then 0xff else 0)) h7
        (by
          intro hne
          have e3 : ((c + 1) / 8 : Nat) = c / 8 := by omega
          have e4 : (c + 1) % 8 = c % 8 + 1 := by omega
          rw [e3, e4, hby, shifted_byte_step])
      simp only [hb0, if_false]
      rw [e1, e6, hrec]
      funext a
      by_cases ha : a = d0 + c
      · subst ha
        have h1 : ¬ (d0 + (c + 1) ≤ d0 + c ∧ d0 + c < d0 + (c + 1) + n) := by omega
        have h2 : d0 + c ≤ d0 + c ∧ d0 + c < d0 + c + (n + 1) := by omega
        have e5 : (d0 + c - d0) = c := by omega
        simp only [if_neg h1, if_pos h2, Function.update_same, and_0x80_ne_zero, e5]
        rw [hby, testBit_shifted_byte _ _ (by omega)]
      · have hu := Function.update_noteq ha (if byte &&& 0x80 != 0 then 0xff else 0) mem
        by_cases hin : d0 + c ≤ a ∧ a < d0 + c + (n + 1)
        · have h1 : d0 + (c + 1) ≤ a ∧ a < d0 + (c + 1) + n := by omega
          simp only [if_pos h1, if_pos hin]
        · have h1 : ¬ (d0 + (c + 1) ≤ a ∧ a < d0 + (c + 1) + n) := by omega
          simp only [if_neg h1, if_neg hin, hu]

/-- One row of the expansion, started at column `0`: the `n` target bytes from `d0` on are
`0xff` or `0` as the bit of their column is set or clear in the source row at `s0` (most
significant bit first); the other bytes are untouched. -/
theorem expandMonoRow_zero (src : Int → Nat) (s0 : Int) (d0 n : Nat) (mem : Nat → Nat) :
    expandMonoRow src n 0 0 s0 d0 mem =
      fun a => if d0 ≤ a ∧ a < d0 + n then
          (if (src (s0 + (((a - d0) / 8 : Nat) : Int))).testBit (7 - (a - d0) % 8)
            then 0xff else 0)
        else mem a := by
  have h := expandMonoRow_eq src s0 d0 n 0 0 0 mem (by decide) (by intro h; exact absurd rfl h)
  simpa using h

theorem expandMono_spec (bitmap : FT_Bitmap) (rowBytes : Nat) (hw : bitmap.width ≤ rowBytes) :
    ∀ (n : Nat) (src : Int) (dst : Nat) (mem : Nat → Nat),
      (∀ i x, i < n → x < bitmap.width →
        expandMono bitmap rowBytes n src dst mem (dst + i * rowBytes + x) =
          if (bitmap.buffer (src + (i : Int) * bitmap.pitch + ((x / 8 : Nat) : Int))).testBit
              (7 - x % 8) then 0xff else 0) ∧
      (∀ a, (∀ i x, i < n → x < bitmap.width → a ≠ dst + i * rowBytes + x) →
        expandMono bitmap rowBytes n src dst mem a = mem a) := by
  intro n
  induction n with
  | zero =>
    intro src dst mem
    exact ⟨fun i x hi _ => absurd hi (Nat.not_lt_zero i), fun a _ => rfl⟩
  | succ n ih =>
    intro src dst mem
    obtain ⟨ih1, ih2⟩ := ih (src + bitmap.pitch) (dst + rowBytes)
      (expandMonoRow bitmap.buffer bitmap.width 0 0 src dst mem)
    constructor
    · intro i x hi hx
      unfold expandMono
      cases i with
      | zero =>
        rw [ih2 _ (by
          intro i' x' _ hx'
          have : 0 ≤ i' * rowBytes := Nat.zero_le _
          omega)]
        rw [expandMonoRow_zero]
        have h2 : dst ≤ dst + 0 * rowBytes + x ∧ dst + 0 * rowBytes + x < dst + bitmap.width := by
          omega
        have e5 : dst + 0 * rowBytes + x - dst = x := by omega
        simp only [if_pos h2, e5]
        simp
      | succ i' =>
        have e : dst + (i' + 1) * rowBytes + x = dst + rowBytes + i' * rowBytes + x := by ring
        have e' : src + ((i' + 1 : Nat) : Int) * bitmap.pitch =
            src + bitmap.pitch + (i' : Int) * bitmap.pitch := by push_cast; ring
        rw [e, e', ih1 i' x (by omega) hx]
    · intro a ha
      unfold expandMono
      rw [ih2 a (by
        intro i x hi hx
        have h := ha (i + 1) x (by omega) hx
        have e : dst + (i + 1) * rowBytes + x = dst + rowBytes + i * rowBytes + x := by ring
        rw [e] at h
        exact h)]
      rw [expandMonoRow_zero]
      have h0 : ¬ (dst ≤ a ∧ a < dst + bitmap.width) := by
        intro hcon
        have h := ha 0 (a - dst) (by omega) (by omega)
        omega
      simp only [if_neg h0]

/-- C10. For an embedded glyph bitmap in 1-bit mono format and a grayscale, LCD-H or LCD-V
target whose rows are at least `width` bytes apart, `getGlyphImage` returns, and in the target
memory `out` it leaves, for every row `y < rows` and column `x < width`, the byte
`out[y * rowBytes + x]` is `0xFF` if bit `7 - x mod 8` of `src[y * pitch + x div 8]` is set and
`0x00` otherwise; every byte at another offset is unchanged. The one-byte source row
`0b10110000` with width 5 yields `[0xFF, 0x00, 0xFF, 0xFF, 0x00]`. -/
theorem getGlyphImage_expands_mono (ft : FreeType) (inst : InstView) (glyph : FT_GlyphSlot)
    (fracX fracY : Int) (rowBytes width height : Nat) (buffer : Nat → Nat) (bitmap : FT_Bitmap)
    (hfmt : glyph.format = FT_Glyph_Format.FT_GLYPH_FORMAT_BITMAP)
    (hbm : glyph.bitmap (inst.fontInstFlags &&& Embolden_Flag != 0) = bitmap)
    (hmode : bitmap.pixel_mode = FT_Pixel_Mode.FT_PIXEL_MODE_MONO)
    (htarget : inst.maskFormat = AliasMode.ALIAS_GRAYSCALE ∨
      inst.maskFormat = AliasMode.ALIAS_LCD_H ∨ inst.maskFormat = AliasMode.ALIAS_LCD_V)
    (hrow : bitmap.width ≤ rowBytes) :
    (∃ out, FontScalerFT.getGlyphImage ft inst true (some glyph) fracX fracY rowBytes width
          height buffer = some out ∧
        (∀ y x, y < bitmap.rows → x < bitmap.width →
          out (y * rowBytes + x) =
            if (bitmap.buffer ((y : Int) * bitmap.pitch + ((x / 8 : Nat) : Int))).testBit
                (7 - x % 8) then 0xFF else 0x00) ∧
        (∀ a, (∀ y x, y < bitmap.rows → x < bitmap.width → a ≠ y * rowBytes + x) →
          out a = buffer a)) ∧
    (List.range 5).map
        ((FontScalerFT.getGlyphImage FreeType.reference
          (plainInst false AliasMode.ALIAS_GRAYSCALE) true (some (bitmapSlot monoRow10110))
          0 0 5 5 1 (fun _ => 0x77)).getD (fun _ => 0x77)) = [0xFF, 0x00, 0xFF, 0xFF, 0x00] := by
  refine ⟨?_, by decide⟩
  have hnot : ¬ (bitmap.pixel_mode = FT_Pixel_Mode.FT_PIXEL_MODE_GRAY ∨
      (bitmap.pixel_mode = FT_Pixel_Mode.FT_PIXEL_MODE_MONO ∧
        inst.maskFormat = AliasMode.ALIAS_MONOCHROME)) := by
    rw [hmode]
    rcases htarget with h | h | h <;> simp [h]
  have hyes : bitmap.pixel_mode = FT_Pixel_Mode.FT_PIXEL_MODE_MONO ∧
      (inst.maskFormat = AliasMode.ALIAS_GRAYSCALE ∨ inst.maskFormat = AliasMode.ALIAS_LCD_H ∨
        inst.maskFormat = AliasMode.ALIAS_LCD_V) := ⟨hmode, htarget⟩
  obtain ⟨h1, h2⟩ := expandMono_spec bitmap rowBytes hrow bitmap.rows 0 0 buffer
  refine ⟨expandMono bitmap rowBytes bitmap.rows 0 0 buffer, ?_, ?_, ?_⟩
  · unfold FontScalerFT.getGlyphImage
    simp only [Bool.not_true, Bool.false_eq_true, if_false, hfmt, hbm]
    unfold copyEmbeddedBitmap
    rw [if_neg hnot, if_pos hyes]
  · intro y x hy hx
    have h := h1 y x hy hx
    simpa using h
  · intro a ha
    apply h2
    intro i x hi hx
    have h := ha i x hi hx
    simpa using h

/-- C10 at a two-row bitmap with negative pitch, expanded for an LCD-H target with 4-byte
rows: pixel `(1, 2)` reads bit 5 of the source byte at offset `-1`. -/
theorem getGlyphImage_expands_mono_witness :
    ∃ out, FontScalerFT.getGlyphImage FreeType.reference (plainInst false AliasMode.ALIAS_LCD_H)
        true (some (bitmapSlot monoRowsBottomUp)) 0 0 4 3 2 (fun _ => 0x77) = some out ∧
      out 0 = 0xFF ∧ out 1 = 0xFF ∧ out 2 = 0 ∧ out 3 = 0x77 ∧
      out 4 = 0 ∧ out 5 = 0 ∧ out 6 = 0xFF ∧ out 7 = 0x77 := by
  obtain ⟨⟨out, ho, h1, h2⟩, _⟩ := getGlyphImage_expands_mono FreeType.reference
    (plainInst false AliasMode.ALIAS_LCD_H) (bitmapSlot monoRowsBottomUp)
    0 0 4 3 2 (fun _ => 0x77) monoRowsBottomUp
    rfl rfl rfl (Or.inr (Or.inl rfl)) (by decide)
  have hr : monoRowsBottomUp.rows = 2 := rfl
  have hw : monoRowsBottomUp.width = 3 := rfl
  refine ⟨out, ho, ?_, ?_, ?_, ?_, ?_, ?_, ?_, ?_⟩
  · have h := h1 0 0 (by decide) (by decide); simpa [monoRowsBottomUp] using h
  · have h := h1 0 1 (by decide) (by decide); simpa [monoRowsBottomUp] using h
  · have h := h1 0 2 (by decide) (by decide); simpa [monoRowsBottomUp] using h
  · apply h2; intro y x hy hx; rw [hr] at hy; rw [hw] at hx; omega
  · have h := h1 1 0 (by decide) (by decide); simpa [monoRowsBottomUp] using h
  · have h := h1 1 1 (by decide) (by decide); simpa [monoRowsBottomUp] using h
  · have h := h1 1 2 (by decide) (by decide); simpa [monoRowsBottomUp] using h
  · apply h2; intro y x hy hx; rw [hr] at hy; rw [hw] at hx; omega

/-! ### List walks of the cache -/

theorem findFirst_some {α : Type} (p : α → Bool) :
    ∀ (l pre : List α) (x : α) (post : List α), findFirst p l = some (pre, x, post) →
      l = pre ++ x :: post ∧ (∀ y ∈ pre, p y = false) ∧ p x = true := by
  intro l
  induction l with
  | nil => intro pre x post h; simp [findFirst] at h
  | cons a rest ih =>
    intro pre x post h
    unfold findFirst at h
    by_cases hp : p a = true
    · rw [if_pos hp] at h
      simp only [Option.some.injEq, Prod.mk.injEq] at h
      obtain ⟨h1, h2, h3⟩ := h
      subst h1 h2 h3
      exact ⟨rfl, by simp, hp⟩
    · rw [if_neg hp] at h
      cases hr : findFirst p rest with
      | none => rw [hr] at h; simp at h
      | some z =>
        obtain ⟨zpre, zx, zpost⟩ := z
        rw [hr] at h
        simp only [Option.map_some', Option.some.injEq, Prod.mk.injEq] at h
        obtain ⟨h1, h2, h3⟩ := h
        subst h1 h2 h3
        obtain ⟨e, hpre, hx⟩ := ih zpre zx zpost hr
        refine ⟨by rw [e]; rfl, ?_, hx⟩
        intro y hy
        rcases List.mem_cons.mp hy with hya | hyr
        · subst hya; simpa using hp
        · exact hpre y hyr

theorem findFirst_append {α : Type} (p : α → Bool) (pre : List α) (x : α) (post : List α)
    (h1 : ∀ y ∈ pre, p y = false) (h2 : p x = true) :
    findFirst p (pre ++ x :: post) = some (pre, x, post) := by
  induction pre with
  | nil => simp [findFirst, h2]
  | cons a rest ih =>
    have ha : p a = false := h1 a (List.mem_cons_self a rest)
    have hrest := ih (fun y hy => h1 y (List.mem_cons_of_mem a hy))
    simp [findFirst, ha, hrest]

theorem findFirst_none {α : Type} (p : α → Bool) (l : List α) :
    findFirst p l = none ↔ ∀ y ∈ l, p y = false := by
  induction l with
  | nil => simp [findFirst]
  | cons a rest ih =>
    unfold findFirst
    by_cases hp : p a = true
    · simp [hp]
    · simp only [Bool.not_eq_true] at hp
      simp [hp, ih]

theorem getFont_found (desc : FontScalerInfo) :
    ∀ (l pre : List FontFT) (f : FontFT) (post : List FontFT),
      FontEngineFT.getFont desc l = some (some (pre, f, post)) →
      l = pre ++ f :: post ∧ (∀ y ∈ pre, sameFont desc y = some false) ∧
        sameFont desc f = some true := by
  intro l
  induction l with
  | nil => intro pre f post h; simp [FontEngineFT.getFont] at h
  | cons a rest ih =>
    intro pre f post h
    unfold FontEngineFT.getFont at h
    cases hs : sameFont desc a with
    | none => rw [hs] at h; simp at h
    | some b =>
      cases b with
      | true =>
        rw [hs] at h
        simp only [Option.some.injEq, Prod.mk.injEq] at h
        obtain ⟨h1, h2, h3⟩ := h
        subst h1 h2 h3
        exact ⟨rfl, by simp, hs⟩
      | false =>
        rw [hs] at h
        cases hr : FontEngineFT.getFont desc rest with
        | none => rw [hr] at h; simp at h
        | some r =>
          cases r with
          | none => rw [hr] at h; simp at h
          | some z =>
            obtain ⟨zpre, zx, zpost⟩ := z
            rw [hr] at h
            simp only [Option.map_some', Option.some.injEq, Prod.mk.injEq] at h
            obtain ⟨h1, h2, h3⟩ := h
            subst h1 h2 h3
            obtain ⟨e, hpre, hx⟩ := ih zpre zx zpost hr
            refine ⟨by rw [e]; rfl, ?_, hx⟩
            intro y hy
            rcases List.mem_cons.mp hy with hya | hyr
            · subst hya; exact hs
            · exact hpre y hyr

theorem getFont_append (desc : FontScalerInfo) (pre : List FontFT) (f : FontFT)
    (post : List FontFT) (h1 : ∀ y ∈ pre, sameFont desc y = some false)
    (h2 : sameFont desc f = some true) :
    FontEngineFT.getFont desc (pre ++ f :: post) = some (some (pre, f, post)) := by
  induction pre with
  | nil => simp [FontEngineFT.getFont, h2]
  | cons a rest ih =>
    have ha : sameFont desc a = some false := h1 a (List.mem_cons_self a rest)
    have hrest := ih (fun y hy => h1 y (List.mem_cons_of_mem a hy))
    simp [FontEngineFT.getFont, ha, hrest]

theorem getFont_missing (desc : FontScalerInfo) :
    ∀ (l : List FontFT), FontEngineFT.getFont desc l = some none →
      ∀ y ∈ l, sameFont desc y = some false := by
  intro l
  induction l with
  | nil => intro _ y hy; simp at hy
  | cons a rest ih =>
    intro h y hy
    unfold FontEngineFT.getFont at h
    cases hs : sameFont desc a with
    | none => rw [hs] at h; simp at h
    | some b =>
      cases b with
      | true => rw [hs] at h; simp at h
      | false =>
        rw [hs] at h
        cases hr : FontEngineFT.getFont desc rest with
        | none => rw [hr] at h; simp at h
        | some r =>
          cases r with
          | none =>
            rcases List.mem_cons.mp hy with hya | hyr
            · subst hya; exact hs
            · exact ih hr y hyr
          | some z => rw [hr] at h; simp at h

theorem locateInst_some (a : Nat) :
    ∀ (l : List FontFT) (loc : InstLocation), locateInst a l = some loc →
      l = loc.pre ++ loc.font :: loc.post ∧
        (∀ f ∈ loc.pre, findAddr a f.pFontInstList = none) ∧
        findAddr a loc.font.pFontInstList = some (loc.ipre, loc.inst, loc.ipost) := by
  intro l
  induction l with
  | nil => intro loc h; simp [locateInst] at h
  | cons f rest ih =>
    intro loc h
    unfold locateInst at h
    cases hf : findAddr a f.pFontInstList with
    | some z =>
      obtain ⟨zpre, zx, zpost⟩ := z
      rw [hf] at h
      simp only [Option.some.injEq] at h
      subst h
      exact ⟨rfl, by simp, hf⟩
    | none =>
      rw [hf] at h
      cases hr : locateInst a rest with
      | none => rw [hr] at h; simp at h
      | some loc1 =>
        rw [hr] at h
        simp only [Option.map_some', Option.some.injEq] at h
        subst h
        obtain ⟨e, hpre, hx⟩ := ih loc1 hr
        refine ⟨by simp only [List.cons_append]; rw [← e], ?_, hx⟩
        intro y hy
        rcases List.mem_cons.mp hy with hya | hyr
        · subst hya; exact hf
        · exact hpre y hyr

theorem locateInst_append (a : Nat) (pre : List FontFT) (font : FontFT) (post : List FontFT)
    (ipre : List FontInstFT) (inst : FontInstFT) (ipost : List FontInstFT)
    (h1 : ∀ f ∈ pre, findAddr a f.pFontInstList = none)
    (h2 : findAddr a font.pFontInstList = some (ipre, inst, ipost)) :
    locateInst a (pre ++ font :: post) =
      some { pre := pre, font := font, ipre := ipre, inst := inst, ipost := ipost,
             post := post } := by
  induction pre with
  | nil => simp [locateInst, h2]
  | cons f rest ih =>
    have hf : findAddr a f.pFontInstList = none := h1 f (List.mem_cons_self f rest)
    have hrest := ih (fun y hy => h1 y (List.mem_cons_of_mem f hy))
    simp [locateInst, hf, hrest]

theorem locateInst_none (a : Nat) (l : List FontFT)
    (h : ∀ f ∈ l, findAddr a f.pFontInstList = none) : locateInst a l = none := by
  induction l with
  | nil => rfl
  | cons f rest ih =>
    have hf : findAddr a f.pFontInstList = none := h f (List.mem_cons_self f rest)
    have hrest := ih (fun y hy => h y (List.mem_cons_of_mem f hy))
    simp [locateInst, hf, hrest]

/-! ### What a successful `createFontScalerContext` did -/

/-- The three size events of a successful `FontInstFT` construction at address `a`. -/
theorem FontInstFT_new_some (ft : FreeType) (st : EngineState) (desc : FontScalerInfo)
    (inst : FontInstFT) (st1 : EngineState)
    (h : FontInstFT.new ft st desc = (some inst, st1)) :
    ∃ tm, FontFT.getTransMatrix ft st.gLCDSupport desc = some tm ∧
      inst = FontInstFT.ofRequest st.nextAddr tm desc 0 ∧
      st1 = { st with nextAddr := st.nextAddr + 1
                      events := st.events ++ [Event.FT_New_Size st.nextAddr true,
                        Event.FT_Activate_Size st.nextAddr true,
                        Event.FT_Set_Char_Size st.nextAddr true] } := by
  unfold FontInstFT.new at h
  cases htm : FontFT.getTransMatrix ft st.gLCDSupport desc with
  | none => rw [htm] at h; simp at h
  | some tm =>
    rw [htm] at h
    simp only [EngineState.log] at h
    split_ifs at h with h1 h2 h3
    · simp at h
    · simp at h
    · simp at h
    · simp only [Prod.mk.injEq, Option.some.injEq] at h
      obtain ⟨hi, hs⟩ := h
      have e1 : ft.FT_New_Size st.events = true := by simpa using h1
      rw [e1] at h2 h3 hs
      have e2 : ft.FT_Activate_Size (st.events ++ [Event.FT_New_Size st.nextAddr true]) = true := by
        simpa using h2
      rw [e2] at h3 hs
      have e3 : ft.FT_Set_Char_Size
          (st.events ++ [Event.FT_New_Size st.nextAddr true] ++
            [Event.FT_Activate_Size st.nextAddr true])
          (FEM16Dot16ToFEM26Dot6 tm.fScaleX) (FEM16Dot16ToFEM26Dot6 tm.fScaleY) = true := by
        simpa using h3
      rw [e3] at hs
      refine ⟨tm, rfl, hi.symm, ?_⟩
      rw [← hs]
      simp

theorem FontFT_new_some (ft : FreeType) (st : EngineState) (desc : FontScalerInfo)
    (font : FontFT) (st1 : EngineState) (h : FontFT.new ft st desc = (some font, st1)) :
    font = { addr := st.nextAddr, fontID := desc.fontID, pPath := desc.pPath,
             pBuffer := desc.pBuffer, refCnt := 0, pFontInstList := [] } ∧
      st1.pFontList = st.pFontList ∧ st1.nextAddr = st.nextAddr + 1 ∧
      st1.aborted = st.aborted ∧ st1.gCountFontFT = st.gCountFontFT + 1 := by
  unfold FontFT.new at h
  simp only at h
  split_ifs at h with h1 h2 h3
  all_goals first
    | (simp at h; done)
    | skip
  all_goals
    simp only [Prod.mk.injEq, Option.some.injEq] at h
    obtain ⟨hf, hs⟩ := h
    subst hf hs
    simp [InitFreetype, EngineState.log]
  all_goals split_ifs <;> simp

/-- The two ways in which `FontFT::getFontScaler` succeeds: on an instance found in the list of
the font, whose counter is incremented, or on an instance it has just created at the address
`st.nextAddr` and put at the head of the list. -/
theorem FontFT_getFontScaler_some (ft : FreeType) (st : EngineState) (font : FontFT)
    (desc : FontScalerInfo) (scaler : FontScalerFT) (ofont : Option FontFT) (st1 : EngineState)
    (h : FontFT.getFontScaler ft st font desc = (some scaler, ofont, st1)) :
    ∃ tm, FontFT.getTransMatrix ft st.gLCDSupport desc = some tm ∧
      ((∃ ipre inst ipost, findMatch tm desc.flags font.pFontInstList = some (ipre, inst, ipost) ∧
          scaler = { addr := st.nextAddr, pFontInst := inst.addr } ∧
          ofont = some { font with pFontInstList :=
            ipre ++ { inst with refCnt := (inst.refCnt + 1) % 65536 } :: ipost } ∧
          st1 = { st with nextAddr := st.nextAddr + 1 }) ∨
        (findMatch tm desc.flags font.pFontInstList = none ∧
          scaler = { addr := st.nextAddr + 1, pFontInst := st.nextAddr } ∧
          ofont = some { font with
            refCnt := (font.refCnt + 1) % 65536
            pFontInstList := FontInstFT.ofRequest st.nextAddr tm desc 1 :: font.pFontInstList } ∧
          st1 = { st with nextAddr := st.nextAddr + 2
                          events := st.events ++ [Event.FT_New_Size st.nextAddr true,
                            Event.FT_Activate_Size st.nextAddr true,
                            Event.FT_Set_Char_Size st.nextAddr true] })) := by
  unfold FontFT.getFontScaler FontFT.searchFontInst at h
  cases htm : FontFT.getTransMatrix ft st.gLCDSupport desc with
  | none => rw [htm] at h; simp at h
  | some tm =>
    simp only [htm] at h
    refine ⟨tm, rfl, ?_⟩
    cases hm : findMatch tm desc.flags font.pFontInstList with
    | some z =>
      obtain ⟨ipre, inst, ipost⟩ := z
      simp only [hm, FontScalerFT.new, Prod.mk.injEq, Option.some.injEq] at h
      obtain ⟨h1, h2, h3⟩ := h
      exact Or.inl ⟨ipre, inst, ipost, rfl, h1.symm, h2.symm, h3.symm⟩
    | none =>
      simp only [hm] at h
      cases hn : FontInstFT.new ft st desc with
      | mk oinst st2 =>
        rw [hn] at h
        cases oinst with
        | none =>
          simp only at h
          split_ifs at h <;> simp at h
        | some inst =>
          obtain ⟨tm', htm', hinst, hst2⟩ := FontInstFT_new_some ft st desc inst st2 hn
          rw [htm] at htm'
          simp only [Option.some.injEq] at htm'
          subst htm'
          simp only [FontScalerFT.new, Prod.mk.injEq, Option.some.injEq] at h
          obtain ⟨h1, h2, h3⟩ := h
          refine Or.inr ⟨rfl, ?_, ?_, ?_⟩
          · rw [← h1, hinst, hst2]; rfl
          · rw [← h2, hinst]; rfl
          · rw [← h3, hst2]

/-- The two ways in which `createFontScalerContext` succeeds: on a font found in the list, or on
a font it has just created and put at the head of the list. -/
theorem createFontScalerContext_some (ft : FreeType) (st : EngineState) (desc : FontScalerInfo)
    (scaler : FontScalerFT) (st' : EngineState)
    (h : FontEngineFT.createFontScalerContext ft st desc = (some scaler, st')) :
    st.aborted = false ∧
      ((∃ pre font post font1 st1,
          FontEngineFT.getFont desc st.pFontList = some (some (pre, font, post)) ∧
          FontFT.getFontScaler ft st font desc = (some scaler, some font1, st1) ∧
          st' = { st1 with pFontList := pre ++ font1 :: post }) ∨
        (FontEngineFT.getFont desc st.pFontList = some none ∧
          ∃ font st1 font1 st2, FontFT.new ft st desc = (some font, st1) ∧
            FontFT.getFontScaler ft st1 font desc = (some scaler, some font1, st2) ∧
            st' = { st2 with pFontList := font1 :: st2.pFontList })) := by
  unfold FontEngineFT.createFontScalerContext at h
  by_cases hab : st.aborted = true
  · rw [if_pos hab] at h; simp at h
  · rw [if_neg hab] at h
    refine ⟨by simpa using hab, ?_⟩
    unfold FontEngineFT.getFontScaler at h
    cases hg : FontEngineFT.getFont desc st.pFontList with
    | none => rw [hg] at h; simp at h
    | some r =>
      cases r with
      | some z =>
        obtain ⟨pre, font, post⟩ := z
        rw [hg] at h
        simp only at h
        cases hf : FontFT.getFontScaler ft st font desc with
        | mk r1 rest =>
          obtain ⟨ofont, st1⟩ := rest
          rw [hf] at h
          cases ofont with
          | some font1 =>
            simp only [Prod.mk.injEq] at h
            obtain ⟨h1, h2⟩ := h
            subst h1
            exact Or.inl ⟨pre, font, post, font1, st1, rfl, hf, h2.symm⟩
          | none =>
            simp only [Prod.mk.injEq] at h
            obtain ⟨h1, _⟩ := h
            subst h1
            obtain ⟨tm, _, hh | hh⟩ := FontFT_getFontScaler_some ft st font desc scaler none st1 hf
            · obtain ⟨_, _, _, _, _, h3, _⟩ := hh
              simp at h3
            · obtain ⟨_, _, h3, _⟩ := hh
              simp at h3
      | none =>
        rw [hg] at h
        simp only at h
        refine Or.inr ⟨rfl, ?_⟩
        cases hn : FontFT.new ft st desc with
        | mk ofont st1 =>
          rw [hn] at h
          cases ofont with
          | none =>
            simp only at h
            split_ifs at h <;> simp at h
          | some font =>
            simp only at h
            cases hf : FontFT.getFontScaler ft st1 font desc with
            | mk r1 rest =>
              obtain ⟨ofont1, st2⟩ := rest
              rw [hf] at h
              cases r1 with
              | none => simp at h
              | some sc =>
                cases ofont1 with
                | none => simp at h
                | some font1 =>
                  simp only [Prod.mk.injEq, Option.some.injEq] at h
                  obtain ⟨h1, h2⟩ := h
                  subst h1
                  exact ⟨font, st1, font1, st2, rfl, hf, h2.symm⟩

theorem instMatches_ofRequest (tm tm' : TransMatrix) (flags : Nat) (a : Nat)
    (desc : FontScalerInfo) (r : Nat) :
    instMatches tm flags (FontInstFT.ofRequest a tm' desc r) = true ↔
      tm' = tm ∧ desc.flags = flags := by
  obtain ⟨⟨xx, xy, yx, yy⟩, sx, sy, lf⟩ := tm
  obtain ⟨⟨xx', xy', yx', yy'⟩, sx', sy', lf'⟩ := tm'
  simp only [instMatches, FontInstFT.ofRequest, Bool.and_eq_true, beq_iff_eq, TransMatrix.mk.injEq,
    FT_Matrix.mk.injEq]
  tauto

theorem instMatches_refCnt (tm : TransMatrix) (flags : Nat) (inst : FontInstFT) (r : Nat) :
    instMatches tm flags { inst with refCnt := r } = instMatches tm flags inst := rfl

theorem sameFont_congr (d1 d2 : FontScalerInfo) (f1 f2 : FontFT)
    (h1 : d1.pBuffer = d2.pBuffer) (h2 : d1.pPath = d2.pPath) (h3 : f1.pBuffer = f2.pBuffer)
    (h4 : f1.pPath = f2.pPath) : sameFont d1 f1 = sameFont d2 f2 := by
  unfold sameFont
  rw [h1, h2, h3, h4]

/-- A font that was built from the request is never told apart from it. -/
theorem sameFont_own (desc : FontScalerInfo) (font : FontFT) (h1 : font.pBuffer = desc.pBuffer)
    (h2 : font.pPath = desc.pPath) : sameFont desc font ≠ some false := by
  unfold sameFont
  rw [h1, h2]
  by_cases hb : desc.pBuffer ≠ 0 ∧ desc.pBuffer ≠ 0
  · rw [if_pos hb]; simp
  · rw [if_neg hb]
    cases desc.pPath with
    | none => simp
    | some p => simp

theorem getFont_crash (desc : FontScalerInfo) (pre : List FontFT) (f : FontFT)
    (post : List FontFT) (h1 : ∀ y ∈ pre, sameFont desc y = some false)
    (h2 : sameFont desc f = none) :
    FontEngineFT.getFont desc (pre ++ f :: post) = none := by
  induction pre with
  | nil => simp [FontEngineFT.getFont, h2]
  | cons a rest ih =>
    have ha : sameFont desc a = some false := h1 a (List.mem_cons_self a rest)
    have hrest := ih (fun y hy => h1 y (List.mem_cons_of_mem a hy))
    simp [FontEngineFT.getFont, ha, hrest]

theorem createFontScalerContext_crash (ft : FreeType) (st : EngineState)
    (desc : FontScalerInfo) (h : FontEngineFT.getFont desc st.pFontList = none) :
    (FontEngineFT.createFontScalerContext ft st desc).1 = none ∧
      (FontEngineFT.createFontScalerContext ft st desc).2.aborted = true := by
  unfold FontEngineFT.createFontScalerContext
  by_cases hab : st.aborted = true
  · rw [if_pos hab]; exact ⟨rfl, hab⟩
  · rw [if_neg hab]
    unfold FontEngineFT.getFontScaler
    rw [h]
    exact ⟨rfl, rfl⟩

/-- A successful call on a list in which the font `fontX` is the first that is not told apart
from the request went through `fontX`. -/
theorem createFontScalerContext_on_font (ft : FreeType) (st : EngineState)
    (desc : FontScalerInfo) (scaler : FontScalerFT) (st' : EngineState)
    (pre : List FontFT) (fontX : FontFT) (post : List FontFT)
    (h : FontEngineFT.createFontScalerContext ft st desc = (some scaler, st'))
    (hl : st.pFontList = pre ++ fontX :: post)
    (hpre : ∀ y ∈ pre, sameFont desc y = some false)
    (hx : sameFont desc fontX ≠ some false) :
    sameFont desc fontX = some true ∧
      ∃ font1 st1, FontFT.getFontScaler ft st fontX desc = (some scaler, some font1, st1) ∧
        st' = { st1 with pFontList := pre ++ font1 :: post } := by
  have htrue : sameFont desc fontX = some true := by
    cases hs : sameFont desc fontX with
    | none =>
      have hc := createFontScalerContext_crash ft st desc
        (by rw [hl]; exact getFont_crash desc pre fontX post hpre hs)
      rw [h] at hc
      simp at hc
    | some b =>
      cases b with
      | true => rfl
      | false => exact absurd hs hx
  refine ⟨htrue, ?_⟩
  have hg : FontEngineFT.getFont desc st.pFontList = some (some (pre, fontX, post)) := by
    rw [hl]; exact getFont_append desc pre fontX post hpre htrue
  obtain ⟨_, hcase | hcase⟩ := createFontScalerContext_some ft st desc scaler st' h
  · obtain ⟨pre', font', post', font1, st1, hg', hf, hst⟩ := hcase
    rw [hg] at hg'
    simp only [Option.some.injEq, Prod.mk.injEq] at hg'
    obtain ⟨e1, e2, e3⟩ := hg'
    subst e1 e2 e3
    exact ⟨font1, st1, hf, hst⟩
  · obtain ⟨hg', _⟩ := hcase
    rw [hg] at hg'
    simp at hg'

/-- The state a successful call leaves behind when no instance in the cache matches the
request: a new instance with reference count `1` at the head of the instance list of the
request's font. -/
theorem createFontScalerContext_miss (ft : FreeType) (st : EngineState) (desc : FontScalerInfo)
    (scaler : FontScalerFT) (st' : EngineState)
    (h : FontEngineFT.createFontScalerContext ft st desc = (some scaler, st'))
    (hmiss : ∀ lcd tm, FontFT.getTransMatrix ft lcd desc = some tm →
      ∀ f ∈ st.pFontList, ∀ i ∈ f.pFontInstList, instMatches tm desc.flags i = false) :
    ∃ pre font post tm,
      FontFT.getTransMatrix ft st'.gLCDSupport desc = some tm ∧
      st'.pFontList = pre ++
        { font with refCnt := (font.refCnt + 1) % 65536
                    pFontInstList :=
                      FontInstFT.ofRequest scaler.pFontInst tm desc 1 :: font.pFontInstList }
          :: post ∧
      (∀ y ∈ pre, sameFont desc y = some false) ∧
      sameFont desc font ≠ some false ∧
      (∀ f ∈ pre ++ post, f ∈ st.pFontList) ∧
      (∀ i ∈ font.pFontInstList, ∃ f ∈ st.pFontList, i ∈ f.pFontInstList) ∧
      st.nextAddr ≤ scaler.pFontInst ∧ scaler.pFontInst < st'.nextAddr ∧
      st'.aborted = false := by
  obtain ⟨hab, hcase | hcase⟩ := createFontScalerContext_some ft st desc scaler st' h
  · obtain ⟨pre, font, post, font1, st1, hg, hf, hst⟩ := hcase
    obtain ⟨hl, hpre, hx⟩ := getFont_found desc st.pFontList pre font post hg
    obtain ⟨tm, htm, hh | hh⟩ := FontFT_getFontScaler_some ft st font desc scaler _ st1 hf
    · obtain ⟨ipre, inst, ipost, hm, _, _, _⟩ := hh
      obtain ⟨e, _, hp⟩ := findFirst_some _ _ _ _ _ hm
      have hnot := hmiss st.gLCDSupport tm htm font (by rw [hl]; simp) inst (by rw [e]; simp)
      rw [hnot] at hp
      exact absurd hp (by simp)
    · obtain ⟨_, hsc, hfont, hst1⟩ := hh
      simp only [Option.some.injEq] at hfont
      refine ⟨pre, font, post, tm, ?_, ?_, hpre, by rw [hx]; simp, ?_, ?_, ?_, ?_, ?_⟩
      · rw [hst, hst1]; exact htm
      · rw [hst, hfont, hsc]
      · intro f hf'; rw [hl]
        rcases List.mem_append.mp hf' with h1 | h1
        · exact List.mem_append_left _ h1
        · exact List.mem_append_right _ (List.mem_cons_of_mem _ h1)
      · intro i hi; exact ⟨font, by rw [hl]; simp, hi⟩
      · rw [hsc]
      · rw [hst, hst1, hsc]; simp
      · rw [hst, hst1]; exact hab
  · obtain ⟨hg, font, st1, font1, st2, hn, hf, hst⟩ := hcase
    obtain ⟨hfont, hl1, hna, hab1, _⟩ := FontFT_new_some ft st desc font st1 hn
    obtain ⟨tm, htm, hh | hh⟩ := FontFT_getFontScaler_some ft st1 font desc scaler _ st2 hf
    · obtain ⟨ipre, inst, ipost, hm, _, _, _⟩ := hh
      obtain ⟨e, _, _⟩ := findFirst_some _ _ _ _ _ hm
      rw [hfont] at e
      simp at e
    · obtain ⟨_, hsc, hfont1, hst2⟩ := hh
      simp only [Option.some.injEq] at hfont1
      refine ⟨[], font, st.pFontList, tm, ?_, ?_, by simp, ?_, ?_, ?_, ?_, ?_, ?_⟩
      · rw [hst, hst2]; exact htm
      · rw [hst, hfont1, hsc, hst2]; simp [hl1]
      · exact sameFont_own desc font (by rw [hfont]) (by rw [hfont])
      · intro f hf'; simpa using hf'
      · intro i hi; rw [hfont] at hi; simp at hi
      · rw [hsc]; simp only; omega
      · rw [hst, hst2, hsc]; simp
      · rw [hst, hst2]; simp [hab1, hab]

/-! ### Sharing of font instances -/

/-- C2, counterexample. Runs of successful `createFontScalerContext` calls on a fresh engine
with the reference FreeType; the scalers are listed latest first.
(1) Two requests with the same path `a.ttf`, the same transform and flags, and the non-null
buffer pointers `100` and `200`: `getFont` compares the buffer pointers, the second call creates
a second font (at address `4`), and its scaler is bound to the new instance at address `5`, not
to the instance at `2` of the first scaler, although the two requests resolve to the same
matrix, scales and load flags.
(2) The same request three times: the second and the third call are two successive successful
calls with equal keys, and the reference count of the shared instance goes from `2` to `3`.
(3) A request at scale `2.0`, then at scale `1.0`, then at scale `2.0` again: the last two calls
resolve to different scales, but no instance is created for the last one, whose scaler is bound
to the instance at `2` of the first call, the history of FreeType calls being unchanged.
(4) After a call for `a.ttf` with the buffer pointer `100` and a call for `b.ttf` without
buffer, both at scale `2.0`: two requests at scale `1.0` with the same non-null buffer pointer
`100` and the paths `a.ttf` and `b.ttf`. Neither is in the cache and they resolve to the same
matrix, scales and load flags, but `getFont` compares the paths as soon as one of the two
buffer pointers is null: the third call finds the font at `1` and the fourth the font at `4`,
and their scalers are bound to the distinct instances at `7` and `9`. -/
theorem scalers_sharing_depends_on_cache_state :
    (runOps FreeType.reference
      [CacheOp.create { plainRequest "a.ttf" 65536 0 with pBuffer := 100 },
       CacheOp.create { plainRequest "a.ttf" 65536 0 with pBuffer := 200 }]
      (EngineState.init, [])).2 = [⟨6, 5⟩, ⟨3, 2⟩] ∧
    (runOps FreeType.reference
      [CacheOp.create { plainRequest "a.ttf" 65536 0 with pBuffer := 100 },
       CacheOp.create { plainRequest "a.ttf" 65536 0 with pBuffer := 200 }]
      (EngineState.init, [])).1.pFontList.map
        (fun f => (f.addr, f.pPath, f.pBuffer, f.pFontInstList.map (fun i => i.addr))) =
      [(4, some "a.ttf", 200, [5]), (1, some "a.ttf", 100, [2])] ∧
    FontFT.getTransMatrix FreeType.reference false
        { plainRequest "a.ttf" 65536 0 with pBuffer := 100 } =
      FontFT.getTransMatrix FreeType.reference false
        { plainRequest "a.ttf" 65536 0 with pBuffer := 200 } ∧
    (runOps FreeType.reference
      [CacheOp.create (plainRequest "a.ttf" 65536 0),
       CacheOp.create (plainRequest "a.ttf" 65536 0),
       CacheOp.create (plainRequest "a.ttf" 65536 0)]
      (EngineState.init, [])).2 = [⟨5, 2⟩, ⟨4, 2⟩, ⟨3, 2⟩] ∧
    instRefCnt (runOps FreeType.reference
      [CacheOp.create (plainRequest "a.ttf" 65536 0),
       CacheOp.create (plainRequest "a.ttf" 65536 0)]
      (EngineState.init, [])).1 2 = some 2 ∧
    instRefCnt (runOps FreeType.reference
      [CacheOp.create (plainRequest "a.ttf" 65536 0),
       CacheOp.create (plainRequest "a.ttf" 65536 0),
       CacheOp.create (plainRequest "a.ttf" 65536 0)]
      (EngineState.init, [])).1 2 = some 3 ∧
    (runOps FreeType.reference
      [CacheOp.create (plainRequest "a.ttf" 131072 0),
       CacheOp.create (plainRequest "a.ttf" 65536 0),
       CacheOp.create (plainRequest "a.ttf" 131072 0)]
      (EngineState.init, [])).2 = [⟨6, 2⟩, ⟨5, 4⟩, ⟨3, 2⟩] ∧
    (FontFT.getTransMatrix FreeType.reference false (plainRequest "a.ttf" 65536 0)).map
      (fun r => r.fScaleX) = some 65536 ∧
    (FontFT.getTransMatrix FreeType.reference false (plainRequest "a.ttf" 131072 0)).map
      (fun r => r.fScaleX) = some 131072 ∧
    (runOps FreeType.reference
      [CacheOp.create (plainRequest "a.ttf" 131072 0),
       CacheOp.create (plainRequest "a.ttf" 65536 0),
       CacheOp.create (plainRequest "a.ttf" 131072 0)]
      (EngineState.init, [])).1.events =
      (runOps FreeType.reference
        [CacheOp.create (plainRequest "a.ttf" 131072 0),
         CacheOp.create (plainRequest "a.ttf" 65536 0)]
        (EngineState.init, [])).1.events ∧
    (runOps FreeType.reference
      [CacheOp.create { plainRequest "a.ttf" 131072 0 with pBuffer := 100 },
       CacheOp.create (plainRequest "b.ttf" 131072 0),
       CacheOp.create { plainRequest "a.ttf" 65536 0 with pBuffer := 100 },
       CacheOp.create { plainRequest "b.ttf" 65536 0 with pBuffer := 100 }]
      (EngineState.init, [])).2 = [⟨10, 9⟩, ⟨8, 7⟩, ⟨6, 5⟩, ⟨3, 2⟩] ∧
    (runOps FreeType.reference
      [CacheOp.create { plainRequest "a.ttf" 131072 0 with pBuffer := 100 },
       CacheOp.create (plainRequest "b.ttf" 131072 0),
       CacheOp.create { plainRequest "a.ttf" 65536 0 with pBuffer := 100 },
       CacheOp.create { plainRequest "b.ttf" 65536 0 with pBuffer := 100 }]
      (EngineState.init, [])).1.pFontList.map
        (fun f => (f.addr, f.pPath, f.pBuffer, f.pFontInstList.map (fun i => i.addr))) =
      [(4, some "b.ttf", 0, [9, 5]), (1, some "a.ttf", 100, [7, 2])] ∧
    FontFT.getTransMatrix FreeType.reference false
        { plainRequest "a.ttf" 65536 0 with pBuffer := 100 } =
      FontFT.getTransMatrix FreeType.reference false
        { plainRequest "b.ttf" 65536 0 with pBuffer := 100 } := by
  refine ⟨by decide, by decide, by decide, by decide, by decide, by decide, by decide,
    by decide, by decide, by decide, by decide, by decide, by decide⟩

/-- C2, amended. Two successive successful `createFontScalerContext` calls with the same font
identity (the same `pBuffer` and the same `pPath`), the second made while the first scaler is
alive, neither request being in the cache before the first call (so that the first call
creates its instance, with reference count `1`): the second scaler is bound to the instance of the first if and only
if the two requests resolve, via `getTransMatrix`, to the same matrix, `fScaleX`, `fScaleY`
and load flags and carry equal flags bytes. In that case the reference count of the instance
goes from `1` to `2` and no FreeType object is created (the event history is unchanged);
otherwise a new instance with another address is put in front of the first one in the instance
list of the same font, with its own `FT_Size`. Requests whose flags bytes differ never share an
instance. -/
theorem scalers_share_instance_iff (ft : FreeType) (st0 st1 st2 : EngineState)
    (d1 d2 : FontScalerInfo) (sc1 sc2 : FontScalerFT)
    (hbuf : d1.pBuffer = d2.pBuffer) (hpath : d1.pPath = d2.pPath)
    (hmiss1 : ∀ lcd tm, FontFT.getTransMatrix ft lcd d1 = some tm →
      ∀ f ∈ st0.pFontList, ∀ i ∈ f.pFontInstList, instMatches tm d1.flags i = false)
    (hmiss2 : ∀ lcd tm, FontFT.getTransMatrix ft lcd d2 = some tm →
      ∀ f ∈ st0.pFontList, ∀ i ∈ f.pFontInstList, instMatches tm d2.flags i = false)
    (h1 : FontEngineFT.createFontScalerContext ft st0 d1 = (some sc1, st1))
    (h2 : FontEngineFT.createFontScalerContext ft st1 d2 = (some sc2, st2)) :
    ∃ tm1 tm2 pre fontX post rest,
      FontFT.getTransMatrix ft st1.gLCDSupport d1 = some tm1 ∧
      FontFT.getTransMatrix ft st1.gLCDSupport d2 = some tm2 ∧
      st1.pFontList = pre ++ fontX :: post ∧
      fontX.pFontInstList = FontInstFT.ofRequest sc1.pFontInst tm1 d1 1 :: rest ∧
      (sc2.pFontInst = sc1.pFontInst ↔ (tm1 = tm2 ∧ d1.flags = d2.flags)) ∧
      ((tm1 = tm2 ∧ d1.flags = d2.flags) →
        st2.pFontList = pre ++
          { fontX with pFontInstList := FontInstFT.ofRequest sc1.pFontInst tm1 d1 2 :: rest }
            :: post ∧
        st2.events = st1.events) ∧
      (¬ (tm1 = tm2 ∧ d1.flags = d2.flags) →
        st2.pFontList = pre ++
          { fontX with
            refCnt := (fontX.refCnt + 1) % 65536
            pFontInstList := FontInstFT.ofRequest sc2.pFontInst tm2 d2 1 ::
              FontInstFT.ofRequest sc1.pFontInst tm1 d1 1 :: rest } :: post ∧
        st2.events = st1.events ++ [Event.FT_New_Size sc2.pFontInst true,
          Event.FT_Activate_Size sc2.pFontInst true,
          Event.FT_Set_Char_Size sc2.pFontInst true]) ∧
      (d1.flags ≠ d2.flags → sc2.pFontInst ≠ sc1.pFontInst) := by
  obtain ⟨pre, font, post, tm1, htm1, hl1, hpre, hx, _, hold, _, hlt, _⟩ :=
    createFontScalerContext_miss ft st0 d1 sc1 st1 h1 hmiss1
  have hpre2 : ∀ y ∈ pre, sameFont d2 y = some false := by
    intro y hy
    rw [← sameFont_congr d1 d2 y y hbuf hpath rfl rfl]
    exact hpre y hy
  have hx2 : sameFont d2
      { font with refCnt := (font.refCnt + 1) % 65536
                  pFontInstList :=
                    FontInstFT.ofRequest sc1.pFontInst tm1 d1 1 :: font.pFontInstList }
      ≠ some false := by
    have e := sameFont_congr d1 d2 font
      { font with refCnt := (font.refCnt + 1) % 65536
                  pFontInstList :=
                    FontInstFT.ofRequest sc1.pFontInst tm1 d1 1 :: font.pFontInstList }
      hbuf hpath rfl rfl
    rw [← e]
    exact hx
  obtain ⟨_, font1, stx, hf, hst2⟩ :=
    createFontScalerContext_on_font ft st1 d2 sc2 st2 pre _ post h2 hl1 hpre2 hx2
  obtain ⟨tm2, htm2, hh⟩ := FontFT_getFontScaler_some ft st1 _ d2 sc2 _ stx hf
  have hkey : instMatches tm2 d2.flags (FontInstFT.ofRequest sc1.pFontInst tm1 d1 1) = true ↔
      (tm1 = tm2 ∧ d1.flags = d2.flags) := instMatches_ofRequest tm2 tm1 d2.flags _ d1 1
  have hrest : findMatch tm2 d2.flags font.pFontInstList = none := by
    unfold findMatch
    rw [findFirst_none]
    intro i hi
    obtain ⟨f, hf', hi'⟩ := hold i hi
    exact hmiss2 st1.gLCDSupport tm2 htm2 f hf' i hi'
  by_cases hK : tm1 = tm2 ∧ d1.flags = d2.flags
  · have hm : findMatch tm2 d2.flags
        (FontInstFT.ofRequest sc1.pFontInst tm1 d1 1 :: font.pFontInstList) =
        some ([], FontInstFT.ofRequest sc1.pFontInst tm1 d1 1, font.pFontInstList) := by
      unfold findMatch findFirst
      rw [if_pos (hkey.mpr hK)]
    rcases hh with hh | hh
    · obtain ⟨ipre, inst, ipost, hm', hsc, hfont1, hstx⟩ := hh
      simp only at hm'
      rw [hm] at hm'
      simp only [Option.some.injEq, Prod.mk.injEq] at hm'
      obtain ⟨e1, e2, e3⟩ := hm'
      subst e1 e2 e3
      simp only [Option.some.injEq] at hfont1
      have hsame : sc2.pFontInst = sc1.pFontInst := by rw [hsc]; rfl
      refine ⟨tm1, tm2, pre, _, post, font.pFontInstList, htm1, htm2, hl1, rfl, ?_, ?_, ?_, ?_⟩
      · exact ⟨fun _ => hK, fun _ => hsame⟩
      · intro _
        rw [hst2, hfont1, hstx]
        exact ⟨rfl, rfl⟩
      · intro hn; exact absurd hK hn
      · intro hfl; exact absurd hK.2 hfl
    · obtain ⟨hm', _⟩ := hh
      simp only at hm'
      rw [hm] at hm'
      simp at hm'
  · have hno : instMatches tm2 d2.flags (FontInstFT.ofRequest sc1.pFontInst tm1 d1 1) = false := by
      rw [← Bool.not_eq_true, hkey]; exact hK
    have hm : findMatch tm2 d2.flags
        (FontInstFT.ofRequest sc1.pFontInst tm1 d1 1 :: font.pFontInstList) = none := by
      unfold findMatch at hrest ⊢
      unfold findFirst
      rw [hno, hrest]
      simp
    rcases hh with hh | hh
    · obtain ⟨ipre, inst, ipost, hm', _⟩ := hh
      simp only at hm'
      rw [hm] at hm'
      simp at hm'
    · obtain ⟨_, hsc, hfont1, hstx⟩ := hh
      simp only [Option.some.injEq] at hfont1
      have hdiff : sc2.pFontInst ≠ sc1.pFontInst := by
        rw [hsc]; simp only; omega
      have hp : sc2.pFontInst = st1.nextAddr := by rw [hsc]
      refine ⟨tm1, tm2, pre, _, post, font.pFontInstList, htm1, htm2, hl1, rfl, ?_, ?_, ?_, ?_⟩
      · exact ⟨fun hsame => absurd hsame hdiff, fun hk => absurd hk hK⟩
      · intro hk; exact absurd hk hK
      · intro _
        rw [hst2, hfont1, hstx, hp]
        exact ⟨rfl, rfl⟩
      · intro _; exact hdiff


/-- C2 at the same request made twice on a fresh engine (with the reference FreeType): the
second scaler is bound to the instance of the first and no FreeType object is created by the
second call. -/
theorem scalers_share_instance_iff_witness :
    ∃ sc1 st1 sc2 st2,
      FontEngineFT.createFontScalerContext FreeType.reference EngineState.init
        (plainRequest "a.ttf" 65536 0) = (some sc1, st1) ∧
      FontEngineFT.createFontScalerContext FreeType.reference st1
        (plainRequest "a.ttf" 65536 0) = (some sc2, st2) ∧
      sc2.pFontInst = sc1.pFontInst ∧ st2.events = st1.events := by
  have h1 : FontEngineFT.createFontScalerContext FreeType.reference EngineState.init
      (plainRequest "a.ttf" 65536 0) = (some ⟨3, 2⟩,
        (FontEngineFT.createFontScalerContext FreeType.reference EngineState.init
          (plainRequest "a.ttf" 65536 0)).2) := by decide
  have h2 : FontEngineFT.createFontScalerContext FreeType.reference
      (FontEngineFT.createFontScalerContext FreeType.reference EngineState.init
          (plainRequest "a.ttf" 65536 0)).2
      (plainRequest "a.ttf" 65536 0) = (some ⟨4, 2⟩,
        (FontEngineFT.createFontScalerContext FreeType.reference
          (FontEngineFT.createFontScalerContext FreeType.reference EngineState.init
            (plainRequest "a.ttf" 65536 0)).2 (plainRequest "a.ttf" 65536 0)).2) := by decide
  obtain ⟨tm1, tm2, _, _, _, _, e1, e2, _, _, hiff, hsame, _, _⟩ :=
    scalers_share_instance_iff FreeType.reference EngineState.init _ _
      (plainRequest "a.ttf" 65536 0) (plainRequest "a.ttf" 65536 0) ⟨3, 2⟩ ⟨4, 2⟩ rfl rfl
      (fun _ _ _ f hf => by simp [EngineState.init] at hf)
      (fun _ _ _ f hf => by simp [EngineState.init] at hf) h1 h2
  have htm : tm1 = tm2 := Option.some.inj (e1.symm.trans e2)
  exact ⟨_, _, _, _, h1, h2, hiff.mpr ⟨htm, rfl⟩, (hsame ⟨htm, rfl⟩).2⟩


/-! ### Destruction of a font instance -/

/-- C4, amended. Destroying the font instance at address `a`, located at `loc` in the
engine's lists, in a state whose font reference count equals the number of instances in the
font's list (below `65536`): the node of exactly that instance is unlinked from the instance list and the
reference count of the font is decremented. If it was the last instance of the font, the font
is destroyed once (one `deleteFontFT` and one `FT_Done_Face` event), its node is unlinked from
the font list, the other fonts keeping their order, `gCountFontFT` is decremented, and
`FT_Done_FreeType` is called exactly when the count has reached zero (the statement
`assert(gLibraryFT = NULL)` that follows the call then aborts the program unless `NDEBUG` is
defined). If other instances remain, the font stays at its place in the list, `gCountFontFT`
is unchanged and the only FreeType call is `FT_Done_Size`. -/
theorem FontInstFT_destroy_unlinks (ft : FreeType) (st : EngineState) (a : Nat)
    (loc : InstLocation) (hloc : locateInst a st.pFontList = some loc)
    (hinv : loc.font.refCnt = loc.font.pFontInstList.length)
    (hlt : loc.font.refCnt < 65536) :
    st.pFontList = loc.pre ++ loc.font :: loc.post ∧
    loc.font.pFontInstList = loc.ipre ++ loc.inst :: loc.ipost ∧
    loc.inst.addr = a ∧
    (loc.ipre ++ loc.ipost = [] →
      (FontInstFT.destroy ft st loc).pFontList = loc.pre ++ loc.post ∧
      (FontInstFT.destroy ft st loc).gCountFontFT = st.gCountFontFT - 1 ∧
      (FontInstFT.destroy ft st loc).events =
        st.events ++ [Event.deleteFontInstFT a, Event.FT_Done_Size a,
          Event.deleteFontFT loc.font.addr, Event.FT_Done_Face loc.font.addr] ++
          (if st.gCountFontFT - 1 = 0 then [Event.FT_Done_FreeType] else []) ∧
      (FontInstFT.destroy ft st loc).aborted =
        (if st.gCountFontFT - 1 = 0 then !ft.NDEBUG else st.aborted)) ∧
    (loc.ipre ++ loc.ipost ≠ [] →
      (FontInstFT.destroy ft st loc).pFontList = loc.pre ++
        { loc.font with refCnt := loc.font.refCnt - 1
                        pFontInstList := loc.ipre ++ loc.ipost } :: loc.post ∧
      (FontInstFT.destroy ft st loc).gCountFontFT = st.gCountFontFT ∧
      (FontInstFT.destroy ft st loc).events =
        st.events ++ [Event.deleteFontInstFT a, Event.FT_Done_Size a] ∧
      (FontInstFT.destroy ft st loc).aborted = st.aborted) := by
  obtain ⟨hl, _, hfind⟩ := locateInst_some a st.pFontList loc hloc
  obtain ⟨hil, _, hp⟩ := findFirst_some _ _ _ _ _ hfind
  have haddr : loc.inst.addr = a := by simpa using hp
  have hlen : loc.font.refCnt = (loc.ipre ++ loc.ipost).length + 1 := by
    rw [hinv, hil]; simp only [List.length_append, List.length_cons]; omega
  refine ⟨hl, hil, haddr, ?_, ?_⟩
  · intro hnil
    have h0 : (loc.font.refCnt + 65535) % 65536 = 0 := by
      rw [hlen, hnil]; rfl
    unfold FontInstFT.destroy
    simp only [h0, if_true, haddr]
    unfold FontFT.destroy
    by_cases hc : st.gCountFontFT - 1 = 0
    · simp [hc, EngineState.log, doneFreeType]
    · simp [hc, EngineState.log]
  · intro hne
    have hpos : 0 < (loc.ipre ++ loc.ipost).length := List.length_pos.mpr hne
    have h1 : (loc.font.refCnt + 65535) % 65536 = loc.font.refCnt - 1 := by omega
    have h2 : loc.font.refCnt - 1 ≠ 0 := by omega
    unfold FontInstFT.destroy
    simp only [h1, if_neg h2, haddr]
    simp [EngineState.log]

/-- C4 at the instance at address `2` of the engine that holds one font with that single
instance (the state after one `createFontScalerContext`): the font list is empty afterwards. -/
theorem FontInstFT_destroy_unlinks_witness :
    (FontInstFT.destroy FreeType.reference
      (FontEngineFT.createFontScalerContext FreeType.reference EngineState.init
        (plainRequest "a.ttf" 65536 0)).2
      { pre := [], font := { addr := 1, fontID := 1, pPath := some "a.ttf", pBuffer := 0,
                             refCnt := 1,
                             pFontInstList := [FontInstFT.ofRequest 2
                               ⟨⟨65536, 0, 0, 65536⟩, 65536, 65536, 10⟩
                               (plainRequest "a.ttf" 65536 0) 1] },
        ipre := [], inst := FontInstFT.ofRequest 2 ⟨⟨65536, 0, 0, 65536⟩, 65536, 65536, 10⟩
          (plainRequest "a.ttf" 65536 0) 1,
        ipost := [], post := [] }).pFontList = [] :=
  ((FontInstFT_destroy_unlinks FreeType.reference
    (FontEngineFT.createFontScalerContext FreeType.reference EngineState.init
      (plainRequest "a.ttf" 65536 0)).2 2 _ (by decide) (by decide) (by decide)).2.2.2.1
    (by decide)).1


/-! ### Scalers that share one instance -/

/-- A call that finds the instance at the head of the instance list of the first font with the
identity of the request: the new scaler is bound to that instance, whose counter is
incremented; nothing else changes but the allocation pointer. -/
theorem createFontScalerContext_hit (ft : FreeType) (st : EngineState) (desc : FontScalerInfo)
    (pre : List FontFT) (font : FontFT) (post : List FontFT) (tm : TransMatrix)
    (inst : FontInstFT) (rest : List FontInstFT)
    (hab : st.aborted = false)
    (hl : st.pFontList = pre ++ font :: post)
    (hpre : ∀ y ∈ pre, sameFont desc y = some false)
    (hx : sameFont desc font = some true)
    (htm : FontFT.getTransMatrix ft st.gLCDSupport desc = some tm)
    (hil : font.pFontInstList = inst :: rest)
    (hm : instMatches tm desc.flags inst = true) :
    FontEngineFT.createFontScalerContext ft st desc =
      (some { addr := st.nextAddr, pFontInst := inst.addr },
        { st with
          nextAddr := st.nextAddr + 1
          pFontList := pre ++
            { font with
              pFontInstList := { inst with refCnt := (inst.refCnt + 1) % 65536 } :: rest }
              :: post }) := by
  have hfind : findMatch tm desc.flags font.pFontInstList = some ([], inst, rest) := by
    rw [hil]; unfold findMatch findFirst; rw [if_pos hm]
  have hf : FontFT.getFontScaler ft st font desc =
      (some { addr := st.nextAddr, pFontInst := inst.addr },
        some { font with
          pFontInstList := { inst with refCnt := (inst.refCnt + 1) % 65536 } :: rest },
        { st with nextAddr := st.nextAddr + 1 }) := by
    unfold FontFT.getFontScaler FontFT.searchFontInst
    simp only [htm, hfind, FontScalerFT.new, List.nil_append]
  unfold FontEngineFT.createFontScalerContext
  have hna : ¬ (st.aborted = true) := by rw [hab]; simp
  rw [if_neg hna]
  unfold FontEngineFT.getFontScaler
  rw [hl, getFont_append desc pre font post hpre hx]
  simp only [hf]

/-- The scalers of `createMany` are at most as many as the calls. -/
theorem createMany_length_le (ft : FreeType) (desc : FontScalerInfo) :
    ∀ (n : Nat) (st : EngineState), (createMany ft desc n st).1.length ≤ n := by
  intro n
  induction n with
  | zero => intro st; simp [createMany]
  | succ n ih =>
    intro st
    unfold createMany
    rcases h : FontEngineFT.createFontScalerContext ft st desc with ⟨o, st1⟩
    cases o with
    | none => simp only; exact Nat.le_succ_of_le (ih st1)
    | some sc => simp only [List.length_cons]; exact Nat.succ_le_succ (ih st1)

/-- Successive calls with one request that hit the instance at the head of the instance list:
all succeed, all scalers are bound to that instance, and its counter is incremented (modulo
`65536`) with each call. -/
theorem createMany_hits (ft : FreeType) (desc : FontScalerInfo) (b : EngineState)
    (pre : List FontFT) (font : FontFT) (post : List FontFT) (tm : TransMatrix)
    (inst : FontInstFT) (rest : List FontInstFT)
    (hab : b.aborted = false)
    (hpre : ∀ y ∈ pre, sameFont desc y = some false)
    (hx : sameFont desc font = some true)
    (htm : FontFT.getTransMatrix ft b.gLCDSupport desc = some tm)
    (hm : instMatches tm desc.flags inst = true) :
    ∀ (n r m : Nat), r < 65536 →
      (createMany ft desc n
        { b with
          nextAddr := m
          pFontList := pre ++
            { font with pFontInstList := { inst with refCnt := r } :: rest } :: post }).1.length
        = n ∧
      (∀ s ∈ (createMany ft desc n
        { b with
          nextAddr := m
          pFontList := pre ++
            { font with pFontInstList := { inst with refCnt := r } :: rest } :: post }).1,
        s.pFontInst = inst.addr) ∧
      (createMany ft desc n
        { b with
          nextAddr := m
          pFontList := pre ++
            { font with pFontInstList := { inst with refCnt := r } :: rest } :: post }).2 =
        { b with
          nextAddr := m + n
          pFontList := pre ++
            { font with pFontInstList := { inst with refCnt := (r + n) % 65536 } :: rest }
              :: post } := by
  intro n
  induction n with
  | zero =>
    intro r m hr
    simp only [createMany, List.length_nil, List.not_mem_nil, false_implies, implies_true,
      Nat.add_zero, Nat.mod_eq_of_lt hr, and_self]
  | succ n ih =>
    intro r m hr
    have hstep := createFontScalerContext_hit ft
      { b with
        nextAddr := m
        pFontList := pre ++
          { font with pFontInstList := { inst with refCnt := r } :: rest } :: post }
      desc pre { font with pFontInstList := { inst with refCnt := r } :: rest } post tm
      { inst with refCnt := r } rest hab rfl hpre hx htm rfl hm
    have hr1 : (r + 1) % 65536 < 65536 := Nat.mod_lt _ (by norm_num)
    obtain ⟨i1, i2, i3⟩ := ih ((r + 1) % 65536) (m + 1) hr1
    have he : ((r + 1) % 65536 + n) % 65536 = (r + (n + 1)) % 65536 := by omega
    have hm' : m + 1 + n = m + (n + 1) := by omega
    rw [he, hm'] at i3
    unfold createMany
    simp only [hstep]
    exact ⟨by simp only [List.length_cons]; rw [i1],
      by
        intro s hs
        rcases List.mem_cons.mp hs with e | e
        · rw [e]
        · exact i2 s e,
      i3⟩

/-- No instance with the address `a` in the lists: the pointer `a` is dangling. -/
theorem locateInst_absent (a : Nat) (l : List FontFT)
    (h : ∀ f ∈ l, ∀ i ∈ f.pFontInstList, i.addr ≠ a) : locateInst a l = none := by
  apply locateInst_none
  intro f hf
  unfold findAddr
  rw [findFirst_none]
  intro i hi
  simpa using h f hf i hi

/-- The instance at the head of the list of a font, no earlier font holding its address. -/
theorem locateInst_head (pre : List FontFT) (font : FontFT) (post : List FontFT)
    (inst : FontInstFT) (rest : List FontInstFT)
    (hpre : ∀ f ∈ pre, ∀ i ∈ f.pFontInstList, i.addr ≠ inst.addr)
    (hil : font.pFontInstList = inst :: rest) :
    locateInst inst.addr (pre ++ font :: post) =
      some { pre := pre, font := font, ipre := [], inst := inst, ipost := rest,
             post := post } := by
  apply locateInst_append
  · intro f hf
    unfold findAddr
    rw [findFirst_none]
    intro i hi
    simpa using hpre f hf i hi
  · rw [hil]
    simp [findAddr, findFirst]

/-! ### A font destroyed while instances remain -/

theorem scaleInsts_length (path : String) (n : Nat) : (scaleInsts path n).length = n := by
  induction n with
  | zero => rfl
  | succ n ih => simp [scaleInsts, ih]

theorem scaleInsts_mem (path : String) (n : Nat) :
    ∀ i ∈ scaleInsts path n, i.fScaleX ≤ (n : Int) + 65536 ∧ i.addr ≤ 2 * n := by
  induction n with
  | zero => intro i hi; simp [scaleInsts] at hi
  | succ n ih =>
    intro i hi
    simp only [scaleInsts, List.mem_cons] at hi
    rcases hi with rfl | hi
    · simp only [FontInstFT.ofRequest]
      push_cast
      exact ⟨by omega, by omega⟩
    · obtain ⟨h1, h2⟩ := ih i hi
      push_cast
      exact ⟨by omega, by omega⟩

theorem getTransMatrix_plainRequest (path : String) (s : Int) (hs : 0 < s) :
    FontFT.getTransMatrix FreeType.reference false (plainRequest path s 0) =
      some ⟨⟨65536, 0, 0, 65536⟩, s, s, 10⟩ := by
  have h : givesUpOnHinting (plainRequest path s 0) = false := by
    simp [givesUpOnHinting, plainRequest]; omega
  unfold FontFT.getTransMatrix
  rw [h]
  have hf : computeLoadFlags false (plainRequest path s 0) = 10 := by
    simp [computeLoadFlags, plainRequest, hintingOf, EmbeddedBitmapText_Flag, Hinting_Flag,
      FT_LOAD_NO_HINTING, FT_LOAD_NO_BITMAP]
  simp only [Bool.false_eq_true, if_false, hf]
  rfl

/-- A call at a scale that no instance of the single font of the engine has. -/
theorem createFontScalerContext_new_scale (path : String) (st : EngineState) (r : Nat)
    (insts : List FontInstFT) (s : Int) (hs : 0 < s)
    (hl : st.pFontList = [{ addr := 1, fontID := 1, pPath := some path, pBuffer := 0,
                            refCnt := r, pFontInstList := insts }])
    (hab : st.aborted = false) (hlcd : st.gLCDSupport = false)
    (hne : ∀ i ∈ insts, i.fScaleX ≠ s) :
    (FontEngineFT.createFontScalerContext FreeType.reference st (plainRequest path s 0)).1 =
      some ⟨st.nextAddr + 1, st.nextAddr⟩ ∧
    (FontEngineFT.createFontScalerContext FreeType.reference st
      (plainRequest path s 0)).2.pFontList =
      [{ addr := 1, fontID := 1, pPath := some path, pBuffer := 0, refCnt := (r + 1) % 65536,
         pFontInstList := FontInstFT.ofRequest st.nextAddr ⟨⟨65536, 0, 0, 65536⟩, s, s, 10⟩
           (plainRequest path s 0) 1 :: insts }] ∧
    (FontEngineFT.createFontScalerContext FreeType.reference st
      (plainRequest path s 0)).2.gCountFontFT = st.gCountFontFT ∧
    (FontEngineFT.createFontScalerContext FreeType.reference st
      (plainRequest path s 0)).2.gLCDSupport = false ∧
    (FontEngineFT.createFontScalerContext FreeType.reference st
      (plainRequest path s 0)).2.nextAddr = st.nextAddr + 2 ∧
    (FontEngineFT.createFontScalerContext FreeType.reference st
      (plainRequest path s 0)).2.aborted = false := by
  have hfind : findMatch ⟨⟨65536, 0, 0, 65536⟩, s, s, 10⟩ 0 insts = none := by
    unfold findMatch
    rw [findFirst_none]
    intro i hi
    have := hne i hi
    simp [instMatches, this]
  have hsame : sameFont (plainRequest path s 0)
      { addr := 1, fontID := 1, pPath := some path, pBuffer := 0,
        refCnt := r, pFontInstList := insts } = some true := by
    simp [sameFont, plainRequest]
  have hsearch : FontFT.searchFontInst FreeType.reference false
      { addr := 1, fontID := 1, pPath := some path, pBuffer := 0,
        refCnt := r, pFontInstList := insts } (plainRequest path s 0) = some none := by
    unfold FontFT.searchFontInst
    rw [getTransMatrix_plainRequest path s hs]
    simp only [plainRequest]
    rw [hfind]
  have hnew : FontInstFT.new FreeType.reference st (plainRequest path s 0) =
      (some (FontInstFT.ofRequest st.nextAddr ⟨⟨65536, 0, 0, 65536⟩, s, s, 10⟩
        (plainRequest path s 0) 0),
        ((({ st with nextAddr := st.nextAddr + 1 }.log
          (Event.FT_New_Size st.nextAddr true)).log
          (Event.FT_Activate_Size st.nextAddr true)).log
          (Event.FT_Set_Char_Size st.nextAddr true))) := by
    unfold FontInstFT.new
    rw [hlcd, getTransMatrix_plainRequest path s hs]
    rfl
  unfold FontEngineFT.createFontScalerContext FontEngineFT.getFontScaler
  rw [hab, hl]
  simp only [FontEngineFT.getFont, hsame, FontFT.getFontScaler, hlcd, hsearch, hnew,
    FontScalerFT.new, EngineState.log, FontInstFT.ofRequest]
  simp [hab, hlcd]

theorem createScales_fields (path : String) (n : Nat) :
    (createScales FreeType.reference path (n + 1) EngineState.init).pFontList =
      [{ addr := 1, fontID := 1, pPath := some path, pBuffer := 0, refCnt := (n + 1) % 65536,
         pFontInstList := scaleInsts path (n + 1) }] ∧
    (createScales FreeType.reference path (n + 1) EngineState.init).gCountFontFT = 1 ∧
    (createScales FreeType.reference path (n + 1) EngineState.init).gLCDSupport = false ∧
    (createScales FreeType.reference path (n + 1) EngineState.init).nextAddr = 2 * n + 4 ∧
    (createScales FreeType.reference path (n + 1) EngineState.init).aborted = false := by
  induction n with
  | zero =>
    have hnew : FontInstFT.new FreeType.reference
        { pFontList := [], gCountFontFT := 1, gLCDSupport := false, gLCDSupportValid := true,
          nextAddr := 2, events := [Event.FT_Init_FreeType true, Event.FT_Open_Face 1 true],
          aborted := false } (plainRequest path 65537 0) =
        (some (FontInstFT.ofRequest 2 ⟨⟨65536, 0, 0, 65536⟩, 65537, 65537, 10⟩ (plainRequest path 65537 0) 0),
          { pFontList := [], gCountFontFT := 1, gLCDSupport := false, gLCDSupportValid := true,
            nextAddr := 3, events := [Event.FT_Init_FreeType true, Event.FT_Open_Face 1 true,
              Event.FT_New_Size 2 true, Event.FT_Activate_Size 2 true,
              Event.FT_Set_Char_Size 2 true],
            aborted := false }) := by
      unfold FontInstFT.new
      rw [getTransMatrix_plainRequest path 65537 (by norm_num)]
      rfl
    have e : createScales FreeType.reference path (0 + 1) EngineState.init =
        { pFontList := [{ addr := 1, fontID := 1, pPath := some path, pBuffer := 0, refCnt := 1,
                          pFontInstList := scaleInsts path 1 }],
          gCountFontFT := 1, gLCDSupport := false, gLCDSupportValid := true,
          nextAddr := 4, events := [Event.FT_Init_FreeType true, Event.FT_Open_Face 1 true,
              Event.FT_New_Size 2 true, Event.FT_Activate_Size 2 true,
              Event.FT_Set_Char_Size 2 true],
          aborted := false } := by
      have hs : FontFT.searchFontInst FreeType.reference false
          { addr := 1, fontID := 1, pPath := some path, pBuffer := 0, refCnt := 0,
            pFontInstList := [] } (plainRequest path 65537 0) = some none := by
        unfold FontFT.searchFontInst
        rw [getTransMatrix_plainRequest path 65537 (by norm_num)]
        rfl
      have hf : FontFT.new FreeType.reference EngineState.init (plainRequest path 65537 0) =
          (some { addr := 1, fontID := 1, pPath := some path, pBuffer := 0, refCnt := 0,
                  pFontInstList := [] },
            { pFontList := [], gCountFontFT := 1, gLCDSupport := false,
              gLCDSupportValid := true, nextAddr := 2,
              events := [Event.FT_Init_FreeType true, Event.FT_Open_Face 1 true],
              aborted := false }) := by
        simp [FontFT.new, EngineState.init, InitFreetype, FreeType.reference, EngineState.log,
          plainRequest]
      show (FontEngineFT.createFontScalerContext FreeType.reference EngineState.init
        (plainRequest path (((0 : Nat) : Int) + 65537) 0)).2 = _
      have hg : FontEngineFT.getFont (plainRequest path 65537 0) EngineState.init.pFontList =
          some none := rfl
      have ha : EngineState.init.aborted = false := rfl
      unfold FontEngineFT.createFontScalerContext FontEngineFT.getFontScaler
      simp only [Nat.cast_zero, zero_add, ha, hg, hf, Bool.false_eq_true, if_false]
      simp only [FontFT.getFontScaler, hs, hnew, FontScalerFT.new, scaleInsts,
        FontInstFT.ofRequest]
      simp
    rw [e]
    exact ⟨rfl, rfl, rfl, rfl, rfl⟩
  | succ n ih =>
    obtain ⟨h1, h2, h3, h4, h5⟩ := ih
    have hne : ∀ i ∈ scaleInsts path (n + 1), i.fScaleX ≠ ((n + 1 : Nat) : Int) + 65537 := by
      intro i hi
      have := (scaleInsts_mem path (n + 1) i hi).1
      omega
    obtain ⟨_, k1, k2, k3, k4, k5⟩ := createFontScalerContext_new_scale path
      (createScales FreeType.reference path (n + 1) EngineState.init) ((n + 1) % 65536)
      (scaleInsts path (n + 1)) (((n + 1 : Nat) : Int) + 65537) (by omega) h1 h5 h3 hne
    have e : createScales FreeType.reference path (n + 1 + 1) EngineState.init =
        (FontEngineFT.createFontScalerContext FreeType.reference
          (createScales FreeType.reference path (n + 1) EngineState.init)
          (plainRequest path (((n + 1 : Nat) : Int) + 65537) 0)).2 := rfl
    rw [e]
    refine ⟨?_, ?_, k3, ?_, k5⟩
    · rw [k1, h4]
      simp only [scaleInsts, Nat.add_mod_mod, Nat.mod_add_mod]
      have e2 : 2 * n + 4 = 2 * (n + 1) + 2 := by ring
      rw [e2]
    · rw [k2, h2]
    · rw [k4, h4]; ring

/-- The destructor of an instance of a font whose 16-bit counter is `1`, the only font of the
engine: the font is destroyed, whatever its instance list holds. -/
theorem FontInstFT_destroy_counter_one (ft : FreeType) (st : EngineState) (loc : InstLocation)
    (h : loc.font.refCnt = 1) (hg : st.gCountFontFT = 1) :
    (FontInstFT.destroy ft st loc).pFontList = loc.pre ++ loc.post ∧
    (FontInstFT.destroy ft st loc).gCountFontFT = 0 ∧
    (FontInstFT.destroy ft st loc).events =
      st.events ++ [Event.deleteFontInstFT loc.inst.addr, Event.FT_Done_Size loc.inst.addr,
        Event.deleteFontFT loc.font.addr, Event.FT_Done_Face loc.font.addr,
        Event.FT_Done_FreeType] := by
  have h0 : (loc.font.refCnt + 65535) % 65536 = 0 := by rw [h]
  unfold FontInstFT.destroy
  simp only [h0, if_true]
  unfold FontFT.destroy
  simp [hg, EngineState.log, doneFreeType]

/-- After `n + 1` calls at the scales `65536 + 1 … 65536 + n + 1` on a fresh engine, when `n + 1` is `1` modulo
`65536`: the font holds `n + 1` instances, its 16-bit counter is `1`, and destroying the
instance at the head of its list destroys the font. -/
theorem createScales_destroy_head (path : String) (n : Nat) (h : (n + 1) % 65536 = 1) :
    (createScales FreeType.reference path (n + 1) EngineState.init).pFontList.map
      (fun f => (f.addr, f.refCnt, f.pFontInstList.length)) = [(1, 1, n + 1)] ∧
    (createScales FreeType.reference path (n + 1) EngineState.init).gCountFontFT = 1 ∧
    (locateInst (2 * n + 2)
      (createScales FreeType.reference path (n + 1) EngineState.init).pFontList).map
      (fun loc => (loc.pre, loc.ipre, loc.inst.addr, loc.inst.refCnt, loc.ipost.length, loc.post,
        (FontInstFT.destroy FreeType.reference
          (createScales FreeType.reference path (n + 1) EngineState.init) loc).pFontList,
        (FontInstFT.destroy FreeType.reference
          (createScales FreeType.reference path (n + 1) EngineState.init) loc).gCountFontFT,
        (FontInstFT.destroy FreeType.reference
          (createScales FreeType.reference path (n + 1) EngineState.init) loc).events.drop
          (createScales FreeType.reference path (n + 1) EngineState.init).events.length)) =
      some ([], [], 2 * n + 2, 1, n, [], [], 0,
        [Event.deleteFontInstFT (2 * n + 2), Event.FT_Done_Size (2 * n + 2),
          Event.deleteFontFT 1, Event.FT_Done_Face 1, Event.FT_Done_FreeType]) ∧
    (FontScalerFT.destroy FreeType.reference
      (createScales FreeType.reference path (n + 1) EngineState.init)
      ⟨2 * n + 3, 2 * n + 2⟩).pFontList = [] := by
  obtain ⟨h1, h2, _, _, h5⟩ := createScales_fields path n
  generalize createScales FreeType.reference path (n + 1) EngineState.init = st at h1 h2 h5 ⊢
  have hloc : locateInst (2 * n + 2) st.pFontList =
      some { pre := [],
             font := { addr := 1, fontID := 1, pPath := some path, pBuffer := 0, refCnt := 1,
                       pFontInstList := scaleInsts path (n + 1) },
             ipre := [],
             inst := FontInstFT.ofRequest (2 * n + 2)
               ⟨⟨65536, 0, 0, 65536⟩, (n : Int) + 65537, (n : Int) + 65537, 10⟩
               (plainRequest path ((n : Int) + 65537) 0) 1,
             ipost := scaleInsts path n, post := [] } := by
    rw [h1, h]
    exact locateInst_head [] _ [] (FontInstFT.ofRequest (2 * n + 2)
      ⟨⟨65536, 0, 0, 65536⟩, (n : Int) + 65537, (n : Int) + 65537, 10⟩
      (plainRequest path ((n : Int) + 65537) 0) 1) (scaleInsts path n) (by simp) rfl
  refine ⟨?_, h2, ?_, ?_⟩
  · rw [h1, h]
    simp [scaleInsts_length]
  · rw [hloc]
    obtain ⟨d1, d2, d3⟩ := FontInstFT_destroy_counter_one FreeType.reference st
      { pre := [],
        font := { addr := 1, fontID := 1, pPath := some path, pBuffer := 0, refCnt := 1,
                  pFontInstList := scaleInsts path (n + 1) },
        ipre := [],
        inst := FontInstFT.ofRequest (2 * n + 2)
          ⟨⟨65536, 0, 0, 65536⟩, (n : Int) + 65537, (n : Int) + 65537, 10⟩
          (plainRequest path ((n : Int) + 65537) 0) 1,
        ipost := scaleInsts path n, post := [] } rfl h2
    simp only [Option.map_some', d1, d2, d3, List.drop_left, scaleInsts_length]
    rfl
  · unfold FontScalerFT.destroy
    rw [h5, hloc]
    have h0 : ((FontInstFT.ofRequest (2 * n + 2)
        ⟨⟨65536, 0, 0, 65536⟩, (n : Int) + 65537, (n : Int) + 65537, 10⟩
        (plainRequest path ((n : Int) + 65537) 0) 1).refCnt + 65535) % 65536 = 0 := by
      simp only [FontInstFT.ofRequest]
    simp only [Bool.false_eq_true, if_false, h0, if_true]
    exact (FontInstFT_destroy_counter_one FreeType.reference st _ rfl h2).1

/-- C4, counterexample. The reference count of a font is a `uint16_t`. On a fresh engine (with
the reference FreeType), `65537` successful calls for `a.ttf` at the 16.16 scales `65537 … 131073` put
`65537` instances into the list of the one font at address `1`, whose counter has wrapped to
`1`. Destroying the instance at address `131074` (the head of the list, with the `65536` other
instances behind it) then destroys the font: the font list is empty, `gCountFontFT` is `0` and
`FT_Done_FreeType` is called, although `65536` instances of the font remain. Deleting the only
scaler of that instance, the scaler at `131075`, is one way to destroy it. -/
theorem font_destroyed_with_instances_left :
    (createScales FreeType.reference "a.ttf" 65537 EngineState.init).pFontList.map
      (fun f => (f.addr, f.refCnt, f.pFontInstList.length)) = [(1, 1, 65537)] ∧
    (createScales FreeType.reference "a.ttf" 65537 EngineState.init).gCountFontFT = 1 ∧
    (locateInst 131074
      (createScales FreeType.reference "a.ttf" 65537 EngineState.init).pFontList).map
      (fun loc => (loc.pre, loc.ipre, loc.inst.addr, loc.inst.refCnt, loc.ipost.length, loc.post,
        (FontInstFT.destroy FreeType.reference
          (createScales FreeType.reference "a.ttf" 65537 EngineState.init) loc).pFontList,
        (FontInstFT.destroy FreeType.reference
          (createScales FreeType.reference "a.ttf" 65537 EngineState.init) loc).gCountFontFT,
        (FontInstFT.destroy FreeType.reference
          (createScales FreeType.reference "a.ttf" 65537 EngineState.init) loc).events.drop
          (createScales FreeType.reference "a.ttf" 65537 EngineState.init).events.length)) =
      some ([], [], 131074, 1, 65536, [], [], 0,
        [Event.deleteFontInstFT 131074, Event.FT_Done_Size 131074,
          Event.deleteFontFT 1, Event.FT_Done_Face 1, Event.FT_Done_FreeType]) ∧
    (FontScalerFT.destroy FreeType.reference
      (createScales FreeType.reference "a.ttf" 65537 EngineState.init)
      ⟨131075, 131074⟩).pFontList = [] :=
  createScales_destroy_head "a.ttf" 65536 (by decide)

/-- Deleting a scaler of an instance whose counter is at least `2` only decrements the
counter. -/
theorem FontScalerFT_destroy_shared (ft : FreeType) (b : EngineState) (pre : List FontFT)
    (font : FontFT) (post : List FontFT) (inst : FontInstFT) (rest : List FontInstFT)
    (s : FontScalerFT) (r : Nat) (hab : b.aborted = false) (hs : s.pFontInst = inst.addr)
    (hpre : ∀ f ∈ pre, ∀ i ∈ f.pFontInstList, i.addr ≠ inst.addr)
    (hr : 2 ≤ r) (hr2 : r < 65536) :
    FontScalerFT.destroy ft
      { b with pFontList := pre ++
          { font with pFontInstList := { inst with refCnt := r } :: rest } :: post } s =
      { b with pFontList := pre ++
          { font with pFontInstList := { inst with refCnt := r - 1 } :: rest } :: post } := by
  have hloc := locateInst_head pre
    { font with pFontInstList := { inst with refCnt := r } :: rest } post
    { inst with refCnt := r } rest hpre rfl
  have hna : ¬ (b.aborted = true) := by rw [hab]; simp
  have h1 : (r + 65535) % 65536 = r - 1 := by omega
  have h2 : ¬ (r - 1 = 0) := by omega
  unfold FontScalerFT.destroy
  simp only [hs]
  rw [if_neg hna]
  simp only [hloc, h1, if_neg h2, List.nil_append]

/-- Deleting the only scaler of an instance destroys the instance: it is in no list
afterwards, and one `deleteFontInstFT` event is recorded for it. -/
theorem FontScalerFT_destroy_last (ft : FreeType) (b : EngineState) (pre : List FontFT)
    (font : FontFT) (post : List FontFT) (inst : FontInstFT) (rest : List FontInstFT)
    (s : FontScalerFT) (hab : b.aborted = false) (hs : s.pFontInst = inst.addr)
    (hpre : ∀ f ∈ pre, ∀ i ∈ f.pFontInstList, i.addr ≠ inst.addr)
    (hrest : ∀ i ∈ rest, i.addr ≠ inst.addr)
    (hpost : ∀ f ∈ post, ∀ i ∈ f.pFontInstList, i.addr ≠ inst.addr) :
    instRefCnt (FontScalerFT.destroy ft
      { b with pFontList := pre ++
          { font with pFontInstList := { inst with refCnt := 1 } :: rest } :: post } s)
      inst.addr = none ∧
    (FontScalerFT.destroy ft
      { b with pFontList := pre ++
          { font with pFontInstList := { inst with refCnt := 1 } :: rest } :: post } s).events.count
        (Event.deleteFontInstFT inst.addr) =
      b.events.count (Event.deleteFontInstFT inst.addr) + 1 := by
  have hloc := locateInst_head pre
    { font with pFontInstList := { inst with refCnt := 1 } :: rest } post
    { inst with refCnt := 1 } rest hpre rfl
  have hna : ¬ (b.aborted = true) := by rw [hab]; simp
  have hgone1 : locateInst inst.addr (pre ++ post) = none := by
    apply locateInst_absent
    intro f hf i hi
    rcases List.mem_append.mp hf with h | h
    · exact hpre f h i hi
    · exact hpost f h i hi
  have hgone2 : ∀ c, locateInst inst.addr
      (pre ++ { font with refCnt := c, pFontInstList := rest } :: post) = none := by
    intro c
    apply locateInst_absent
    intro f hf i hi
    rcases List.mem_append.mp hf with h | h
    · exact hpre f h i hi
    · rcases List.mem_cons.mp h with e | e
      · rw [e] at hi; exact hrest i hi
      · exact hpost f e i hi
  unfold FontScalerFT.destroy
  simp only [hs]
  rw [if_neg hna]
  simp only [hloc]
  unfold FontInstFT.destroy
  by_cases hc : (font.refCnt + 65535) % 65536 = 0
  · simp only [hc, if_true, List.nil_append]
    unfold FontFT.destroy
    by_cases hg : b.gCountFontFT - 1 = 0
    · simp [hg, EngineState.log, doneFreeType, instRefCnt, hgone1, List.count_append,
        List.count_cons]
    · simp [hg, EngineState.log, instRefCnt, hgone1, List.count_append, List.count_cons]
  · simp only [hc, if_false, List.nil_append]
    simp [EngineState.log, instRefCnt, hgone2, List.count_append, List.count_cons]

/-- Deleting fewer scalers than the counter of their instance says only decrements the
counter. -/
theorem destroyAll_shared (ft : FreeType) (b : EngineState) (pre : List FontFT)
    (font : FontFT) (post : List FontFT) (inst : FontInstFT) (rest : List FontInstFT)
    (hab : b.aborted = false)
    (hpre : ∀ f ∈ pre, ∀ i ∈ f.pFontInstList, i.addr ≠ inst.addr) :
    ∀ (l : List FontScalerFT), (∀ s ∈ l, s.pFontInst = inst.addr) →
      ∀ r, l.length < r → r < 65536 →
        destroyAll ft l
          { b with pFontList := pre ++
              { font with pFontInstList := { inst with refCnt := r } :: rest } :: post } =
          { b with pFontList := pre ++
              { font with pFontInstList := { inst with refCnt := r - l.length } :: rest }
                :: post } := by
  intro l
  induction l with
  | nil => intro _ r _ _; rfl
  | cons s l ih =>
    intro hall r hlen hr
    simp only [List.length_cons] at hlen
    unfold destroyAll
    rw [FontScalerFT_destroy_shared ft b pre font post inst rest s r hab
      (hall s (List.mem_cons_self s l)) hpre (by omega) hr]
    rw [ih (fun t ht => hall t (List.mem_cons_of_mem s ht)) (r - 1) (by omega) (by omega)]
    have e : r - 1 - l.length = r - (l.length + 1) := by omega
    simp only [List.length_cons, e]

/-- Deleting as many scalers as the counter of their instance says destroys the instance, once,
with the last deletion. -/
theorem destroyAll_last (ft : FreeType) (b : EngineState) (pre : List FontFT)
    (font : FontFT) (post : List FontFT) (inst : FontInstFT) (rest : List FontInstFT)
    (hab : b.aborted = false)
    (hpre : ∀ f ∈ pre, ∀ i ∈ f.pFontInstList, i.addr ≠ inst.addr)
    (hrest : ∀ i ∈ rest, i.addr ≠ inst.addr)
    (hpost : ∀ f ∈ post, ∀ i ∈ f.pFontInstList, i.addr ≠ inst.addr) :
    ∀ (l : List FontScalerFT), l ≠ [] → (∀ s ∈ l, s.pFontInst = inst.addr) →
      l.length < 65536 →
        instRefCnt (destroyAll ft l
          { b with pFontList := pre ++
              { font with pFontInstList := { inst with refCnt := l.length } :: rest } :: post })
          inst.addr = none ∧
        (destroyAll ft l
          { b with pFontList := pre ++
              { font with pFontInstList := { inst with refCnt := l.length } :: rest }
                :: post }).events.count (Event.deleteFontInstFT inst.addr) =
          b.events.count (Event.deleteFontInstFT inst.addr) + 1 := by
  intro l
  induction l with
  | nil => intro h; exact absurd rfl h
  | cons s l ih =>
    intro _ hall hlen
    simp only [List.length_cons] at hlen
    have hs := hall s (List.mem_cons_self s l)
    by_cases hl : l = []
    · subst hl
      exact FontScalerFT_destroy_last ft b pre font post inst rest s hab hs hpre hrest hpost
    · have hpos : 0 < l.length := List.length_pos.mpr hl
      unfold destroyAll
      simp only [List.length_cons]
      rw [FontScalerFT_destroy_shared ft b pre font post inst rest s (l.length + 1) hab hs hpre
        (by omega) (by omega)]
      exact ih hl (fun t ht => hall t (List.mem_cons_of_mem s ht)) (by omega)

/-- Successive successful calls with one request on a state in which the instance of the
request is at the head of the instance list of the first font that is not told apart from the
request: all scalers are bound to that instance, and its counter is incremented (modulo
`65536`) with each call. -/
theorem createMany_hits_of_length (ft : FreeType) (desc : FontScalerInfo) (b : EngineState)
    (pre : List FontFT) (font : FontFT) (post : List FontFT) (tm : TransMatrix)
    (inst : FontInstFT) (rest : List FontInstFT)
    (hab : b.aborted = false)
    (hpre : ∀ y ∈ pre, sameFont desc y = some false)
    (hx : sameFont desc font ≠ some false)
    (htm : FontFT.getTransMatrix ft b.gLCDSupport desc = some tm)
    (hm : instMatches tm desc.flags inst = true)
    (n r m : Nat) (hr : r < 65536)
    (hlen : (createMany ft desc n
        { b with
          nextAddr := m
          pFontList := pre ++
            { font with pFontInstList := { inst with refCnt := r } :: rest } :: post }).1.length
        = n) :
    (∀ s ∈ (createMany ft desc n
        { b with
          nextAddr := m
          pFontList := pre ++
            { font with pFontInstList := { inst with refCnt := r } :: rest } :: post }).1,
        s.pFontInst = inst.addr) ∧
      (createMany ft desc n
        { b with
          nextAddr := m
          pFontList := pre ++
            { font with pFontInstList := { inst with refCnt := r } :: rest } :: post }).2 =
        { b with
          nextAddr := m + n
          pFontList := pre ++
            { font with pFontInstList := { inst with refCnt := (r + n) % 65536 } :: rest }
              :: post } := by
  cases n with
  | zero =>
    simp only [createMany, List.not_mem_nil, false_implies, implies_true,
      Nat.add_zero, Nat.mod_eq_of_lt hr, and_self]
  | succ n =>
    have hx' : sameFont desc font = some true := by
      rcases h2 : FontEngineFT.createFontScalerContext ft
        { b with
          nextAddr := m
          pFontList := pre ++
            { font with pFontInstList := { inst with refCnt := r } :: rest } :: post } desc
        with ⟨o, st2⟩
      cases o with
      | none =>
        unfold createMany at hlen
        simp only [h2] at hlen
        have hle := createMany_length_le ft desc n st2
        omega
      | some sc =>
        exact (createFontScalerContext_on_font ft _ desc sc st2 pre
          { font with pFontInstList := { inst with refCnt := r } :: rest } post h2 rfl hpre
          hx).1
    exact (createMany_hits ft desc b pre font post tm inst rest hab hpre hx' htm hm
      (n + 1) r m hr).2

/-- The state after `n + 1` successful calls with one request that was not in the cache: the
instance that the first call created is at the head of the instance list of its font, its
counter is `n + 1`, all scalers are bound to it, and no other instance has its address. -/
theorem createMany_creates_shared (ft : FreeType) (st0 : EngineState) (desc : FontScalerInfo)
    (n : Nat) (hn : n + 1 ≤ 65535)
    (hwf : ∀ f ∈ st0.pFontList, ∀ i ∈ f.pFontInstList, i.addr < st0.nextAddr)
    (hmiss : ∀ lcd tm, FontFT.getTransMatrix ft lcd desc = some tm →
      ∀ f ∈ st0.pFontList, ∀ i ∈ f.pFontInstList, instMatches tm desc.flags i = false)
    (hlen : (createMany ft desc (n + 1) st0).1.length = n + 1) :
    ∃ (b : EngineState) (pre : List FontFT) (font : FontFT) (post : List FontFT)
      (inst : FontInstFT) (rest : List FontInstFT),
      b.aborted = false ∧
      (∀ s ∈ (createMany ft desc (n + 1) st0).1, s.pFontInst = inst.addr) ∧
      (createMany ft desc (n + 1) st0).2 =
        { b with pFontList := pre ++
            { font with pFontInstList := { inst with refCnt := n + 1 } :: rest } :: post } ∧
      (∀ f ∈ pre, ∀ i ∈ f.pFontInstList, i.addr ≠ inst.addr) ∧
      (∀ i ∈ rest, i.addr ≠ inst.addr) ∧
      (∀ f ∈ post, ∀ i ∈ f.pFontInstList, i.addr ≠ inst.addr) := by
  rcases h1 : FontEngineFT.createFontScalerContext ft st0 desc with ⟨o, st1⟩
  cases o with
  | none =>
    unfold createMany at hlen
    simp only [h1] at hlen
    have hle := createMany_length_le ft desc n st1
    omega
  | some sc1 =>
    have hc : createMany ft desc (n + 1) st0 =
        (sc1 :: (createMany ft desc n st1).1, (createMany ft desc n st1).2) := by
      rw [createMany]; simp only [h1]
    rw [hc] at hlen ⊢
    simp only [List.length_cons, Nat.add_right_cancel_iff] at hlen
    obtain ⟨pre, font, post, tm, htm, hl1, hpre, hx, hsub, hold, hge, _, hab1⟩ :=
      createFontScalerContext_miss ft st0 desc sc1 st1 h1 hmiss
    obtain ⟨l, c, g, gv, na, ev, ab⟩ := st1
    simp only at hl1 htm hab1
    subst hl1
    have hm : instMatches tm desc.flags (FontInstFT.ofRequest sc1.pFontInst tm desc 1) = true :=
      (instMatches_ofRequest tm tm desc.flags _ desc 1).mpr ⟨rfl, rfl⟩
    obtain ⟨hall, hst⟩ := createMany_hits_of_length ft desc
      { pFontList := [], gCountFontFT := c, gLCDSupport := g, gLCDSupportValid := gv,
        nextAddr := na, events := ev, aborted := ab }
      pre
      { font with refCnt := (font.refCnt + 1) % 65536
                  pFontInstList :=
                    FontInstFT.ofRequest sc1.pFontInst tm desc 1 :: font.pFontInstList }
      post tm (FontInstFT.ofRequest sc1.pFontInst tm desc 1) font.pFontInstList hab1 hpre
      (by
        have e := sameFont_congr desc desc font
          { font with refCnt := (font.refCnt + 1) % 65536
                      pFontInstList :=
                        FontInstFT.ofRequest sc1.pFontInst tm desc 1 :: font.pFontInstList }
          rfl rfl rfl rfl
        rw [← e]; exact hx)
      htm hm n 1 na (by norm_num) hlen
    have hmod : (1 + n) % 65536 = n + 1 := by omega
    rw [hmod] at hst
    refine ⟨EngineState.mk [] c g gv (na + n) ev ab, pre,
      { font with refCnt := (font.refCnt + 1) % 65536
                  pFontInstList :=
                    FontInstFT.ofRequest sc1.pFontInst tm desc 1 :: font.pFontInstList },
      post, FontInstFT.ofRequest sc1.pFontInst tm desc 1, font.pFontInstList, hab1, ?_, hst,
      ?_, ?_, ?_⟩
    · intro s hs
      rcases List.mem_cons.mp hs with e | e
      · rw [e]; rfl
      · exact hall s e
    · intro f hf i hi
      have := hwf f (hsub f (List.mem_append_left post hf)) i hi
      show i.addr ≠ sc1.pFontInst
      omega
    · intro i hi
      obtain ⟨f, hf, hi'⟩ := hold i hi
      have := hwf f hf i hi'
      show i.addr ≠ sc1.pFontInst
      omega
    · intro f hf i hi
      have := hwf f (hsub f (List.mem_append_right pre hf)) i hi
      show i.addr ≠ sc1.pFontInst
      omega

/-- One more call in front of a run of calls that share an instance: if the run leaves the
counter of the instance at `1`, deleting any one scaler of the longer run destroys the
instance. -/
theorem createMany_succ_wrapped (ft : FreeType) (desc : FontScalerInfo) (st0 : EngineState)
    (sc1 : FontScalerFT) (st1 stN : EngineState) (n a : Nat)
    (h1 : FontEngineFT.createFontScalerContext ft st0 desc = (some sc1, st1))
    (hsc : sc1.pFontInst = a)
    (hh : (createMany ft desc n st1).1.length = n ∧
      (∀ s ∈ (createMany ft desc n st1).1, s.pFontInst = a) ∧
      (createMany ft desc n st1).2 = stN)
    (hone : instRefCnt stN a = some 1)
    (hlast : ∀ s : FontScalerFT, s.pFontInst = a →
      instRefCnt (FontScalerFT.destroy ft stN s) a = none) :
    (createMany ft desc (n + 1) st0).1.length = n + 1 ∧
    instRefCnt (createMany ft desc (n + 1) st0).2 a = some 1 ∧
    ∀ s ∈ (createMany ft desc (n + 1) st0).1,
      s.pFontInst = a ∧
      instRefCnt (FontScalerFT.destroy ft (createMany ft desc (n + 1) st0).2 s) a = none := by
  obtain ⟨i1, i2, i3⟩ := hh
  have hc : createMany ft desc (n + 1) st0 =
      (sc1 :: (createMany ft desc n st1).1, (createMany ft desc n st1).2) := by
    rw [createMany]; simp only [h1]
  rw [hc]
  simp only [List.length_cons, i1, i3, hone, true_and]
  intro s hs
  have hb : s.pFontInst = a := by
    rcases List.mem_cons.mp hs with e | e
    · rw [e]; exact hsc
    · exact i2 s e
  exact ⟨hb, hlast s hb⟩

/-- C3, counterexample. The 16-bit counter wraps: after `65537` successful calls with one
request on a fresh engine (with the reference FreeType) all `65537` scalers are bound to the
instance at address `2`, whose counter is `1`, and deleting any single one of them already
destroys the instance. -/
theorem instance_destroyed_on_first_release :
    (createMany FreeType.reference (plainRequest "a.ttf" 65536 0) 65537
      EngineState.init).1.length = 65537 ∧
    instRefCnt (createMany FreeType.reference (plainRequest "a.ttf" 65536 0) 65537
      EngineState.init).2 2 = some 1 ∧
    ∀ s ∈ (createMany FreeType.reference (plainRequest "a.ttf" 65536 0) 65537
        EngineState.init).1,
      s.pFontInst = 2 ∧
      instRefCnt (FontScalerFT.destroy FreeType.reference
        (createMany FreeType.reference (plainRequest "a.ttf" 65536 0) 65537
          EngineState.init).2 s) 2 = none :=
  createMany_succ_wrapped FreeType.reference (plainRequest "a.ttf" 65536 0) EngineState.init
    ⟨3, 2⟩ _ _ 65536 2 (by decide) rfl
    (createMany_hits FreeType.reference (plainRequest "a.ttf" 65536 0)
      (EngineState.mk [] 1 false true 4
        [Event.FT_Init_FreeType true, Event.FT_Open_Face 1 true, Event.FT_New_Size 2 true,
          Event.FT_Activate_Size 2 true, Event.FT_Set_Char_Size 2 true] false)
      [] (FontFT.mk 1 1 (some "a.ttf") 0 1 []) []
      ⟨⟨65536, 0, 0, 65536⟩, 65536, 65536, 10⟩
      (FontInstFT.ofRequest 2 ⟨⟨65536, 0, 0, 65536⟩, 65536, 65536, 10⟩
        (plainRequest "a.ttf" 65536 0) 0) [] rfl (by simp) (by decide) (by decide) (by decide)
      65536 1 4 (by norm_num))
    (by decide)
    (fun s hs => (FontScalerFT_destroy_last FreeType.reference
      (EngineState.mk [] 1 false true (4 + 65536)
        [Event.FT_Init_FreeType true, Event.FT_Open_Face 1 true, Event.FT_New_Size 2 true,
          Event.FT_Activate_Size 2 true, Event.FT_Set_Char_Size 2 true] false)
      [] (FontFT.mk 1 1 (some "a.ttf") 0 1 []) []
      (FontInstFT.ofRequest 2 ⟨⟨65536, 0, 0, 65536⟩, 65536, 65536, 10⟩
        (plainRequest "a.ttf" 65536 0) 0) [] s rfl hs (by simp) (by simp) (by simp)).1)

/-- C3, amended. For `1 ≤ N ≤ 65535`: after `N` successive successful calls of
`createFontScalerContext` with one request that was not in the cache (in a state in which
every instance has an address below the allocation pointer), all `N` scalers are bound to one
instance, and for every order in which they are deleted: after `k < N` deletions the instance
is in the instance list of its font with reference count `N - k` and no event has been
recorded; after the `N`-th deletion the instance is in no list and exactly one
`deleteFontInstFT` event has been recorded for it. -/
theorem shared_instance_destroyed_on_last_release (ft : FreeType) (st0 : EngineState)
    (desc : FontScalerInfo) (N : Nat) (hN1 : 1 ≤ N) (hN : N ≤ 65535)
    (hwf : ∀ f ∈ st0.pFontList, ∀ i ∈ f.pFontInstList, i.addr < st0.nextAddr)
    (hmiss : ∀ lcd tm, FontFT.getTransMatrix ft lcd desc = some tm →
      ∀ f ∈ st0.pFontList, ∀ i ∈ f.pFontInstList, instMatches tm desc.flags i = false)
    (hlen : (createMany ft desc N st0).1.length = N) :
    ∃ a, (∀ s ∈ (createMany ft desc N st0).1, s.pFontInst = a) ∧
      ∀ order : List FontScalerFT, order.Perm (createMany ft desc N st0).1 →
        (∀ k, k < N →
          instRefCnt (destroyAll ft (order.take k) (createMany ft desc N st0).2) a =
            some (N - k) ∧
          (destroyAll ft (order.take k) (createMany ft desc N st0).2).events =
            (createMany ft desc N st0).2.events) ∧
        instRefCnt (destroyAll ft order (createMany ft desc N st0).2) a = none ∧
        (destroyAll ft order (createMany ft desc N st0).2).events.count
            (Event.deleteFontInstFT a) =
          (createMany ft desc N st0).2.events.count (Event.deleteFontInstFT a) + 1 := by
  obtain ⟨n, rfl⟩ : ∃ n, N = n + 1 := ⟨N - 1, by omega⟩
  obtain ⟨b, pre, font, post, inst, rest, hab, hall, hst, hpre, hrest, hpost⟩ :=
    createMany_creates_shared ft st0 desc n hN hwf hmiss hlen
  refine ⟨inst.addr, hall, ?_⟩
  intro order hperm
  have hallo : ∀ s ∈ order, s.pFontInst = inst.addr := fun s hs => hall s (hperm.mem_iff.mp hs)
  have hleno : order.length = n + 1 := by rw [hperm.length_eq, hlen]
  rw [hst]
  refine ⟨?_, ?_⟩
  · intro k hk
    have hlk : (order.take k).length = k := by
      rw [List.length_take]; omega
    rw [destroyAll_shared ft b pre font post inst rest hab hpre (order.take k)
      (fun s hs => hallo s (List.mem_of_mem_take hs)) (n + 1) (by omega) (by omega), hlk]
    refine ⟨?_, rfl⟩
    unfold instRefCnt
    have hloc := locateInst_head pre
      { font with pFontInstList := { inst with refCnt := n + 1 - k } :: rest } post
      { inst with refCnt := n + 1 - k } rest hpre rfl
    simp only [hloc, Option.map_some']
  · have hne : order ≠ [] := by
      intro h; rw [h] at hleno; simp at hleno
    have h := destroyAll_last ft b pre font post inst rest hab hpre hrest hpost order hne hallo
      (by omega)
    rw [hleno] at h
    exact h

/-- C3 at two scalers of one request on a fresh engine (with the reference FreeType). -/
theorem shared_instance_destroyed_on_last_release_witness :
    ∃ a, (∀ s ∈ (createMany FreeType.reference (plainRequest "a.ttf" 65536 0) 2
        EngineState.init).1, s.pFontInst = a) ∧
      ∀ order : List FontScalerFT,
        order.Perm (createMany FreeType.reference (plainRequest "a.ttf" 65536 0) 2
          EngineState.init).1 →
        (∀ k, k < 2 →
          instRefCnt (destroyAll FreeType.reference (order.take k)
            (createMany FreeType.reference (plainRequest "a.ttf" 65536 0) 2
              EngineState.init).2) a = some (2 - k) ∧
          (destroyAll FreeType.reference (order.take k)
            (createMany FreeType.reference (plainRequest "a.ttf" 65536 0) 2
              EngineState.init).2).events =
            (createMany FreeType.reference (plainRequest "a.ttf" 65536 0) 2
              EngineState.init).2.events) ∧
        instRefCnt (destroyAll FreeType.reference order
          (createMany FreeType.reference (plainRequest "a.ttf" 65536 0) 2
            EngineState.init).2) a = none ∧
        (destroyAll FreeType.reference order
          (createMany FreeType.reference (plainRequest "a.ttf" 65536 0) 2
            EngineState.init).2).events.count (Event.deleteFontInstFT a) =
          (createMany FreeType.reference (plainRequest "a.ttf" 65536 0) 2
            EngineState.init).2.events.count (Event.deleteFontInstFT a) + 1 :=
  shared_instance_destroyed_on_last_release FreeType.reference EngineState.init
    (plainRequest "a.ttf" 65536 0) 2 (by decide) (by decide)
    (fun f hf => by simp [EngineState.init] at hf)
    (fun _ _ _ f hf => by simp [EngineState.init] at hf) (by decide)


/-! ### Registration order and total failure -/

/-- The first engine that succeeds decides a delegated operation (both loop shapes). -/
theorem ManagerOp_first_success {σ ρ : Type} (call : FontEngine σ → σ → ρ × σ)
    (ok : ρ → Bool) (run : List (FontEngine σ) → σ → Dispatch ρ σ)
    (hop : ManagerOp σ ρ call ok run) (pre : List (FontEngine σ)) (e : FontEngine σ)
    (post : List (FontEngine σ)) (w : σ) (hfail : allFail call ok pre w = true)
    (hok : ok (call e (worldAfter call pre w)).1 = true) :
    run (pre ++ e :: post) w =
      ⟨(call e (worldAfter call pre w)).1, (call e (worldAfter call pre w)).2,
        pre.map (fun x => x.getName) ++ [e.getName]⟩ := by
  cases hop with
  | createFontScalerContext desc =>
    simpa [FontEngineManager.createFontScalerContext] using
      walkReturn_first _ _ none pre e post w [] hfail hok
  | getFontNameAndAttribute src length =>
    simpa [FontEngineManager.getFontNameAndAttribute] using
      walkReturn_first _ _ 0 pre e post w [] hfail hok
  | isFontSupported src isLoad =>
    simpa [FontEngineManager.isFontSupported] using
      walkReturn_first _ _ false pre e post w [] hfail hok
  | getFontUnitsPerEm src =>
    simpa [FontEngineManager.getFontUnitsPerEm] using
      walkBreak_first _ _ pre e post 0 w [] hfail hok
  | getGlyphsAdvance src start count =>
    simpa [FontEngineManager.getGlyphsAdvance] using
      walkBreak_first _ _ pre e post 0 w [] hfail hok
  | getGlyphsName src start count =>
    simpa [FontEngineManager.getGlyphsName] using
      walkBreak_first _ _ pre e post 0 w [] hfail hok
  | getGlyphsUnicode src start count =>
    simpa [FontEngineManager.getGlyphsUnicode] using
      walkBreak_first _ _ pre e post 0 w [] hfail hok
  | getAdvancedTypefaceMetrics src =>
    simpa [FontEngineManager.getAdvancedTypefaceMetrics] using
      walkReturn_first _ _ none pre e post w [] hfail hok

/-- The loop of the constructor started on a non-empty list keeps that list as a tail. -/
theorem FontEngineManager_load_foldl {σ : Type} (eps : List (PluginFile σ)) :
    ∀ acc : List (FontEngine σ),
      eps.foldl FontEngineManager.load acc = FontEngineManager.new eps ++ acc := by
  induction eps with
  | nil => intro acc; rfl
  | cons ep rest ih =>
    intro acc
    unfold FontEngineManager.new
    simp only [List.foldl_cons]
    rw [ih (FontEngineManager.load acc ep), ih (FontEngineManager.load [] ep)]
    have h : FontEngineManager.load acc ep = FontEngineManager.load [] ep ++ acc := by
      unfold FontEngineManager.load
      simp only
      split
      · cases ep.inst <;> simp
      · simp
    rw [h, List.append_assoc]

/-- The engines of later directory entries come first in the list of the manager. -/
theorem FontEngineManager_new_append {σ : Type} (xs ys : List (PluginFile σ)) :
    FontEngineManager.new (xs ++ ys) = FontEngineManager.new ys ++ FontEngineManager.new xs := by
  have h := FontEngineManager_load_foldl ys (FontEngineManager.new xs)
  unfold FontEngineManager.new at h ⊢
  rw [List.foldl_append, h]

/-- A plugin file whose name ends in `.so` and that hands out the engine `A`, alone. -/
theorem FontEngineManager_new_single {σ : Type} (f : PluginFile σ) (A : FontEngine σ)
    (hso : (ANDROID_FONT_ENGINE_PATH ++ f.d_name).toList.drop
      ((ANDROID_FONT_ENGINE_PATH ++ f.d_name).length - 3) = ['.', 's', 'o'])
    (hinst : f.inst = some A) : FontEngineManager.new [f] = [A] := by
  unfold FontEngineManager.new
  simp only [List.foldl_cons, List.foldl_nil]
  unfold FontEngineManager.load
  simp only [hso, if_true, hinst]

/-- C11, counterexample. The plugin `a.so` (engine `A`) is loaded before the plugin `b.so`
(engine `B`) and both engines succeed on `createFontScalerContext`: the manager returns the
scaler `2` of `B`; `A` is not invoked. -/
theorem manager_returns_result_of_later_loaded :
    FontEngineManager.createFontScalerContext
      (FontEngineManager.new
        [⟨"a.so", some (succeedingEngine "A" 1)⟩, ⟨"b.so", some (succeedingEngine "B" 2)⟩])
      (plainRequest "a.ttf" 65536 0) 0 = ⟨some 2, 1, ["B"]⟩ := by
  rfl

/-- C11, amended. The constructor links every loaded engine in at the head of the list, so the
call order is the reverse of the load order. For every delegated manager operation: when the
engine `A` comes from the plugin file `fA`, the engines loaded after `A` all fail and `A`
succeeds, the manager returns the result of `A`, whatever the engines loaded before `A` would
do; none of them is invoked. In particular when `B` is loaded before `A` and both succeed, the
manager returns the result of `A`, not the one of `B`. -/
theorem manager_prefers_later_loaded {σ ρ : Type} (call : FontEngine σ → σ → ρ × σ)
    (ok : ρ → Bool) (run : List (FontEngine σ) → σ → Dispatch ρ σ)
    (hop : ManagerOp σ ρ call ok run) (fA : PluginFile σ) (A : FontEngine σ)
    (hso : (ANDROID_FONT_ENGINE_PATH ++ fA.d_name).toList.drop
      ((ANDROID_FONT_ENGINE_PATH ++ fA.d_name).length - 3) = ['.', 's', 'o'])
    (hinst : fA.inst = some A) :
    (∀ (before after : List (PluginFile σ)) (w : σ),
      allFail call ok (FontEngineManager.new after) w = true →
      ok (call A (worldAfter call (FontEngineManager.new after) w)).1 = true →
      run (FontEngineManager.new (before ++ fA :: after)) w =
        ⟨(call A (worldAfter call (FontEngineManager.new after) w)).1,
          (call A (worldAfter call (FontEngineManager.new after) w)).2,
          (FontEngineManager.new after).map (fun x => x.getName) ++ [A.getName]⟩) ∧
    (∀ (fB : PluginFile σ) (w : σ), ok (call A w).1 = true →
      run (FontEngineManager.new [fB, fA]) w = ⟨(call A w).1, (call A w).2, [A.getName]⟩) := by
  have key : ∀ (before after : List (PluginFile σ)) (w : σ),
      allFail call ok (FontEngineManager.new after) w = true →
      ok (call A (worldAfter call (FontEngineManager.new after) w)).1 = true →
      run (FontEngineManager.new (before ++ fA :: after)) w =
        ⟨(call A (worldAfter call (FontEngineManager.new after) w)).1,
          (call A (worldAfter call (FontEngineManager.new after) w)).2,
          (FontEngineManager.new after).map (fun x => x.getName) ++ [A.getName]⟩ := by
    intro before after w hfail hok
    have hl : FontEngineManager.new (before ++ fA :: after) =
        FontEngineManager.new after ++ A :: FontEngineManager.new before := by
      have e : before ++ fA :: after = before ++ ([fA] ++ after) := rfl
      rw [e, FontEngineManager_new_append, FontEngineManager_new_append,
        FontEngineManager_new_single fA A hso hinst]
      simp
    rw [hl]
    exact ManagerOp_first_success call ok run hop _ A _ w hfail hok
  refine ⟨key, ?_⟩
  intro fB w hok
  have h := key [fB] [] w rfl hok
  simpa [FontEngineManager.new, worldAfter] using h

/-- C11 at the plugins `a.so` (engine `A`) and `b.so` (engine `B`), both succeeding, for
`createFontScalerContext`: the scaler `2` of `B`, which was loaded last, is returned. -/
theorem manager_prefers_later_loaded_witness :
    FontEngineManager.createFontScalerContext
      (FontEngineManager.new
        [⟨"a.so", some (succeedingEngine "A" 1)⟩, ⟨"b.so", some (succeedingEngine "B" 2)⟩])
      (plainRequest "a.ttf" 65536 0) 0 =
      ⟨((succeedingEngine "B" 2).createFontScalerContext (plainRequest "a.ttf" 65536 0) 0).1,
        ((succeedingEngine "B" 2).createFontScalerContext (plainRequest "a.ttf" 65536 0) 0).2,
        [(succeedingEngine "B" 2).getName]⟩ :=
  (manager_prefers_later_loaded _ _ _
    (ManagerOp.createFontScalerContext (plainRequest "a.ttf" 65536 0))
    ⟨"b.so", some (succeedingEngine "B" 2)⟩ (succeedingEngine "B" 2) (by decide) rfl).2
    ⟨"a.so", some (succeedingEngine "A" 1)⟩ 0 rfl


/-- When every engine fails, the loop that returns inside the loop body ends with the
sentinel, after having invoked every engine. -/
theorem walkReturn_allFail {σ ρ : Type} (call : FontEngine σ → σ → ρ × σ) (ok : ρ → Bool)
    (sentinel : ρ) (l : List (FontEngine σ)) :
    ∀ (w : σ) (log : List String), allFail call ok l w = true →
      walkReturn call ok sentinel l w log =
        ⟨sentinel, worldAfter call l w, log ++ l.map (fun x => x.getName)⟩ := by
  induction l with
  | nil => intro w log _; simp [walkReturn, worldAfter]
  | cons a rest ih =>
    intro w log hfail
    simp only [allFail, Bool.and_eq_true, Bool.not_eq_true_eq_eq_false, Bool.not_eq_eq_eq_not,
      Bool.not_true] at hfail
    have h := ih (call a w).2 (log ++ [a.getName]) hfail.2
    simp [walkReturn, hfail.1, worldAfter, h]

/-- When every engine fails, the loop that leaves with `break` returns the value it last
assigned: a failing one, provided the initial value is a failing one. -/
theorem walkBreak_allFail {σ ρ : Type} (call : FontEngine σ → σ → ρ × σ) (ok : ρ → Bool)
    (l : List (FontEngine σ)) :
    ∀ (r0 : ρ) (w : σ) (log : List String), allFail call ok l w = true → ok r0 = false →
      ok (walkBreak call ok l r0 w log).result = false := by
  induction l with
  | nil => intro r0 w log _ h0; simpa [walkBreak] using h0
  | cons a rest ih =>
    intro r0 w log hfail _
    simp only [allFail, Bool.and_eq_true, Bool.not_eq_true_eq_eq_false, Bool.not_eq_eq_eq_not,
      Bool.not_true] at hfail
    have h := ih (call a w).1 (call a w).2 (log ++ [a.getName]) hfail.2 hfail.1
    simp [walkBreak, hfail.1, h]

/-- Total failure on a list of engines: `createFontScalerContext` and
`getAdvancedTypefaceMetrics` return `NULL`, `getFontNameAndAttribute` and `getFontUnitsPerEm`
return `0`, `isFontSupported` returns `false`; the three glyph queries return a non-zero error
code provided the list is not empty. -/
theorem manager_failure_sentinels {σ : Type} (l : List (FontEngine σ)) (w : σ)
    (desc : FontScalerInfo) (src : FontSource) (length start count : Nat) (isLoad : Bool) :
    (allFail (fun e => e.createFontScalerContext desc) Option.isSome l w = true →
      (FontEngineManager.createFontScalerContext l desc w).result = none) ∧
    (allFail (fun e => e.getAdvancedTypefaceMetrics src) Option.isSome l w = true →
      (FontEngineManager.getAdvancedTypefaceMetrics l src w).result = none) ∧
    (allFail (fun e => e.getFontNameAndAttribute src length) (fun c => c != 0) l w = true →
      (FontEngineManager.getFontNameAndAttribute l src length w).result = 0) ∧
    (allFail (fun e => e.getFontUnitsPerEm src) (fun u => u != 0) l w = true →
      (FontEngineManager.getFontUnitsPerEm l src w).result = 0) ∧
    (allFail (fun e => e.isFontSupported src isLoad) (fun b => b) l w = true →
      (FontEngineManager.isFontSupported l src isLoad w).result = false) ∧
    (l ≠ [] →
      (allFail (fun e => e.getGlyphsAdvance src start count) (fun c => c == 0) l w = true →
        (FontEngineManager.getGlyphsAdvance l src start count w).result ≠ 0) ∧
      (allFail (fun e => e.getGlyphsName src start count) (fun c => c == 0) l w = true →
        (FontEngineManager.getGlyphsName l src start count w).result ≠ 0) ∧
      (allFail (fun e => e.getGlyphsUnicode src start count) (fun c => c == 0) l w = true →
        (FontEngineManager.getGlyphsUnicode l src start count w).result ≠ 0)) := by
  have hbreak : ∀ (call : FontEngine σ → σ → Nat × σ), l ≠ [] →
      allFail call (fun c => c == 0) l w = true →
      (walkBreak call (fun c => c == 0) l 0 w []).result ≠ 0 := by
    intro call hne hfail
    cases l with
    | nil => exact absurd rfl hne
    | cons a rest =>
      simp only [allFail, Bool.and_eq_true, Bool.not_eq_true_eq_eq_false,
        Bool.not_eq_eq_eq_not, Bool.not_true] at hfail
      have h := walkBreak_allFail call (fun c => c == 0) rest (call a w).1 (call a w).2
        [a.getName] hfail.2 hfail.1
      have e : walkBreak call (fun c => c == 0) (a :: rest) 0 w [] =
          walkBreak call (fun c => c == 0) rest (call a w).1 (call a w).2 [a.getName] := by
        simp [walkBreak, hfail.1]
      rw [e]
      simpa using h
  refine ⟨?_, ?_, ?_, ?_, ?_, ?_⟩
  · intro h
    simp [FontEngineManager.createFontScalerContext, walkReturn_allFail _ _ _ l w [] h]
  · intro h
    simp [FontEngineManager.getAdvancedTypefaceMetrics, walkReturn_allFail _ _ _ l w [] h]
  · intro h
    simp [FontEngineManager.getFontNameAndAttribute, walkReturn_allFail _ _ _ l w [] h]
  · intro h
    have h2 := walkBreak_allFail (fun e => e.getFontUnitsPerEm src) (fun u => u != 0) l 0 w []
      h rfl
    simpa [FontEngineManager.getFontUnitsPerEm] using h2
  · intro h
    simp [FontEngineManager.isFontSupported, walkReturn_allFail _ _ _ l w [] h]
  · intro hne
    exact ⟨hbreak _ hne, hbreak _ hne, hbreak _ hne⟩

/-- C12, at the failing input. A manager that has loaded no engine (an empty plugin directory)
answers the three glyph queries with the error code `0`, the value that means success, without
having invoked an engine or written to the caller's array. -/
theorem manager_glyph_queries_return_zero_without_engines {σ : Type} (src : FontSource)
    (start count : Nat) (w : σ) :
    FontEngineManager.getGlyphsAdvance (FontEngineManager.new ([] : List (PluginFile σ)))
      src start count w = ⟨0, w, []⟩ ∧
    FontEngineManager.getGlyphsName (FontEngineManager.new ([] : List (PluginFile σ)))
      src start count w = ⟨0, w, []⟩ ∧
    FontEngineManager.getGlyphsUnicode (FontEngineManager.new ([] : List (PluginFile σ)))
      src start count w = ⟨0, w, []⟩ :=
  ⟨rfl, rfl, rfl⟩


/-! ### Load flags -/

/-- The load flags of a resolved request are those of the second block of
`getTransMatrix`. -/
theorem getTransMatrix_loadGlyphFlags (ft : FreeType) (gLCDSupport : Bool)
    (desc : FontScalerInfo) (tm : TransMatrix)
    (h : FontFT.getTransMatrix ft gLCDSupport desc = some tm) :
    tm.loadGlyphFlags = computeLoadFlags gLCDSupport desc := by
  unfold FontFT.getTransMatrix at h
  split at h
  · simp only at h
    split at h
    · simp at h
    · simp only [Option.some.injEq] at h
      rw [← h]
  · simp only [Option.some.injEq] at h
    rw [← h]

/-- C13, counterexample. A request without sub-pixel positioning, with light hinting (flags
byte `2`) and the LCD-horizontal mask format, on a backend with LCD support: the load flags
are `FT_LOAD_TARGET_LIGHT | FT_LOAD_NO_BITMAP`, whose target is the light one (mode `1`), not
`FT_LOAD_TARGET_LCD` (mode `3`). -/
theorem getTransMatrix_light_hinting_ignores_lcd :
    (FontFT.getTransMatrix FreeType.reference true
      { plainRequest "a.ttf" 65536 2 with maskFormat := AliasMode.ALIAS_LCD_H }).map
        (fun tm => (tm.loadGlyphFlags, FT_LOAD_TARGET_MODE tm.loadGlyphFlags)) =
      some (FT_LOAD_TARGET_LIGHT ||| FT_LOAD_NO_BITMAP, 1) ∧
    hintingOf 2 = Hinting.HINTING_LIGHT ∧
    FT_LOAD_TARGET_MODE FT_LOAD_TARGET_LCD = 3 := by
  decide

/-- C13, amended. For every request without sub-pixel positioning, on a backend that
advertises LCD support: `getTransMatrix` returns whenever the request does not take the
isotropic branch, and whenever it returns, with hinting level normal or full the load flags
are `FT_LOAD_TARGET_LCD` for the LCD-horizontal and `FT_LOAD_TARGET_LCD_V` for the LCD-vertical
mask format (with `FT_LOAD_NO_BITMAP` added unless embedded bitmaps are requested), so they
select that target; with hinting level light they select `FT_LOAD_TARGET_LIGHT` whatever the
mask format. -/
theorem getTransMatrix_lcd_target (ft : FreeType) (desc : FontScalerInfo)
    (hsub : desc.subpixelPositioning = false) :
    (givesUpOnHinting desc = false → (FontFT.getTransMatrix ft true desc).isSome = true) ∧
    ∀ tm, FontFT.getTransMatrix ft true desc = some tm →
      ((hintingOf desc.flags = Hinting.HINTING_NORMAL ∨
          hintingOf desc.flags = Hinting.HINTING_FULL) →
        (desc.maskFormat = AliasMode.ALIAS_LCD_H →
          tm.loadGlyphFlags = FT_LOAD_TARGET_LCD |||
            (if desc.flags &&& EmbeddedBitmapText_Flag = 0 then FT_LOAD_NO_BITMAP else 0) ∧
          FT_LOAD_TARGET_MODE tm.loadGlyphFlags = FT_LOAD_TARGET_MODE FT_LOAD_TARGET_LCD) ∧
        (desc.maskFormat = AliasMode.ALIAS_LCD_V →
          tm.loadGlyphFlags = FT_LOAD_TARGET_LCD_V |||
            (if desc.flags &&& EmbeddedBitmapText_Flag = 0 then FT_LOAD_NO_BITMAP else 0) ∧
          FT_LOAD_TARGET_MODE tm.loadGlyphFlags = FT_LOAD_TARGET_MODE FT_LOAD_TARGET_LCD_V)) ∧
      (hintingOf desc.flags = Hinting.HINTING_LIGHT →
        FT_LOAD_TARGET_MODE tm.loadGlyphFlags = FT_LOAD_TARGET_MODE FT_LOAD_TARGET_LIGHT) := by
  refine ⟨?_, ?_⟩
  · intro hg
    unfold FontFT.getTransMatrix
    simp [hg]
  · intro tm htm
    rw [getTransMatrix_loadGlyphFlags ft true desc tm htm]
    refine ⟨?_, ?_⟩
    · intro hh
      refine ⟨?_, ?_⟩
      · intro hm
        rcases hh with hh | hh <;>
        · unfold computeLoadFlags
          simp only [hsub, hh, hm]
          split <;> exact ⟨by decide, by decide⟩
      · intro hm
        rcases hh with hh | hh <;>
        · unfold computeLoadFlags
          simp only [hsub, hh, hm]
          split <;> exact ⟨by decide, by decide⟩
    · intro hh
      unfold computeLoadFlags
      simp only [hsub, hh]
      split <;> decide

/-- C13 at the request with full hinting (flags byte `6`) and the LCD-vertical mask format:
the load flags are `FT_LOAD_TARGET_LCD_V | FT_LOAD_NO_BITMAP`. -/
theorem getTransMatrix_lcd_target_witness :
    ∃ tm, FontFT.getTransMatrix FreeType.reference true
        { plainRequest "a.ttf" 65536 6 with maskFormat := AliasMode.ALIAS_LCD_V } = some tm ∧
      tm.loadGlyphFlags = FT_LOAD_TARGET_LCD_V ||| FT_LOAD_NO_BITMAP ∧
      FT_LOAD_TARGET_MODE tm.loadGlyphFlags = 4 :=
  ⟨_, rfl, ((getTransMatrix_lcd_target FreeType.reference
      { plainRequest "a.ttf" 65536 6 with maskFormat := AliasMode.ALIAS_LCD_V } rfl).2 _ rfl).1
      (Or.inr (by decide)) |>.2 rfl⟩


/-! ### Glyph advances -/

/-- C14, at the failing input. When the engine is compiled with `FT_ADVANCES_H` and the fast
advance query fails, `getGlyphAdvance` returns the default metrics, all zero, whatever the
glyph: for the outline glyph whose hinted advance is `640` (ten pixels in 26.6) the advance is
`0`, while `getGlyphMetrics` reports `655360` (ten pixels in 16.16). Only when the engine is
compiled without `FT_ADVANCES_H` does `getGlyphAdvance` return what `getGlyphMetrics`
returns. -/
theorem getGlyphAdvance_has_no_fallback (ft : FreeType) (inst : InstView) (setupSizeOk : Bool)
    (fast : Option Int) (load : Option FT_GlyphSlot) (fracX fracY : Int) :
    FontScalerFT.getGlyphAdvance ft true inst true none load fracX fracY =
      some GlyphMetrics.clear ∧
    (FontScalerFT.getGlyphAdvance FreeType.reference true
      (plainInst false AliasMode.ALIAS_GRAYSCALE) true none
      (some { outlineSlot ⟨0, 0, 64, 64⟩ with advance_x := 640 }) 0 0).map
        (fun gm => gm.fAdvanceX) = some 0 ∧
    (FontScalerFT.getGlyphMetrics FreeType.reference
      (plainInst false AliasMode.ALIAS_GRAYSCALE) true
      (some { outlineSlot ⟨0, 0, 64, 64⟩ with advance_x := 640 }) 0 0).map
        (fun gm => gm.fAdvanceX) = some 655360 ∧
    FontScalerFT.getGlyphAdvance ft false inst setupSizeOk fast load fracX fracY =
      FontScalerFT.getGlyphMetrics ft inst setupSizeOk load fracX fracY :=
  ⟨rfl, by decide, by decide, rfl⟩


/-! ### Embedded bitmaps that are not converted -/

/-- C15, counterexample. An embedded gray bitmap of one pixel (`0x80`) and the monochrome
target: `getGlyphImage` does not abort, it copies the row into the target buffer. -/
theorem getGlyphImage_copies_gray_to_mono :
    (FontScalerFT.getGlyphImage FreeType.reference
      (plainInst false AliasMode.ALIAS_MONOCHROME) true
      (some (bitmapSlot ⟨1, 1, 1, fun _ => 0x80, FT_Pixel_Mode.FT_PIXEL_MODE_GRAY⟩))
      0 0 1 1 1 (fun _ => 0)).map (fun mem => mem 0) = some 0x80 := by
  decide

/-- C15, amended. For an embedded-bitmap glyph: a gray source is row-copied for every target
mask format; a mono source with the LCD16 target, and every source that is neither gray nor
mono, reach `assert(!"unknown glyph bitmap transform needed")`, which aborts unless the engine
is compiled with `NDEBUG`, and in both builds nothing is copied or expanded: if the call
returns, the target buffer is as it was. -/
theorem getGlyphImage_unknown_transform (ft : FreeType) (inst : InstView)
    (glyph : FT_GlyphSlot) (fracX fracY : Int) (rowBytes width height : Nat)
    (buffer : Nat → Nat) (hfmt : glyph.format = FT_Glyph_Format.FT_GLYPH_FORMAT_BITMAP) :
    (((glyph.bitmap (inst.fontInstFlags &&& Embolden_Flag != 0)).pixel_mode =
          FT_Pixel_Mode.FT_PIXEL_MODE_OTHER ∨
        ((glyph.bitmap (inst.fontInstFlags &&& Embolden_Flag != 0)).pixel_mode =
            FT_Pixel_Mode.FT_PIXEL_MODE_MONO ∧ inst.maskFormat = AliasMode.ALIAS_LCD16)) →
      FontScalerFT.getGlyphImage ft inst true (some glyph) fracX fracY rowBytes width height
        buffer = if ft.NDEBUG then some buffer else none) ∧
    ((glyph.bitmap (inst.fontInstFlags &&& Embolden_Flag != 0)).pixel_mode =
        FT_Pixel_Mode.FT_PIXEL_MODE_GRAY →
      FontScalerFT.getGlyphImage ft inst true (some glyph) fracX fracY rowBytes width height
        buffer =
        some (copyRows (glyph.bitmap (inst.fontInstFlags &&& Embolden_Flag != 0))
          (if ((glyph.bitmap (inst.fontInstFlags &&& Embolden_Flag != 0)).pitch
              % 4294967296).toNat < rowBytes
            then ((glyph.bitmap (inst.fontInstFlags &&& Embolden_Flag != 0)).pitch
              % 4294967296).toNat
            else rowBytes)
          rowBytes (glyph.bitmap (inst.fontInstFlags &&& Embolden_Flag != 0)).rows 0 0
          buffer)) := by
  refine ⟨?_, ?_⟩
  · intro h
    unfold FontScalerFT.getGlyphImage
    simp only [hfmt, Bool.not_true, Bool.false_eq_true, if_false]
    unfold copyEmbeddedBitmap
    rcases h with h | ⟨h1, h2⟩
    · simp [h]
    · simp [h1, h2]
  · intro h
    unfold FontScalerFT.getGlyphImage
    simp only [hfmt, Bool.not_true, Bool.false_eq_true, if_false]
    unfold copyEmbeddedBitmap
    simp [h]

/-- C15 at an embedded mono bitmap and the LCD16 target, in a build with assertions: the call
aborts. -/
theorem getGlyphImage_unknown_transform_witness :
    FontScalerFT.getGlyphImage FreeType.reference (plainInst false AliasMode.ALIAS_LCD16) true
      (some (bitmapSlot monoRow10110)) 0 0 5 5 1 (fun _ => 0) = none :=
  (getGlyphImage_unknown_transform FreeType.reference (plainInst false AliasMode.ALIAS_LCD16)
    (bitmapSlot monoRow10110) 0 0 5 5 1 (fun _ => 0) rfl).1 (Or.inr ⟨rfl, rfl⟩)


/-! ### Advanced typeface metrics -/

/-- The loop over the stem characters: if none of the widths of the glyphs that exist lies
strictly between `0` and `min_width`, `fStemV` is left as it was; otherwise the result is the
least positive width, which is below `min_width`. -/
theorem stemLoop_spec (face : FT_FaceRec) :
    ∀ (cs : List Char) (min_width fStemV : Int),
      ((∀ w ∈ cs.filterMap (fun c => (GetLetterCBox face c).map
            (fun b => toS16 (b.xMax - b.xMin))), ¬ (0 < w ∧ w < min_width)) →
        stemLoop face cs min_width fStemV = fStemV) ∧
      ((∃ w ∈ cs.filterMap (fun c => (GetLetterCBox face c).map
            (fun b => toS16 (b.xMax - b.xMin))), 0 < w ∧ w < min_width) →
        stemLoop face cs min_width fStemV ∈ cs.filterMap (fun c => (GetLetterCBox face c).map
            (fun b => toS16 (b.xMax - b.xMin))) ∧
        0 < stemLoop face cs min_width fStemV ∧
        stemLoop face cs min_width fStemV < min_width ∧
        ∀ w ∈ cs.filterMap (fun c => (GetLetterCBox face c).map
            (fun b => toS16 (b.xMax - b.xMin))),
          0 < w → stemLoop face cs min_width fStemV ≤ w) := by
  intro cs
  induction cs with
  | nil =>
    intro mw sv
    simp [stemLoop]
  | cons c rest ih =>
    intro mw sv
    cases hc : GetLetterCBox face c with
    | none =>
      have e : (c :: rest).filterMap (fun c => (GetLetterCBox face c).map
          (fun b => toS16 (b.xMax - b.xMin))) =
          rest.filterMap (fun c => (GetLetterCBox face c).map
            (fun b => toS16 (b.xMax - b.xMin))) := by
        simp [List.filterMap_cons, hc]
      have hs : stemLoop face (c :: rest) mw sv = stemLoop face rest mw sv := by
        simp [stemLoop, hc]
      rw [e, hs]
      exact ih mw sv
    | some b =>
      have e : (c :: rest).filterMap (fun c => (GetLetterCBox face c).map
          (fun b => toS16 (b.xMax - b.xMin))) =
          toS16 (b.xMax - b.xMin) :: rest.filterMap (fun c => (GetLetterCBox face c).map
            (fun b => toS16 (b.xMax - b.xMin))) := by
        simp [List.filterMap_cons, hc]
      rw [e]
      obtain ⟨w0, hw0⟩ : ∃ w0, w0 = toS16 (b.xMax - b.xMin) := ⟨_, rfl⟩
      rw [← hw0]
      by_cases hw : 0 < w0 ∧ w0 < mw
      · have hs : stemLoop face (c :: rest) mw sv = stemLoop face rest w0 w0 := by
          rw [hw0] at hw ⊢
          simp [stemLoop, hc, hw]
        rw [hs]
        obtain ⟨ih1, ih2⟩ := ih w0 w0
        refine ⟨fun hno => absurd hw (hno w0 (List.mem_cons_self _ _)), fun _ => ?_⟩
        by_cases hex : ∃ w ∈ rest.filterMap (fun c => (GetLetterCBox face c).map
            (fun b => toS16 (b.xMax - b.xMin))), 0 < w ∧ w < w0
        · obtain ⟨hmem, hpos, hlt, hmin⟩ := ih2 hex
          refine ⟨List.mem_cons_of_mem _ hmem, hpos, by omega, ?_⟩
          intro w hwm hwpos
          rcases List.mem_cons.mp hwm with h | h
          · rw [h]; omega
          · exact hmin w h hwpos
        · have hno : ∀ w ∈ rest.filterMap (fun c => (GetLetterCBox face c).map
              (fun b => toS16 (b.xMax - b.xMin))), ¬ (0 < w ∧ w < w0) :=
            fun w hwm hcon => hex ⟨w, hwm, hcon⟩
          rw [ih1 hno]
          refine ⟨List.mem_cons_self _ _, hw.1, hw.2, ?_⟩
          intro w hwm hwpos
          rcases List.mem_cons.mp hwm with h | h
          · rw [h]
          · have := hno w h
            omega
      · have hs : stemLoop face (c :: rest) mw sv = stemLoop face rest mw sv := by
          rw [hw0] at hw
          simp only [stemLoop, hc, if_neg hw]
        rw [hs]
        obtain ⟨ih1, ih2⟩ := ih mw sv
        refine ⟨fun hno => ih1 (fun w hwm => hno w (List.mem_cons_of_mem _ hwm)), ?_⟩
        rintro ⟨w, hwm, hwr⟩
        have hin : ∃ w ∈ rest.filterMap (fun c => (GetLetterCBox face c).map
            (fun b => toS16 (b.xMax - b.xMin))), 0 < w ∧ w < mw := by
          rcases List.mem_cons.mp hwm with h | h
          · rw [h] at hwr; exact absurd hwr hw
          · exact ⟨w, h, hwr⟩
        obtain ⟨hmem, hpos, hlt, hmin⟩ := ih2 hin
        refine ⟨List.mem_cons_of_mem _ hmem, hpos, hlt, ?_⟩
        intro w' hwm' hwpos'
        rcases List.mem_cons.mp hwm' with h | h
        · rw [h]; omega
        · exact hmin w' h hwpos'

/-- C17, counterexample. A face in which only the glyph of `i` exists: with a box `40000` font
units wide, or `32767` font units wide, the only positive width is that one, but `fStemV` is
`0`: the width is held in an `int16_t` (`40000` becomes `-25536`) and must be below
`SHRT_MAX`. -/
theorem fStemV_ignores_wide_boxes :
    (GetLetterCBox { plainFace "TrueType" with
        FT_Get_Char_Index := fun c => if c = 'i' then 1 else 0
        cbox := fun _ => { xMin := 0, yMin := 0, xMax := 40000, yMax := 100 } } 'i').map
      (fun b => b.xMax - b.xMin) = some 40000 ∧
    (FontEngineFT.getAdvancedTypefaceMetrics FreeType.reference false true true
      (some { plainFace "TrueType" with
        FT_Get_Char_Index := fun c => if c = 'i' then 1 else 0
        cbox := fun _ => { xMin := 0, yMin := 0, xMax := 40000, yMax := 100 } })
      freshMetrics).map (Option.map (fun m => m.fStemV)) = some (some 0) ∧
    (FontEngineFT.getAdvancedTypefaceMetrics FreeType.reference false true true
      (some { plainFace "TrueType" with
        FT_Get_Char_Index := fun c => if c = 'i' then 1 else 0
        cbox := fun _ => { xMin := 0, yMin := 0, xMax := 32767, yMax := 100 } })
      freshMetrics).map (Option.map (fun m => m.fStemV)) = some (some 0) := by
  decide

/-- C17, amended. For a face that `getAdvancedTypefaceMetrics` can open, with a PostScript name
and a format string: the call returns metrics, and with the widths `xMax - xMin`, converted to
`int16_t`, of those of the four glyphs for `i`, `I`, `!` and `1` that exist in the face,
`fStemV` is the least positive width if one of them lies strictly between `0` and `32767`
(`SHRT_MAX`), and `0` if none does. -/
theorem getAdvancedTypefaceMetrics_fStemV (ft : FreeType) (face : FT_FaceRec)
    (fresh : AdvancedTypefaceMetrics) (name fontType : String)
    (hname : face.FT_Get_Postscript_Name = some name)
    (hfmt : face.FT_Get_X11_Font_Format = some fontType) :
    ∃ m, FontEngineFT.getAdvancedTypefaceMetrics ft false true true (some face) fresh =
        some (some m) ∧
      ((∀ w ∈ ['i', 'I', '!', '1'].filterMap (fun c => (GetLetterCBox face c).map
            (fun b => toS16 (b.xMax - b.xMin))), ¬ (0 < w ∧ w < 32767)) →
        m.fStemV = 0) ∧
      ((∃ w ∈ ['i', 'I', '!', '1'].filterMap (fun c => (GetLetterCBox face c).map
            (fun b => toS16 (b.xMax - b.xMin))), 0 < w ∧ w < 32767) →
        m.fStemV ∈ ['i', 'I', '!', '1'].filterMap (fun c => (GetLetterCBox face c).map
            (fun b => toS16 (b.xMax - b.xMin))) ∧
        0 < m.fStemV ∧
        ∀ w ∈ ['i', 'I', '!', '1'].filterMap (fun c => (GetLetterCBox face c).map
            (fun b => toS16 (b.xMax - b.xMin))), 0 < w → m.fStemV ≤ w) := by
  obtain ⟨h1, h2⟩ := stemLoop_spec face ['i', 'I', '!', '1'] 32767 0
  unfold FontEngineFT.getAdvancedTypefaceMetrics
  simp only [Bool.false_eq_true, if_false, Bool.not_true, hname, hfmt]
  refine ⟨_, rfl, h1, ?_⟩
  intro hex
  obtain ⟨a, b, _, d⟩ := h2 hex
  exact ⟨a, b, d⟩

/-- C17 at the face whose glyphs for `i`, `I` and `!` are `10`, `20` and `30` font units wide
and that has no glyph for `1`: `fStemV` is `10`. -/
theorem getAdvancedTypefaceMetrics_fStemV_witness :
    ∃ m, FontEngineFT.getAdvancedTypefaceMetrics FreeType.reference false true true
        (some (plainFace "TrueType")) freshMetrics = some (some m) ∧ m.fStemV = 10 := by
  obtain ⟨m, hm, _, h2⟩ := getAdvancedTypefaceMetrics_fStemV FreeType.reference
    (plainFace "TrueType") freshMetrics "Plain" "TrueType" rfl rfl
  refine ⟨m, hm, ?_⟩
  obtain ⟨hmem, hpos, hmin⟩ := h2 ⟨10, by decide, by decide⟩
  have h10 := hmin 10 (by decide) (by decide)
  have hl : ['i', 'I', '!', '1'].filterMap (fun c => (GetLetterCBox (plainFace "TrueType") c).map
      (fun b => toS16 (b.xMax - b.xMin))) = [10, 20, 30] := by decide
  rw [hl] at hmem
  simp only [List.mem_cons, List.mem_singleton, List.not_mem_nil, or_false] at hmem
  omega

/-- The record that `FontEngineFT::getAdvancedTypefaceMetrics` builds has the type that the
format string of the face gives, and the type left in the fresh object for any other format
string: `canEmbed` is not asked. -/
theorem getAdvancedTypefaceMetrics_fType (ft : FreeType) (face : FT_FaceRec)
    (fresh : AdvancedTypefaceMetrics) (name fontType : String)
    (hname : face.FT_Get_Postscript_Name = some name)
    (hfmt : face.FT_Get_X11_Font_Format = some fontType) :
    ∃ m, FontEngineFT.getAdvancedTypefaceMetrics ft false true true (some face) fresh =
        some (some m) ∧
      m.fType = (if fontType = "Type 1" then FontType.TYPE1_FONT
        else if fontType = "CID Type 1" then FontType.TYPE1CID_FONT
        else if fontType = "CFF" then FontType.CFF_FONT
        else if fontType = "TrueType" then FontType.TRUETYPE_FONT
        else fresh.fType) := by
  unfold FontEngineFT.getAdvancedTypefaceMetrics
  simp only [Bool.false_eq_true, if_false, Bool.not_true, hname, hfmt]
  exact ⟨_, rfl, rfl⟩

/-- A charmap that is not a preferred one leaves every non-zero entry as it is. -/
theorem unicodeCmapLoop_keeps_nonzero (start count : Nat) :
    ∀ (chars : List (Int × Nat)) (out : Nat → Int) (i : Nat), out i ≠ 0 →
      unicodeCmapLoop start count false chars out i = out i := by
  intro chars
  induction chars with
  | nil => intro out i _; rfl
  | cons p rest ih =>
    intro out i hi
    obtain ⟨charCode, glyphIndex⟩ := p
    unfold unicodeCmapLoop
    split
    · rfl
    · split
      · split
        · rename_i hw
          have hz : out (glyphIndex - start) = 0 := by
            rcases hw.2 with h | h
            · exact h
            · exact absurd h (by simp)
          have hne : i ≠ glyphIndex - start := by
            intro e; rw [e] at hi; exact hi hz
          have hu : Function.update out (glyphIndex - start) charCode i = out i :=
            Function.update_noteq hne _ _
          rw [ih _ i (by rw [hu]; exact hi), hu]
        · exact ih out i hi
      · exact ih out i hi

/-- Every entry that the loop over one charmap changes holds, afterwards, a non-zero character
code of an entry of the charmap whose glyph is the one of the entry and lies in the range; and
it was `0` before unless the charmap is a preferred one. -/
theorem unicodeCmapLoop_changes (start count : Nat) (preferredMap : Bool) :
    ∀ (chars : List (Int × Nat)) (out : Nat → Int) (i : Nat),
      unicodeCmapLoop start count preferredMap chars out i ≠ out i →
      unicodeCmapLoop start count preferredMap chars out i ≠ 0 ∧
      (out i = 0 ∨ preferredMap = true) ∧
      ∃ p ∈ chars, p.1 = unicodeCmapLoop start count preferredMap chars out i ∧ p.2 ≠ 0 ∧
        start ≤ p.2 ∧ p.2 ≤ (start + count + 4294967295) % 4294967296 ∧ i = p.2 - start := by
  intro chars
  induction chars with
  | nil => intro out i h; exact absurd rfl h
  | cons p rest ih =>
    intro out i h
    obtain ⟨charCode, glyphIndex⟩ := p
    unfold unicodeCmapLoop at h ⊢
    split at h
    · exact absurd rfl h
    · rename_i hg
      simp only [if_neg hg]
      split at h
      · rename_i hr
        simp only [if_pos hr]
        split at h
        · rename_i hw
          simp only [if_pos hw]
          by_cases hc : unicodeCmapLoop start count preferredMap rest
              (Function.update out (glyphIndex - start) charCode) i =
              Function.update out (glyphIndex - start) charCode i
          · rw [hc] at h ⊢
            have hi : i = glyphIndex - start := by
              by_contra hne
              exact h (Function.update_noteq hne _ _)
            subst hi
            rw [Function.update_same]
            exact ⟨hw.1, hw.2, (charCode, glyphIndex), List.mem_cons_self _ _, rfl, hg, hr.1,
              hr.2, rfl⟩
          · obtain ⟨h1, h2, q, hq, h3⟩ := ih _ i hc
            refine ⟨h1, ?_, q, List.mem_cons_of_mem _ hq, h3⟩
            rcases h2 with h2 | h2
            · by_cases hi : i = glyphIndex - start
              · subst hi
                rw [Function.update_same] at h2
                exact absurd h2 hw.1
              · rw [Function.update_noteq hi] at h2
                exact Or.inl h2
            · exact Or.inr h2
        · rename_i hw
          simp only [if_neg hw]
          obtain ⟨h1, h2, q, hq, h3⟩ := ih out i h
          exact ⟨h1, h2, q, List.mem_cons_of_mem _ hq, h3⟩
      · rename_i hr
        simp only [if_neg hr]
        obtain ⟨h1, h2, q, hq, h3⟩ := ih out i h
        exact ⟨h1, h2, q, List.mem_cons_of_mem _ hq, h3⟩

/-- Charmaps none of which is a preferred one leave every non-zero entry as it is. -/
theorem unicodeCharmapsLoop_keeps_nonzero (start count : Nat) :
    ∀ (cms : List FT_CharMapRec),
      (∀ cm ∈ cms, ¬ ((cm.platform_id = 3 ∧ cm.encoding_id = 10) ∨
        (cm.platform_id = 0 ∧ cm.encoding_id = 3))) →
      ∀ (out : Nat → Int) (i : Nat), out i ≠ 0 →
        unicodeCharmapsLoop start count cms out i = out i := by
  intro cms
  induction cms with
  | nil => intro _ out i _; rfl
  | cons cm rest ih =>
    intro hall out i hi
    have hcm := hall cm (List.mem_cons_self _ _)
    have hrest : ∀ c ∈ rest, ¬ ((c.platform_id = 3 ∧ c.encoding_id = 10) ∨
        (c.platform_id = 0 ∧ c.encoding_id = 3)) :=
      fun c hc => hall c (List.mem_cons_of_mem _ hc)
    unfold unicodeCharmapsLoop
    split
    · exact ih hrest out i hi
    · split
      · exact ih hrest out i hi
      · have hp : decide ((cm.platform_id = 3 ∧ cm.encoding_id = 10) ∨
            (cm.platform_id = 0 ∧ cm.encoding_id = 3)) = false := by
          simpa using hcm
        simp only [hp]
        have hk := unicodeCmapLoop_keeps_nonzero start count cm.chars out i hi
        rw [ih hrest _ i (by rw [hk]; exact hi), hk]

/-- C18. `FontEngineFT::getGlyphsUnicode`, when the face is opened, runs the loop over the
charmaps in face order; a charmap that is not Unicode (platform other than `0` or `3`, or
platform `3` with an encoding other than `1` or `10`) is skipped, any other is gone through
with `preferredMap` set for (platform `3`, encoding `10`) and (platform `0`, encoding `3`).
An entry of the output changes only to a non-zero character code mapped to its glyph, which is
in the range, and only if the entry was `0` or the charmap is a preferred one. Hence charmaps
that are not preferred keep every non-zero entry: the first code written among them is kept,
and an entry written from a preferred charmap is not replaced by them. -/
theorem getGlyphsUnicode_overwrite_rule (ft : FreeType) (start count : Nat) :
    (∀ (cms : List FT_CharMapRec) (out : Nat → Int),
      FontEngineFT.getGlyphsUnicode ft true 0 0 cms start count out =
        some (0, unicodeCharmapsLoop start count cms out)) ∧
    (∀ (cm : FT_CharMapRec) (rest : List FT_CharMapRec) (out : Nat → Int),
      ((cm.platform_id ≠ 0 ∧ cm.platform_id ≠ 3) ∨
        (cm.platform_id = 3 ∧ cm.encoding_id ≠ 1 ∧ cm.encoding_id ≠ 10)) →
      unicodeCharmapsLoop start count (cm :: rest) out =
        unicodeCharmapsLoop start count rest out) ∧
    (∀ (cm : FT_CharMapRec) (rest : List FT_CharMapRec) (out : Nat → Int),
      ¬ ((cm.platform_id ≠ 0 ∧ cm.platform_id ≠ 3) ∨
        (cm.platform_id = 3 ∧ cm.encoding_id ≠ 1 ∧ cm.encoding_id ≠ 10)) →
      unicodeCharmapsLoop start count (cm :: rest) out =
        unicodeCharmapsLoop start count rest
          (unicodeCmapLoop start count
            (decide ((cm.platform_id = 3 ∧ cm.encoding_id = 10) ∨
              (cm.platform_id = 0 ∧ cm.encoding_id = 3))) cm.chars out)) ∧
    (∀ (preferredMap : Bool) (chars : List (Int × Nat)) (out : Nat → Int) (i : Nat),
      unicodeCmapLoop start count preferredMap chars out i ≠ out i →
      unicodeCmapLoop start count preferredMap chars out i ≠ 0 ∧
      (out i = 0 ∨ preferredMap = true) ∧
      ∃ p ∈ chars, p.1 = unicodeCmapLoop start count preferredMap chars out i ∧ p.2 ≠ 0 ∧
        start ≤ p.2 ∧ p.2 ≤ (start + count + 4294967295) % 4294967296 ∧ i = p.2 - start) ∧
    (∀ (cms : List FT_CharMapRec) (out : Nat → Int) (i : Nat),
      (∀ cm ∈ cms, ¬ ((cm.platform_id = 3 ∧ cm.encoding_id = 10) ∨
        (cm.platform_id = 0 ∧ cm.encoding_id = 3))) →
      out i ≠ 0 → unicodeCharmapsLoop start count cms out i = out i) ∧
    (∀ (chars : List (Int × Nat)) (cms : List FT_CharMapRec) (out : Nat → Int) (i : Nat),
      (∀ cm ∈ cms, ¬ ((cm.platform_id = 3 ∧ cm.encoding_id = 10) ∨
        (cm.platform_id = 0 ∧ cm.encoding_id = 3))) →
      unicodeCmapLoop start count true chars out i ≠ out i →
      unicodeCharmapsLoop start count cms (unicodeCmapLoop start count true chars out) i =
        unicodeCmapLoop start count true chars out i) := by
  refine ⟨?_, ?_, ?_, ?_, ?_, ?_⟩
  · intro cms out
    simp [FontEngineFT.getGlyphsUnicode]
  · intro cm rest out h
    rw [unicodeCharmapsLoop]
    rcases h with h | h
    · rw [if_pos h]
    · split
      · rfl
      · rfl
  · intro cm rest out h
    rw [unicodeCharmapsLoop]
    rw [if_neg (fun hc => h (Or.inl hc)), if_neg (fun hc => h (Or.inr hc))]
  · exact unicodeCmapLoop_changes start count
  · intro cms out i hall hi
    exact unicodeCharmapsLoop_keeps_nonzero start count cms hall out i hi
  · intro chars cms out i hall hch
    exact unicodeCharmapsLoop_keeps_nonzero start count cms hall _ i
      (unicodeCmapLoop_changes start count true chars out i hch).1

/-- C18 at a face with three charmaps after each other: a symbol charmap (platform `3`,
encoding `0`), the preferred UCS-4 charmap (platform `3`, encoding `10`) that maps `0x41` to
glyph `5`, and the UCS-2 charmap (platform `3`, encoding `1`) that maps `0x61` to glyph `5`:
the entry of glyph `5` is `0x41`. -/
theorem getGlyphsUnicode_overwrite_rule_witness :
    unicodeCharmapsLoop 0 10 [⟨3, 0, [(0xF041, 5)]⟩]
        (unicodeCharmapsLoop 0 10 [⟨3, 10, [(0x41, 5)]⟩, ⟨3, 1, [(0x61, 5)]⟩] (fun _ => 0)) =
      unicodeCharmapsLoop 0 10 [⟨3, 0, [(0xF041, 5)]⟩, ⟨3, 10, [(0x41, 5)]⟩, ⟨3, 1, [(0x61, 5)]⟩]
        (fun _ => 0) ∧
    unicodeCharmapsLoop 0 10 [⟨3, 1, [(0x61, 5)]⟩]
        (unicodeCmapLoop 0 10 true [(0x41, 5)] (fun _ => 0)) 5 = 0x41 :=
  ⟨((getGlyphsUnicode_overwrite_rule FreeType.reference 0 10).2.1 ⟨3, 0, [(0xF041, 5)]⟩
      [⟨3, 10, [(0x41, 5)]⟩, ⟨3, 1, [(0x61, 5)]⟩] (fun _ => 0) (Or.inr (by decide))).symm.trans
      rfl,
    (getGlyphsUnicode_overwrite_rule FreeType.reference 0 10).2.2.2.2.2 [(0x41, 5)]
      [⟨3, 1, [(0x61, 5)]⟩] (fun _ => 0) 5 (by decide) (by decide)⟩


/-! ### The LCD colour filter -/

/-- With strength `0` the interpolation returns its first argument. -/
theorem lerp_zero (start stop : Int) (h1 : -2147483648 ≤ start) (h2 : start < 2147483648) :
    lerp 0 start stop = start := by
  unfold lerp wrapS32
  simp only [Nat.cast_zero, mul_zero]
  omega

/-- With strength `256` the interpolation returns its second argument. -/
theorem lerp_full (start stop : Int) (h1 : 0 ≤ start) (h2 : start ≤ 255) (h3 : 0 ≤ stop)
    (h4 : stop ≤ 255) : lerp 256 start stop = stop := by
  unfold lerp wrapS32
  simp only [Nat.cast_ofNat]
  omega

/-- The approximated average of three channel intensities is a channel intensity. -/
theorem average_le (r g b : Nat) (hr : r ≤ 255) (hg : g ≤ 255) (hb : b ≤ 255) :
    ((5 * (r + g + b) + b) % 4294967296) >>> 4 = (5 * (r + g + b) + b) / 16 ∧
      (5 * (r + g + b) + b) / 16 ≤ 255 := by
  rw [Nat.shiftRight_eq_div_pow]
  omega

/-- C19. With blend strength `0` the colour filter leaves the channel intensities as they are:
for every `r`, `g`, `b` in `0..255` the interpolation towards the average returns `r`, `g` and
`b` themselves, and `packTriple(r, g, b)` is `packRGB16(r >> 3, g >> 2, b >> 3)`. -/
theorem packTriple_strength_zero (ft : FreeType) (r g b : Nat)
    (hstrength : ft.FREETYPE_LCD_LERP = 0) (hr : r ≤ 255) (hg : g ≤ 255) (hb : b ≤ 255) :
    lerp ft.FREETYPE_LCD_LERP r ((((5 * (r + g + b) + b) % 4294967296) >>> 4 : Nat) : Int) = r ∧
    lerp ft.FREETYPE_LCD_LERP g ((((5 * (r + g + b) + b) % 4294967296) >>> 4 : Nat) : Int) = g ∧
    lerp ft.FREETYPE_LCD_LERP b ((((5 * (r + g + b) + b) % 4294967296) >>> 4 : Nat) : Int) = b ∧
    packTriple ft r g b = packRGB16 ft (r >>> 3) (g >>> 2) (b >>> 3) := by
  rw [hstrength]
  refine ⟨lerp_zero _ _ (by omega) (by omega), lerp_zero _ _ (by omega) (by omega),
    lerp_zero _ _ (by omega) (by omega), ?_⟩
  unfold packTriple
  simp [hstrength]

/-- C19 at the triple `(200, 100, 50)` with strength `0`: the packed pixel is
`(25 << 11) | (25 << 5) | 6`. -/
theorem packTriple_strength_zero_witness :
    packTriple { FreeType.reference with FREETYPE_LCD_LERP := 0 } 200 100 50 = some 52006 :=
  ((packTriple_strength_zero { FreeType.reference with FREETYPE_LCD_LERP := 0 } 200 100 50 rfl
    (by decide) (by decide) (by decide)).2.2.2).trans (by decide)

/-- C20. With blend strength `256`, for every `r`, `g`, `b` in `0..255` the interpolation
replaces each of the three channels by the approximated average
`(5 * (r + g + b) + b) >> 4`, which lies in `0..255`, so the three blended channels are equal
and `packTriple(r, g, b)` is `packRGB16(ave >> 3, ave >> 2, ave >> 3)`. -/
theorem packTriple_strength_full (ft : FreeType) (r g b : Nat)
    (hstrength : ft.FREETYPE_LCD_LERP = 256) (hr : r ≤ 255) (hg : g ≤ 255) (hb : b ≤ 255) :
    lerp ft.FREETYPE_LCD_LERP r ((((5 * (r + g + b) + b) % 4294967296) >>> 4 : Nat) : Int) =
      (((5 * (r + g + b) + b) / 16 : Nat) : Int) ∧
    lerp ft.FREETYPE_LCD_LERP g ((((5 * (r + g + b) + b) % 4294967296) >>> 4 : Nat) : Int) =
      (((5 * (r + g + b) + b) / 16 : Nat) : Int) ∧
    lerp ft.FREETYPE_LCD_LERP b ((((5 * (r + g + b) + b) % 4294967296) >>> 4 : Nat) : Int) =
      (((5 * (r + g + b) + b) / 16 : Nat) : Int) ∧
    (5 * (r + g + b) + b) / 16 ≤ 255 ∧
    packTriple ft r g b =
      packRGB16 ft (((5 * (r + g + b) + b) / 16) >>> 3) (((5 * (r + g + b) + b) / 16) >>> 2)
        (((5 * (r + g + b) + b) / 16) >>> 3) := by
  obtain ⟨hav, hle⟩ := average_le r g b hr hg hb
  rw [hstrength, hav]
  have hl : ∀ c : Nat, c ≤ 255 →
      lerp 256 (c : Int) (((5 * (r + g + b) + b) / 16 : Nat) : Int) =
        (((5 * (r + g + b) + b) / 16 : Nat) : Int) := by
    intro c hc
    exact lerp_full _ _ (by omega) (by omega) (by omega) (by omega)
  refine ⟨hl r hr, hl g hg, hl b hb, hle, ?_⟩
  have hmod : ((((5 * (r + g + b) + b) / 16 : Nat) : Int) % 4294967296).toNat =
      (5 * (r + g + b) + b) / 16 := by
    omega
  unfold packTriple
  simp only [hstrength, hav, hl r hr, hl g hg, hl b hb, hmod]
  rfl

/-- C20 at the triple `(200, 100, 50)` with strength `256`: the average is `112`, the packed
pixel is `(14 << 11) | (28 << 5) | 14`. -/
theorem packTriple_strength_full_witness :
    packTriple { FreeType.reference with FREETYPE_LCD_LERP := 256 } 200 100 50 = some 29582 :=
  ((packTriple_strength_full { FreeType.reference with FREETYPE_LCD_LERP := 256 } 200 100 50
    rfl (by decide) (by decide) (by decide)).2.2.2.2).trans (by decide)

/-! ### Sign and magnitude of `DivBits` -/

theorem FEM16Dot16Abs_natCast (a : Nat) (h : a < 2147483648) :
    FEM16Dot16Abs (a : Int) = (a : Int) := by
  rw [FEM16Dot16Abs_eq (by omega) (by omega)]; simp

theorem scaledQuotient_eq_floor (n d : Nat) (s : Int) :
    (scaledQuotient n d s : Int) = ⌊(n : ℚ) * (2 : ℚ) ^ s / (d : ℚ)⌋ := by
  unfold scaledQuotient
  by_cases hs : 0 ≤ s
  · obtain ⟨k, hk⟩ := Int.eq_ofNat_of_zero_le hs
    subst hk
    rw [if_pos hs]
    simp only [Int.toNat_ofNat, zpow_natCast]
    have e : (n : ℚ) * 2 ^ k / (d : ℚ) = ((n * 2 ^ k : ℕ) : ℚ) / ((d : ℕ) : ℚ) := by
      push_cast; ring
    rw [e, Rat.floor_natCast_div_natCast]
    norm_cast
  · obtain ⟨k, hk⟩ := Int.exists_eq_neg_ofNat (le_of_lt (not_le.mp hs))
    subst hk
    rw [if_neg hs]
    simp only [neg_neg, Int.toNat_ofNat, zpow_neg, zpow_natCast]
    have e : (n : ℚ) * ((2 : ℚ) ^ k)⁻¹ / (d : ℚ) = ((n : ℕ) : ℚ) / ((d * 2 ^ k : ℕ) : ℚ) := by
      push_cast
      by_cases hd : (d : ℚ) = 0
      · simp [hd]
      · field_simp
        left; ring
    rw [e, Rat.floor_natCast_div_natCast]
    norm_cast

theorem DivBits_sign_magnitude (numer denom shift : Int)
    (hn1 : -2147483648 < numer) (hn2 : numer < 2147483648)
    (hd1 : -2147483648 < denom) (hd2 : denom < 2147483648) (hd0 : denom ≠ 0) :
    DivBits numer denom shift =
      (DivBits (numer.natAbs : Int) (denom.natAbs : Int) shift).map
        (fun r => Int.sign numer * Int.sign denom * r) := by
  by_cases hn0 : numer = 0
  · subst hn0
    have hb : ((denom.natAbs : Nat) : Int) ≠ 0 := by omega
    simp [DivBits, hd0, hb]
  · have ha : ((numer.natAbs : Nat) : Int) ≠ 0 := by omega
    have hb : ((denom.natAbs : Nat) : Int) ≠ 0 := by omega
    have hA := FEM16Dot16Abs_eq hn1 hn2
    have hB := FEM16Dot16Abs_eq hd1 hd2
    have hA' := FEM16Dot16Abs_natCast numer.natAbs (by omega)
    have hB' := FEM16Dot16Abs_natCast denom.natAbs (by omega)
    have hs1 : Int.sign (numer.natAbs : Int) = 1 := Int.sign_eq_one_of_pos (by omega)
    have hs2 : Int.sign (denom.natAbs : Int) = 1 := Int.sign_eq_one_of_pos (by omega)
    unfold DivBits
    simp only [hd0, hn0, ha, hb, if_false, hA, hB, hA', hB']
    by_cases h1 : wrapS32 (wrapS32 (shift - ((builtin_clz (numer.natAbs : Int) : Int) - 1)) +
        ((builtin_clz (denom.natAbs : Int) : Int) - 1)) < 0
    · simp only [h1, if_true]; simp
    · simp only [h1, if_false]
      by_cases h2 : wrapS32 (wrapS32 (shift - ((builtin_clz (numer.natAbs : Int) : Int) - 1)) +
          ((builtin_clz (denom.natAbs : Int) : Int) - 1)) > 31
      · simp only [h2, if_true]
        rw [FEM16Dot16ApplySign_eq numer denom hn0 hd0 (by unfold MaxS32; omega) le_rfl,
          FEM16Dot16ApplySign_eq _ _ ha hb (by unfold MaxS32; omega) le_rfl, hs1, hs2]
        simp
      · simp only [h2, if_false]
        by_cases h3 : (builtin_clz (denom.natAbs : Int) : Int) - 1 < 0 ∨
            (builtin_clz (numer.natAbs : Int) : Int) - 1 < 0
        · simp only [h3, if_true]; rfl
        · simp only [h3, if_false]
          rw [FEM16Dot16ApplySign_eq numer denom hn0 hd0 (clamp31_range _).1 (clamp31_range _).2,
            FEM16Dot16ApplySign_eq _ _ ha hb (clamp31_range _).1 (clamp31_range _).2, hs1, hs2]
          simp

theorem clamp31_le (n : Nat) :
    (if n ≥ 2147483648 then MaxS32 else (n : Int)) ≤ 2147483647 := by
  unfold MaxS32
  split_ifs <;> omega

theorem DivBits_natCast_total (a b : Nat) (shift : Int) (ha : a < 2147483648)
    (hb : b < 2147483648) (hb0 : b ≠ 0) :
    ∃ m : Int, 0 ≤ m ∧ m ≤ 2147483647 ∧ DivBits (a : Int) (b : Int) shift = some m := by
  by_cases ha0 : a = 0
  · subst ha0
    have hb1 : ((b : Nat) : Int) ≠ 0 := by omega
    exact ⟨0, le_rfl, by omega, by simp [DivBits, hb1]⟩
  · have ha1 : ((a : Nat) : Int) ≠ 0 := by omega
    have hb1 : ((b : Nat) : Int) ≠ 0 := by omega
    obtain ⟨nb, hnb, -, -, -⟩ := clz_normalises a (by omega) ha
    obtain ⟨db, hdb, -, -, -⟩ := clz_normalises b (by omega) hb
    have hs1 : Int.sign (a : Int) = 1 := Int.sign_eq_one_of_pos (by omega)
    have hs2 : Int.sign (b : Int) = 1 := Int.sign_eq_one_of_pos (by omega)
    have hneg : ¬ ((((db + 1 : Nat) : Int) - 1 < 0) ∨ (((nb + 1 : Nat) : Int) - 1 < 0)) := by
      push_cast; omega
    unfold DivBits
    simp only [ha1, hb1, if_false, FEM16Dot16Abs_natCast a ha, FEM16Dot16Abs_natCast b hb,
      builtin_clz_natCast _ (by omega : a < 4294967296),
      builtin_clz_natCast _ (by omega : b < 4294967296), hnb, hdb, hneg]
    by_cases h1 : wrapS32 (wrapS32 (shift - (((nb + 1 : Nat) : Int) - 1)) +
        (((db + 1 : Nat) : Int) - 1)) < 0
    · simp only [h1, if_true]
      exact ⟨0, le_rfl, by omega, rfl⟩
    · simp only [h1, if_false]
      by_cases h2 : wrapS32 (wrapS32 (shift - (((nb + 1 : Nat) : Int) - 1)) +
          (((db + 1 : Nat) : Int) - 1)) > 31
      · simp only [h2, if_true]
        refine ⟨MaxS32, by unfold MaxS32; omega, by unfold MaxS32; omega, ?_⟩
        rw [FEM16Dot16ApplySign_eq _ _ ha1 hb1 (by unfold MaxS32; omega) le_rfl, hs1, hs2]
        simp
      · simp only [h2, if_false]
        rw [FEM16Dot16ApplySign_eq _ _ ha1 hb1 (clamp31_range _).1 (clamp31_range _).2, hs1, hs2]
        simp only [one_mul]
        refine ⟨_, ?_, ?_, rfl⟩
        · exact (clamp31_range _).1
        · exact clamp31_le _
/-- C22. For every denominator `d != 0` and every shift, `DivBits(0, d, shift)` is `0`. -/
theorem DivBits_zero_numerator (d shift : Int) (hd : d ≠ 0) : DivBits 0 d shift = some 0 := by
  simp [DivBits, hd]

/-- C22 at `DivBits(0, -3, 16)`. -/
theorem DivBits_zero_numerator_witness : (-3 : Int) ≠ 0 ∧ DivBits 0 (-3) 16 = some 0 :=
  ⟨by decide, DivBits_zero_numerator (-3) 16 (by decide)⟩

/-- C21, counterexample. The negation of `n = -2^31` is `n` itself in `int32_t`, so
`DivBits(-n, 1, 16)` is `DivBits(n, 1, 16) = -0x7FFFFFFF` and not its negation; and
`DivBits(-2^31, 1, 0)` has no result at all (the negative shift count `nbits = -1`). -/
theorem DivBits_negation_fails_at_int_min :
    wrapS32 (-(-2147483648)) = -2147483648 ∧
      DivBits (-2147483648) 1 16 = some (-2147483647) ∧
      DivBits (wrapS32 (-(-2147483648))) 1 16 = some (-2147483647) ∧
      DivBits (wrapS32 (-(-2147483648))) 1 16 ≠
        (DivBits (-2147483648) 1 16).map (fun r => -r) ∧
      DivBits (-2147483648) 1 0 = none := by
  decide

/-- C21, amended. For every numerator `n` and denominator `d` in `[-(2^31 - 1), 2^31 - 1]` with
`d != 0` and every shift, `DivBits` returns a result on `(|n|, |d|)`, a magnitude `m` in
`[0, 2^31 - 1]`; `DivBits(n, d, shift)` and `DivBits(-n, -d, shift)` are `sign(n) * sign(d) * m`,
`DivBits(-n, d, shift)` and `DivBits(n, -d, shift)` are its negation, and a non-zero result is
negative exactly when `n` and `d` have opposite signs. -/
theorem DivBits_sign_symmetry (n d shift : Int)
    (hn1 : -2147483648 < n) (hn2 : n < 2147483648)
    (hd1 : -2147483648 < d) (hd2 : d < 2147483648) (hd0 : d ≠ 0) :
    ∃ m : Int, 0 ≤ m ∧ m ≤ 2147483647 ∧
      DivBits (n.natAbs : Int) (d.natAbs : Int) shift = some m ∧
      DivBits n d shift = some (Int.sign n * Int.sign d * m) ∧
      DivBits (-n) d shift = some (-(Int.sign n * Int.sign d * m)) ∧
      DivBits n (-d) shift = some (-(Int.sign n * Int.sign d * m)) ∧
      DivBits (-n) (-d) shift = some (Int.sign n * Int.sign d * m) ∧
      (Int.sign n * Int.sign d * m ≠ 0 →
        (Int.sign n * Int.sign d * m < 0 ↔ ((n < 0 ∧ 0 < d) ∨ (0 < n ∧ d < 0)))) := by
  obtain ⟨m, hm0, hm1, hm⟩ :=
    DivBits_natCast_total n.natAbs d.natAbs shift (by omega) (by omega) (by omega)
  refine ⟨m, hm0, hm1, hm, ?_, ?_, ?_, ?_, ?_⟩
  · rw [DivBits_sign_magnitude n d shift hn1 hn2 hd1 hd2 hd0, hm]; rfl
  · rw [DivBits_sign_magnitude (-n) d shift (by omega) (by omega) hd1 hd2 hd0, Int.natAbs_neg,
      hm, Int.sign_neg]
    simp
  · rw [DivBits_sign_magnitude n (-d) shift hn1 hn2 (by omega) (by omega) (by omega),
      Int.natAbs_neg, hm, Int.sign_neg]
    simp
  · rw [DivBits_sign_magnitude (-n) (-d) shift (by omega) (by omega) (by omega) (by omega)
      (by omega), Int.natAbs_neg, Int.natAbs_neg, hm, Int.sign_neg, Int.sign_neg]
    simp
  · intro hne
    rcases lt_trichotomy n 0 with h | h | h
    · rcases lt_trichotomy d 0 with h' | h' | h'
      · rw [Int.sign_eq_neg_one_of_neg h, Int.sign_eq_neg_one_of_neg h'] at hne ⊢
        constructor
        · intro hlt; omega
        · intro hor; omega
      · exact absurd h' hd0
      · rw [Int.sign_eq_neg_one_of_neg h, Int.sign_eq_one_of_pos h'] at hne ⊢
        constructor
        · intro _; exact Or.inl ⟨h, h'⟩
        · intro _; omega
    · subst h; simp at hne
    · rcases lt_trichotomy d 0 with h' | h' | h'
      · rw [Int.sign_eq_one_of_pos h, Int.sign_eq_neg_one_of_neg h'] at hne ⊢
        constructor
        · intro _; exact Or.inr ⟨h, h'⟩
        · intro _; omega
      · exact absurd h' hd0
      · rw [Int.sign_eq_one_of_pos h, Int.sign_eq_one_of_pos h'] at hne ⊢
        constructor
        · intro hlt; omega
        · intro hor; omega

/-- C21 at `n = 1000000`, `d = 3`, `shift = 10`, magnitude `341333333`. -/
theorem DivBits_sign_symmetry_witness :
    DivBits 1000000 3 10 = some 341333333 ∧ DivBits (-1000000) 3 10 = some (-341333333) ∧
      DivBits 1000000 (-3) 10 = some (-341333333) ∧
      DivBits (-1000000) (-3) 10 = some 341333333 ∧
      ∃ m : Int, 0 ≤ m ∧ m ≤ 2147483647 ∧
        DivBits ((1000000 : Int).natAbs : Int) ((3 : Int).natAbs : Int) 10 = some m ∧
        DivBits 1000000 3 10 = some (Int.sign 1000000 * Int.sign 3 * m) ∧
        DivBits (-1000000) 3 10 = some (-(Int.sign 1000000 * Int.sign 3 * m)) ∧
        DivBits 1000000 (-3) 10 = some (-(Int.sign 1000000 * Int.sign 3 * m)) ∧
        DivBits (-1000000) (-3) 10 = some (Int.sign 1000000 * Int.sign 3 * m) ∧
        (Int.sign 1000000 * Int.sign 3 * m ≠ 0 →
          (Int.sign 1000000 * Int.sign 3 * m < 0 ↔
            (((1000000 : Int) < 0 ∧ (0 : Int) < 3) ∨ ((0 : Int) < 1000000 ∧ (3 : Int) < 0)))) :=
  ⟨by decide, by decide, by decide, by decide,
    DivBits_sign_symmetry 1000000 3 10 (by decide) (by decide) (by decide) (by decide)
      (by decide)⟩

/-- C25, counterexample. For `shift = -2^31` the sum `shift - nbits + dbits` wraps to
`2^31 - 30`: the integer part of `1 * 2^shift / 2^30` is `0`, but `DivBits(1, 2^30, -2^31)` is
`0x7FFFFFFF`. -/
theorem DivBits_wraps_bit_count :
    scaledQuotient (1 : Int).natAbs (1073741824 : Int).natAbs (-2147483648) = 0 ∧
      DivBits 1 1073741824 (-2147483648) = some 2147483647 :=
  ⟨scaledQuotient_small 1 1073741824 _ (by decide) (by decide) (by decide), by decide⟩

/-- C25, amended. For every numerator `n` and denominator `d != 0` in
`[-(2^31 - 1), 2^31 - 1]` and every shift in `[-2^31 + 30, 2^31 - 31]` such that
`|n| * 2^shift / |d| < 2^31`, `DivBits(n, d, shift)` is the exact quotient truncated toward
zero, `sign(n) * sign(d) * floor(|n| * 2^shift / |d|)`; in particular it is `0` whenever the
exact quotient has magnitude below `1`. -/
theorem DivBits_exact_below_saturation (n d shift : Int)
    (hn1 : -2147483648 < n) (hn2 : n < 2147483648)
    (hd1 : -2147483648 < d) (hd2 : d < 2147483648) (hd0 : d ≠ 0)
    (hs1 : -2147483618 ≤ shift) (hs2 : shift ≤ 2147483617)
    (hq : (n.natAbs : ℚ) * (2 : ℚ) ^ shift / (d.natAbs : ℚ) < 2147483648) :
    DivBits n d shift =
        some (Int.sign n * Int.sign d *
          ⌊(n.natAbs : ℚ) * (2 : ℚ) ^ shift / (d.natAbs : ℚ)⌋) ∧
      ((n.natAbs : ℚ) * (2 : ℚ) ^ shift / (d.natAbs : ℚ) < 1 →
        DivBits n d shift = some 0) := by
  have hfl := scaledQuotient_eq_floor n.natAbs d.natAbs shift
  have hlt : ⌊(n.natAbs : ℚ) * (2 : ℚ) ^ shift / (d.natAbs : ℚ)⌋ < 2147483648 := by
    rw [Int.floor_lt]; exact_mod_cast hq
  have hmin : min (scaledQuotient n.natAbs d.natAbs shift : Int) MaxS32 =
      ⌊(n.natAbs : ℚ) * (2 : ℚ) ^ shift / (d.natAbs : ℚ)⌋ := by
    rw [hfl]; unfold MaxS32; omega
  have hmain : DivBits n d shift = some (Int.sign n * Int.sign d *
      ⌊(n.natAbs : ℚ) * (2 : ℚ) ^ shift / (d.natAbs : ℚ)⌋) := by
    rw [DivBits_eq_truncatedQuotient n d shift hn1 hn2 hd1 hd2 hd0 hs1 hs2]
    unfold truncatedQuotient
    rw [hmin]
  refine ⟨hmain, ?_⟩
  intro hone
  have hnn : (0 : ℚ) ≤ (n.natAbs : ℚ) * (2 : ℚ) ^ shift / (d.natAbs : ℚ) := by positivity
  have hz : ⌊(n.natAbs : ℚ) * (2 : ℚ) ^ shift / (d.natAbs : ℚ)⌋ = 0 := by
    rw [Int.floor_eq_iff]
    exact ⟨by simpa using hnn, by simpa using hone⟩
  rw [hmain, hz, mul_zero]

/-- C25 at `DivBits(1000000, -3, 10)`: `-floor(341333333.33..)`. -/
theorem DivBits_exact_below_saturation_witness :
    ((1000000 : Int).natAbs : ℚ) * (2 : ℚ) ^ (10 : Int) / ((-3 : Int).natAbs : ℚ) < 2147483648 ∧
      DivBits 1000000 (-3) 10 =
        some (Int.sign 1000000 * Int.sign (-3) *
          ⌊((1000000 : Int).natAbs : ℚ) * (2 : ℚ) ^ (10 : Int) / ((-3 : Int).natAbs : ℚ)⌋) ∧
      DivBits 1000000 (-3) 10 = some (-341333333) :=
  ⟨by norm_num, (DivBits_exact_below_saturation 1000000 (-3) 10 (by decide) (by decide)
    (by decide) (by decide) (by decide) (by decide) (by decide) (by norm_num)).1, by decide⟩

/-! ### The colour filter stays within the channel range -/

/-- For a strength in `0..256` the interpolation of two channel intensities lies between
them. -/
theorem lerp_between (strength : Nat) (start stop : Int) (hL : strength ≤ 256)
    (h1 : 0 ≤ start) (h2 : start ≤ 255) (h3 : 0 ≤ stop) (h4 : stop ≤ 255) :
    min start stop ≤ lerp strength start stop ∧ lerp strength start stop ≤ max start stop := by
  have hL0 : (0 : Int) ≤ (strength : Int) := Int.natCast_nonneg _
  have hL1 : (strength : Int) ≤ 256 := by exact_mod_cast hL
  unfold lerp
  rw [wrapS32_of_range (x := stop - start) (by omega) (by omega)]
  obtain ⟨p, hp⟩ : ∃ p : Int, p = (stop - start) * strength := ⟨_, rfl⟩
  rw [← hp]
  rcases le_total start stop with h | h
  · have hp0 : 0 ≤ p := by rw [hp]; exact mul_nonneg (by omega) hL0
    have hp1 : p ≤ (stop - start) * 256 := by
      rw [hp]; exact mul_le_mul_of_nonneg_left hL1 (by omega)
    rw [min_eq_left h, max_eq_right h]
    unfold wrapS32
    omega
  · have hp0 : p ≤ 0 := by rw [hp]; exact mul_nonpos_of_nonpos_of_nonneg (by omega) hL0
    have hp1 : (stop - start) * 256 ≤ p := by
      rw [hp]; exact mul_le_mul_of_nonpos_left hL1 (by omega)
    rw [min_eq_right h, max_eq_left h]
    unfold wrapS32
    omega

/-- With arguments of at most `31`, `63` and `31` no assertion of `packRGB16` fails. -/
theorem packRGB16_some (ft : FreeType) (r g b : Nat) (hr : r ≤ 31) (hg : g ≤ 63) (hb : b ≤ 31) :
    packRGB16 ft r g b = some (((r <<< 11) ||| (g <<< 5) ||| (b <<< 0)) % 65536) := by
  unfold packRGB16
  simp [Nat.not_lt.mpr hr, Nat.not_lt.mpr hg, Nat.not_lt.mpr hb]

/-- C30. For every `r`, `g`, `b` in `0..255` and every blend strength in `0..256`, the
approximated average `(5 * (r + g + b) + b) >> 4` lies in `0..255`, each blended channel lies
between the original channel and that average, hence in `0..255`, the arguments of `packRGB16`
are at most `31`, `63` and `31`, and `packTriple` returns a pixel: no assertion of `packRGB16`
fails. -/
theorem packTriple_channels_in_range (ft : FreeType) (r g b : Nat)
    (hstrength : ft.FREETYPE_LCD_LERP ≤ 256) (hr : r ≤ 255) (hg : g ≤ 255) (hb : b ≤ 255) :
    ((5 * (r + g + b) + b) % 4294967296) >>> 4 ≤ 255 ∧
    (∀ c : Nat, c = r ∨ c = g ∨ c = b →
      min (c : Int) ((((5 * (r + g + b) + b) % 4294967296) >>> 4 : Nat) : Int) ≤
        lerp ft.FREETYPE_LCD_LERP c ((((5 * (r + g + b) + b) % 4294967296) >>> 4 : Nat) : Int) ∧
      lerp ft.FREETYPE_LCD_LERP c ((((5 * (r + g + b) + b) % 4294967296) >>> 4 : Nat) : Int) ≤
        max (c : Int) ((((5 * (r + g + b) + b) % 4294967296) >>> 4 : Nat) : Int) ∧
      0 ≤ lerp ft.FREETYPE_LCD_LERP c
        ((((5 * (r + g + b) + b) % 4294967296) >>> 4 : Nat) : Int) ∧
      lerp ft.FREETYPE_LCD_LERP c
        ((((5 * (r + g + b) + b) % 4294967296) >>> 4 : Nat) : Int) ≤ 255) ∧
    (lerp ft.FREETYPE_LCD_LERP r
      ((((5 * (r + g + b) + b) % 4294967296) >>> 4 : Nat) : Int) % 4294967296).toNat >>> 3 ≤ 31 ∧
    (lerp ft.FREETYPE_LCD_LERP g
      ((((5 * (r + g + b) + b) % 4294967296) >>> 4 : Nat) : Int) % 4294967296).toNat >>> 2 ≤ 63 ∧
    (lerp ft.FREETYPE_LCD_LERP b
      ((((5 * (r + g + b) + b) % 4294967296) >>> 4 : Nat) : Int) % 4294967296).toNat >>> 3 ≤ 31 ∧
    r >>> 3 ≤ 31 ∧ g >>> 2 ≤ 63 ∧ b >>> 3 ≤ 31 ∧
    ∃ v, packTriple ft r g b = some v := by
  obtain ⟨hav, hle⟩ := average_le r g b hr hg hb
  rw [hav]
  have hl : ∀ c : Nat, c ≤ 255 →
      min (c : Int) (((5 * (r + g + b) + b) / 16 : Nat) : Int) ≤
        lerp ft.FREETYPE_LCD_LERP c (((5 * (r + g + b) + b) / 16 : Nat) : Int) ∧
      lerp ft.FREETYPE_LCD_LERP c (((5 * (r + g + b) + b) / 16 : Nat) : Int) ≤
        max (c : Int) (((5 * (r + g + b) + b) / 16 : Nat) : Int) ∧
      0 ≤ lerp ft.FREETYPE_LCD_LERP c (((5 * (r + g + b) + b) / 16 : Nat) : Int) ∧
      lerp ft.FREETYPE_LCD_LERP c (((5 * (r + g + b) + b) / 16 : Nat) : Int) ≤ 255 := by
    intro c hc
    have h := lerp_between ft.FREETYPE_LCD_LERP (c : Int)
      (((5 * (r + g + b) + b) / 16 : Nat) : Int) hstrength (by omega) (by omega) (by omega)
      (by omega)
    refine ⟨h.1, h.2, ?_, ?_⟩
    · exact le_trans (le_min (by omega) (by omega)) h.1
    · exact le_trans h.2 (max_le (by omega) (by omega))
  have hsh : ∀ x : Int, 0 ≤ x → x ≤ 255 →
      (x % 4294967296).toNat >>> 3 ≤ 31 ∧ (x % 4294967296).toNat >>> 2 ≤ 63 := by
    intro x h0 h1
    rw [Nat.shiftRight_eq_div_pow, Nat.shiftRight_eq_div_pow]
    omega
  have hshn : ∀ x : Nat, x ≤ 255 → x >>> 3 ≤ 31 ∧ x >>> 2 ≤ 63 := by
    intro x h1
    rw [Nat.shiftRight_eq_div_pow, Nat.shiftRight_eq_div_pow]
    omega
  have hR := hl r hr
  have hG := hl g hg
  have hB := hl b hb
  refine ⟨hle, ?_, (hsh _ hR.2.2.1 hR.2.2.2).1, (hsh _ hG.2.2.1 hG.2.2.2).2,
    (hsh _ hB.2.2.1 hB.2.2.2).1, (hshn r hr).1, (hshn g hg).2, (hshn b hb).1, ?_⟩
  · intro c hc
    rcases hc with h | h | h <;> subst h
    · exact hR
    · exact hG
    · exact hB
  · unfold packTriple
    by_cases h0 : ft.FREETYPE_LCD_LERP = 0
    · rw [if_neg (by simp [h0])]
      exact ⟨_, packRGB16_some ft _ _ _ (hshn r hr).1 (hshn g hg).2 (hshn b hb).1⟩
    · rw [if_pos (by simpa using h0)]
      simp only [hav]
      exact ⟨_, packRGB16_some ft _ _ _ (hsh _ hR.2.2.1 hR.2.2.2).1 (hsh _ hG.2.2.1 hG.2.2.2).2
        (hsh _ hB.2.2.1 hB.2.2.2).1⟩

/-- C30 at the triple `(200, 100, 50)` with the built-in strength `96` and assertions enabled:
the packed pixel is `(20 << 11) | (26 << 5) | 9`. -/
theorem packTriple_channels_in_range_witness :
    FreeType.reference.FREETYPE_LCD_LERP = 96 ∧ FreeType.reference.NDEBUG = false ∧
      packTriple FreeType.reference 200 100 50 = some 41801 ∧
      ∃ v, packTriple FreeType.reference 200 100 50 = some v :=
  ⟨rfl, rfl, by decide,
    (packTriple_channels_in_range FreeType.reference 200 100 50 (by decide) (by decide)
      (by decide) (by decide)).2.2.2.2.2.2.2.2⟩

/-! ### The reciprocal of the averaged scale -/

/-- In the isotropic branch, for entries in `[-(2^31 - 1), 2^31 - 1]` whose two maxima add up
to less than `2^31`, the averaged scale is `0` exactly when the maxima add up to at most `1`. -/
theorem averagedScale_eq_zero_iff (desc : FontScalerInfo)
    (h1 : -2147483648 < desc.fScaleX) (h2 : desc.fScaleX < 2147483648)
    (h3 : -2147483648 < desc.fScaleY) (h4 : desc.fScaleY < 2147483648)
    (h5 : -2147483648 < desc.fSkewX) (h6 : desc.fSkewX < 2147483648)
    (h7 : -2147483648 < desc.fSkewY) (h8 : desc.fSkewY < 2147483648)
    (hsum : max |desc.fScaleX| |desc.fSkewX| + max |desc.fSkewY| |desc.fScaleY| < 2147483648) :
    averagedScale desc = 0 ↔
      max |desc.fScaleX| |desc.fSkewX| + max |desc.fSkewY| |desc.fScaleY| ≤ 1 := by
  rw [averagedScale_eq_isotropicScale desc h1 h2 h3 h4 h5 h6 h7 h8 hsum]
  unfold isotropicScale
  have ha := le_trans (abs_nonneg desc.fScaleX) (le_max_left |desc.fScaleX| |desc.fSkewX|)
  have hb := le_trans (abs_nonneg desc.fSkewY) (le_max_left |desc.fSkewY| |desc.fScaleY|)
  generalize max |desc.fScaleX| |desc.fSkewX| = a at *
  generalize max |desc.fSkewY| |desc.fScaleY| = b at *
  omega

/-- C26. The request with `scaleX = -1` (that is `-1/65536`) and the three other entries `0`
takes the isotropic branch of `getTransMatrix` (a negative `scaleX`), where
`s = (max(|-1|, 0) + max(0, 0)) >> 1 = 0`: `FEM16Dot16Invert(0)` calls `DivBits(0x10000, 0, 16)`
against `assert(denom != 0)`, `getTransMatrix` has no result, and `createFontScalerContext` on
the fresh engine ends in the aborted state without a scaler. With `scaleX = -2` the averaged
scale is `1` and the reciprocal exists. -/
theorem averagedScale_zero_in_isotropic_branch :
    givesUpOnHinting { plainRequest "a.ttf" 0 0 with fScaleX := -1 } = true ∧
      averagedScale { plainRequest "a.ttf" 0 0 with fScaleX := -1 } = 0 ∧
      FEM16Dot16Invert (averagedScale { plainRequest "a.ttf" 0 0 with fScaleX := -1 }) = none ∧
      DivBits FEMOne16Dot16 0 16 = none ∧
      FontFT.getTransMatrix FreeType.reference false
        { plainRequest "a.ttf" 0 0 with fScaleX := -1 } = none ∧
      (FontEngineFT.createFontScalerContext FreeType.reference EngineState.init
        { plainRequest "a.ttf" 0 0 with fScaleX := -1 }).1 = none ∧
      (FontEngineFT.createFontScalerContext FreeType.reference EngineState.init
        { plainRequest "a.ttf" 0 0 with fScaleX := -1 }).2.aborted = true ∧
      averagedScale { plainRequest "a.ttf" 0 0 with fScaleX := -2 } = 1 ∧
      FEM16Dot16Invert (averagedScale { plainRequest "a.ttf" 0 0 with fScaleX := -2 }) =
        some 2147483647 := by
  decide
/-! ### The pixel format of a shared instance -/

/-- C24. On the fresh engine, a grayscale request without sub-pixel positioning for `a.ttf` at
scale `16.0` creates the instance at address `2`. The request for the same font and scale in
monochrome with sub-pixel positioning resolves the same matrix, scales, load flags and flags
byte, so `searchFontInst` finds that instance: the call succeeds, the returned scaler is bound
to the instance at `2`, whose `maskFormat` is still `ALIAS_GRAYSCALE` and whose
`subpixelPositioning` is still `false`, not the requested `ALIAS_MONOCHROME` and `true`. Asked
first, the monochrome request gets an instance with the requested values. -/
theorem cache_hit_keeps_first_mask_format :
    (FontEngineFT.createFontScalerContext FreeType.reference EngineState.init
      (plainRequest "a.ttf" 1048576 0)).1 = some { addr := 3, pFontInst := 2 } ∧
    (FontEngineFT.createFontScalerContext FreeType.reference
      (FontEngineFT.createFontScalerContext FreeType.reference EngineState.init
        (plainRequest "a.ttf" 1048576 0)).2
      { plainRequest "a.ttf" 1048576 0 with
        maskFormat := AliasMode.ALIAS_MONOCHROME, subpixelPositioning := true }).1 =
      some { addr := 4, pFontInst := 2 } ∧
    (locateInst 2 (FontEngineFT.createFontScalerContext FreeType.reference
      (FontEngineFT.createFontScalerContext FreeType.reference EngineState.init
        (plainRequest "a.ttf" 1048576 0)).2
      { plainRequest "a.ttf" 1048576 0 with
        maskFormat := AliasMode.ALIAS_MONOCHROME, subpixelPositioning := true }).2.pFontList).map
      (fun loc => (loc.inst.maskFormat, loc.inst.subpixelPositioning, loc.inst.refCnt)) =
      some (AliasMode.ALIAS_GRAYSCALE, false, 2) ∧
    (locateInst 2 (FontEngineFT.createFontScalerContext FreeType.reference EngineState.init
      { plainRequest "a.ttf" 1048576 0 with
        maskFormat := AliasMode.ALIAS_MONOCHROME, subpixelPositioning := true }).2.pFontList).map
      (fun loc => (loc.inst.maskFormat, loc.inst.subpixelPositioning, loc.inst.refCnt)) =
      some (AliasMode.ALIAS_MONOCHROME, true, 1) := by
  decide
/-! ### The translation of the outline before rasterisation -/

/-- For an outline glyph, `getGlyphImage` hands the rasterisers the outline translated by
`outlineTranslation`. -/
theorem getGlyphImage_outline (ft : FreeType) (inst : InstView) (glyph : FT_GlyphSlot)
    (fracX fracY : Int) (rowBytes width height : Nat) (buffer : Nat → Nat)
    (hfmt : glyph.format = FT_Glyph_Format.FT_GLYPH_FORMAT_OUTLINE) :
    FontScalerFT.getGlyphImage ft inst true (some glyph) fracX fracY rowBytes width height
        buffer =
      if ft.SUPPORT_LCDTEXT && decide (inst.maskFormat = AliasMode.ALIAS_LCD_H ∨
          inst.maskFormat = AliasMode.ALIAS_LCD_V) then some buffer
      else if inst.maskFormat = AliasMode.ALIAS_LCD16 then
        copyFT2LCD16 ft rowBytes width height buffer
          (glyph.FT_Render_Glyph (inst.fontInstFlags &&& Embolden_Flag != 0)
            (FontScalerFT.outlineTranslation inst
              (glyph.cbox (inst.fontInstFlags &&& Embolden_Flag != 0)) fracX fracY).1
            (FontScalerFT.outlineTranslation inst
              (glyph.cbox (inst.fontInstFlags &&& Embolden_Flag != 0)) fracX fracY).2)
      else
        (compute_pixel_mode ft inst.maskFormat).map (fun pixel_mode =>
          glyph.FT_Outline_Get_Bitmap (inst.fontInstFlags &&& Embolden_Flag != 0)
            (FontScalerFT.outlineTranslation inst
              (glyph.cbox (inst.fontInstFlags &&& Embolden_Flag != 0)) fracX fracY).1
            (FontScalerFT.outlineTranslation inst
              (glyph.cbox (inst.fontInstFlags &&& Embolden_Flag != 0)) fracX fracY).2
            pixel_mode width height rowBytes
            (fun a => if a < (rowBytes * height) % 4294967296 then 0 else buffer a)) := by
  unfold FontScalerFT.getGlyphImage FontScalerFT.outlineTranslation
  simp only [Bool.not_true, Bool.false_eq_true, if_false, hfmt]
  split_ifs <;> first | rfl | (cases compute_pixel_mode ft inst.maskFormat <;> rfl)

/-- C29, counterexample. Without sub-pixel positioning the box `xMin = 0, xMax = 65536 * 64`
is translated by `(0, 0)`, so its maximum corner stays at `x = 4194304`; `getGlyphMetrics`
reports the width `0` for the same glyph (the `uint16_t` field drops `65536`), and
`4194304 > 64 * 0`. -/
theorem outlineTranslation_exceeds_reported_width :
    FontScalerFT.outlineTranslation (plainInst false AliasMode.ALIAS_GRAYSCALE)
        { xMin := 0, yMin := 0, xMax := 4194304, yMax := 64 } 0 0 = (0, 0) ∧
      (FontScalerFT.getGlyphMetrics FreeType.reference
          (plainInst false AliasMode.ALIAS_GRAYSCALE) true
          (some (outlineSlot { xMin := 0, yMin := 0, xMax := 4194304, yMax := 64 })) 0 0).map
        (fun gm => (gm.width, gm.height)) = some (0, 1) ∧
      ¬ ((4194304 : Int) + 0 ≤ 64 * ((0 : Nat) : Int)) := by
  refine ⟨by decide, by decide, by decide⟩

/-- C29, amended. For every outline bounding box with `xMin <= xMax` and `yMin <= yMax` and
every `fracX`, `fracY` (no 32-bit overflow) for which the pixel width
`(ceil64(xMax + dx) - floor64(xMin + dx)) >> 6` and the pixel height are below `65536`, the
translation applied by `getGlyphImage` is `(dx - ((xMin + dx) & ~63), dy - ((yMin + dy) & ~63))`
with `dx = fracX >> 10`, `dy = -(fracY >> 10)` under sub-pixel positioning and `dx = dy = 0`
otherwise; it equals translating by `(dx, dy)` and then by minus the 64-floored minimum corner
of the shifted box; it places the minimum corner in `[0, 63]` on each axis and the maximum
corner at no more than `64 * width` and `64 * height`, the values `getGlyphMetrics` reports for
the same glyph and fractions. -/
theorem outlineTranslation_fits_metrics (ft : FreeType) (inst : InstView) (glyph : FT_GlyphSlot)
    (fracX fracY : Int) (bbox : FT_BBox) (dx dy : Int)
    (hfmt : glyph.format = FT_Glyph_Format.FT_GLYPH_FORMAT_OUTLINE)
    (hbox : glyph.cbox (inst.fontInstFlags &&& Embolden_Flag != 0) = bbox)
    (hfy0 : -2147483648 ≤ fracY) (hfy1 : fracY < 2147483648)
    (hdx : dx = if inst.subpixelPositioning then fracX / 1024 else 0)
    (hdy : dy = if inst.subpixelPositioning then -(fracY / 1024) else 0)
    (hx : bbox.xMin ≤ bbox.xMax) (hy : bbox.yMin ≤ bbox.yMax)
    (hw : (ceil64 (bbox.xMax + dx) - floor64 (bbox.xMin + dx)) / 64 < 65536)
    (hh : (ceil64 (bbox.yMax + dy) - floor64 (bbox.yMin + dy)) / 64 < 65536) :
    FontScalerFT.outlineTranslation inst bbox fracX fracY =
        (dx - floor64 (bbox.xMin + dx), dy - floor64 (bbox.yMin + dy)) ∧
      (∀ x y : Int,
        (x + (FontScalerFT.outlineTranslation inst bbox fracX fracY).1,
          y + (FontScalerFT.outlineTranslation inst bbox fracX fracY).2) =
        ((x + dx) - floor64 (bbox.xMin + dx), (y + dy) - floor64 (bbox.yMin + dy))) ∧
      0 ≤ bbox.xMin + (FontScalerFT.outlineTranslation inst bbox fracX fracY).1 ∧
      bbox.xMin + (FontScalerFT.outlineTranslation inst bbox fracX fracY).1 ≤ 63 ∧
      0 ≤ bbox.yMin + (FontScalerFT.outlineTranslation inst bbox fracX fracY).2 ∧
      bbox.yMin + (FontScalerFT.outlineTranslation inst bbox fracX fracY).2 ≤ 63 ∧
      ∃ gm, FontScalerFT.getGlyphMetrics ft inst true (some glyph) fracX fracY = some gm ∧
        bbox.xMax + (FontScalerFT.outlineTranslation inst bbox fracX fracY).1 ≤
          64 * (gm.width : Int) ∧
        bbox.yMax + (FontScalerFT.outlineTranslation inst bbox fracX fracY).2 ≤
          64 * (gm.height : Int) := by
  have ht : FontScalerFT.outlineTranslation inst bbox fracX fracY =
      (dx - floor64 (bbox.xMin + dx), dy - floor64 (bbox.yMin + dy)) := by
    unfold FontScalerFT.outlineTranslation
    have hwr : wrapS32 (-(fracY / 1024)) = -(fracY / 1024) :=
      wrapS32_of_range (by omega) (by omega)
    simp only [hwr, ← hdx, ← hdy]
  have hgw : (toU16 ((ceil64 (bbox.xMax + dx) - floor64 (bbox.xMin + dx)) / 64) : Int) =
      (ceil64 (bbox.xMax + dx) - floor64 (bbox.xMin + dx)) / 64 := by
    unfold toU16 ceil64 floor64 at *; omega
  have hgh : (toU16 ((ceil64 (bbox.yMax + dy) - floor64 (bbox.yMin + dy)) / 64) : Int) =
      (ceil64 (bbox.yMax + dy) - floor64 (bbox.yMin + dy)) / 64 := by
    unfold toU16 ceil64 floor64 at *; omega
  have hmx : bbox.xMax + (dx - floor64 (bbox.xMin + dx)) ≤
      64 * (toU16 ((ceil64 (bbox.xMax + dx) - floor64 (bbox.xMin + dx)) / 64) : Int) := by
    rw [hgw]; unfold ceil64 floor64; omega
  have hmy : bbox.yMax + (dy - floor64 (bbox.yMin + dy)) ≤
      64 * (toU16 ((ceil64 (bbox.yMax + dy) - floor64 (bbox.yMin + dy)) / 64) : Int) := by
    rw [hgh]; unfold ceil64 floor64; omega
  rw [ht]
  refine ⟨rfl, ?_, ?_, ?_, ?_, ?_, ?_⟩
  · intro x y
    simp only [Prod.mk.injEq]
    constructor <;> ring
  · show 0 ≤ bbox.xMin + (dx - floor64 (bbox.xMin + dx))
    unfold floor64; omega
  · show bbox.xMin + (dx - floor64 (bbox.xMin + dx)) ≤ 63
    unfold floor64; omega
  · show 0 ≤ bbox.yMin + (dy - floor64 (bbox.yMin + dy))
    unfold floor64; omega
  · show bbox.yMin + (dy - floor64 (bbox.yMin + dy)) ≤ 63
    unfold floor64; omega
  · unfold FontScalerFT.getGlyphMetrics
    simp only [Bool.not_true, Bool.false_eq_true, if_false, hfmt, hbox]
    by_cases hsub : inst.subpixelPositioning = true
    · simp only [hsub, if_true] at hdx hdy
      have e1 : bbox.yMin - fracY / 1024 = bbox.yMin + dy := by omega
      have e2 : bbox.yMax - fracY / 1024 = bbox.yMax + dy := by omega
      simp only [hsub, Bool.not_true, Bool.false_eq_true, if_false, if_true, ← hdx, e1, e2]
      exact ⟨_, rfl, hmx, hmy⟩
    · simp only [Bool.not_eq_true] at hsub
      simp only [hsub, Bool.false_eq_true, if_false] at hdx hdy
      subst hdx hdy
      simp only [hsub, Bool.not_false, if_true, Bool.false_eq_true, if_false, sub_zero]
      simp only [add_zero] at hmx hmy
      exact ⟨_, rfl, by simpa using hmx, by simpa using hmy⟩

/-- C29 at the box `[70, 200] x [-30, 100]` with sub-pixel positioning and
`fracX = fracY = 0x8000`: `dx = 32`, `dy = -32`, the translation is `(-32, 32)`, the minimum
corner goes to `(38, 2)` and the maximum corner to `(168, 132)`, inside `64 * 3` by `64 * 3`. -/
theorem outlineTranslation_fits_metrics_witness :
    FontScalerFT.outlineTranslation (plainInst true AliasMode.ALIAS_GRAYSCALE)
        { xMin := 70, yMin := -30, xMax := 200, yMax := 100 } 32768 32768 = (-32, 32) ∧
      (FontScalerFT.getGlyphMetrics FreeType.reference
          (plainInst true AliasMode.ALIAS_GRAYSCALE) true
          (some (outlineSlot { xMin := 70, yMin := -30, xMax := 200, yMax := 100 }))
          32768 32768).map (fun gm => (gm.width, gm.height)) = some (3, 3) ∧
      ∃ gm, FontScalerFT.getGlyphMetrics FreeType.reference
          (plainInst true AliasMode.ALIAS_GRAYSCALE) true
          (some (outlineSlot { xMin := 70, yMin := -30, xMax := 200, yMax := 100 }))
          32768 32768 = some gm ∧
        (200 : Int) + (FontScalerFT.outlineTranslation (plainInst true AliasMode.ALIAS_GRAYSCALE)
          { xMin := 70, yMin := -30, xMax := 200, yMax := 100 } 32768 32768).1 ≤
          64 * (gm.width : Int) ∧
        (100 : Int) + (FontScalerFT.outlineTranslation (plainInst true AliasMode.ALIAS_GRAYSCALE)
          { xMin := 70, yMin := -30, xMax := 200, yMax := 100 } 32768 32768).2 ≤
          64 * (gm.height : Int) :=
  ⟨by decide, by decide,
    (outlineTranslation_fits_metrics FreeType.reference
      (plainInst true AliasMode.ALIAS_GRAYSCALE)
      (outlineSlot { xMin := 70, yMin := -30, xMax := 200, yMax := 100 }) 32768 32768
      { xMin := 70, yMin := -30, xMax := 200, yMax := 100 } 32 (-32) rfl rfl (by decide)
      (by decide) (by decide) (by decide) (by decide) (by decide) (by decide)
      (by decide)).2.2.2.2.2.2⟩

/-! ### The index range of the glyph to Unicode table -/

/-- Every entry that the loop over the charmaps changes holds, afterwards, a non-zero character
code that an accepted charmap maps to the glyph of the entry, and that glyph passes the range
test of the loop. -/
theorem unicodeCharmapsLoop_changes (start count : Nat) :
    ∀ (cms : List FT_CharMapRec) (out : Nat → Int) (i : Nat),
      unicodeCharmapsLoop start count cms out i ≠ out i →
      ∃ cm ∈ cms, ¬ (cm.platform_id ≠ 0 ∧ cm.platform_id ≠ 3) ∧
        ¬ (cm.platform_id = 3 ∧ cm.encoding_id ≠ 1 ∧ cm.encoding_id ≠ 10) ∧
        ∃ p ∈ cm.chars, p.1 ≠ 0 ∧ p.2 ≠ 0 ∧ start ≤ p.2 ∧
          p.2 ≤ (start + count + 4294967295) % 4294967296 ∧ i = p.2 - start := by
  intro cms
  induction cms with
  | nil => intro out i h; exact absurd rfl h
  | cons cm rest ih =>
    intro out i h
    unfold unicodeCharmapsLoop at h
    split at h
    · obtain ⟨c, hc, h1⟩ := ih out i h
      exact ⟨c, List.mem_cons_of_mem _ hc, h1⟩
    · rename_i hp
      split at h
      · obtain ⟨c, hc, h1⟩ := ih out i h
        exact ⟨c, List.mem_cons_of_mem _ hc, h1⟩
      · rename_i he
        simp only at h
        by_cases hr : unicodeCharmapsLoop start count rest
            (unicodeCmapLoop start count
              (decide ((cm.platform_id = 3 ∧ cm.encoding_id = 10) ∨
                (cm.platform_id = 0 ∧ cm.encoding_id = 3))) cm.chars out) i =
            unicodeCmapLoop start count
              (decide ((cm.platform_id = 3 ∧ cm.encoding_id = 10) ∨
                (cm.platform_id = 0 ∧ cm.encoding_id = 3))) cm.chars out i
        · rw [hr] at h
          obtain ⟨h1, -, p, hp1, hp2, hp3, hp4, hp5, hp6⟩ :=
            unicodeCmapLoop_changes start count _ cm.chars out i h
          exact ⟨cm, List.mem_cons_self _ _, hp, he, p, hp1, by rw [hp2]; exact h1, hp3, hp4,
            hp5, hp6⟩
        · obtain ⟨c, hc, h1⟩ := ih _ i hr
          exact ⟨c, List.mem_cons_of_mem _ hc, h1⟩

/-- For `uint32_t` arguments `start` and `count` that are not both `0`, the loop over the
charmaps changes only entries with an index below `count`. -/
theorem unicodeCharmapsLoop_writes_in_range (start count : Nat) (hs : start < 4294967296)
    (hc : count < 4294967296) (hne : start ≠ 0 ∨ count ≠ 0) (cms : List FT_CharMapRec)
    (out : Nat → Int) (i : Nat) (h : unicodeCharmapsLoop start count cms out i ≠ out i) :
    i < count := by
  obtain ⟨cm, -, -, -, p, -, -, -, h1, h2, h3⟩ := unicodeCharmapsLoop_changes start count cms out i h
  omega

/-- C28. For `start = 0` and `count = 0` the bound `start + count - 1` of the range test wraps
to `0xFFFFFFFF` on `uint32_t`, so every glyph index passes: on a face whose UCS-4 charmap
(platform `3`, encoding `10`, a preferred one) maps `0x41` to glyph `36`,
`getGlyphsUnicode(path, 0, 0, pGlyphsUnicode)` returns `0` and has stored `0x41` at
`pGlyphsUnicode[36]`, outside the array of `count = 0` elements, whatever the memory held. With
`start = 1` and `count = 0` the same face leaves the memory as it was. -/
theorem getGlyphsUnicode_writes_outside_empty_array (out : Nat → Int) :
    (0 + 0 + 4294967295) % 4294967296 = 4294967295 ∧
      (FontEngineFT.getGlyphsUnicode FreeType.reference true 0 0 [⟨3, 10, [(0x41, 36)]⟩] 0 0
        out).map (fun r => (r.1, r.2 36)) = some (0, 0x41) ∧
      ¬ (36 < 0) ∧
      FontEngineFT.getGlyphsUnicode FreeType.reference true 0 0 [⟨3, 10, [(0x41, 36)]⟩] 1 0
        out = some (0, out) := by
  refine ⟨by decide, ?_, by decide, ?_⟩
  · simp [FontEngineFT.getGlyphsUnicode, unicodeCharmapsLoop, unicodeCmapLoop]
  · simp [FontEngineFT.getGlyphsUnicode, unicodeCharmapsLoop, unicodeCmapLoop]

/-! ### The extension check of `isFontSupported` -/

/-- A path of more than three characters whose extension is not `ttf`: the loop goes on to the
null pointer that ends `formats`, and `strcmp(NULL, fileExtension)` has no result. -/
theorem isFontSupported_other_extension (ft : FreeType) (faceErr : Nat) (p : String)
    (hlen : p.length < 4294967296) (h3 : 3 < p.length)
    (hext : String.mk (p.data.drop (p.length - 3)) ≠ "ttf") :
    FontEngineFT.isFontSupported ft true faceErr (some p) false = none := by
  have hl : p.length % 4294967296 = p.length := Nat.mod_eq_of_lt hlen
  have hi : (p.length + 4294967293) % 4294967296 = p.length - 3 := by omega
  unfold FontEngineFT.isFontSupported
  simp only [hl, hi, Bool.not_true, Bool.false_eq_true, if_false]
  rw [if_pos (by omega), if_neg (by omega)]
  unfold FontEngineFT.formats formatsLoop
  rw [if_neg (fun h => hext h.symm)]
  rfl

/-- C23. For the path `a.otf`, `isFontSupported(path, isLoad = false)` does not complete:
`strcmp("ttf", "otf")` is not `0`, the loop goes on to the second of the
`sizeof(formats) / sizeof(formats[0]) = 2` elements of `{ "ttf", NULL }` and calls
`strcmp(NULL, "otf")`. The same happens for `/system/fonts/DroidSans.otf`. For `a.ttf` the
first comparison succeeds and the result is `true`. -/
theorem isFontSupported_faults_on_other_extension :
    FontEngineFT.formats = [some "ttf", none] ∧
      formatsLoop "otf" FontEngineFT.formats = none ∧
      FontEngineFT.isFontSupported FreeType.reference true 0 (some "a.otf") false = none ∧
      FontEngineFT.isFontSupported FreeType.reference true 0
        (some "/system/fonts/DroidSans.otf") false = none ∧
      FontEngineFT.isFontSupported FreeType.reference true 0 (some "a.ttf") false =
        some true := by
  refine ⟨rfl, by decide, by decide, by decide, by decide⟩

/-- The cases in which `isFontSupported(path, isLoad = false)` returns for a non-null path:
`false` when `FT_Init_FreeType` fails; `true` when it succeeds and the path has more than three
characters, the last three being `ttf`. -/
theorem isFontSupported_ttf_extension (ft : FreeType) (faceErr : Nat) (p : String)
    (hlen : p.length < 4294967296) :
    FontEngineFT.isFontSupported ft false faceErr (some p) false = some false ∧
      (3 < p.length → String.mk (p.data.drop (p.length - 3)) = "ttf" →
        FontEngineFT.isFontSupported ft true faceErr (some p) false = some true) := by
  refine ⟨by simp [FontEngineFT.isFontSupported], ?_⟩
  intro h3 hext
  have hl : p.length % 4294967296 = p.length := Nat.mod_eq_of_lt hlen
  have hi : (p.length + 4294967293) % 4294967296 = p.length - 3 := by omega
  unfold FontEngineFT.isFontSupported
  simp only [hl, hi, Bool.not_true, Bool.false_eq_true, if_false]
  rw [if_pos (by omega), if_neg (by omega), hext]
  rfl

/-- A path of exactly three characters: `idx = 0`, the loop is skipped and the result is
`false`, also for the path `ttf`. -/
theorem isFontSupported_three_characters (ft : FreeType) (faceErr : Nat) (p : String)
    (h3 : p.length = 3) :
    FontEngineFT.isFontSupported ft true faceErr (some p) false = some false := by
  unfold FontEngineFT.isFontSupported
  simp [h3]

/-! ### The reference counts of the cache -/

theorem allInsts_append (a b : List FontFT) : allInsts (a ++ b) = allInsts a ++ allInsts b := by
  induction a with
  | nil => rfl
  | cons f rest ih => simp [allInsts, ih]

theorem mem_allInsts (i : FontInstFT) (l : List FontFT) :
    i ∈ allInsts l ↔ ∃ f ∈ l, i ∈ f.pFontInstList := by
  induction l with
  | nil => simp [allInsts]
  | cons f rest ih => simp [allInsts, ih]

/-- The instances of a font list, with those of one font moved to the front. -/
theorem allInsts_perm (pre : List FontFT) (f : FontFT) (post : List FontFT) :
    List.Perm (allInsts (pre ++ f :: post)) (f.pFontInstList ++ allInsts (pre ++ post)) := by
  rw [allInsts_append, allInsts_append]
  exact List.perm_append_comm_assoc _ _ _

theorem boundScalers_cons (s : FontScalerFT) (live : List FontScalerFT) (a : Nat) :
    boundScalers (s :: live) a = boundScalers live a + if s.pFontInst = a then 1 else 0 := by
  unfold boundScalers
  rw [List.countP_cons]
  simp

theorem boundScalers_le (live : List FontScalerFT) (a : Nat) :
    boundScalers live a ≤ live.length := List.countP_le_length _

theorem boundScalers_eq_zero (live : List FontScalerFT) (a : Nat)
    (h : ∀ s ∈ live, s.pFontInst ≠ a) : boundScalers live a = 0 := by
  unfold boundScalers
  rw [List.countP_eq_zero]
  intro s hs
  simpa using h s hs

theorem boundScalers_pos (live : List FontScalerFT) (a : Nat) (h : 1 ≤ boundScalers live a) :
    ∃ s ∈ live, s.pFontInst = a := by
  unfold boundScalers at h
  obtain ⟨s, hs, hp⟩ := List.countP_pos_iff.mp h
  exact ⟨s, hs, by simpa using hp⟩

theorem boundScalers_erase (s : FontScalerFT) (a : Nat) :
    ∀ (live : List FontScalerFT), s ∈ live →
      boundScalers (live.erase s) a + (if s.pFontInst = a then 1 else 0) =
        boundScalers live a := by
  intro live
  induction live with
  | nil => intro h; simp at h
  | cons x rest ih =>
    intro h
    by_cases hx : x = s
    · subst hx
      rw [List.erase_cons_head, boundScalers_cons]
    · rw [List.erase_cons_tail (by simpa using hx), boundScalers_cons, boundScalers_cons]
      have hr : s ∈ rest := by
        rcases List.mem_cons.mp h with h1 | h1
        · exact absurd h1.symm hx
        · exact h1
      have := ih hr
      omega

theorem InstsOk_perm (live : List FontScalerFT) (n : Nat) (L L' : List FontInstFT)
    (hp : List.Perm L L') (h : InstsOk live n L) : InstsOk live n L' := by
  refine ⟨fun i hi => h.1 i (hp.mem_iff.mpr hi), ?_⟩
  exact (List.Perm.nodup_iff (hp.map _)).mp h.2

theorem InstsOk_mono (live : List FontScalerFT) (n n' : Nat) (L : List FontInstFT)
    (hn : n ≤ n') (h : InstsOk live n L) : InstsOk live n' L :=
  ⟨fun i hi => ⟨(h.1 i hi).1, (h.1 i hi).2.1, lt_of_lt_of_le (h.1 i hi).2.2 hn⟩, h.2⟩

theorem InstsOk_tail (live : List FontScalerFT) (n : Nat) (x : FontInstFT)
    (Q : List FontInstFT) (h : InstsOk live n (x :: Q)) :
    InstsOk live n Q ∧ ∀ i ∈ Q, i.addr ≠ x.addr := by
  have hnd := h.2
  rw [List.map_cons, List.nodup_cons] at hnd
  refine ⟨⟨fun i hi => h.1 i (List.mem_cons_of_mem _ hi), hnd.2⟩, ?_⟩
  intro i hi e
  exact hnd.1 (List.mem_map.mpr ⟨i, hi, e⟩)

/-- There are at most as many instances as live scalers. -/
theorem InstsOk_length_le (live : List FontScalerFT) (n : Nat) (L : List FontInstFT)
    (h : InstsOk live n L) : L.length ≤ live.length := by
  have hsub : (L.map (fun i => i.addr)) ⊆ (live.map (fun s => s.pFontInst)) := by
    intro a ha
    obtain ⟨i, hi, rfl⟩ := List.mem_map.mp ha
    have h1 := h.1 i hi
    obtain ⟨s, hs, e⟩ := boundScalers_pos live i.addr (by omega)
    exact List.mem_map.mpr ⟨s, hs, e⟩
  have := (List.Nodup.subperm h.2 hsub).length_le
  simpa using this

/-- A further scaler bound to the first instance. -/
theorem InstsOk_hit (live : List FontScalerFT) (n n' : Nat) (inst : FontInstFT)
    (Q : List FontInstFT) (s : FontScalerFT) (h : InstsOk live n (inst :: Q))
    (hs : s.pFontInst = inst.addr) (hn : n ≤ n') (hlen : live.length + 1 ≤ 65535) :
    InstsOk (s :: live) n' ({ inst with refCnt := (inst.refCnt + 1) % 65536 } :: Q) := by
  obtain ⟨hQ, hne⟩ := InstsOk_tail live n inst Q h
  have h0 := h.1 inst (List.mem_cons_self _ _)
  have hle := boundScalers_le live inst.addr
  refine ⟨?_, h.2⟩
  intro i hi
  rcases List.mem_cons.mp hi with e | hiQ
  · subst e
    simp only [boundScalers_cons, hs, if_true]
    omega
  · have h1 := hQ.1 i hiQ
    have hne1 := hne i hiQ
    rw [boundScalers_cons, if_neg (by rw [hs]; exact fun e => hne1 e.symm)]
    omega

/-- A new instance at a fresh address, with its first scaler. -/
theorem InstsOk_new (live : List FontScalerFT) (n n' : Nat) (inst : FontInstFT)
    (Q : List FontInstFT) (s : FontScalerFT) (h : InstsOk live n Q)
    (hlive : ∀ x ∈ live, x.pFontInst < n) (hs : s.pFontInst = inst.addr)
    (ha : n ≤ inst.addr) (ha' : inst.addr < n') (hr : inst.refCnt = 1) :
    InstsOk (s :: live) n' (inst :: Q) := by
  refine ⟨?_, ?_⟩
  · intro i hi
    rcases List.mem_cons.mp hi with e | hiQ
    · subst e
      rw [boundScalers_cons, if_pos hs,
        boundScalers_eq_zero live _ (fun x hx => by have := hlive x hx; omega)]
      omega
    · have h1 := h.1 i hiQ
      rw [boundScalers_cons, if_neg (by omega)]
      omega
  · rw [List.map_cons, List.nodup_cons]
    refine ⟨?_, h.2⟩
    intro hmem
    obtain ⟨i, hi, e⟩ := List.mem_map.mp hmem
    have := (h.1 i hi).2.2
    omega

/-- One scaler fewer on the first instance, which stays. -/
theorem InstsOk_dec (live : List FontScalerFT) (n : Nat) (inst : FontInstFT)
    (Q : List FontInstFT) (s : FontScalerFT) (h : InstsOk live n (inst :: Q))
    (hmem : s ∈ live) (hs : s.pFontInst = inst.addr) (r : Nat) (hr : r + 1 = inst.refCnt)
    (hr1 : 1 ≤ r) :
    InstsOk (live.erase s) n ({ inst with refCnt := r } :: Q) := by
  obtain ⟨hQ, hne⟩ := InstsOk_tail live n inst Q h
  have h0 := h.1 inst (List.mem_cons_self _ _)
  refine ⟨?_, h.2⟩
  intro i hi
  rcases List.mem_cons.mp hi with e | hiQ
  · subst e
    have he := boundScalers_erase s inst.addr live hmem
    rw [if_pos hs] at he
    simp only
    omega
  · have h1 := hQ.1 i hiQ
    have hne1 := hne i hiQ
    have he := boundScalers_erase s i.addr live hmem
    rw [if_neg (by rw [hs]; exact fun e => hne1 e.symm)] at he
    omega

/-- The first instance goes with its scaler. -/
theorem InstsOk_remove (live : List FontScalerFT) (n : Nat) (inst : FontInstFT)
    (Q : List FontInstFT) (s : FontScalerFT) (h : InstsOk live n (inst :: Q))
    (hmem : s ∈ live) (hs : s.pFontInst = inst.addr) :
    InstsOk (live.erase s) n Q := by
  obtain ⟨hQ, hne⟩ := InstsOk_tail live n inst Q h
  refine ⟨?_, hQ.2⟩
  intro i hiQ
  have h1 := hQ.1 i hiQ
  have hne1 := hne i hiQ
  have he := boundScalers_erase s i.addr live hmem
  rw [if_neg (by rw [hs]; exact fun e => hne1 e.symm)] at he
  omega

/-- The deletion of a scaler that is bound to none of the instances. -/
theorem InstsOk_dangling (live : List FontScalerFT) (n : Nat) (L : List FontInstFT)
    (s : FontScalerFT) (h : InstsOk live n L) (hmem : s ∈ live)
    (hs : ∀ i ∈ L, i.addr ≠ s.pFontInst) : InstsOk (live.erase s) n L := by
  refine ⟨?_, h.2⟩
  intro i hi
  have h1 := h.1 i hi
  have he := boundScalers_erase s i.addr live hmem
  rw [if_neg (fun e => hs i hi e.symm)] at he
  omega
/-- The instances of a font list, with one instance of one font moved to the front. -/
theorem allInsts_perm_inst (pre : List FontFT) (f : FontFT) (post : List FontFT)
    (ipre : List FontInstFT) (x : FontInstFT) (ipost : List FontInstFT)
    (h : f.pFontInstList = ipre ++ x :: ipost) :
    List.Perm (allInsts (pre ++ f :: post)) (x :: (ipre ++ ipost ++ allInsts (pre ++ post))) := by
  refine (allInsts_perm pre f post).trans ?_
  rw [h]
  exact List.Perm.append_right _ List.perm_middle

theorem CacheInvOf_mono (l : List FontFT) (g : Int) (n n' : Nat) (live : List FontScalerFT)
    (hn : n ≤ n') (h : CacheInvOf l g n live) : CacheInvOf l g n' live :=
  ⟨h.1, InstsOk_mono live n n' _ hn h.2.1, h.2.2.1,
    fun s hs => lt_of_lt_of_le (h.2.2.2 s hs) hn⟩

/-- With no live scaler there is no font. -/
theorem CacheInvOf_nil (l : List FontFT) (g : Int) (n : Nat) (h : CacheInvOf l g n []) :
    l = [] ∧ g = 0 := by
  have hl : l = [] := by
    cases l with
    | nil => rfl
    | cons f rest =>
      exfalso
      have hf := h.1 f (List.mem_cons_self _ _)
      cases hi : f.pFontInstList with
      | nil => rw [hi] at hf; simp at hf; omega
      | cons i irest =>
        have hmem : i ∈ allInsts (f :: rest) := by
          rw [mem_allInsts]
          exact ⟨f, List.mem_cons_self _ _, by rw [hi]; exact List.mem_cons_self _ _⟩
        have := h.2.1.1 i hmem
        simp [boundScalers] at this
        omega
  subst hl
  exact ⟨rfl, by simpa using h.2.2.1⟩

/-- A cache hit: one more scaler on an instance of a font of the list. -/
theorem CacheInvOf_hit (pre : List FontFT) (font : FontFT) (post : List FontFT)
    (ipre : List FontInstFT) (inst : FontInstFT) (ipost : List FontInstFT) (g : Int)
    (n n' : Nat) (live : List FontScalerFT) (s : FontScalerFT)
    (h : CacheInvOf (pre ++ font :: post) g n live)
    (hil : font.pFontInstList = ipre ++ inst :: ipost)
    (hs : s.pFontInst = inst.addr) (hn : n ≤ n') (hlen : live.length + 1 ≤ 65535) :
    CacheInvOf (pre ++ { font with pFontInstList :=
        ipre ++ { inst with refCnt := (inst.refCnt + 1) % 65536 } :: ipost } :: post)
      g n' (s :: live) := by
  obtain ⟨hA, hI, hG, hL⟩ := h
  have hI1 := InstsOk_perm live n _ _ (allInsts_perm_inst pre font post ipre inst ipost hil) hI
  refine ⟨?_, ?_, ?_, ?_⟩
  · intro f hf
    rcases List.mem_append.mp hf with h1 | h1
    · exact hA f (List.mem_append_left _ h1)
    · rcases List.mem_cons.mp h1 with h2 | h2
      · subst h2
        have := hA font (List.mem_append_right _ (List.mem_cons_self _ _))
        rw [hil] at this
        simpa using this
      · exact hA f (List.mem_append_right _ (List.mem_cons_of_mem _ h2))
  · refine InstsOk_perm (s :: live) n' _ _
      (allInsts_perm_inst pre _ post ipre _ ipost rfl).symm ?_
    exact InstsOk_hit live n n' inst _ s hI1 hs hn hlen
  · simpa using hG
  · intro x hx
    rcases List.mem_cons.mp hx with e | e
    · subst e
      have := (hI1.1 inst (List.mem_cons_self _ _)).2.2
      omega
    · exact lt_of_lt_of_le (hL x e) hn

/-- A cache miss on a font of the list: a new instance at the head of its list. -/
theorem CacheInvOf_miss (pre : List FontFT) (font : FontFT) (post : List FontFT)
    (inst : FontInstFT) (g : Int) (n n' : Nat) (live : List FontScalerFT) (s : FontScalerFT)
    (h : CacheInvOf (pre ++ font :: post) g n live)
    (hs : s.pFontInst = inst.addr) (ha : n ≤ inst.addr) (ha' : inst.addr < n')
    (hr : inst.refCnt = 1) (hlen : live.length + 1 ≤ 65535) :
    CacheInvOf (pre ++ { font with refCnt := (font.refCnt + 1) % 65536
                                   pFontInstList := inst :: font.pFontInstList } :: post)
      g n' (s :: live) := by
  obtain ⟨hA, hI, hG, hL⟩ := h
  have hI1 := InstsOk_perm live n _ _ (allInsts_perm pre font post) hI
  have hcount := InstsOk_length_le live n _ hI1
  refine ⟨?_, ?_, ?_, ?_⟩
  · intro f hf
    rcases List.mem_append.mp hf with h1 | h1
    · exact hA f (List.mem_append_left _ h1)
    · rcases List.mem_cons.mp h1 with h2 | h2
      · subst h2
        have := hA font (List.mem_append_right _ (List.mem_cons_self _ _))
        simp only [List.length_append] at hcount
        simp only [List.length_cons]
        omega
      · exact hA f (List.mem_append_right _ (List.mem_cons_of_mem _ h2))
  · refine InstsOk_perm (s :: live) n' _ _ (allInsts_perm pre _ post).symm ?_
    exact InstsOk_new live n n' inst _ s hI1 hL hs ha ha' hr
  · simpa using hG
  · intro x hx
    rcases List.mem_cons.mp hx with e | e
    · subst e; omega
    · exact lt_trans (hL x e) (by omega)

/-- A cache miss on a font that is not in the list: the new font at the head of the list,
with one instance. -/
theorem CacheInvOf_newFont (l : List FontFT) (font : FontFT) (inst : FontInstFT) (g : Int)
    (n n' : Nat) (live : List FontScalerFT) (s : FontScalerFT)
    (h : CacheInvOf l g n live) (hf : font.pFontInstList = [inst]) (hfr : font.refCnt = 1)
    (hs : s.pFontInst = inst.addr) (ha : n ≤ inst.addr) (ha' : inst.addr < n')
    (hr : inst.refCnt = 1) :
    CacheInvOf (font :: l) (g + 1) n' (s :: live) := by
  obtain ⟨hA, hI, hG, hL⟩ := h
  refine ⟨?_, ?_, ?_, ?_⟩
  · intro f hf'
    rcases List.mem_cons.mp hf' with h2 | h2
    · subst h2; rw [hf, hfr]; simp
    · exact hA f h2
  · have e : allInsts (font :: l) = inst :: allInsts l := by simp [allInsts, hf]
    rw [e]
    exact InstsOk_new live n n' inst _ s hI hL hs ha ha' hr
  · rw [hG]; simp
  · intro x hx
    rcases List.mem_cons.mp hx with e | e
    · subst e; omega
    · exact lt_trans (hL x e) (by omega)

/-- The deletion of a scaler whose instance keeps other scalers. -/
theorem CacheInvOf_dec (pre : List FontFT) (font : FontFT) (post : List FontFT)
    (ipre : List FontInstFT) (inst : FontInstFT) (ipost : List FontInstFT) (g : Int)
    (n : Nat) (live : List FontScalerFT) (s : FontScalerFT) (r : Nat)
    (h : CacheInvOf (pre ++ font :: post) g n live)
    (hil : font.pFontInstList = ipre ++ inst :: ipost)
    (hmem : s ∈ live) (hs : s.pFontInst = inst.addr) (hr : r + 1 = inst.refCnt)
    (hr1 : 1 ≤ r) :
    CacheInvOf (pre ++ { font with pFontInstList :=
        ipre ++ { inst with refCnt := r } :: ipost } :: post) g n (live.erase s) := by
  obtain ⟨hA, hI, hG, hL⟩ := h
  have hI1 := InstsOk_perm live n _ _ (allInsts_perm_inst pre font post ipre inst ipost hil) hI
  refine ⟨?_, ?_, ?_, ?_⟩
  · intro f hf
    rcases List.mem_append.mp hf with h1 | h1
    · exact hA f (List.mem_append_left _ h1)
    · rcases List.mem_cons.mp h1 with h2 | h2
      · subst h2
        have := hA font (List.mem_append_right _ (List.mem_cons_self _ _))
        rw [hil] at this
        simpa using this
      · exact hA f (List.mem_append_right _ (List.mem_cons_of_mem _ h2))
  · refine InstsOk_perm (live.erase s) n _ _
      (allInsts_perm_inst pre _ post ipre _ ipost rfl).symm ?_
    exact InstsOk_dec live n inst _ s hI1 hmem hs r hr hr1
  · simpa using hG
  · intro x hx
    exact hL x (List.mem_of_mem_erase hx)

/-- The deletion of the last scaler of an instance whose font keeps other instances. -/
theorem CacheInvOf_removeInst (pre : List FontFT) (font : FontFT) (post : List FontFT)
    (ipre : List FontInstFT) (inst : FontInstFT) (ipost : List FontInstFT) (g : Int)
    (n : Nat) (live : List FontScalerFT) (s : FontScalerFT) (fr : Nat)
    (h : CacheInvOf (pre ++ font :: post) g n live)
    (hil : font.pFontInstList = ipre ++ inst :: ipost)
    (hmem : s ∈ live) (hs : s.pFontInst = inst.addr) (hfr : fr + 1 = font.refCnt)
    (hfr1 : 1 ≤ fr) :
    CacheInvOf (pre ++ { font with refCnt := fr, pFontInstList := ipre ++ ipost } :: post)
      g n (live.erase s) := by
  obtain ⟨hA, hI, hG, hL⟩ := h
  have hI1 := InstsOk_perm live n _ _ (allInsts_perm_inst pre font post ipre inst ipost hil) hI
  refine ⟨?_, ?_, ?_, ?_⟩
  · intro f hf
    rcases List.mem_append.mp hf with h1 | h1
    · exact hA f (List.mem_append_left _ h1)
    · rcases List.mem_cons.mp h1 with h2 | h2
      · subst h2
        have := hA font (List.mem_append_right _ (List.mem_cons_self _ _))
        rw [hil] at this
        simp only [List.length_append, List.length_cons] at this ⊢
        omega
      · exact hA f (List.mem_append_right _ (List.mem_cons_of_mem _ h2))
  · refine InstsOk_perm (live.erase s) n _ _ (allInsts_perm pre _ post).symm ?_
    exact InstsOk_remove live n inst _ s hI1 hmem hs
  · simpa using hG
  · intro x hx
    exact hL x (List.mem_of_mem_erase hx)

/-- The deletion of the last scaler of the only instance of a font: the font goes. -/
theorem CacheInvOf_removeFont (pre : List FontFT) (font : FontFT) (post : List FontFT)
    (ipre : List FontInstFT) (inst : FontInstFT) (ipost : List FontInstFT) (g : Int)
    (n : Nat) (live : List FontScalerFT) (s : FontScalerFT)
    (h : CacheInvOf (pre ++ font :: post) g n live)
    (hil : font.pFontInstList = ipre ++ inst :: ipost)
    (hmem : s ∈ live) (hs : s.pFontInst = inst.addr) (hfr : font.refCnt = 1) :
    CacheInvOf (pre ++ post) (g - 1) n (live.erase s) := by
  obtain ⟨hA, hI, hG, hL⟩ := h
  have hI1 := InstsOk_perm live n _ _ (allInsts_perm_inst pre font post ipre inst ipost hil) hI
  have hlen := (hA font (List.mem_append_right _ (List.mem_cons_self _ _))).1
  rw [hil, hfr] at hlen
  simp only [List.length_append, List.length_cons] at hlen
  have hipre : ipre = [] := List.eq_nil_of_length_eq_zero (by omega)
  have hipost : ipost = [] := List.eq_nil_of_length_eq_zero (by omega)
  subst hipre hipost
  refine ⟨?_, ?_, ?_, ?_⟩
  · intro f hf
    rcases List.mem_append.mp hf with h1 | h1
    · exact hA f (List.mem_append_left _ h1)
    · exact hA f (List.mem_append_right _ (List.mem_cons_of_mem _ h1))
  · have := InstsOk_remove live n inst _ s hI1 hmem hs
    simpa using this
  · rw [hG]; simp only [List.length_append, List.length_cons]; push_cast; ring
  · intro x hx
    exact hL x (List.mem_of_mem_erase hx)

/-- The deletion of a scaler that is bound to no instance of the lists. -/
theorem CacheInvOf_dangling (l : List FontFT) (g : Int) (n : Nat) (live : List FontScalerFT)
    (s : FontScalerFT) (h : CacheInvOf l g n live) (hmem : s ∈ live)
    (hs : ∀ i ∈ allInsts l, i.addr ≠ s.pFontInst) :
    CacheInvOf l g n (live.erase s) :=
  ⟨h.1, InstsOk_dangling live n _ s h.2.1 hmem hs, h.2.2.1,
    fun x hx => h.2.2.2 x (List.mem_of_mem_erase hx)⟩
theorem InitFreetype_fields (ft : FreeType) (st : EngineState) :
    (InitFreetype ft st).2.pFontList = st.pFontList ∧
      (InitFreetype ft st).2.gCountFontFT = st.gCountFontFT ∧
      (InitFreetype ft st).2.nextAddr = st.nextAddr := by
  unfold InitFreetype EngineState.log
  simp only
  split_ifs <;> exact ⟨rfl, rfl, rfl⟩

theorem doneFreeType_fields (ft : FreeType) (st : EngineState) :
    (doneFreeType ft st).pFontList = st.pFontList ∧
      (doneFreeType ft st).gCountFontFT = st.gCountFontFT ∧
      (doneFreeType ft st).nextAddr = st.nextAddr :=
  ⟨rfl, rfl, rfl⟩

theorem FontFT_destroy_fields (ft : FreeType) (st : EngineState) (font : FontFT) :
    (FontFT.destroy ft st font).pFontList = st.pFontList ∧
      (FontFT.destroy ft st font).gCountFontFT = st.gCountFontFT - 1 ∧
      (FontFT.destroy ft st font).nextAddr = st.nextAddr := by
  unfold FontFT.destroy
  simp only
  split_ifs <;> exact ⟨rfl, rfl, rfl⟩

theorem InitFreetype_pFontList (ft : FreeType) (st : EngineState) :
    (InitFreetype ft st).2.pFontList = st.pFontList := (InitFreetype_fields ft st).1

theorem InitFreetype_gCountFontFT (ft : FreeType) (st : EngineState) :
    (InitFreetype ft st).2.gCountFontFT = st.gCountFontFT := (InitFreetype_fields ft st).2.1

theorem InitFreetype_nextAddr (ft : FreeType) (st : EngineState) :
    (InitFreetype ft st).2.nextAddr = st.nextAddr := (InitFreetype_fields ft st).2.2

/-- The constructor `FontFT::FontFT` leaves the font list as it is and takes one address; when
it fails it leaves the font count as it is. -/
theorem FontFT_new_fields (ft : FreeType) (st : EngineState) (desc : FontScalerInfo) :
    (FontFT.new ft st desc).2.pFontList = st.pFontList ∧
      (FontFT.new ft st desc).2.nextAddr = st.nextAddr + 1 ∧
      ((FontFT.new ft st desc).1 = none →
        (FontFT.new ft st desc).2.gCountFontFT = st.gCountFontFT) := by
  unfold FontFT.new
  simp only
  split_ifs <;>
    simp [EngineState.log, InitFreetype_pFontList, InitFreetype_gCountFontFT,
      InitFreetype_nextAddr]

/-- A constructor `FontFT::FontFT` that fails leaves the lists and the font count as they
are. -/
theorem FontFT_new_none (ft : FreeType) (st : EngineState) (desc : FontScalerInfo)
    (st1 : EngineState) (h : FontFT.new ft st desc = (none, st1)) :
    st1.pFontList = st.pFontList ∧ st1.gCountFontFT = st.gCountFontFT ∧
      st.nextAddr ≤ st1.nextAddr := by
  have hf := FontFT_new_fields ft st desc
  rw [h] at hf
  exact ⟨hf.1, hf.2.2 rfl, by rw [hf.2.1]; exact Nat.le_succ _⟩

/-- The constructor `FontInstFT::FontInstFT` leaves the lists and the font count as they are
and takes one address. -/
theorem FontInstFT_new_fields (ft : FreeType) (st : EngineState) (desc : FontScalerInfo) :
    (FontInstFT.new ft st desc).2.pFontList = st.pFontList ∧
      (FontInstFT.new ft st desc).2.gCountFontFT = st.gCountFontFT ∧
      (FontInstFT.new ft st desc).2.nextAddr = st.nextAddr + 1 := by
  unfold FontInstFT.new
  simp only
  split
  · exact ⟨rfl, rfl, rfl⟩
  · split_ifs <;> exact ⟨rfl, rfl, rfl⟩

/-- A constructor `FontInstFT::FontInstFT` that fails leaves the lists and the font count as
they are. -/
theorem FontInstFT_new_none (ft : FreeType) (st : EngineState) (desc : FontScalerInfo)
    (st1 : EngineState) (h : FontInstFT.new ft st desc = (none, st1)) :
    st1.pFontList = st.pFontList ∧ st1.gCountFontFT = st.gCountFontFT ∧
      st.nextAddr ≤ st1.nextAddr := by
  have hf := FontInstFT_new_fields ft st desc
  rw [h] at hf
  exact ⟨hf.1, hf.2.1, by rw [hf.2.2]; exact Nat.le_succ _⟩

/-- The ways in which `FontFT::getFontScaler` returns `NULL` without an abort. -/
theorem FontFT_getFontScaler_none (ft : FreeType) (st : EngineState) (font : FontFT)
    (desc : FontScalerInfo) (ofont : Option FontFT) (st1 : EngineState)
    (h : FontFT.getFontScaler ft st font desc = (none, ofont, st1))
    (hab : st1.aborted = false) :
    (font.refCnt ≠ 0 ∧ ofont = some font ∧ st1.pFontList = st.pFontList ∧
        st1.gCountFontFT = st.gCountFontFT ∧ st.nextAddr ≤ st1.nextAddr) ∨
      (font.refCnt = 0 ∧ ofont = none ∧ st1.pFontList = st.pFontList ∧
        st1.gCountFontFT = st.gCountFontFT - 1 ∧ st.nextAddr ≤ st1.nextAddr) := by
  unfold FontFT.getFontScaler at h
  cases hs : FontFT.searchFontInst ft st.gLCDSupport font desc with
  | none =>
    simp only [hs, Prod.mk.injEq, true_and] at h
    rw [← h.2] at hab
    simp at hab
  | some z =>
    cases z with
    | some m =>
      obtain ⟨ipre, inst, ipost⟩ := m
      simp [hs] at h
    | none =>
      simp only [hs] at h
      cases hn : FontInstFT.new ft st desc with
      | mk oinst st2 =>
        rw [hn] at h
        cases oinst with
        | some inst => simp at h
        | none =>
          obtain ⟨f1, f2, f3⟩ := FontInstFT_new_none ft st desc st2 hn
          simp only at h
          split_ifs at h with h1 h2
          · simp only [Prod.mk.injEq, true_and] at h
            rw [← h.2, h1] at hab
            simp at hab
          · simp only [Prod.mk.injEq, true_and] at h
            obtain ⟨hof, hst⟩ := h
            subst hst
            have hd := FontFT_destroy_fields ft st2 font
            exact Or.inr ⟨h2, hof.symm, by rw [hd.1, f1], by rw [hd.2.1, f2],
              by rw [hd.2.2]; exact f3⟩
          · simp only [Prod.mk.injEq, true_and] at h
            obtain ⟨hof, hst⟩ := h
            subst hst
            exact Or.inl ⟨h2, hof.symm, f1, f2, f3⟩

theorem findMatch_nil (tm : TransMatrix) (flags : Nat) : findMatch tm flags [] = none := rfl

/-- A successful `createFontScalerContext` keeps the invariant of the cache, the new scaler
being live. -/
theorem createFontScalerContext_some_inv (ft : FreeType) (st : EngineState)
    (desc : FontScalerInfo) (scaler : FontScalerFT) (st' : EngineState)
    (live : List FontScalerFT)
    (h : FontEngineFT.createFontScalerContext ft st desc = (some scaler, st'))
    (hinv : CacheInvOf st.pFontList st.gCountFontFT st.nextAddr live)
    (hlen : live.length + 1 ≤ 65535) :
    CacheInvOf st'.pFontList st'.gCountFontFT st'.nextAddr (scaler :: live) := by
  obtain ⟨-, hcase⟩ := createFontScalerContext_some ft st desc scaler st' h
  rcases hcase with ⟨pre, font, post, font1, st1, hgf, hgs, hst'⟩ |
    ⟨hgf, font, st1, font1, st2, hnew, hgs, hst'⟩
  · obtain ⟨hl, -, -⟩ := getFont_found desc st.pFontList pre font post hgf
    rw [hl] at hinv
    obtain ⟨tm, -, hh⟩ := FontFT_getFontScaler_some ft st font desc scaler (some font1) st1 hgs
    rcases hh with ⟨ipre, inst, ipost, hm, hsc, hof, hs1⟩ | ⟨-, hsc, hof, hs1⟩
    · obtain ⟨hil, -, -⟩ := findFirst_some _ _ _ _ _ hm
      simp only [Option.some.injEq] at hof
      subst hst' hs1 hof hsc
      exact CacheInvOf_hit pre font post ipre inst ipost _ _ _ live _ hinv hil rfl
        (Nat.le_succ _) hlen
    · simp only [Option.some.injEq] at hof
      subst hst' hs1 hof hsc
      exact CacheInvOf_miss pre font post (FontInstFT.ofRequest st.nextAddr tm desc 1) _ _ _
        live _ hinv rfl (le_refl _) (by show st.nextAddr < st.nextAddr + 2; omega) rfl hlen
  · obtain ⟨hfont, hl1, hn1, -, hg1⟩ := FontFT_new_some ft st desc font st1 hnew
    obtain ⟨tm, -, hh⟩ := FontFT_getFontScaler_some ft st1 font desc scaler (some font1) st2 hgs
    rcases hh with ⟨ipre, inst, ipost, hm, -, -, -⟩ | ⟨-, hsc, hof, hs1⟩
    · rw [hfont, findMatch_nil] at hm
      simp at hm
    · simp only [Option.some.injEq] at hof
      subst hst' hs1 hof hsc
      show CacheInvOf (_ :: st1.pFontList) st1.gCountFontFT (st1.nextAddr + 2) _
      rw [hl1, hg1, hn1]
      refine CacheInvOf_newFont st.pFontList _ (FontInstFT.ofRequest (st.nextAddr + 1) tm desc 1)
        _ _ _ live _ hinv ?_ ?_ rfl (Nat.le_succ _)
        (by show st.nextAddr + 1 < st.nextAddr + 1 + 2; omega) rfl
      · subst hfont; rfl
      · subst hfont; rfl

/-- A `createFontScalerContext` that returns `NULL` without an abort keeps the invariant of the
cache. -/
theorem createFontScalerContext_none_inv (ft : FreeType) (st : EngineState)
    (desc : FontScalerInfo) (st' : EngineState) (live : List FontScalerFT)
    (h : FontEngineFT.createFontScalerContext ft st desc = (none, st'))
    (hab : st'.aborted = false)
    (hinv : CacheInvOf st.pFontList st.gCountFontFT st.nextAddr live) :
    CacheInvOf st'.pFontList st'.gCountFontFT st'.nextAddr live := by
  have key : st'.pFontList = st.pFontList ∧ st'.gCountFontFT = st.gCountFontFT ∧
      st.nextAddr ≤ st'.nextAddr := by
    unfold FontEngineFT.createFontScalerContext at h
    split_ifs at h with h0
    · simp only [Prod.mk.injEq, true_and] at h
      subst h
      exact ⟨rfl, rfl, le_refl _⟩
    · unfold FontEngineFT.getFontScaler at h
      cases hgf : FontEngineFT.getFont desc st.pFontList with
      | none =>
        simp only [hgf, Prod.mk.injEq, true_and] at h
        rw [← h] at hab
        simp at hab
      | some z =>
        cases z with
        | some m =>
          obtain ⟨pre, font, post⟩ := m
          obtain ⟨hl, -, -⟩ := getFont_found desc st.pFontList pre font post hgf
          simp only [hgf] at h
          cases hgs : FontFT.getFontScaler ft st font desc with
          | mk r z2 =>
            obtain ⟨ofont, st1⟩ := z2
            rw [hgs] at h
            have hfm : font ∈ st.pFontList := by
              rw [hl]
              exact List.mem_append_right _ (List.mem_cons_self _ _)
            have hfr : font.refCnt ≠ 0 := by
              have := (hinv.1 font hfm).2
              omega
            cases ofont with
            | some font1 =>
              simp only [Prod.mk.injEq] at h
              obtain ⟨hr, hst⟩ := h
              subst hr hst
              rcases FontFT_getFontScaler_none ft st font desc (some font1) st1 hgs hab with
                ⟨-, hof, -, f2, f3⟩ | ⟨hz, -, -, -, -⟩
              · simp only [Option.some.injEq] at hof
                subst hof
                exact ⟨hl.symm, f2, f3⟩
              · exact absurd hz hfr
            | none =>
              simp only [Prod.mk.injEq] at h
              obtain ⟨hr, hst⟩ := h
              subst hr hst
              rcases FontFT_getFontScaler_none ft st font desc none st1 hgs hab with
                ⟨-, hof, -, -, -⟩ | ⟨hz, -, -, -, -⟩
              · simp at hof
              · exact absurd hz hfr
        | none =>
          simp only [hgf] at h
          cases hnew : FontFT.new ft st desc with
          | mk ofont st1 =>
            rw [hnew] at h
            cases ofont with
            | none =>
              obtain ⟨f1, f2, f3⟩ := FontFT_new_none ft st desc st1 hnew
              simp only at h
              split_ifs at h with h1 h2
              · simp only [Prod.mk.injEq, true_and] at h
                subst h
                exact ⟨f1, f2, f3⟩
              · simp only [Prod.mk.injEq, true_and] at h
                subst h
                exact ⟨f1, f2, f3⟩
              · simp only [Prod.mk.injEq, true_and] at h
                subst h
                exact ⟨f1, f2, f3⟩
            | some font =>
              obtain ⟨hfont, hl1, hn1, -, hg1⟩ := FontFT_new_some ft st desc font st1 hnew
              simp only at h
              cases hgs : FontFT.getFontScaler ft st1 font desc with
              | mk r z2 =>
                obtain ⟨ofont, st2⟩ := z2
                rw [hgs] at h
                cases r with
                | some scaler =>
                  obtain ⟨tm, -, hh⟩ :=
                    FontFT_getFontScaler_some ft st1 font desc scaler ofont st2 hgs
                  rcases hh with ⟨ipre, inst, ipost, -, -, hof, -⟩ | ⟨-, -, hof, -⟩ <;>
                    (subst hof; simp at h)
                | none =>
                  have hst : st2 = st' := by
                    cases ofont <;> simpa using h
                  subst hst
                  have hz : font.refCnt = 0 := by rw [hfont]
                  rcases FontFT_getFontScaler_none ft st1 font desc ofont st2 hgs hab with
                    ⟨hnz, -, -, -, -⟩ | ⟨-, -, g1, g2, g3⟩
                  · exact absurd hz hnz
                  · exact ⟨by rw [g1, hl1], by rw [g2, hg1]; ring, by omega⟩
  rw [key.1, key.2.1]
  exact CacheInvOf_mono _ _ _ _ live key.2.2 hinv

theorem locateInst_eq_none (a : Nat) :
    ∀ (l : List FontFT), locateInst a l = none → ∀ i ∈ allInsts l, i.addr ≠ a := by
  intro l
  induction l with
  | nil => intro _ i hi; simp [allInsts] at hi
  | cons f rest ih =>
    intro h i hi
    unfold locateInst at h
    cases hf : findAddr a f.pFontInstList with
    | some z => rw [hf] at h; simp at h
    | none =>
      rw [hf] at h
      simp only [Option.map_eq_none'] at h
      have hnone := (findFirst_none _ _).mp hf
      simp only [allInsts, List.mem_append] at hi
      rcases hi with h1 | h1
      · have := hnone i h1
        simpa using this
      · exact ih h i h1

/-- The deletion of a live scaler keeps the invariant of the cache, also when the process
aborts on `assert(gLibraryFT = NULL)` after the last font has gone. -/
theorem FontScalerFT_destroy_inv (ft : FreeType) (st : EngineState) (s : FontScalerFT)
    (live : List FontScalerFT) (hab : st.aborted = false) (hmem : s ∈ live)
    (hlen : live.length ≤ 65535)
    (hinv : CacheInvOf st.pFontList st.gCountFontFT st.nextAddr live) :
    CacheInvOf (FontScalerFT.destroy ft st s).pFontList
      (FontScalerFT.destroy ft st s).gCountFontFT (FontScalerFT.destroy ft st s).nextAddr
      (live.erase s) := by
  unfold FontScalerFT.destroy
  rw [if_neg (by simp [hab])]
  cases hloc : locateInst s.pFontInst st.pFontList with
  | none =>
    exact CacheInvOf_dangling _ _ _ live s hinv hmem
      (locateInst_eq_none s.pFontInst st.pFontList hloc)
  | some loc =>
    obtain ⟨hl, -, hfa⟩ := locateInst_some s.pFontInst st.pFontList loc hloc
    obtain ⟨hil, -, haddr⟩ := findFirst_some _ _ _ _ _ hfa
    have hs : s.pFontInst = loc.inst.addr := by
      have : loc.inst.addr = s.pFontInst := by simpa using haddr
      exact this.symm
    rw [hl] at hinv
    have hI1 := InstsOk_perm live st.nextAddr _ _
      (allInsts_perm_inst loc.pre loc.font loc.post loc.ipre loc.inst loc.ipost hil) hinv.2.1
    have hi0 := hI1.1 loc.inst (List.mem_cons_self _ _)
    have hble := boundScalers_le live loc.inst.addr
    have hI2 := InstsOk_perm live st.nextAddr _ _
      (allInsts_perm loc.pre loc.font loc.post) hinv.2.1
    have hcount := InstsOk_length_le live st.nextAddr _ hI2
    simp only [List.length_append] at hcount
    have hf0 := hinv.1 loc.font (List.mem_append_right _ (List.mem_cons_self _ _))
    simp only
    by_cases hr : (loc.inst.refCnt + 65535) % 65536 = 0
    · rw [if_pos hr]
      unfold FontInstFT.destroy
      simp only
      by_cases hfr : (loc.font.refCnt + 65535) % 65536 = 0
      · rw [if_pos hfr]
        have hd := FontFT_destroy_fields ft
          { (((st.log (Event.deleteFontInstFT loc.inst.addr)).log
              (Event.FT_Done_Size loc.inst.addr))) with pFontList := loc.pre ++ loc.post }
          { loc.font with refCnt := (loc.font.refCnt + 65535) % 65536,
                          pFontInstList := loc.ipre ++ loc.ipost }
        rw [hd.1, hd.2.1, hd.2.2]
        exact CacheInvOf_removeFont loc.pre loc.font loc.post loc.ipre loc.inst loc.ipost _ _
          live s hinv hil hmem hs (by omega)
      · rw [if_neg hfr]
        exact CacheInvOf_removeInst loc.pre loc.font loc.post loc.ipre loc.inst loc.ipost _ _
          live s _ hinv hil hmem hs (by omega) (by omega)
    · rw [if_neg hr]
      exact CacheInvOf_dec loc.pre loc.font loc.post loc.ipre loc.inst loc.ipost _ _
        live s _ hinv hil hmem hs (by omega) (by omega)
theorem cacheStep_aborted (ft : FreeType) (c : EngineState × List FontScalerFT) (op : CacheOp)
    (h : c.1.aborted = true) : cacheStep ft c op = c := by
  unfold cacheStep
  rw [if_pos h]

theorem runOps_aborted (ft : FreeType) :
    ∀ (ops : List CacheOp) (c : EngineState × List FontScalerFT), c.1.aborted = true →
      runOps ft ops c = c := by
  intro ops
  induction ops with
  | nil => intro c _; rfl
  | cons op rest ih =>
    intro c h
    unfold runOps
    rw [cacheStep_aborted ft c op h]
    exact ih c h

theorem peakLive_ge (ft : FreeType) (ops : List CacheOp)
    (c : EngineState × List FontScalerFT) : c.2.length ≤ peakLive ft ops c := by
  cases ops with
  | nil => exact le_refl _
  | cons op rest => exact le_max_left _ _

theorem CacheInv_init : CacheInv (EngineState.init, []) := by
  refine ⟨?_, ⟨?_, ?_⟩, rfl, ?_⟩
  · intro f hf; simp [EngineState.init] at hf
  · intro i hi; simp [EngineState.init, allInsts] at hi
  · simp [EngineState.init, allInsts]
  · intro s hs; simp at hs

/-- One action that does not end in an abort keeps the invariant of the cache, as long as at
most `65535` scalers are live before and after it. -/
theorem cacheStep_inv (ft : FreeType) (c : EngineState × List FontScalerFT) (op : CacheOp)
    (hinv : CacheInv c) (hlen0 : c.2.length ≤ 65535)
    (hlen : (cacheStep ft c op).2.length ≤ 65535)
    (hab : (cacheStep ft c op).1.aborted = false) : CacheInv (cacheStep ft c op) := by
  unfold cacheStep at hlen hab ⊢
  by_cases h0 : c.1.aborted = true
  · rw [if_pos h0]; exact hinv
  · rw [if_neg h0] at hlen hab ⊢
    cases op with
    | create desc =>
      simp only at hlen hab ⊢
      cases hc : FontEngineFT.createFontScalerContext ft c.1 desc with
      | mk o st1 =>
        rw [hc] at hlen hab
        cases o with
        | some s =>
          simp only [List.length_cons] at hlen
          exact createFontScalerContext_some_inv ft c.1 desc s st1 c.2 hc hinv hlen
        | none =>
          exact createFontScalerContext_none_inv ft c.1 desc st1 c.2 hc hab hinv
    | delete s =>
      simp only at hlen hab ⊢
      by_cases hm : s ∈ c.2
      · rw [if_pos hm]
        exact FontScalerFT_destroy_inv ft c.1 s c.2 (by simpa using h0) hm hlen0 hinv
      · rw [if_neg hm]; exact hinv

/-- A run that does not end in an abort keeps the invariant of the cache, as long as at most
`65535` scalers are live at the same time. -/
theorem runOps_inv (ft : FreeType) :
    ∀ (ops : List CacheOp) (c : EngineState × List FontScalerFT), CacheInv c →
      peakLive ft ops c ≤ 65535 → (runOps ft ops c).1.aborted = false →
      CacheInv (runOps ft ops c) := by
  intro ops
  induction ops with
  | nil => intro c h _ _; exact h
  | cons op rest ih =>
    intro c hinv hpeak hab
    unfold runOps at hab ⊢
    unfold peakLive at hpeak
    have hp1 : c.2.length ≤ 65535 := le_trans (le_max_left _ _) hpeak
    have hp2 : peakLive ft rest (cacheStep ft c op) ≤ 65535 :=
      le_trans (le_max_right _ _) hpeak
    have hp3 : (cacheStep ft c op).2.length ≤ 65535 :=
      le_trans (peakLive_ge ft rest _) hp2
    have hab1 : (cacheStep ft c op).1.aborted = false := by
      by_contra hne
      have ht : (cacheStep ft c op).1.aborted = true := by simpa using hne
      rw [runOps_aborted ft rest _ ht, ht] at hab
      simp at hab
    exact ih _ (cacheStep_inv ft c op hinv hp1 hp3 hab1) hp2 hab

/-- The first of `n + 1` successive calls with one request. -/
theorem createMany_succ (ft : FreeType) (desc : FontScalerInfo) (st0 : EngineState)
    (sc1 : FontScalerFT) (st1 : EngineState) (n : Nat)
    (h1 : FontEngineFT.createFontScalerContext ft st0 desc = (some sc1, st1)) :
    createMany ft desc (n + 1) st0 =
      (sc1 :: (createMany ft desc n st1).1, (createMany ft desc n st1).2) := by
  show (match FontEngineFT.createFontScalerContext ft st0 desc with
    | (some scaler, st1) =>
      (scaler :: (createMany ft desc n st1).1, (createMany ft desc n st1).2)
    | (none, st1) => createMany ft desc n st1) = _
  rw [h1]

/-- A run of `n` calls of `createFontScalerContext` with one request is `createMany`. -/
theorem runOps_replicate_create (ft : FreeType) (desc : FontScalerInfo) :
    ∀ (n : Nat) (st : EngineState) (live : List FontScalerFT),
      runOps ft (List.replicate n (CacheOp.create desc)) (st, live) =
        ((createMany ft desc n st).2, (createMany ft desc n st).1.reverse ++ live) := by
  intro n
  induction n with
  | zero => intro st live; rfl
  | succ n ih =>
    intro st live
    have hstep : cacheStep ft (st, live) (CacheOp.create desc) =
        match FontEngineFT.createFontScalerContext ft st desc with
        | (some scaler, st1) => (st1, scaler :: live)
        | (none, st1) => (st1, live) := by
      unfold cacheStep
      by_cases h0 : st.aborted = true
      · simp only [h0, if_true]
        unfold FontEngineFT.createFontScalerContext
        simp [h0]
      · simp only [h0, if_false]
        rfl
    rw [List.replicate_succ]
    unfold runOps
    rw [hstep]
    cases hc : FontEngineFT.createFontScalerContext ft st desc with
    | mk o st1 =>
      cases o with
      | some s =>
        simp only
        rw [ih st1 (s :: live), createMany_succ ft desc st s st1 n hc]
        simp
      | none =>
        simp only
        rw [ih st1 live]
        have e : createMany ft desc (n + 1) st = createMany ft desc n st1 := by
          show (match FontEngineFT.createFontScalerContext ft st desc with
            | (some scaler, st1) =>
              (scaler :: (createMany ft desc n st1).1, (createMany ft desc n st1).2)
            | (none, st1) => createMany ft desc n st1) = _
          rw [hc]
        rw [e]
/-- After a first successful call that leaves the instance of the request at the head of the
instance list of its font, `N - 1` further calls with the same request are cache hits on that
instance. -/
theorem runOps_create_shared (ft : FreeType) (desc : FontScalerInfo) (st0 : EngineState)
    (sc1 : FontScalerFT) (b : EngineState) (pre : List FontFT) (font : FontFT)
    (post : List FontFT) (tm : TransMatrix) (inst : FontInstFT) (rest : List FontInstFT)
    (hab : b.aborted = false)
    (hpre : ∀ y ∈ pre, sameFont desc y = some false)
    (hx : sameFont desc font = some true)
    (htm : FontFT.getTransMatrix ft b.gLCDSupport desc = some tm)
    (hm : instMatches tm desc.flags inst = true)
    (r m : Nat) (hr : r < 65536)
    (h1 : FontEngineFT.createFontScalerContext ft st0 desc =
      (some sc1,
        { b with
          nextAddr := m
          pFontList := pre ++
            { font with pFontInstList := { inst with refCnt := r } :: rest } :: post }))
    (hsc : sc1.pFontInst = inst.addr) (N : Nat) (hN : 1 ≤ N) :
    (runOps ft (List.replicate N (CacheOp.create desc)) (st0, [])).1 =
      { b with
        nextAddr := m + (N - 1)
        pFontList := pre ++
          { font with pFontInstList := { inst with refCnt := (r + (N - 1)) % 65536 } :: rest }
            :: post } ∧
    (runOps ft (List.replicate N (CacheOp.create desc)) (st0, [])).2.length = N ∧
    ∀ s ∈ (runOps ft (List.replicate N (CacheOp.create desc)) (st0, [])).2,
      s.pFontInst = inst.addr := by
  obtain ⟨n, rfl⟩ : ∃ n, N = n + 1 := ⟨N - 1, by omega⟩
  obtain ⟨i1, i2, i3⟩ := createMany_hits ft desc b pre font post tm inst rest hab hpre hx htm hm
    n r m hr
  rw [runOps_replicate_create, createMany_succ ft desc st0 sc1 _ n h1]
  simp only [Nat.add_sub_cancel, List.append_nil, List.length_reverse, List.length_cons,
    List.mem_reverse, List.mem_cons]
  refine ⟨i3, by rw [i1], ?_⟩
  intro s hs
  rcases hs with e | e
  · rw [e]; exact hsc
  · exact i2 s e

/-- C27, counterexample. The counters are `uint16_t`: after `65536` successful calls with one
request on a fresh engine (with the reference FreeType) the process has not aborted, `65536`
scalers are live and every one of them is bound to the instance at address `2`, which is in the
instance list of its font with `refCnt = 0`: neither `65536` nor `>= 1`. And a call that aborts
on `assert(denom != 0)` (the request with `scaleX = -1` and the other entries `0`) leaves the
fresh engine with `gCountFontFT = 1` and an empty font list. -/
theorem cache_refcount_wraps :
    (runOps FreeType.reference
      (List.replicate 65536 (CacheOp.create (plainRequest "a.ttf" 65536 0)))
      (EngineState.init, [])).1.aborted = false ∧
    (runOps FreeType.reference
      (List.replicate 65536 (CacheOp.create (plainRequest "a.ttf" 65536 0)))
      (EngineState.init, [])).2.length = 65536 ∧
    (∀ s ∈ (runOps FreeType.reference
      (List.replicate 65536 (CacheOp.create (plainRequest "a.ttf" 65536 0)))
      (EngineState.init, [])).2, s.pFontInst = 2) ∧
    instRefCnt (runOps FreeType.reference
      (List.replicate 65536 (CacheOp.create (plainRequest "a.ttf" 65536 0)))
      (EngineState.init, [])).1 2 = some 0 ∧
    (runOps FreeType.reference
      [CacheOp.create { plainRequest "a.ttf" 0 0 with fScaleX := -1 }]
      (EngineState.init, [])).1.aborted = true ∧
    (runOps FreeType.reference
      [CacheOp.create { plainRequest "a.ttf" 0 0 with fScaleX := -1 }]
      (EngineState.init, [])).1.gCountFontFT = 1 ∧
    (runOps FreeType.reference
      [CacheOp.create { plainRequest "a.ttf" 0 0 with fScaleX := -1 }]
      (EngineState.init, [])).1.pFontList = [] := by
  have H := runOps_create_shared FreeType.reference (plainRequest "a.ttf" 65536 0)
    EngineState.init ⟨3, 2⟩
    (EngineState.mk [] 1 false true 4
      [Event.FT_Init_FreeType true, Event.FT_Open_Face 1 true, Event.FT_New_Size 2 true,
        Event.FT_Activate_Size 2 true, Event.FT_Set_Char_Size 2 true] false)
    [] (FontFT.mk 1 1 (some "a.ttf") 0 1 []) []
    ⟨⟨65536, 0, 0, 65536⟩, 65536, 65536, 10⟩
    (FontInstFT.ofRequest 2 ⟨⟨65536, 0, 0, 65536⟩, 65536, 65536, 10⟩
      (plainRequest "a.ttf" 65536 0) 0) [] rfl (by simp) (by decide) (by decide) (by decide)
    1 4 (by norm_num) (by decide) rfl 65536 (by norm_num)
  refine ⟨?_, H.2.1, H.2.2, ?_, by decide, by decide, by decide⟩
  · rw [H.1]
  · rw [H.1]
    decide
/-- C27, amended. In every state reached from the empty cache by a sequence of
`createFontScalerContext` calls (successful or failing) and deletions of live scalers on one
`FontEngineFT`, in the course of which at most `65535` scalers are live at the same time and the
process has not aborted: every font in the engine's font list has `refCnt` equal to the length
of its instance list and `>= 1`; every instance in a list has `refCnt` equal to the number of
live scalers bound to it and `>= 1`; and `gCountFontFT` is the number of fonts in the list.
Consequently, when no scaler is live the font list is empty and `gCountFontFT` is `0`, also
right after the deletion of the last live scaler (where a build with assertions stops on
`assert(gLibraryFT = NULL)`). -/
theorem cache_reference_counts (ft : FreeType) (ops : List CacheOp)
    (hpeak : peakLive ft ops (EngineState.init, []) ≤ 65535)
    (hrun : (runOps ft ops (EngineState.init, [])).1.aborted = false) :
    (∀ f ∈ (runOps ft ops (EngineState.init, [])).1.pFontList,
      f.refCnt = f.pFontInstList.length ∧ 1 ≤ f.refCnt) ∧
    (∀ f ∈ (runOps ft ops (EngineState.init, [])).1.pFontList, ∀ i ∈ f.pFontInstList,
      i.refCnt = boundScalers (runOps ft ops (EngineState.init, [])).2 i.addr ∧
        1 ≤ i.refCnt) ∧
    (runOps ft ops (EngineState.init, [])).1.gCountFontFT =
      ((runOps ft ops (EngineState.init, [])).1.pFontList.length : Int) ∧
    ((runOps ft ops (EngineState.init, [])).2 = [] →
      (runOps ft ops (EngineState.init, [])).1.pFontList = [] ∧
        (runOps ft ops (EngineState.init, [])).1.gCountFontFT = 0) ∧
    (∀ s, (runOps ft ops (EngineState.init, [])).2 = [s] →
      (FontScalerFT.destroy ft (runOps ft ops (EngineState.init, [])).1 s).pFontList = [] ∧
        (FontScalerFT.destroy ft (runOps ft ops (EngineState.init, [])).1 s).gCountFontFT
          = 0) := by
  have hinv := runOps_inv ft ops (EngineState.init, []) CacheInv_init hpeak hrun
  have hlen : (runOps ft ops (EngineState.init, [])).2.length ≤ 65535 := by
    have h1 : ∀ (l : List CacheOp) (c : EngineState × List FontScalerFT),
        peakLive ft l c ≤ 65535 → (runOps ft l c).2.length ≤ 65535 := by
      intro l
      induction l with
      | nil => intro c h; exact h
      | cons op rest ih =>
        intro c h
        exact ih _ (le_trans (le_max_right _ _) h)
    exact h1 ops _ hpeak
  refine ⟨hinv.1, ?_, hinv.2.2.1, ?_, ?_⟩
  · intro f hf i hi
    have := hinv.2.1.1 i ((mem_allInsts i _).mpr ⟨f, hf, hi⟩)
    exact ⟨this.1, this.2.1⟩
  · intro hnil
    unfold CacheInv at hinv
    rw [hnil] at hinv
    exact CacheInvOf_nil _ _ _ hinv
  · intro s hs
    have hd := FontScalerFT_destroy_inv ft (runOps ft ops (EngineState.init, [])).1 s
      (runOps ft ops (EngineState.init, [])).2 hrun (by rw [hs]; exact List.mem_cons_self _ _)
      hlen hinv
    rw [hs] at hd
    simp only [List.erase_cons_head] at hd
    exact CacheInvOf_nil _ _ _ hd

/-- C27 at the run: two calls with one request for `a.ttf`, one call with a request at another
scale, one call for `b.ttf`, and the deletion of the first scaler. One font holds two instances
and the other one, the first instance is bound to one live scaler, and `gCountFontFT` is `2`. -/
theorem cache_reference_counts_witness :
    (runOps FreeType.reference
      [CacheOp.create (plainRequest "a.ttf" 65536 0),
        CacheOp.create (plainRequest "a.ttf" 65536 0),
        CacheOp.create (plainRequest "a.ttf" 131072 0),
        CacheOp.create (plainRequest "b.ttf" 65536 0),
        CacheOp.delete ⟨3, 2⟩] (EngineState.init, [])).1.gCountFontFT = 2 ∧
    (runOps FreeType.reference
      [CacheOp.create (plainRequest "a.ttf" 65536 0),
        CacheOp.create (plainRequest "a.ttf" 65536 0),
        CacheOp.create (plainRequest "a.ttf" 131072 0),
        CacheOp.create (plainRequest "b.ttf" 65536 0),
        CacheOp.delete ⟨3, 2⟩] (EngineState.init, [])).1.gCountFontFT =
      ((runOps FreeType.reference
        [CacheOp.create (plainRequest "a.ttf" 65536 0),
          CacheOp.create (plainRequest "a.ttf" 65536 0),
          CacheOp.create (plainRequest "a.ttf" 131072 0),
          CacheOp.create (plainRequest "b.ttf" 65536 0),
          CacheOp.delete ⟨3, 2⟩] (EngineState.init, [])).1.pFontList.length : Int) :=
  ⟨by decide,
    (cache_reference_counts FreeType.reference
      [CacheOp.create (plainRequest "a.ttf" 65536 0),
        CacheOp.create (plainRequest "a.ttf" 65536 0),
        CacheOp.create (plainRequest "a.ttf" 131072 0),
        CacheOp.create (plainRequest "b.ttf" 65536 0),
        CacheOp.delete ⟨3, 2⟩] (by decide) (by decide)).2.2.1⟩

/-! ### The font counter in reachable states -/

/-- In every state reached from the empty cache in the course of which at most `65535` scalers
are live at the same time and the process has not aborted, the font of any instance has a
counter equal to the length of its instance list and below `65536`. -/
theorem runOps_font_counter (ft : FreeType) (ops : List CacheOp)
    (hpeak : peakLive ft ops (EngineState.init, []) ≤ 65535)
    (hrun : (runOps ft ops (EngineState.init, [])).1.aborted = false) (a : Nat)
    (loc : InstLocation)
    (hloc : locateInst a (runOps ft ops (EngineState.init, [])).1.pFontList = some loc) :
    loc.font.refCnt = loc.font.pFontInstList.length ∧ loc.font.refCnt < 65536 := by
  have hinv := runOps_inv ft ops (EngineState.init, []) CacheInv_init hpeak hrun
  have hlen : (runOps ft ops (EngineState.init, [])).2.length ≤ 65535 := by
    have h1 : ∀ (l : List CacheOp) (c : EngineState × List FontScalerFT),
        peakLive ft l c ≤ 65535 → (runOps ft l c).2.length ≤ 65535 := by
      intro l
      induction l with
      | nil => intro c h; exact h
      | cons op rest ih =>
        intro c h
        exact ih _ (le_trans (le_max_right _ _) h)
    exact h1 ops _ hpeak
  obtain ⟨hl, _, _⟩ := locateInst_some a _ loc hloc
  have hmem : loc.font ∈ (runOps ft ops (EngineState.init, [])).1.pFontList := by
    rw [hl]; simp
  have hsub : ∀ (l : List FontFT) (f : FontFT), f ∈ l →
      f.pFontInstList.length ≤ (allInsts l).length := by
    intro l
    induction l with
    | nil => intro f hf; simp at hf
    | cons x rest ih =>
      intro f hf
      simp only [allInsts, List.length_append]
      rcases List.mem_cons.mp hf with rfl | h
      · omega
      · have := ih f h
        omega
  have h1 := (hinv.1 loc.font hmem).1
  have h2 := hsub _ _ hmem
  have h3 := InstsOk_length_le _ _ _ hinv.2.1
  exact ⟨h1, by omega⟩

end FEM
